import Mathlib

/-!
SLiM / Eidos: symbol table and parameter-file validation

A shallow embedding of

* `src/eidos/eidos_symbol_table.cpp` (class `EidosSymbolTable`), and
* `src/core/input_parsing.cpp` (`GetInputLine`, `InputError`,
  `EatSubstringWithPrefixAndCharactersAtEOF`, `CheckInputFile`),

followed by theorems about them.

Conventions of the embedding.

* A `std::string` is a `List Char` (`CppString`).
* A function that can raise through `EIDOS_TERMINATION` returns an `Except`;
  a mutating method returns the table it leaves behind in both cases.
* Machine integers are `Nat`/`Int` with the casts of the source written out
  (`toInt32` for `(int)`, `toUInt16` for `(uint16_t)`).
-/

set_option autoImplicit false

namespace SLiM

/-- A `std::string`: a finite sequence of characters. -/
abbrev CppString := List Char

/-! ## Machine integers -/

/-- The cast `(int)` applied to a `size_t`: reduction modulo `2^32`, read as a
two's-complement 32-bit integer. -/
def toInt32 (n : Nat) : Int :=
  if n % 4294967296 < 2147483648 then ((n % 4294967296 : Nat) : Int)
  else ((n % 4294967296 : Nat) : Int) - 4294967296

/-- The cast `(uint16_t)` applied to an integer: reduction modulo `2^16`. -/
def toUInt16 (i : Int) : Nat := (i % 65536).toNat

/-! ## Eidos values -/

/-- Modelled from the spec: `eidos_value.h` is not among the sources.  The
payload of a value, "type ∈ {NULL, logical, integer, float, string, object}"
(§4.2); a float element is kept as the text of its literal or of the C constant
that produced it. -/
inductive EidosData where
  | null
  | logical (xs : List Bool)
  | integer (xs : List Int)
  | float (xs : List String)
  | string (xs : List String)
  | object (xs : List Nat)
  deriving DecidableEq, Repr, Inhabited

/-- Modelled from the spec: `eidos_value.h` is not among the sources.  An
`EidosValue_SP` is a shared pointer; `addr` is the object it points to (what
`.get()` returns), `invisible` what `Invisible()` returns, `data` the contents. -/
structure EidosValue where
  addr : Nat
  invisible : Bool
  data : EidosData
  deriving DecidableEq, Repr, Inhabited

/-- The method `EidosValue::Invisible()`. -/
def EidosValue.Invisible (v : EidosValue) : Bool := v.invisible

/-- Modelled from the spec: `EidosValue::CopyValues()` is not among the sources.
"Invisible values are copied on store into the symbol table and are never
observable through lookup" (§4.2): the copy is a new object (allocated at
`fresh`) with equal contents that is not invisible. -/
def EidosValue.CopyValues (v : EidosValue) (fresh : Nat) : EidosValue :=
  { addr := fresh, invisible := false, data := v.data }

/-- An `EidosSymbolTableEntry`: a `std::pair` of a name and a value. -/
abbrev EidosSymbolTableEntry := CppString × EidosValue

/-- An `EidosToken`, of which the symbol table reads `token_string_` only. -/
structure EidosToken where
  token_string_ : CppString
  deriving DecidableEq, Repr, Inhabited

/-! ## The table -/

/-- A slot of the dense array `internal_symbols_`.  `symbol_name_data_` is the
character data of `symbol_name_` and is not kept separately. -/
structure EidosSymbolTable_InternalSlot where
  symbol_value_SP_ : EidosValue
  symbol_name_ : CppString
  symbol_name_length_ : Nat
  symbol_name_externally_owned_ : Bool
  symbol_is_const_ : Bool
  deriving DecidableEq, Repr, Inhabited

/-- A slot of the hash map `hash_symbols_`. -/
structure EidosSymbolTable_ExternalSlot where
  symbol_value_SP_ : EidosValue
  symbol_is_const_ : Bool
  deriving DecidableEq, Repr, Inhabited

/-- The state of an `EidosSymbolTable`.  `internal_symbols_` holds the occupied
slots `0 .. internal_symbol_count_ - 1` in index order, so that
`internal_symbol_count_` is its length; `hash_symbols_` is the map as a list of
its entries. -/
structure EidosSymbolTable where
  using_internal_symbols_ : Bool
  internal_symbols_ : List EidosSymbolTable_InternalSlot
  hash_symbols_ : List (CppString × EidosSymbolTable_ExternalSlot)
  deriving DecidableEq, Repr, Inhabited

/-- The member `internal_symbol_count_`. -/
def EidosSymbolTable.internal_symbol_count_ (t : EidosSymbolTable) : Nat :=
  t.internal_symbols_.length

/-- The errors raised through `EIDOS_TERMINATION` in `eidos_symbol_table.cpp`,
one constructor for each message, carrying the identifier it names. -/
inductive EidosError where
  | undefined_identifier (name : CppString)
  | is_a_constant (name : CppString)
  | cannot_be_redefined (name : CppString)
  | already_defined (name : CppString)
  | cannot_be_removed (name : CppString)
  | does_not_match (name : CppString)
  | only_for_non_invisible
  deriving DecidableEq, Repr

/-- What a mutating method leaves behind: the table after a normal return, or
the error raised together with the table as it is when the error is raised. -/
abbrev EidosResult := Except (EidosError × EidosSymbolTable) EidosSymbolTable

/-- Build parameters: the macro `EIDOS_SYMBOL_TABLE_BASE_SIZE` (defined in a
header that is not among the sources) and whether `DEBUG` is defined. -/
structure EidosBuild where
  EIDOS_SYMBOL_TABLE_BASE_SIZE : Nat
  DEBUG : Bool
  deriving DecidableEq, Repr

/-! ### The hash map -/

/-- The call `hash_symbols_.find(key)`: the entry with that key, if any. -/
def hash_find (m : List (CppString × EidosSymbolTable_ExternalSlot)) (key : CppString) :
    Option EidosSymbolTable_ExternalSlot :=
  match m with
  | [] => none
  | (k, s) :: rest => if k = key then some s else hash_find rest key

/-- The call `hash_symbols_.insert(pair)`: nothing happens when the key is
already present. -/
def hash_insert (m : List (CppString × EidosSymbolTable_ExternalSlot)) (key : CppString)
    (s : EidosSymbolTable_ExternalSlot) : List (CppString × EidosSymbolTable_ExternalSlot) :=
  match hash_find m key with
  | some _ => m
  | none => m ++ [(key, s)]

/-- Assignment through the iterator returned by `find`: the value of the entry
found is replaced. -/
def hash_assign (m : List (CppString × EidosSymbolTable_ExternalSlot)) (key : CppString)
    (v : EidosValue) : List (CppString × EidosSymbolTable_ExternalSlot) :=
  match m with
  | [] => []
  | (k, s) :: rest =>
    if k = key then (k, { s with symbol_value_SP_ := v }) :: rest
    else (k, s) :: hash_assign rest key v

/-- The call `hash_symbols_.erase(key)`. -/
def hash_erase (m : List (CppString × EidosSymbolTable_ExternalSlot)) (key : CppString) :
    List (CppString × EidosSymbolTable_ExternalSlot) :=
  m.filter (fun e => decide (e.1 ≠ key))

/-! ### The dense array -/

/-- The test made on one slot by the scan loops: the recorded length equals
the key length, and the first `key_length` characters agree. -/
def slot_matches (slot : EidosSymbolTable_InternalSlot) (key_length : Int)
    (symbol_name_data : CppString) : Bool :=
  decide ((slot.symbol_name_length_ : Int) = key_length) &&
    decide (slot.symbol_name_.take key_length.toNat = symbol_name_data.take key_length.toNat)

/-- The scan `for (symbol_index = internal_symbol_count_ - 1; symbol_index >= 0;
--symbol_index)` shared by `_SlotIndexForSymbol` and the getters (the source
repeats it in each getter "for speed"): the matching slot of highest index,
with its index. -/
def scan_slots (slots : List EidosSymbolTable_InternalSlot) (key_length : Int)
    (symbol_name_data : CppString) : Option (Nat × EidosSymbolTable_InternalSlot) :=
  match slots with
  | [] => none
  | s :: rest =>
    match scan_slots rest key_length symbol_name_data with
    | some (i, found) => some (i + 1, found)
    | none => if slot_matches s key_length symbol_name_data then some (0, s) else none

/-- Method `EidosSymbolTable::_SlotIndexForSymbol`; `none` stands for `-1`. -/
def EidosSymbolTable._SlotIndexForSymbol (t : EidosSymbolTable) (p_symbol_name_length : Int)
    (p_symbol_name_data : CppString) : Option Nat :=
  (scan_slots t.internal_symbols_ p_symbol_name_length p_symbol_name_data).map Prod.fst

/-- Method `EidosSymbolTable::GetValueOrRaiseForSymbol`. -/
def EidosSymbolTable.GetValueOrRaiseForSymbol (t : EidosSymbolTable) (p_symbol_name : CppString) :
    Except EidosError EidosValue :=
  if t.using_internal_symbols_ then
    let key_length := toInt32 p_symbol_name.length
    match scan_slots t.internal_symbols_ key_length p_symbol_name with
    | some (_, symbol_slot) => .ok symbol_slot.symbol_value_SP_
    | none => .error (.undefined_identifier p_symbol_name)
  else
    match hash_find t.hash_symbols_ p_symbol_name with
    | some symbol_slot => .ok symbol_slot.symbol_value_SP_
    | none => .error (.undefined_identifier p_symbol_name)

/-- Method `EidosSymbolTable::GetValueOrRaiseForToken`. -/
def EidosSymbolTable.GetValueOrRaiseForToken (t : EidosSymbolTable) (p_symbol_token : EidosToken) :
    Except EidosError EidosValue :=
  if t.using_internal_symbols_ then
    let symbol_name := p_symbol_token.token_string_
    let key_length := toInt32 symbol_name.length
    match scan_slots t.internal_symbols_ key_length symbol_name with
    | some (_, symbol_slot) => .ok symbol_slot.symbol_value_SP_
    | none => .error (.undefined_identifier p_symbol_token.token_string_)
  else
    match hash_find t.hash_symbols_ p_symbol_token.token_string_ with
    | some symbol_slot => .ok symbol_slot.symbol_value_SP_
    | none => .error (.undefined_identifier p_symbol_token.token_string_)

/-- Method `EidosSymbolTable::GetNonConstantValueOrRaiseForToken`. -/
def EidosSymbolTable.GetNonConstantValueOrRaiseForToken (t : EidosSymbolTable)
    (p_symbol_token : EidosToken) : Except EidosError EidosValue :=
  if t.using_internal_symbols_ then
    let symbol_name := p_symbol_token.token_string_
    let key_length := toInt32 symbol_name.length
    match scan_slots t.internal_symbols_ key_length symbol_name with
    | some (_, symbol_slot) =>
      if symbol_slot.symbol_is_const_ then .error (.is_a_constant symbol_name)
      else .ok symbol_slot.symbol_value_SP_
    | none => .error (.undefined_identifier p_symbol_token.token_string_)
  else
    match hash_find t.hash_symbols_ p_symbol_token.token_string_ with
    | some symbol_slot =>
      if symbol_slot.symbol_is_const_ then .error (.is_a_constant p_symbol_token.token_string_)
      else .ok symbol_slot.symbol_value_SP_
    | none => .error (.undefined_identifier p_symbol_token.token_string_)

/-- Method `EidosSymbolTable::GetValueOrNullForSymbol`; `none` is the null pointer. -/
def EidosSymbolTable.GetValueOrNullForSymbol (t : EidosSymbolTable) (p_symbol_name : CppString) :
    Option EidosValue :=
  if t.using_internal_symbols_ then
    let key_length := toInt32 p_symbol_name.length
    match scan_slots t.internal_symbols_ key_length p_symbol_name with
    | some (_, symbol_slot) => some symbol_slot.symbol_value_SP_
    | none => none
  else
    match hash_find t.hash_symbols_ p_symbol_name with
    | some symbol_slot => some symbol_slot.symbol_value_SP_
    | none => none

/-- The loop of `_SwitchToHash`: the slots are inserted into the map in index
order. -/
def switch_insert (slots : List EidosSymbolTable_InternalSlot)
    (m : List (CppString × EidosSymbolTable_ExternalSlot)) :
    List (CppString × EidosSymbolTable_ExternalSlot) :=
  match slots with
  | [] => m
  | old_symbol_slot :: rest =>
    switch_insert rest (hash_insert m old_symbol_slot.symbol_name_
      { symbol_value_SP_ := old_symbol_slot.symbol_value_SP_,
        symbol_is_const_ := old_symbol_slot.symbol_is_const_ })

/-- Method `EidosSymbolTable::_SwitchToHash`: the members of the table as the
method leaves them.  The keys of the map are copies of the slot names.  The
statement `if (old_symbol_slot.symbol_name_externally_owned_) delete
old_symbol_slot.symbol_name_;` changes no member of the table; the strings it
destroys, which the table does not own, are given by `_SwitchToHash_deletes`. -/
def EidosSymbolTable._SwitchToHash (t : EidosSymbolTable) : EidosSymbolTable :=
  if t.using_internal_symbols_ then
    { using_internal_symbols_ := false,
      internal_symbols_ := [],
      hash_symbols_ := switch_insert t.internal_symbols_ t.hash_symbols_ }
  else t

/-- The statement `if (old_symbol_slot.symbol_name_externally_owned_) delete
old_symbol_slot.symbol_name_;` in the loop of `_SwitchToHash`: the strings that
a call of `_SwitchToHash` deletes, in slot order.  They are the names of the
slots that do not own their name, written by `InitializeConstantSymbolEntry`
and `ReinitializeConstantSymbolEntry` ("take a pointer to the external object,
which must live longer than us!"): the member `first` of a static entry of the
constructor, or a string of the caller.  A string is identified by its
characters. -/
def EidosSymbolTable._SwitchToHash_deletes (t : EidosSymbolTable) : List CppString :=
  if t.using_internal_symbols_ then
    (t.internal_symbols_.filter
      (fun old_symbol_slot => old_symbol_slot.symbol_name_externally_owned_)).map
      (fun old_symbol_slot => old_symbol_slot.symbol_name_)
  else []

/-- The destructor `EidosSymbolTable::~EidosSymbolTable`: the strings that it
deletes ("free symbol names that we own"), the names of the dense slots for
which `symbol_name_externally_owned_` is not set. -/
def EidosSymbolTable.destructor_deletes (t : EidosSymbolTable) : List CppString :=
  if t.using_internal_symbols_ then
    (t.internal_symbols_.filter
      (fun symbol_slot => !symbol_slot.symbol_name_externally_owned_)).map
      (fun symbol_slot => symbol_slot.symbol_name_)
  else []

/-- The "fall-through to the hash table case" of `SetValueForSymbol`. -/
def EidosSymbolTable.SetValueForSymbol_hash (t : EidosSymbolTable) (p_symbol_name : CppString)
    (p_value : EidosValue) : EidosResult :=
  match hash_find t.hash_symbols_ p_symbol_name with
  | none =>
    .ok { t with hash_symbols_ := hash_insert t.hash_symbols_ p_symbol_name ⟨p_value, false⟩ }
  | some existing =>
    if existing.symbol_is_const_ then .error (.cannot_be_redefined p_symbol_name, t)
    else .ok { t with hash_symbols_ := hash_assign t.hash_symbols_ p_symbol_name p_value }

/-- Method `EidosSymbolTable::SetValueForSymbol`.  `fresh` is the address at which
`CopyValues` allocates the copy of an invisible argument. -/
def EidosSymbolTable.SetValueForSymbol (b : EidosBuild) (t : EidosSymbolTable)
    (p_symbol_name : CppString) (p_value : EidosValue) (fresh : Nat) : EidosResult :=
  let p_value := if p_value.Invisible then p_value.CopyValues fresh else p_value
  if t.using_internal_symbols_ then
    let key_length := toInt32 p_symbol_name.length
    match t._SlotIndexForSymbol key_length p_symbol_name with
    | none =>
      if t.internal_symbol_count_ < b.EIDOS_SYMBOL_TABLE_BASE_SIZE then
        .ok { t with internal_symbols_ := t.internal_symbols_ ++
                [{ symbol_value_SP_ := p_value,
                   symbol_name_ := p_symbol_name,
                   symbol_name_length_ := toUInt16 key_length,
                   symbol_name_externally_owned_ := false,
                   symbol_is_const_ := false }] }
      else
        t._SwitchToHash.SetValueForSymbol_hash p_symbol_name p_value
    | some symbol_slot =>
      match t.internal_symbols_.get? symbol_slot with
      | none => .ok t
      | some existing =>
        if existing.symbol_is_const_ then .error (.cannot_be_redefined p_symbol_name, t)
        else
          .ok { t with internal_symbols_ :=
                  t.internal_symbols_.set symbol_slot { existing with symbol_value_SP_ := p_value } }
  else
    t.SetValueForSymbol_hash p_symbol_name p_value

/-- The "fall-through to the hash table case" of `SetConstantForSymbol`. -/
def EidosSymbolTable.SetConstantForSymbol_hash (t : EidosSymbolTable) (p_symbol_name : CppString)
    (p_value : EidosValue) : EidosResult :=
  match hash_find t.hash_symbols_ p_symbol_name with
  | none =>
    .ok { t with hash_symbols_ := hash_insert t.hash_symbols_ p_symbol_name ⟨p_value, true⟩ }
  | some _ => .error (.already_defined p_symbol_name, t)

/-- Method `EidosSymbolTable::SetConstantForSymbol`. -/
def EidosSymbolTable.SetConstantForSymbol (b : EidosBuild) (t : EidosSymbolTable)
    (p_symbol_name : CppString) (p_value : EidosValue) (fresh : Nat) : EidosResult :=
  let p_value := if p_value.Invisible then p_value.CopyValues fresh else p_value
  if t.using_internal_symbols_ then
    let key_length := toInt32 p_symbol_name.length
    match t._SlotIndexForSymbol key_length p_symbol_name with
    | some _ => .error (.already_defined p_symbol_name, t)
    | none =>
      if t.internal_symbol_count_ < b.EIDOS_SYMBOL_TABLE_BASE_SIZE then
        .ok { t with internal_symbols_ := t.internal_symbols_ ++
                [{ symbol_value_SP_ := p_value,
                   symbol_name_ := p_symbol_name,
                   symbol_name_length_ := toUInt16 key_length,
                   symbol_name_externally_owned_ := false,
                   symbol_is_const_ := true }] }
      else
        t._SwitchToHash.SetConstantForSymbol_hash p_symbol_name p_value
  else
    t.SetConstantForSymbol_hash p_symbol_name p_value

/-- The removal of slot `i` from the dense array in `RemoveValueForSymbol`:
the count is decremented and, unless `i` was the last slot, the last slot is
moved into position `i`. -/
def backfill (slots : List EidosSymbolTable_InternalSlot) (i : Nat) :
    List EidosSymbolTable_InternalSlot :=
  match slots.getLast? with
  | none => slots
  | some backfill_symbol_slot =>
    if i = slots.length - 1 then slots.dropLast
    else (slots.set i backfill_symbol_slot).dropLast

/-- Method `EidosSymbolTable::RemoveValueForSymbol`. -/
def EidosSymbolTable.RemoveValueForSymbol (t : EidosSymbolTable) (p_symbol_name : CppString)
    (p_remove_constant : Bool) : EidosResult :=
  if t.using_internal_symbols_ then
    let key_length := toInt32 p_symbol_name.length
    match t._SlotIndexForSymbol key_length p_symbol_name with
    | some symbol_slot =>
      match t.internal_symbols_.get? symbol_slot with
      | none => .ok t
      | some existing =>
        if existing.symbol_is_const_ && !p_remove_constant then
          .error (.cannot_be_removed p_symbol_name, t)
        else
          .ok { t with internal_symbols_ := backfill t.internal_symbols_ symbol_slot }
    | none => .ok t
  else
    .ok { t with hash_symbols_ := hash_erase t.hash_symbols_ p_symbol_name }

/-- Method `EidosSymbolTable::InitializeConstantSymbolEntry(const std::string &,
EidosValue_SP)`; the overload taking an `EidosSymbolTableEntry *` runs the same
statements on the two members of the entry (see `InitializeConstantSymbolEntry`). -/
def EidosSymbolTable.InitializeConstantSymbolEntry_name (b : EidosBuild) (t : EidosSymbolTable)
    (p_symbol_name : CppString) (p_value : EidosValue) : EidosResult :=
  if b.DEBUG && p_value.Invisible then .error (.only_for_non_invisible, t)
  else
    let t1 :=
      if t.using_internal_symbols_ then
        if t.internal_symbol_count_ < b.EIDOS_SYMBOL_TABLE_BASE_SIZE then none
        else some t._SwitchToHash
      else some t
    match t1 with
    | none =>
      .ok { t with internal_symbols_ := t.internal_symbols_ ++
              [{ symbol_value_SP_ := p_value,
                 symbol_name_ := p_symbol_name,
                 symbol_name_length_ := toUInt16 (p_symbol_name.length : Int),
                 symbol_name_externally_owned_ := true,
                 symbol_is_const_ := true }] }
    | some t1 =>
      .ok { t1 with hash_symbols_ := hash_insert t1.hash_symbols_ p_symbol_name ⟨p_value, true⟩ }

/-- Method `EidosSymbolTable::InitializeConstantSymbolEntry(EidosSymbolTableEntry *)`. -/
def EidosSymbolTable.InitializeConstantSymbolEntry (b : EidosBuild) (t : EidosSymbolTable)
    (p_new_entry : EidosSymbolTableEntry) : EidosResult :=
  t.InitializeConstantSymbolEntry_name b p_new_entry.1 p_new_entry.2

/-- The part of `ReinitializeConstantSymbolEntry` that both overloads share once
the symbol is known not to be in a dense slot: define it in a free dense slot,
or switch to the map and define or compare there. -/
def EidosSymbolTable.Reinitialize_define (b : EidosBuild) (t : EidosSymbolTable)
    (p_symbol_name : CppString) (p_value : EidosValue) : EidosResult :=
  let t1 :=
    if t.using_internal_symbols_ then
      if t.internal_symbol_count_ < b.EIDOS_SYMBOL_TABLE_BASE_SIZE then none
      else some t._SwitchToHash
    else some t
  match t1 with
  | none =>
    .ok { t with internal_symbols_ := t.internal_symbols_ ++
            [{ symbol_value_SP_ := p_value,
               symbol_name_ := p_symbol_name,
               symbol_name_length_ := toUInt16 (p_symbol_name.length : Int),
               symbol_name_externally_owned_ := true,
               symbol_is_const_ := true }] }
  | some t1 =>
    match hash_find t1.hash_symbols_ p_symbol_name with
    | none =>
      .ok { t1 with hash_symbols_ := hash_insert t1.hash_symbols_ p_symbol_name ⟨p_value, true⟩ }
    | some old_slot =>
      if (!old_slot.symbol_is_const_) || decide (old_slot.symbol_value_SP_.addr ≠ p_value.addr) then
        .error (.does_not_match p_symbol_name, t1)
      else .ok t1

/-- Method `EidosSymbolTable::ReinitializeConstantSymbolEntry(EidosSymbolTableEntry *)`. -/
def EidosSymbolTable.ReinitializeConstantSymbolEntry (b : EidosBuild) (t : EidosSymbolTable)
    (p_new_entry : EidosSymbolTableEntry) : EidosResult :=
  if b.DEBUG && p_new_entry.2.Invisible then .error (.only_for_non_invisible, t)
  else
    let entry_name := p_new_entry.1
    let found :=
      if t.using_internal_symbols_ then
        let key_length := toInt32 entry_name.length
        (t._SlotIndexForSymbol key_length entry_name).bind t.internal_symbols_.get?
      else none
    match found with
    | some old_slot =>
      if (!old_slot.symbol_is_const_) ||
          decide (old_slot.symbol_value_SP_.addr ≠ p_new_entry.2.addr) then
        .error (.does_not_match entry_name, t)
      else .ok t
    | none => t.Reinitialize_define b entry_name p_new_entry.2

/-- Method `EidosSymbolTable::ReinitializeConstantSymbolEntry(const std::string &,
EidosValue_SP)`. -/
def EidosSymbolTable.ReinitializeConstantSymbolEntry_name (b : EidosBuild)
    (t : EidosSymbolTable) (p_symbol_name : CppString) (p_value : EidosValue) : EidosResult :=
  if b.DEBUG && p_value.Invisible then .error (.only_for_non_invisible, t)
  else
    let found :=
      if t.using_internal_symbols_ then
        let key_length := toInt32 p_symbol_name.length
        (t._SlotIndexForSymbol key_length p_symbol_name).bind t.internal_symbols_.get?
      else none
    match found with
    | some old_slot =>
      if (!old_slot.symbol_is_const_) || (!old_slot.symbol_name_externally_owned_) ||
          decide (old_slot.symbol_value_SP_.addr ≠ p_value.addr) then
        .error (.does_not_match p_symbol_name, t)
      else .ok t
    | none => t.Reinitialize_define b p_symbol_name p_value

/-- Method `EidosSymbolTable::ReadOnlySymbols`.  In hash mode the source
iterates over `hash_symbols_`, a `std::unordered_map`, in an order that is not
specified; the list is given here in the order of the entries of the embedding,
which is one of the orders the source can produce, and only the members of the
list and how often each occurs carry over to the source. -/
def EidosSymbolTable.ReadOnlySymbols (t : EidosSymbolTable) : List CppString :=
  if t.using_internal_symbols_ then
    (t.internal_symbols_.filter (fun symbol_slot => symbol_slot.symbol_is_const_)).map
      (fun symbol_slot => symbol_slot.symbol_name_)
  else
    (t.hash_symbols_.filter (fun e => e.2.symbol_is_const_)).map (fun e => e.1)

/-- Method `EidosSymbolTable::ReadWriteSymbols`.  In hash mode the order of the
list is not specified in the source, as for `ReadOnlySymbols`. -/
def EidosSymbolTable.ReadWriteSymbols (t : EidosSymbolTable) : List CppString :=
  if t.using_internal_symbols_ then
    (t.internal_symbols_.filter (fun symbol_slot => !symbol_slot.symbol_is_const_)).map
      (fun symbol_slot => symbol_slot.symbol_name_)
  else
    (t.hash_symbols_.filter (fun e => !e.2.symbol_is_const_)).map (fun e => e.1)

/-! ### The constructor -/

/-- The structure `EidosSymbolUsageParamBlock`, as the constructor reads it. -/
structure EidosSymbolUsageParamBlock where
  contains_T_ : Bool
  contains_F_ : Bool
  contains_NULL_ : Bool
  contains_PI_ : Bool
  contains_E_ : Bool
  contains_INF_ : Bool
  contains_NAN_ : Bool
  deriving DecidableEq, Repr

/-- The addresses of the seven value objects held by the statically allocated
base entries of the constructor. -/
structure EidosStaticObjects where
  LogicalT : Nat
  LogicalF : Nat
  ValueNULL : Nat
  PI : Nat
  E : Nat
  INF : Nat
  NAN : Nat
  deriving DecidableEq, Repr

/-- Modelled from the spec: the global strings `gEidosStr_T`, ... are defined in
`eidos_global.cpp`, which is not among the sources; §4.3 names the reserved
constants "(T, F, NULL, PI, E, INF, NAN)". -/
def gEidosStr_T : CppString := ['T']

/-- Modelled from the spec: see `gEidosStr_T`. -/
def gEidosStr_F : CppString := ['F']

/-- Modelled from the spec: see `gEidosStr_T`. -/
def gEidosStr_NULL : CppString := ['N', 'U', 'L', 'L']

/-- Modelled from the spec: see `gEidosStr_T`. -/
def gEidosStr_PI : CppString := ['P', 'I']

/-- Modelled from the spec: see `gEidosStr_T`. -/
def gEidosStr_E : CppString := ['E']

/-- Modelled from the spec: see `gEidosStr_T`. -/
def gEidosStr_INF : CppString := ['I', 'N', 'F']

/-- Modelled from the spec: see `gEidosStr_T`. -/
def gEidosStr_NAN : CppString := ['N', 'A', 'N']

/-- The static entry `trueConstant`. -/
def trueConstant (g : EidosStaticObjects) : EidosSymbolTableEntry :=
  (gEidosStr_T, { addr := g.LogicalT, invisible := false, data := .logical [true] })

/-- The static entry `falseConstant`. -/
def falseConstant (g : EidosStaticObjects) : EidosSymbolTableEntry :=
  (gEidosStr_F, { addr := g.LogicalF, invisible := false, data := .logical [false] })

/-- The static entry `nullConstant`. -/
def nullConstant (g : EidosStaticObjects) : EidosSymbolTableEntry :=
  (gEidosStr_NULL, { addr := g.ValueNULL, invisible := false, data := .null })

/-- The static entry `piConstant`. -/
def piConstant (g : EidosStaticObjects) : EidosSymbolTableEntry :=
  (gEidosStr_PI, { addr := g.PI, invisible := false, data := .float ["M_PI"] })

/-- The static entry `eConstant`. -/
def eConstant (g : EidosStaticObjects) : EidosSymbolTableEntry :=
  (gEidosStr_E, { addr := g.E, invisible := false, data := .float ["M_E"] })

/-- The static entry `infConstant`. -/
def infConstant (g : EidosStaticObjects) : EidosSymbolTableEntry :=
  (gEidosStr_INF, { addr := g.INF, invisible := false, data := .float ["infinity"] })

/-- The static entry `nanConstant`. -/
def nanConstant (g : EidosStaticObjects) : EidosSymbolTableEntry :=
  (gEidosStr_NAN, { addr := g.NAN, invisible := false, data := .float ["quiet_NaN"] })

/-- The statement `if (flag) InitializeConstantSymbolEntry(entry);`. -/
def initialize_if (b : EidosBuild) (flag : Bool) (entry : EidosSymbolTableEntry)
    (t : EidosSymbolTable) : EidosResult :=
  if flag then t.InitializeConstantSymbolEntry b entry else .ok t

/-- The constructor `EidosSymbolTable::EidosSymbolTable(p_symbol_usage,
p_start_with_hash)`; `p_symbol_usage = none` is the null pointer.  The static
entries are read as the block `if (!trueConstant)` allocates them: this is the
constructor in a process in which no call of `_SwitchToHash` has deleted the
name of a static entry.  `EidosSymbolTable.new_in` is the constructor in any
process. -/
def EidosSymbolTable.new (b : EidosBuild) (g : EidosStaticObjects)
    (p_symbol_usage : Option EidosSymbolUsageParamBlock) (p_start_with_hash : Bool) :
    EidosResult :=
  let t : EidosSymbolTable :=
    { using_internal_symbols_ := !p_start_with_hash, internal_symbols_ := [], hash_symbols_ := [] }
  match p_symbol_usage with
  | some u =>
    initialize_if b u.contains_NAN_ (nanConstant g) t >>=
    initialize_if b u.contains_INF_ (infConstant g) >>=
    initialize_if b u.contains_PI_ (piConstant g) >>=
    initialize_if b u.contains_E_ (eConstant g) >>=
    initialize_if b u.contains_NULL_ (nullConstant g) >>=
    initialize_if b u.contains_F_ (falseConstant g) >>=
    initialize_if b u.contains_T_ (trueConstant g)
  | none =>
    t.InitializeConstantSymbolEntry b (nanConstant g) >>=
    (EidosSymbolTable.InitializeConstantSymbolEntry b · (infConstant g)) >>=
    (EidosSymbolTable.InitializeConstantSymbolEntry b · (piConstant g)) >>=
    (EidosSymbolTable.InitializeConstantSymbolEntry b · (eConstant g)) >>=
    (EidosSymbolTable.InitializeConstantSymbolEntry b · (nullConstant g)) >>=
    (EidosSymbolTable.InitializeConstantSymbolEntry b · (falseConstant g)) >>=
    (EidosSymbolTable.InitializeConstantSymbolEntry b · (trueConstant g))

/-! ### Views of a table used to state properties -/

/-- The bindings held by the storage tier in use: name, value and constness of
each slot, in slot order. -/
def EidosSymbolTable.bindings (t : EidosSymbolTable) : List (CppString × EidosValue × Bool) :=
  if t.using_internal_symbols_ then
    t.internal_symbols_.map
      (fun s => (s.symbol_name_, s.symbol_value_SP_, s.symbol_is_const_))
  else
    t.hash_symbols_.map (fun e => (e.1, e.2.symbol_value_SP_, e.2.symbol_is_const_))

/-- The names carried by the slots of the storage tier in use. -/
def EidosSymbolTable.names (t : EidosSymbolTable) : List CppString :=
  t.bindings.map (fun e => e.1)

/-- The table left behind by a call, whether it returned or raised. -/
def table_after (r : EidosResult) : EidosSymbolTable :=
  match r with
  | .ok t => t
  | .error (_, t) => t

/-- A call of one of the mutating methods of the table, with its arguments. -/
inductive TableCall where
  | SetValueForSymbol (p_symbol_name : CppString) (p_value : EidosValue) (fresh : Nat)
  | SetConstantForSymbol (p_symbol_name : CppString) (p_value : EidosValue) (fresh : Nat)
  | InitializeConstantSymbolEntry (p_new_entry : EidosSymbolTableEntry)
  | InitializeConstantSymbolEntry_name (p_symbol_name : CppString) (p_value : EidosValue)
  | ReinitializeConstantSymbolEntry (p_new_entry : EidosSymbolTableEntry)
  | ReinitializeConstantSymbolEntry_name (p_symbol_name : CppString) (p_value : EidosValue)
  | RemoveValueForSymbol (p_symbol_name : CppString) (p_remove_constant : Bool)
  deriving DecidableEq, Repr

/-- The effect of one call on a table. -/
def TableCall.run (b : EidosBuild) (t : EidosSymbolTable) : TableCall → EidosResult
  | .SetValueForSymbol n v fresh => t.SetValueForSymbol b n v fresh
  | .SetConstantForSymbol n v fresh => t.SetConstantForSymbol b n v fresh
  | .InitializeConstantSymbolEntry e => t.InitializeConstantSymbolEntry b e
  | .InitializeConstantSymbolEntry_name n v => t.InitializeConstantSymbolEntry_name b n v
  | .ReinitializeConstantSymbolEntry e => t.ReinitializeConstantSymbolEntry b e
  | .ReinitializeConstantSymbolEntry_name n v => t.ReinitializeConstantSymbolEntry_name b n v
  | .RemoveValueForSymbol n c => t.RemoveValueForSymbol n c

/-- The table reached from `t` by a sequence of calls; a call that raises
leaves the table as it is at the raise, and the sequence goes on. -/
def run_calls (b : EidosBuild) (t : EidosSymbolTable) (calls : List TableCall) :
    EidosSymbolTable :=
  calls.foldl (fun t c => table_after (c.run b t)) t

/-- The value argument that a call stores as it is given (the calls of the
`InitializeConstantSymbolEntry` and `ReinitializeConstantSymbolEntry` families),
if the call is one of those. -/
def TableCall.stored_as_given : TableCall → Option EidosValue
  | .InitializeConstantSymbolEntry e => some e.2
  | .InitializeConstantSymbolEntry_name _ v => some v
  | .ReinitializeConstantSymbolEntry e => some e.2
  | .ReinitializeConstantSymbolEntry_name _ v => some v
  | _ => none

/-- The names of the reserved constants that a usage block asks for (all
seven when there is no usage block). -/
def requested_constants (p_symbol_usage : Option EidosSymbolUsageParamBlock) :
    List CppString :=
  match p_symbol_usage with
  | none =>
    [gEidosStr_NAN, gEidosStr_INF, gEidosStr_PI, gEidosStr_E, gEidosStr_NULL, gEidosStr_F,
      gEidosStr_T]
  | some u =>
    (if u.contains_NAN_ then [gEidosStr_NAN] else []) ++
    (if u.contains_INF_ then [gEidosStr_INF] else []) ++
    (if u.contains_PI_ then [gEidosStr_PI] else []) ++
    (if u.contains_E_ then [gEidosStr_E] else []) ++
    (if u.contains_NULL_ then [gEidosStr_NULL] else []) ++
    (if u.contains_F_ then [gEidosStr_F] else []) ++
    (if u.contains_T_ then [gEidosStr_T] else [])

/-- Every dense slot records the length of its name exactly, which the
narrowing cast `(uint16_t)` guarantees for names shorter than 65536 characters
only. -/
def EidosSymbolTable.LengthsExact (t : EidosSymbolTable) : Prop :=
  ∀ s ∈ t.internal_symbols_, s.symbol_name_length_ = s.symbol_name_.length

instance (t : EidosSymbolTable) : Decidable t.LengthsExact := by
  unfold EidosSymbolTable.LengthsExact; infer_instance

/-- Only one storage tier is populated: the map is empty while the dense array
is in use, and the dense array is empty once the map is in use. -/
def EidosSymbolTable.OneTier (t : EidosSymbolTable) : Prop :=
  (t.using_internal_symbols_ = true → t.hash_symbols_ = []) ∧
  (t.using_internal_symbols_ = false → t.internal_symbols_ = [])

instance (t : EidosSymbolTable) : Decidable t.OneTier := by
  unfold EidosSymbolTable.OneTier; infer_instance

/-- The value that `SetValueForSymbol` and `SetConstantForSymbol` store for an
argument: the argument, or its copy when it is invisible. -/
def stored_value (p_value : EidosValue) (fresh : Nat) : EidosValue :=
  if p_value.Invisible then p_value.CopyValues fresh else p_value

/-- A run of statements `if (flag) InitializeConstantSymbolEntry(entry);`, in
order; an error raised by one of them ends the run. -/
def initialize_chain (b : EidosBuild) (entries : List (Bool × EidosSymbolTableEntry))
    (t : EidosSymbolTable) : EidosResult :=
  match entries with
  | [] => .ok t
  | (flag, entry) :: rest => initialize_if b flag entry t >>= initialize_chain b rest

/-- The seven static base entries of the constructor, in the order in which it
defines them, each with the flag that decides whether it is defined. -/
def base_entries (g : EidosStaticObjects) (p_symbol_usage : Option EidosSymbolUsageParamBlock) :
    List (Bool × EidosSymbolTableEntry) :=
  match p_symbol_usage with
  | some u =>
    [(u.contains_NAN_, nanConstant g), (u.contains_INF_, infConstant g),
      (u.contains_PI_, piConstant g), (u.contains_E_, eConstant g),
      (u.contains_NULL_, nullConstant g), (u.contains_F_, falseConstant g),
      (u.contains_T_, trueConstant g)]
  | none =>
    [(true, nanConstant g), (true, infConstant g), (true, piConstant g), (true, eConstant g),
      (true, nullConstant g), (true, falseConstant g), (true, trueConstant g)]

/-- No slot of either tier holds an invisible value. -/
def EidosSymbolTable.AllVisible (t : EidosSymbolTable) : Prop :=
  (∀ s ∈ t.internal_symbols_, s.symbol_value_SP_.invisible = false) ∧
  (∀ e ∈ t.hash_symbols_, e.2.symbol_value_SP_.invisible = false)

instance (t : EidosSymbolTable) : Decidable t.AllVisible := by
  unfold EidosSymbolTable.AllVisible; infer_instance

/-! ### Concrete tables and values used in examples -/

/-- A name of 65536 characters. -/
def long_name : CppString := List.replicate 65536 'a'

/-- A usage block in which no reserved constant is used. -/
def no_usage : EidosSymbolUsageParamBlock :=
  ⟨false, false, false, false, false, false, false⟩

/-- A build with sixteen dense slots, without `DEBUG`. -/
def build16 : EidosBuild := ⟨16, false⟩

/-- A build with sixteen dense slots, with `DEBUG`. -/
def build16_debug : EidosBuild := ⟨16, true⟩

/-- A build with two dense slots, without `DEBUG`. -/
def build2 : EidosBuild := ⟨2, false⟩

/-- Some addresses for the static value objects. -/
def statics0 : EidosStaticObjects := ⟨1, 2, 3, 4, 5, 6, 7⟩

/-- The table constructed in dense mode for a script that uses no reserved
constant. -/
def empty_dense : EidosSymbolTable := ⟨true, [], []⟩

/-- An integer value `1` held at address 100. -/
def value_one : EidosValue := ⟨100, false, .integer [1]⟩

/-- An integer value `2` held at address 200. -/
def value_two : EidosValue := ⟨200, false, .integer [2]⟩

/-- An invisible integer value `1` held at address 300. -/
def invisible_one : EidosValue := ⟨300, true, .integer [1]⟩

/-- The slot that the dense paths write for a name of 65536 characters: the
recorded length is `(uint16_t)65536 = 0`. -/
def truncated_slot (n : CppString) (v : EidosValue) (c : Bool) : EidosSymbolTable_InternalSlot :=
  { symbol_value_SP_ := v, symbol_name_ := n, symbol_name_length_ := 0,
    symbol_name_externally_owned_ := false, symbol_is_const_ := c }

/-- A dense table with two slots, full in a build with two dense slots. -/
def two_slot_table : EidosSymbolTable :=
  { using_internal_symbols_ := true,
    internal_symbols_ :=
      [{ symbol_value_SP_ := ⟨1, false, .logical [true]⟩, symbol_name_ := ['T'],
         symbol_name_length_ := 1, symbol_name_externally_owned_ := true,
         symbol_is_const_ := true },
       { symbol_value_SP_ := ⟨100, false, .integer [1]⟩, symbol_name_ := ['x'],
         symbol_name_length_ := 1, symbol_name_externally_owned_ := false,
         symbol_is_const_ := false }],
    hash_symbols_ := [] }

/-- The table that holds one slot for `long_name`, as the dense paths write it. -/
def long_name_table (c : Bool) : EidosSymbolTable :=
  ⟨true, [truncated_slot long_name value_one c], []⟩

/-- A sequence of calls that passes invisible values to all kinds of calls. -/
def example_calls : List TableCall :=
  [.InitializeConstantSymbolEntry_name ['x'] invisible_one,
   .SetValueForSymbol ['y'] invisible_one 301,
   .SetConstantForSymbol ['z'] invisible_one 302,
   .ReinitializeConstantSymbolEntry (['w'], invisible_one),
   .RemoveValueForSymbol ['y'] false]

/-! ## Parameter files: `src/core/input_parsing.cpp`

Streams.  An `istringstream` over a line is the list of its unread characters
with the two state bits the code reads.  An input file is the list of its
complete lines (each ended by a newline in the file) and the characters after
the last newline; `getline` hands out the complete lines one by one and then,
once, the rest, setting `eofbit` as it does so. -/

/-- The class of whitespace characters that `operator>>` skips (`isspace` in
the C locale). -/
def isspace (c : Char) : Bool :=
  c = ' ' || c = '\t' || c = '\n' || c = '\x0b' || c = '\x0c' || c = '\r'

/-- An `istringstream`: the unread characters and the state bits. -/
structure IStringStream where
  buf : CppString
  eofbit : Bool
  failbit : Bool
  deriving DecidableEq, Repr, Inhabited

/-- The declaration `istringstream iss(line);`. -/
def IStringStream.open (line : CppString) : IStringStream :=
  { buf := line, eofbit := false, failbit := false }

/-- The member `eof()`. -/
def IStringStream.eof (s : IStringStream) : Bool := s.eofbit

/-- The statement `stream >> sub`.  A stream that is not good sets `failbit`
and leaves `sub` alone; so does one that holds nothing but whitespace, which
also sets `eofbit`; otherwise `sub` becomes the next run of non-whitespace
characters, and `eofbit` is set when that run ends at the end of the stream. -/
def IStringStream.extract (s : IStringStream) (sub : CppString) : IStringStream × CppString :=
  if s.eofbit || s.failbit then ({ s with failbit := true }, sub)
  else
    match s.buf.dropWhile isspace with
    | [] => ({ buf := [], eofbit := true, failbit := true }, sub)
    | c :: rest =>
      let token := (c :: rest).takeWhile (fun x => !isspace x)
      let unread := (c :: rest).dropWhile (fun x => !isspace x)
      ({ buf := unread, eofbit := unread.isEmpty, failbit := false }, token)

/-- The enumeration `EOFExpected`. -/
inductive EOFExpected where
  | kAgnosticEOFExpectation
  | kEOFNotExpected
  | kEOFExpected
  deriving DecidableEq, Repr, Inhabited

/-- The enumeration `InputErrorType`. -/
inductive InputErrorType where
  | kNoPopulationDefinedError
  | kUnknownParameterError
  | kInvalidParameterFileError
  | kInvalidMutationRateError
  | kInvalidMutationTypeError
  | kInvalidGenomicElementTypeError
  | kInvalidChromosomeOrganizationError
  | kInvalidRecombinationRateError
  | kInvalidGenerationsError
  | kInvalidDemographyAndStructureError
  | kInvalidOutputError
  | kInvalidInitializationError
  | kInvalidSeedError
  | kInvalidPredeterminedMutationsError
  | kInvalidGeneConversionError
  deriving DecidableEq, Repr, Inhabited

/-- The lines of a usage block: "Required syntax:", the syntax lines,
"Example:" and the example lines, as `InputError` writes them after its first
line. -/
def usage_block (syntax_lines example_lines : List String) : List String :=
  ["", "Required syntax:", ""] ++ syntax_lines ++ ["", "Example:", ""] ++ example_lines ++ [""]

/-- Function `InputError`: the lines written to `cerr` before `exit(1)`. -/
def InputError (p_error_type : InputErrorType) (p_line : CppString) : List String :=
  [""] ++
  match p_error_type with
  | .kNoPopulationDefinedError =>
    ["ERROR (parameter file): no population to simulate:", ""]
  | .kUnknownParameterError =>
    ["ERROR (parameter file): unknown parameter: " ++ String.mk p_line, ""]
  | .kInvalidParameterFileError =>
    ["ERROR (parameter file): could not open: " ++ String.mk p_line, ""]
  | .kInvalidMutationRateError =>
    ["ERROR (parameter file): invalid mutation rate: " ++ String.mk p_line] ++
    usage_block ["#MUTATION RATE", "<u>"] ["#MUTATION RATE", "1.5e-8"]
  | .kInvalidMutationTypeError =>
    ["ERROR (parameter file): invalid mutation type: " ++ String.mk p_line] ++
    usage_block
      ["#MUTATION TYPES", "<mutation-type-id> <h> <DFE-type> [DFE parameters]", "..."]
      ["#MUTATION TYPES", "m1 0.2 g -0.05 0.2", "m2 0.0 f 0.0", "m3 0.5 e 0.01"]
  | .kInvalidGenomicElementTypeError =>
    ["ERROR (parameter file): invalid genomic element type: " ++ String.mk p_line] ++
    usage_block
      ["#GENOMIC ELEMENT TYPES", "<element-type-id> <mut-type> <x> [<mut-type> <x>...]", "..."]
      ["#GENOMIC ELEMENT TYPES", "g1 m3 0.8 m2 0.01 m1 0.19"]
  | .kInvalidChromosomeOrganizationError =>
    ["ERROR (parameter file): invalid chromosome organization: " ++ String.mk p_line] ++
    usage_block
      ["#CHROMOSOME ORGANIZATION", "<element-type> <start> <end>", "..."]
      ["#CHROMOSOME ORGANIZATION", "g1 1000 1999"]
  | .kInvalidRecombinationRateError =>
    ["ERROR (parameter file): invalid recombination rate: " ++ String.mk p_line] ++
    usage_block
      ["#RECOMBINATION RATE", "<interval-end> <r>", "..."]
      ["#RECOMBINATION RATE", "10000 1e-8", "20000 4.5e-8"]
  | .kInvalidGenerationsError =>
    ["ERROR (parameter file): invalid generations: " ++ String.mk p_line] ++
    usage_block ["#GENERATIONS", "<t> [<start>]"] ["#GENERATIONS", "10000"]
  | .kInvalidDemographyAndStructureError =>
    ["ERROR (parameter file): invalid demography and structure: " ++ String.mk p_line] ++
    usage_block
      ["#DEMOGRAPHY AND STRUCTURE", "<time> <event-type> [event parameters]", "..."]
      ["DEMOGRAPHY AND STRUCTURE", "1 P p1 1000", "1 S p1 0.05", "1000 P p2 100 p1",
        "1000 S p2 0.05", "2000 N p1 1e4", "2000 M p2 p1 0.01"]
  | .kInvalidOutputError =>
    ["ERROR (parameter file): invalid output: " ++ String.mk p_line] ++
    usage_block
      ["#OUTPUT", "<time> <output-type> [output parameters]", "..."]
      ["OUTPUT", "2000 A outfile", "1000 R p1 10", "1000 R p1 10 MS", "2000 F", "1 T m3"]
  | .kInvalidInitializationError =>
    ["ERROR (parameter file): invalid initialization: " ++ String.mk p_line] ++
    usage_block ["#INITIALIZATION", "<filename>"] ["#INITIALIZATION", "outfile"]
  | .kInvalidSeedError =>
    ["ERROR (parameter file): invalid seed: " ++ String.mk p_line] ++
    usage_block ["#SEED", "<seed>"] ["#SEED", "141235"]
  | .kInvalidPredeterminedMutationsError =>
    ["ERROR (parameter file): invalid predetermined mutations: " ++ String.mk p_line] ++
    usage_block
      ["#PREDETERMINED MUTATIONS", "<time> <mut-type> <x> <pop> <nAA> <nAa>"]
      ["#PREDETERMINED MUTATIONS", "5000 m7 45000 p1 0 1"]
  | .kInvalidGeneConversionError =>
    ["ERROR (parameter file): invalid gene conversion: " ++ String.mk p_line] ++
    usage_block ["#GENE CONVERSION", "<fraction> <average-length>"] ["#GENE CONVERSION", "0.5 20"]

/-- Function `EatSubstringWithPrefixAndCharactersAtEOF`: the value returned, the stream
and `p_substring` as the call leaves them.  `pfx` is the argument `p_prefix`. -/
def EatSubstringWithPrefixAndCharactersAtEOF (p_string_stream : IStringStream)
    (p_substring : CppString) (pfx : CppString) (p_match_chars : CppString)
    (p_eof_expected : EOFExpected) : Bool × IStringStream × CppString :=
  let good := true
  let prefix_length := pfx.length
  -- there should be at least one character in sub
  let good := if p_substring.length = 0 then false else good
  -- first eat the prefix, if there is one
  let good :=
    if prefix_length > 0 then
      if p_substring.take prefix_length ≠ pfx then false else good
    else good
  let p_substring := if prefix_length > 0 then p_substring.drop prefix_length else p_substring
  -- all of the characters in substring should match match_chars
  let good := if p_substring.any (fun c => !p_match_chars.contains c) then false else good
  -- check for a match with our expectation that we are at the end of string_stream
  let good :=
    match p_eof_expected with
    | .kEOFNotExpected => if p_string_stream.eof then false else good
    | .kEOFExpected => if !p_string_stream.eof then false else good
    | .kAgnosticEOFExpectation => good
  -- prefetch the next substring
  let (p_string_stream, p_substring) :=
    match p_eof_expected with
    | .kEOFNotExpected => p_string_stream.extract p_substring
    | .kAgnosticEOFExpectation =>
      if p_string_stream.eof then (p_string_stream, []) else p_string_stream.extract p_substring
    | .kEOFExpected => (p_string_stream, p_substring)
  (good, p_string_stream, p_substring)

/-- Function `EatSubstringWithCharactersAtEOF`. -/
def EatSubstringWithCharactersAtEOF (p_string_stream : IStringStream)
    (p_substring : CppString) (p_match_chars : CppString) (p_eof_expected : EOFExpected) :
    Bool × IStringStream × CppString :=
  EatSubstringWithPrefixAndCharactersAtEOF p_string_stream p_substring [] p_match_chars
    p_eof_expected

/-! ### `GetInputLine` -/

/-- An input file as `getline` sees it: the complete lines, each ended by a
newline in the file, and the characters after the last newline. -/
structure InputFile where
  lines : List CppString
  last : CppString
  deriving DecidableEq, Repr, Inhabited

/-- The complete lines and the rest of a text (split at each newline). -/
def InputFile.ofChars : CppString → InputFile
  | [] => { lines := [], last := [] }
  | c :: rest =>
    let f := InputFile.ofChars rest
    if c = '\n' then { lines := [] :: f.lines, last := f.last }
    else
      match f.lines with
      | [] => { lines := [], last := c :: f.last }
      | l :: ls => { lines := (c :: l) :: ls, last := f.last }

/-- The statement `p_line.erase(p_line.find("//"))`, when `"//"` occurs:
everything from the first `//` on is removed. -/
def erase_comment : CppString → CppString
  | [] => []
  | '/' :: '/' :: _ => []
  | c :: rest => c :: erase_comment rest

/-- The two statements `p_line.erase(0, p_line.find_first_not_of(' '))` and
`p_line.erase(p_line.find_last_not_of(' ') + 1)`: the spaces at both ends are
removed (a line of spaces becomes empty). -/
def erase_spaces (p_line : CppString) : CppString :=
  ((p_line.dropWhile (fun c => c = ' ')).reverse.dropWhile (fun c => c = ' ')).reverse

/-- What `GetInputLine` makes of the line that `getline` has read. -/
def sanitize (p_line : CppString) : CppString :=
  erase_spaces (erase_comment p_line)

/-! ### `CheckInputFile` -/

/-- The test `line.find(keyword) != string::npos`. -/
def has_substr (keyword : CppString) : CppString → Bool
  | [] => keyword.isEmpty
  | c :: rest => keyword.isPrefixOf (c :: rest) || has_substr keyword rest

/-- The sections of a parameter file, in the order in which the chain of tests
of `CheckInputFile` looks for their keywords. -/
inductive ParameterSection where
  | MUTATION_RATE
  | MUTATION_TYPES
  | GENOMIC_ELEMENT_TYPES
  | CHROMOSOME_ORGANIZATION
  | RECOMBINATION_RATE
  | GENE_CONVERSION
  | GENERATIONS
  | DEMOGRAPHY_AND_STRUCTURE
  | OUTPUT
  | PREDETERMINED_MUTATIONS
  | SEED
  | INITIALIZATION
  deriving DecidableEq, Repr, Inhabited

/-- The keyword that the test for a section looks for. -/
def ParameterSection.keyword : ParameterSection → CppString
  | .MUTATION_RATE => "MUTATION RATE".toList
  | .MUTATION_TYPES => "MUTATION TYPES".toList
  | .GENOMIC_ELEMENT_TYPES => "GENOMIC ELEMENT TYPES".toList
  | .CHROMOSOME_ORGANIZATION => "CHROMOSOME ORGANIZATION".toList
  | .RECOMBINATION_RATE => "RECOMBINATION RATE".toList
  | .GENE_CONVERSION => "GENE CONVERSION".toList
  | .GENERATIONS => "GENERATIONS".toList
  | .DEMOGRAPHY_AND_STRUCTURE => "DEMOGRAPHY AND STRUCTURE".toList
  | .OUTPUT => "OUTPUT".toList
  | .PREDETERMINED_MUTATIONS => "PREDETERMINED MUTATIONS".toList
  | .SEED => "SEED".toList
  | .INITIALIZATION => "INITIALIZATION".toList

/-- The chain `if (line.find("MUTATION RATE") != npos) ... if
(line.find("MUTATION TYPES") != npos) ...` applied to a line that contains `#`:
the first section whose keyword occurs in the line. -/
def find_section (line : CppString) : Option ParameterSection :=
  [ParameterSection.MUTATION_RATE, .MUTATION_TYPES, .GENOMIC_ELEMENT_TYPES,
    .CHROMOSOME_ORGANIZATION, .RECOMBINATION_RATE, .GENE_CONVERSION, .GENERATIONS,
    .DEMOGRAPHY_AND_STRUCTURE, .OUTPUT, .PREDETERMINED_MUTATIONS, .SEED,
    .INITIALIZATION].find? (fun s => has_substr s.keyword line)

/-- The seven counters of `CheckInputFile` (of type `int` in the source; a file
would need `2^31` rows of one kind to overflow one of them). -/
structure Counters where
  num_mutation_types : Nat
  num_mutation_rates : Nat
  num_genomic_element_types : Nat
  num_chromosome_organizations : Nat
  num_recombination_rates : Nat
  num_generations : Nat
  num_subpopulations : Nat
  deriving DecidableEq, Repr, Inhabited

/-- The variables that the body of a row works on: `good`, the stream `iss`
over the line, and `sub`. -/
structure RowState where
  good : Bool
  iss : IStringStream
  sub : CppString
  deriving DecidableEq, Repr, Inhabited

/-- The statements `istringstream iss(line); iss >> sub;` that open every row. -/
def RowState.start (good : Bool) (sub line : CppString) : RowState :=
  let r := (IStringStream.open line).extract sub
  { good := good, iss := r.1, sub := r.2 }

/-- The statement `good = good && EatSubstringWithPrefixAndCharactersAtEOF(iss,
sub, pfx, chars, e);`: the call is not made when `good` is already false. -/
def RowState.eat_prefixed (st : RowState) (pfx chars : String) (e : EOFExpected) : RowState :=
  if st.good then
    let r := EatSubstringWithPrefixAndCharactersAtEOF st.iss st.sub pfx.toList chars.toList e
    { good := r.1, iss := r.2.1, sub := r.2.2 }
  else st

/-- The statement `good = good && EatSubstringWithCharactersAtEOF(iss, sub,
chars, e);`. -/
def RowState.eat (st : RowState) (chars : String) (e : EOFExpected) : RowState :=
  if st.good then
    let r := EatSubstringWithCharactersAtEOF st.iss st.sub chars.toList e
    { good := r.1, iss := r.2.1, sub := r.2.2 }
  else st

/-- How the body of a row ends: it falls through to the test of `good` with
the state it has reached, or it never ends (`hangs`), or the bound on the
number of iterations that the embedding puts on the loop of a `#GENOMIC ELEMENT
TYPES` row was too small (`out_of_fuel`). -/
inductive RowEnd where
  | done (st : RowState)
  | hangs
  | out_of_fuel
  deriving DecidableEq, Repr, Inhabited

/-- The loop `while (sub.length() > 0) { good = good && Eat...("m", ...);
good = good && Eat...("1234567890e.", kAgnosticEOFExpectation); }` of a
`#GENOMIC ELEMENT TYPES` row.  When `good` is false no call is made and nothing
changes any more, so the loop never ends if `sub` is not empty. -/
def mutation_fraction_loop : Nat → RowState → RowEnd
  | 0, _ => .out_of_fuel
  | fuel + 1, st =>
    if st.sub.length > 0 then
      if st.good then
        mutation_fraction_loop fuel
          ((st.eat_prefixed "m" "1234567890" .kEOFNotExpected).eat "1234567890e."
            .kAgnosticEOFExpectation)
      else .hangs
    else .done st

/-- The body of a row of a section, from `istringstream iss(line)` to the
statement before the test `if (!good)`, together with the counters as the body
leaves them (the rows `P` of `#DEMOGRAPHY AND STRUCTURE` count a subpopulation
before `good` is tested). -/
def row_body (s : ParameterSection) (good : Bool) (sub line : CppString) (n : Counters) :
    RowEnd × Counters :=
  let st := RowState.start good sub line
  match s with
  | .MUTATION_RATE =>
    (.done (st.eat "1234567890.e-" .kEOFExpected), n)
  | .MUTATION_TYPES =>
    let st := st.eat_prefixed "m" "1234567890" .kEOFNotExpected
    let st := st.eat "1234567890.-" .kEOFNotExpected
    let dfe_type := st.sub
    let st := st.eat "fge" .kEOFNotExpected
    if dfe_type = "f".toList ∨ dfe_type = "e".toList then
      (.done (st.eat "1234567890.-" .kEOFExpected), n)
    else if dfe_type = "g".toList then
      (.done ((st.eat "1234567890.-" .kEOFNotExpected).eat "1234567890.-" .kEOFExpected), n)
    else (.done st, n)
  | .GENOMIC_ELEMENT_TYPES =>
    let st := st.eat_prefixed "g" "1234567890" .kEOFNotExpected
    (mutation_fraction_loop (line.length + 2) st, n)
  | .CHROMOSOME_ORGANIZATION =>
    let st := st.eat_prefixed "g" "1234567890" .kEOFNotExpected
    let st := st.eat "1234567890e" .kEOFNotExpected
    (.done (st.eat "1234567890e" .kEOFExpected), n)
  | .RECOMBINATION_RATE =>
    let st := st.eat "1234567890e" .kEOFNotExpected
    (.done (st.eat "1234567890e.-" .kEOFExpected), n)
  | .GENE_CONVERSION =>
    let st := st.eat "1234567890e.-" .kEOFNotExpected
    (.done (st.eat "1234567890e.-" .kEOFExpected), n)
  | .GENERATIONS =>
    let st := st.eat "1234567890e" .kAgnosticEOFExpectation
    if st.sub.length > 0 then (.done (st.eat "1234567890e" .kEOFExpected), n)
    else (.done st, n)
  | .DEMOGRAPHY_AND_STRUCTURE =>
    let st := st.eat "1234567890e" .kEOFNotExpected
    let event_type := st.sub
    let st := st.eat "PSMN" .kEOFNotExpected
    if event_type = "P".toList then
      let st := st.eat_prefixed "p" "1234567890" .kEOFNotExpected
      let st := st.eat "1234567890e" .kAgnosticEOFExpectation
      let st := if st.sub.length > 0 then st.eat_prefixed "p" "1234567890" .kEOFExpected else st
      (.done st, { n with num_subpopulations := n.num_subpopulations + 1 })
    else if event_type = "N".toList then
      let st := st.eat_prefixed "p" "1234567890" .kEOFNotExpected
      (.done (st.eat "1234567890e" .kEOFExpected), n)
    else if event_type = "M".toList then
      let st := st.eat_prefixed "p" "1234567890" .kEOFNotExpected
      let st := st.eat_prefixed "p" "1234567890" .kEOFNotExpected
      (.done (st.eat "1234567890.-e" .kEOFExpected), n)
    else if event_type = "S".toList then
      let st := st.eat_prefixed "p" "1234567890" .kEOFNotExpected
      (.done (st.eat "1234567890.-e" .kEOFExpected), n)
    else (.done st, n)
  | .OUTPUT =>
    let st := st.eat "1234567890e" .kEOFNotExpected
    let output_type := st.sub
    let st := st.eat "ARFT" .kAgnosticEOFExpectation
    let st :=
      if output_type = "A".toList then st
      else if output_type = "R".toList then
        let st := st.eat_prefixed "p" "1234567890" .kEOFNotExpected
        let st := st.eat "1234567890" .kAgnosticEOFExpectation
        if st.sub.length > 0 ∧ st.sub ≠ "MS".toList then { st with good := false } else st
      else st
    (.done (if !st.iss.eof then { st with good := false } else st), n)
  | .PREDETERMINED_MUTATIONS =>
    let st := st.eat "1234567890e" .kEOFNotExpected
    let st := st.eat_prefixed "m" "1234567890" .kEOFNotExpected
    let st := st.eat "1234567890e" .kEOFNotExpected
    let st := st.eat_prefixed "p" "1234567890" .kEOFNotExpected
    let st := st.eat "1234567890" .kEOFNotExpected
    let st := st.eat "1234567890" .kAgnosticEOFExpectation
    if st.sub.length > 0 then
      let st := st.eat_prefixed "P" "" .kEOFNotExpected
      (.done (st.eat "1234567890.-e" .kEOFExpected), n)
    else (.done st, n)
  | .SEED =>
    (.done (st.eat "1234567890-" .kEOFExpected), n)
  | .INITIALIZATION =>
    (.done (if !st.iss.eof then { st with good := false } else st), n)

/-- The error that the test `if (!good)` of a section reports. -/
def ParameterSection.error : ParameterSection → InputErrorType
  | .MUTATION_RATE => .kInvalidMutationRateError
  | .MUTATION_TYPES => .kInvalidMutationTypeError
  | .GENOMIC_ELEMENT_TYPES => .kInvalidGenomicElementTypeError
  | .CHROMOSOME_ORGANIZATION => .kInvalidChromosomeOrganizationError
  | .RECOMBINATION_RATE => .kInvalidRecombinationRateError
  | .GENE_CONVERSION => .kInvalidGeneConversionError
  | .GENERATIONS => .kInvalidGenerationsError
  | .DEMOGRAPHY_AND_STRUCTURE => .kInvalidDemographyAndStructureError
  | .OUTPUT => .kInvalidOutputError
  | .PREDETERMINED_MUTATIONS => .kInvalidPredeterminedMutationsError
  | .SEED => .kInvalidSeedError
  | .INITIALIZATION => .kInvalidInitializationError

/-- The counting that follows the test `if (!good)` of a section when `good`
holds (`else num_...++`; for `#INITIALIZATION` the unconditional
`num_subpopulations++`; nothing for the other sections). -/
def ParameterSection.count (s : ParameterSection) (n : Counters) : Counters :=
  match s with
  | .MUTATION_RATE => { n with num_mutation_rates := n.num_mutation_rates + 1 }
  | .MUTATION_TYPES => { n with num_mutation_types := n.num_mutation_types + 1 }
  | .GENOMIC_ELEMENT_TYPES =>
    { n with num_genomic_element_types := n.num_genomic_element_types + 1 }
  | .CHROMOSOME_ORGANIZATION =>
    { n with num_chromosome_organizations := n.num_chromosome_organizations + 1 }
  | .RECOMBINATION_RATE => { n with num_recombination_rates := n.num_recombination_rates + 1 }
  | .GENERATIONS => { n with num_generations := n.num_generations + 1 }
  | .INITIALIZATION => { n with num_subpopulations := n.num_subpopulations + 1 }
  | _ => n

/-- How a run of `CheckInputFile` ends: it returns (`accepted`), or it calls
`InputError`, which writes a message and exits, or it never ends, or the
embedding's bound on a loop was too small. -/
inductive CheckResult where
  | accepted (n : Counters)
  | input_error (p_error_type : InputErrorType) (p_line : CppString)
  | hangs
  | out_of_fuel
  deriving DecidableEq, Repr, Inhabited

/-- The tests after the main loop: "Check that all elements occurred an allowed
number of times". -/
def final_checks (n : Counters) : CheckResult :=
  if n.num_mutation_rates ≠ 1 then .input_error .kInvalidMutationRateError []
  else if n.num_mutation_types < 1 then .input_error .kInvalidMutationTypeError []
  else if n.num_genomic_element_types < 1 then
    .input_error .kInvalidGenomicElementTypeError []
  else if n.num_chromosome_organizations < 1 then
    .input_error .kInvalidChromosomeOrganizationError []
  else if n.num_recombination_rates < 1 then .input_error .kInvalidRecombinationRateError []
  else if n.num_generations < 1 then .input_error .kInvalidGenerationsError []
  else if n.num_subpopulations < 1 then .input_error .kNoPopulationDefinedError []
  else .accepted n

/-- The main loop of `CheckInputFile`, entered at a call of `GetInputLine`.
`current` says where the call stands: `none` for the calls outside the sections
(the one before the loop and the one of the `else` branch), `some s` for the
call at the head of the `do` loop of section `s`.  `lines` are the complete
lines not yet read.

* When no complete line is left, `getline` reads the rest of the file and sets
  `eofbit`: the `do` loop breaks, the `while` loop ends, and the final tests
  run.
* A line that contains `#` ends the `do` loop (`break; continue;`) and is
  looked at by the chain of keyword tests, which sets `good = true` and enters
  the `do` loop of the section found, or reports an unknown parameter.
* Any other line is skipped outside a section and when it is empty; inside a
  section it is a row: its body runs, `good` is tested, the row is counted. -/
def check_lines (current : Option ParameterSection) (good : Bool) (sub : CppString)
    (n : Counters) : List CppString → CheckResult
  | [] => final_checks n
  | raw :: lines =>
    let line := sanitize raw
    if line.contains '#' then
      match find_section line with
      | some s => check_lines (some s) true sub n lines
      | none => .input_error .kUnknownParameterError line
    else
      match current with
      | none => check_lines none good sub n lines
      | some s =>
        if line.length = 0 then check_lines (some s) good sub n lines
        else
          match row_body s good sub line n with
          | (.hangs, _) => .hangs
          | (.out_of_fuel, _) => .out_of_fuel
          | (.done st, n) =>
            if !st.good then .input_error s.error line
            else check_lines (some s) st.good st.sub (s.count n) lines

/-- Function `CheckInputFile`; `none` is a file that cannot be opened, whose name is
`p_input_file`. -/
def CheckInputFile (p_input_file : CppString) (infile : Option InputFile) : CheckResult :=
  match infile with
  | none => .input_error .kInvalidParameterFileError p_input_file
  | some f => check_lines none true [] ⟨0, 0, 0, 0, 0, 0, 0⟩ f.lines

/-! ### Tokens and rows, used to state properties of `CheckInputFile` -/

/-- What is left of a text once its first whitespace-separated token and the
whitespace before it have been removed. -/
def skip_token (s : CppString) : CppString :=
  (s.dropWhile isspace).dropWhile (fun c => !isspace c)

/-- What is left of a text after its first `k` tokens. -/
def rest_after : Nat → CppString → CppString
  | 0, s => s
  | k + 1, s => skip_token (rest_after k s)

/-- The `k`-th whitespace-separated token of a text, counted from 0; the empty
string when the text has fewer tokens. -/
def token_at (k : Nat) (s : CppString) : CppString :=
  ((rest_after k s).dropWhile isspace).takeWhile (fun c => !isspace c)

/-- The row state stands at token `k` of the line: `sub` is that token and the
stream holds what follows it. -/
def at_token (line : CppString) (k : Nat) (st : RowState) : Prop :=
  st.iss = ⟨rest_after (k + 1) line, (rest_after (k + 1) line).isEmpty, false⟩ ∧
    st.sub = token_at k line

/-- The rows of a file: the sanitised lines that are not empty, contain no `#`,
and stand below a section header (a line that contains `#` and the keyword of
a section), each with its section (the first one, in the order of
`ParameterSection`, whose keyword the header contains). -/
def file_rows (current : Option ParameterSection) :
    List CppString → List (ParameterSection × CppString)
  | [] => []
  | raw :: lines =>
    if (sanitize raw).contains '#' then file_rows (find_section (sanitize raw)) lines
    else
      match current with
      | none => file_rows none lines
      | some s =>
        if sanitize raw = [] then file_rows (some s) lines
        else (s, sanitize raw) :: file_rows (some s) lines

/-- The rows of a section in a file (its complete lines). -/
def InputFile.rows (f : InputFile) (s : ParameterSection) : List CppString :=
  ((file_rows none f.lines).filter (fun r => r.1 = s)).map (fun r => r.2)

/-- A row `<t> P ...`: its second token is `P`. -/
def is_P_row (line : CppString) : Bool := token_at 1 line = "P".toList

/-- The rows of a file that create a subpopulation: the `P` rows of
`#DEMOGRAPHY AND STRUCTURE` and the rows of `#INITIALIZATION`. -/
def InputFile.creating_rows (f : InputFile) : List CppString :=
  (f.rows .DEMOGRAPHY_AND_STRUCTURE).filter is_P_row ++ f.rows .INITIALIZATION

/-- What one accepted row adds to the counters. -/
def count_row (n : Counters) (r : ParameterSection × CppString) : Counters :=
  match r.1 with
  | .DEMOGRAPHY_AND_STRUCTURE =>
    if is_P_row r.2 then { n with num_subpopulations := n.num_subpopulations + 1 } else n
  | s => s.count n

/-- A parameter file with one row in each required section and no `#SEED`
section. -/
def sample_file : InputFile :=
  InputFile.ofChars ("#MUTATION RATE\n1e-8\n#MUTATION TYPES\nm1 0.5 f 0.0\n" ++
    "#GENOMIC ELEMENT TYPES\ng1 m1 1.0\n#CHROMOSOME ORGANIZATION\ng1 1 1000\n" ++
    "#RECOMBINATION RATE\n1000 1e-8\n#GENERATIONS\n10\n" ++
    "#DEMOGRAPHY AND STRUCTURE\n1 P p1 100\n").toList

/-- The file of the "invalid input" scenario: a `#MUTATION TYPES` section with
the row `m1 0.2 x 0.0`. -/
def invalid_dfe_file : InputFile :=
  InputFile.ofChars "#MUTATION TYPES\nm1 0.2 x 0.0\n".toList

/-- A stream state that extraction can produce: `failbit` comes with `eofbit`,
and so does an empty buffer. -/
def IStringStream.settled (s : IStringStream) : Prop :=
  (s.failbit = true → s.eofbit = true) ∧ (s.buf = [] → s.eofbit = true)

/-- A bound on the number of further extractions that can succeed on a
stream. -/
def IStringStream.potential (s : IStringStream) : Nat :=
  if s.eofbit then 0 else s.buf.length + 1

/-! ### Rows, one at a time -/

/-- One pass through the body of the loop `while (sub.length() > 0)` of a
`#GENOMIC ELEMENT TYPES` row: the two statements `good = good && Eat...`. -/
def mutation_fraction_pass (st : RowState) : RowState :=
  (st.eat_prefixed "m" "1234567890" .kEOFNotExpected).eat "1234567890e." .kAgnosticEOFExpectation

/-- The row state with which a `#GENOMIC ELEMENT TYPES` row reaches its loop:
after `iss >> sub` and the call that eats the identifier `g...`. -/
def loop_entry (good : Bool) (sub line : CppString) : RowState :=
  (RowState.start good sub line).eat_prefixed "g" "1234567890" .kEOFNotExpected

/-- What the test `if (!good)` finds for a row that is read with `good` true:
true when the body of the row ends with `good` true, so that `InputError` is
not called; false when it ends with `good` false and when it does not end. -/
def row_accepted (s : ParameterSection) (sub line : CppString) : Bool :=
  match (row_body s true sub line ⟨0, 0, 0, 0, 0, 0, 0⟩).1 with
  | .done st => st.good
  | _ => false

/-- The example rows that `InputError` prints for an error: the lines of its
usage block after `Example:`, without the empty lines and without the first
one, which repeats the section header. -/
def example_rows (t : InputErrorType) : List String :=
  ((((InputError t []).dropWhile (fun l => l ≠ "Example:")).drop 1).filter
    (fun l => l ≠ "")).drop 1

/-- A file whose only row is the `#GENOMIC ELEMENT TYPES` row `x1 m1 1.0`. -/
def malformed_element_type_file : InputFile :=
  InputFile.ofChars "#GENOMIC ELEMENT TYPES\nx1 m1 1.0\n".toList

/-- A complete parameter file whose `#MUTATION RATE` row ends in a tab. -/
def trailing_tab_file : InputFile :=
  InputFile.ofChars ("#MUTATION RATE\n1e-8\t\n#MUTATION TYPES\nm1 0.5 f 0.0\n" ++
    "#GENOMIC ELEMENT TYPES\ng1 m1 1.0\n#CHROMOSOME ORGANIZATION\ng1 1 1000\n" ++
    "#RECOMBINATION RATE\n1000 1e-8\n#GENERATIONS\n10\n" ++
    "#DEMOGRAPHY AND STRUCTURE\n1 P p1 100\n").toList

/-- The file `sample_file` with the further `#DEMOGRAPHY AND STRUCTURE` row
`1 PS anything at all`. -/
def multi_letter_kind_file : InputFile :=
  InputFile.ofChars ("#MUTATION RATE\n1e-8\n#MUTATION TYPES\nm1 0.5 f 0.0\n" ++
    "#GENOMIC ELEMENT TYPES\ng1 m1 1.0\n#CHROMOSOME ORGANIZATION\ng1 1 1000\n" ++
    "#RECOMBINATION RATE\n1000 1e-8\n#GENERATIONS\n10\n" ++
    "#DEMOGRAPHY AND STRUCTURE\n1 P p1 100\n1 PS anything at all\n").toList

/-- The file `sample_file` with an `#OUTPUT` section that holds the rows
`2000 F x` and `1 T notAnId`. -/
def unchecked_output_file : InputFile :=
  InputFile.ofChars ("#MUTATION RATE\n1e-8\n#MUTATION TYPES\nm1 0.5 f 0.0\n" ++
    "#GENOMIC ELEMENT TYPES\ng1 m1 1.0\n#CHROMOSOME ORGANIZATION\ng1 1 1000\n" ++
    "#RECOMBINATION RATE\n1000 1e-8\n#GENERATIONS\n10\n" ++
    "#DEMOGRAPHY AND STRUCTURE\n1 P p1 100\n#OUTPUT\n2000 F x\n1 T notAnId\n").toList

/-- A complete parameter file in which every identifier is a bare prefix
letter: the rows `m 0.5 f 0.0`, `g m 1.0`, `g 1 100` and `1 P p 100`. -/
def bare_identifier_file : InputFile :=
  InputFile.ofChars ("#MUTATION RATE\n1e-8\n#MUTATION TYPES\nm 0.5 f 0.0\n" ++
    "#GENOMIC ELEMENT TYPES\ng m 1.0\n#CHROMOSOME ORGANIZATION\ng 1 100\n" ++
    "#RECOMBINATION RATE\n1000 1e-8\n#GENERATIONS\n10\n" ++
    "#DEMOGRAPHY AND STRUCTURE\n1 P p 100\n").toList

/-- A complete parameter file whose `#MUTATION TYPES` rows are `m1 0.5 n 0.0
1.0` and `m2 0.5 w 1.0 2.0`. -/
def normal_dfe_file : InputFile :=
  InputFile.ofChars ("#MUTATION RATE\n1e-8\n#MUTATION TYPES\nm1 0.5 n 0.0 1.0\n" ++
    "m2 0.5 w 1.0 2.0\n" ++
    "#GENOMIC ELEMENT TYPES\ng1 m1 1.0\n#CHROMOSOME ORGANIZATION\ng1 1 1000\n" ++
    "#RECOMBINATION RATE\n1000 1e-8\n#GENERATIONS\n10\n" ++
    "#DEMOGRAPHY AND STRUCTURE\n1 P p1 100\n").toList

/-! ### Row grammars, in terms of the tokens of a row -/

/-- A line that ends with its last token: its last character, if it has one,
is not a whitespace character. -/
def ends_in_token (line : CppString) : Prop :=
  ∀ c, line.getLast? = some c → isspace c = false

instance (line : CppString) : Decidable (ends_in_token line) := by
  unfold ends_in_token
  cases h : line.getLast? with
  | none => exact isTrue (fun c hc => by cases hc)
  | some d =>
    cases hd : isspace d with
    | false => exact isTrue (fun c hc => by cases hc; exact hd)
    | true => exact isFalse (fun hall => by rw [hall d rfl] at hd; cases hd)

/-- What a call of `EatSubstringWithPrefixAndCharactersAtEOF` asks of the token
itself: it is not empty, it starts with the prefix if there is one, and the
characters after the prefix are all permitted. -/
def token_ok (pfx chars : String) (t : CppString) : Prop :=
  t ≠ [] ∧ (pfx.toList = [] ∨ pfx.toList <+: t) ∧ ∀ c ∈ t.drop pfx.toList.length, c ∈ chars.toList

/-- A word over a set of permitted characters: a token that is not empty and
all of whose characters are permitted. -/
def is_word (chars : String) (t : CppString) : Prop :=
  t ≠ [] ∧ ∀ c ∈ t, c ∈ chars.toList

instance (chars : String) (t : CppString) : Decidable (is_word chars t) := by
  unfold is_word; infer_instance

/-- An identifier as the code admits it: the prefix letter followed by decimal
digits only, of which there may be none. -/
def is_identifier (letter : Char) (t : CppString) : Prop :=
  t.head? = some letter ∧ ∀ c ∈ t.tail, c ∈ "1234567890".toList

instance (letter : Char) (t : CppString) : Decidable (is_identifier letter t) := by
  unfold is_identifier; infer_instance

/-- The form `m<id> <h> <dfe> <params>` of a `#MUTATION TYPES` row with the DFE
letters that the code knows: `f` and `e` with one parameter, `g` with two.  The
identifier is `m` followed by digits, `<h>` and the parameters are words over
`1234567890.-`, and the row has no further token. -/
def mutation_type_form (line : CppString) : Prop :=
  is_identifier 'm' (token_at 0 line) ∧ is_word "1234567890.-" (token_at 1 line) ∧
  (((token_at 2 line = "f".toList ∨ token_at 2 line = "e".toList) ∧
      is_word "1234567890.-" (token_at 3 line) ∧ token_at 4 line = []) ∨
    (token_at 2 line = "g".toList ∧ is_word "1234567890.-" (token_at 3 line) ∧
      is_word "1234567890.-" (token_at 4 line) ∧ token_at 5 line = []))

instance (line : CppString) : Decidable (mutation_type_form line) := by
  unfold mutation_type_form; infer_instance

/-! ## Materialising a parameter file: `Initialize` -/

/-! ### The C library functions that `Initialize` calls -/

/-- The C function `isdigit`. -/
def isdigit (c : Char) : Bool := decide (c ∈ "0123456789".toList)

/-- The value of a decimal digit. -/
def digit_value (c : Char) : Nat := c.toNat - '0'.toNat

/-- The value of a run of decimal digits. -/
def digits_value (ds : CppString) : Nat :=
  ds.foldl (fun acc c => 10 * acc + digit_value c) 0

/-- The member `c_str()` as a C function reads it: the characters before the
first NUL. -/
def c_str (s : CppString) : CppString := s.takeWhile (fun c => c ≠ '\x00')

/-- An optional sign at the head of a text: whether it is `-`, and the text
after it. -/
def eat_sign : CppString → Bool × CppString
  | '-' :: r => (true, r)
  | '+' :: r => (false, r)
  | s => (false, s)

/-- The C function `atoi`, as the C standard specifies it: whitespace is
skipped, then an optional sign and the longest run of decimal digits are read;
the result is their value, 0 when there is no digit.  The behaviour is
undefined when the value is not an `int`: `none`. -/
def atoi (s : CppString) : Option Int :=
  let r := eat_sign ((c_str s).dropWhile isspace)
  let v : Int := digits_value (r.2.takeWhile isdigit)
  let v := if r.1 then -v else v
  if -2147483648 ≤ v ∧ v < 2147483648 then some v else none

/-- A `double` as `atof` produces it.  `decimal negative mantissa exponent`
stands for the `double` nearest to `± mantissa × 10 ^ exponent`; the embedding
carries this decimal value and does not round it (it is the `double` itself
when it is an integer below `2^53`).  `other` stands for the result on a text
that `atof` reads as a hexadecimal constant, an infinity or a NaN, which the
embedding does not compute. -/
inductive Double where
  | decimal (negative : Bool) (mantissa : Nat) (exponent : Int)
  | other (text : CppString)
  deriving DecidableEq, Repr, Inhabited

/-- Whether `c` is the letter `l` (given in lower case) in either case. -/
def is_letter (l : Char) (c : Char) : Bool := c = l || c = l.toUpper

/-- The texts that `atof` does not read as a decimal constant: those that start
with `0x`, `inf` or `nan`, in either case. -/
def not_decimal : CppString → Bool
  | '0' :: x :: _ => is_letter 'x' x
  | a :: b :: c :: _ =>
    (is_letter 'i' a && is_letter 'n' b && is_letter 'f' c) ||
      (is_letter 'n' a && is_letter 'a' b && is_letter 'n' c)
  | _ => false

/-- The exponent part of a decimal constant: `e` or `E`, an optional sign and
at least one digit; 0 when the text does not start with one. -/
def exponent_part : CppString → Int
  | [] => 0
  | c :: r =>
    if is_letter 'e' c then
      let t := eat_sign r
      let ed := t.2.takeWhile isdigit
      if ed = [] then 0 else if t.1 then -(digits_value ed : Int) else (digits_value ed : Int)
    else 0

/-- The fraction part of a decimal constant: the digits after a `.`, and the
text after them. -/
def fraction_part : CppString → CppString × CppString
  | '.' :: r => (r.takeWhile isdigit, r.dropWhile isdigit)
  | s => ([], s)

/-- The C function `atof`, as the C standard specifies `strtod`: whitespace is
skipped, then an optional sign and the longest text of the form digits, `.`,
digits, exponent are read, of which either run of digits may be missing but
not both; the result is zero when nothing of that form is there. -/
def atof (s : CppString) : Double :=
  let r := eat_sign ((c_str s).dropWhile isspace)
  if not_decimal r.2 then .other s
  else
    let ip := r.2.takeWhile isdigit
    let fp := fraction_part (r.2.dropWhile isdigit)
    if ip = [] ∧ fp.1 = [] then .decimal false 0 0
    else .decimal r.1 (digits_value (ip ++ fp.1)) (exponent_part fp.2 - fp.1.length)

/-- The conversion `static_cast<int>` of a `double`: the value is truncated
toward zero; the behaviour is undefined when the result is not an `int`:
`none` (also for the values that the embedding does not compute). -/
def static_cast_int : Double → Option Int
  | .other _ => none
  | .decimal negative mantissa exponent =>
    let q : Nat :=
      if 0 ≤ exponent then mantissa * 10 ^ exponent.toNat
      else mantissa / 10 ^ (-exponent).toNat
    let v : Int := if negative then -(q : Int) else (q : Int)
    if -2147483648 ≤ v ∧ v < 2147483648 then some v else none

/-- The expression `x - 1` on `int`: undefined on overflow. -/
def int_pred (x : Int) : Option Int :=
  if -2147483648 ≤ x - 1 then some (x - 1) else none

/-- The expression `x + 1` on `int`: undefined on overflow. -/
def int_succ (x : Int) : Option Int :=
  if x + 1 < 2147483648 then some (x + 1) else none

/-- The text that `ss << seed` writes for an `int`. -/
def int_text (v : Int) : CppString := (toString v).toList

/-- The conversion of an `int` to `size_t`. -/
def to_size_t (v : Int) : Nat := (v % 18446744073709551616).toNat

/-! ### Containers -/

/-- The member `find` of a `std::map<int, T>`, held as a list of pairs sorted by
key. -/
def map_find {α : Type} (m : List (Int × α)) (k : Int) : Option α :=
  (m.find? (fun e => e.1 = k)).map (fun e => e.2)

/-- The member `insert` of a `std::map<int, T>`: nothing changes when the key is
present; otherwise the pair is entered at its place in the order of keys. -/
def map_insert {α : Type} : List (Int × α) → Int → α → List (Int × α)
  | [], k, v => [(k, v)]
  | (k', v') :: rest, k, v =>
    if k' = k then (k', v') :: rest
    else if k < k' then (k, v) :: (k', v') :: rest
    else (k', v') :: map_insert rest k v

/-- The member `insert` of a `std::multimap<const int, T>`: the pair is entered
after the pairs whose key is not greater. -/
def multimap_insert {α : Type} : List (Int × α) → Int → α → List (Int × α)
  | [], k, v => [(k, v)]
  | (k', v') :: rest, k, v =>
    if k' ≤ k then (k', v') :: multimap_insert rest k v
    else (k, v) :: (k', v') :: rest

/-! ### The objects that `Initialize` builds

The classes are declared outside the sources at hand; each constructor is taken
to store its arguments in the attributes that the spec lists for the class.  A
pointer to an object is held as the object. -/

/-- Modelled from the spec: the class `MutationType` (mutation_type.h is not
among the sources), with the attributes `[id, dominanceCoeff, dfeType,
dfeParameters]` that its constructor is given. -/
structure MutationType where
  mutation_type_id_ : Int
  dominance_coeff_ : Double
  dfe_type_ : Char
  dfe_parameters_ : List Double
  deriving DecidableEq, Repr, Inhabited

/-- Modelled from the spec: the class `GenomicElementType`, with the attributes
`[id, mutationTypes, mutationFractions]`. -/
structure GenomicElementType where
  genomic_element_type_id_ : Int
  mutation_types_ : List MutationType
  mutation_fractions_ : List Double
  deriving DecidableEq, Repr, Inhabited

/-- Modelled from the spec: the class `GenomicElement`, with the attributes
`[type, start, end]`. -/
structure GenomicElement where
  genomic_element_type_ : GenomicElementType
  start_position_ : Int
  end_position_ : Int
  deriving DecidableEq, Repr, Inhabited

/-- Modelled from the spec: the class `Chromosome`, a vector of genomic
elements (`elements`) with the members that `Initialize` writes. -/
structure Chromosome where
  elements : List GenomicElement
  mutation_types_ : List (Int × MutationType)
  genomic_element_types_ : List (Int × GenomicElementType)
  recombination_end_positions_ : List Int
  recombination_rates_ : List Double
  overall_mutation_rate_ : Double
  gene_conversion_fraction_ : Double
  gene_conversion_avg_length_ : Double
  deriving DecidableEq, Repr, Inhabited

/-- Modelled from the spec: the class `Event`, with the attributes `[kind,
parameters]`; the time is the key under which the event is stored. -/
structure Event where
  event_type_ : Char
  parameters_ : List CppString
  deriving DecidableEq, Repr, Inhabited

/-- Modelled from the spec: the class `IntroducedMutation`, with the attributes
`[mutationType, position, subpopID, generation, numAA, numAa]`. -/
structure IntroducedMutation where
  mutation_type_ptr_ : MutationType
  position_ : Int
  subpop_index_ : Int
  generation_ : Int
  num_AA_ : Int
  num_Aa_ : Int
  deriving DecidableEq, Repr, Inhabited

/-- Modelled from the spec: the class `PartialSweep`, with the attributes
`[mutationType, position, targetPrevalence]`. -/
structure PartialSweep where
  mutation_type_ptr_ : MutationType
  position_ : Int
  target_prevalence_ : Double
  deriving DecidableEq, Repr, Inhabited

/-- Modelled from the spec: the class `Mutation`, with the attributes `[type,
position, selectionCoeff, subpopID, originGeneration]` in the order of the
arguments of its constructor. -/
structure Mutation where
  mutation_type_ptr_ : MutationType
  position_ : Int
  selection_coeff_ : Double
  subpop_index_ : Int
  generation_ : Int
  deriving DecidableEq, Repr, Inhabited

/-- A genome: its mutations, in the order in which the vector holds them. -/
abbrev Genome := List Mutation

/-- Modelled from the spec: the class `Subpopulation`, of which the embedding
keeps the parent genomes. -/
structure Subpopulation where
  parent_genomes_ : List Genome
  deriving DecidableEq, Repr, Inhabited

/-- The class `Population`, a `std::map<int, Subpopulation*>`. -/
abbrev Population := List (Int × Subpopulation)

/-- Modelled from the spec: `Population::AddSubpopulation` (population.cpp is
not among the sources).  The spec gives a subpopulation of size N parent
genomes "as flat arrays of size 2N"; the embedding enters a subpopulation with
2N empty parent genomes under the id. -/
def AddSubpopulation (p : Population) (p_subpop_id : Int) (p_subpop_size : Int) : Population :=
  map_insert p p_subpop_id ⟨List.replicate (2 * p_subpop_size.toNat) []⟩

/-- Modelled from the spec: `Subpopulation::UpdateFitness` (subpopulation.cpp is
not among the sources), which fills the fitness cache; the genomes stay as they
are. -/
def UpdateFitness (s : Subpopulation) : Subpopulation := s

/-- Modelled from the spec: `Chromosome::InitializeDraws` (chromosome.cpp is not
among the sources), which "precomputes" the lookup tables for draws; the
members that `Initialize` has written stay as they are. -/
def InitializeDraws (c : Chromosome) : Chromosome := c

/-- How a run of `Initialize`, or of a part of it, ends. -/
inductive Outcome (α : Type) where
  /-- The code runs to its end. -/
  | ok (a : α)
  /-- A message is written to `cerr` and `exit(1)` is called. -/
  | exits (message : String)
  /-- The call `sub.at(0)` throws `std::out_of_range`, which nothing catches. -/
  | throws
  /-- The behaviour is undefined: a conversion to `int` out of range, an
  overflow of `int`, or an index outside a vector. -/
  | undefined
  /-- The code never ends. -/
  | hangs
  /-- The bound that the embedding puts on a loop over the tokens of a line was
  too small. -/
  | out_of_fuel
  deriving DecidableEq, Repr, Inhabited

/-- Sequencing: the second part runs when the first has run to its end. -/
def Outcome.bind {α β : Type} (r : Outcome α) (f : α → Outcome β) : Outcome β :=
  match r with
  | .ok a => f a
  | .exits m => .exits m
  | .throws => .throws
  | .undefined => .undefined
  | .hangs => .hangs
  | .out_of_fuel => .out_of_fuel

/-- The value of an `int` expression whose behaviour may be undefined. -/
def Outcome.ofInt (v : Option Int) : Outcome Int :=
  match v with
  | some i => .ok i
  | none => .undefined

/-- The variables that `Initialize` works on: the objects it is given by
reference and its local `seed`. -/
structure Simulation where
  p_population : Population
  p_chromosome : Chromosome
  p_time_start : Int
  p_time_duration : Int
  p_events : List (Int × Event)
  p_outputs : List (Int × Event)
  p_introduced_mutations : List (Int × IntroducedMutation)
  p_partial_sweeps : List PartialSweep
  p_parameters : List CppString
  seed : Int
  deriving DecidableEq, Repr, Inhabited

/-- The loop `while (iss >> sub) out.push_back(sub)`: the tokens read, and the
stream and `sub` as the loop leaves them; `none` when the bound is too small. -/
def read_tokens : Nat → IStringStream → CppString →
    Option (List CppString × IStringStream × CppString)
  | 0, _, _ => none
  | fuel + 1, iss, sub =>
    let r := iss.extract sub
    if r.1.failbit then some ([], r.1, r.2)
    else (read_tokens fuel r.1 r.2).map (fun t => (r.2 :: t.1, t.2))

/-! ### `InitializePopulationFromFile` -/

instance : Monad Outcome where
  pure := Outcome.ok
  bind := Outcome.bind

/-- The row of a subpopulation in the section `Populations` of a dump:
`p<id> <size>`. -/
def subpopulation_row (pop : Population) (sub line : CppString) :
    Outcome (Population × CppString) := do
  let r := (IStringStream.open line).extract sub
  let sub := r.2.drop 1
  let i ← Outcome.ofInt (atoi sub)
  let r := r.1.extract sub
  let n ← Outcome.ofInt (atoi r.2)
  pure (AddSubpopulation pop i n, r.2)

/-- The row of a mutation in the section `Mutations` of a dump:
`<id> m<type> <position> <s> <h> p<subpop> <generation>`.  The mutation is
entered in the map `M` under its id. -/
def mutation_row (c : Chromosome) (M : List (Int × Mutation)) (sub line : CppString) :
    Outcome (List (Int × Mutation) × CppString) := do
  let r := (IStringStream.open line).extract sub
  let id ← Outcome.ofInt (atoi r.2)
  let r := r.1.extract r.2
  let sub := r.2.drop 1
  let t ← Outcome.ofInt (atoi sub)
  let r := r.1.extract sub
  let x0 ← Outcome.ofInt (atoi r.2)
  let x ← Outcome.ofInt (int_pred x0)
  let r := r.1.extract r.2
  let s := atof r.2
  let r := r.1.extract r.2
  let r := r.1.extract r.2
  let sub := r.2.drop 1
  let i ← Outcome.ofInt (atoi sub)
  let r := r.1.extract sub
  let g ← Outcome.ofInt (atoi r.2)
  match map_find c.mutation_types_ t with
  | none =>
    Outcome.exits ("ERROR (InitializePopulationFromFile): mutation type m" ++ toString t ++
      " has not been defined")
  | some mutation_type_ptr =>
    pure (map_insert M id ⟨mutation_type_ptr, x, s, i, g⟩, r.2)

/-- The statement `parent_genomes_[index].push_back(mutation)`; `none` when the
index is outside the vector. -/
def push_mutation (s : Subpopulation) (index : Int) (m : Mutation) : Option Subpopulation :=
  if 0 ≤ index ∧ index.toNat < s.parent_genomes_.length then
    some ⟨s.parent_genomes_.modify (fun g => g ++ [m]) index.toNat⟩
  else none

/-- The loop `while (iss >> sub)` of a genome row: each token names a mutation,
which is appended to genome `i - 1` of subpopulation `p`. -/
def genome_loop (M : List (Int × Mutation)) (p i : Int) :
    Nat → Population → IStringStream → CppString → Outcome (Population × CppString)
  | 0, _, _, _ => .out_of_fuel
  | fuel + 1, pop, iss, sub =>
    let r := iss.extract sub
    if r.1.failbit then .ok (pop, r.2)
    else
      match atoi r.2 with
      | none => .undefined
      | some id =>
        match map_find pop p with
        | none =>
          .exits ("ERROR (InitializePopulationFromFile): subpopulation p" ++ toString p ++
            " has not been defined")
        | some subpop =>
          match map_find M id with
          | none =>
            .exits ("ERROR (InitializePopulationFromFile): mutation " ++ toString id ++
              " has not been defined")
          | some mutation =>
            match (int_pred i).bind (fun index => push_mutation subpop index mutation) with
            | none => .undefined
            | some subpop' =>
              genome_loop M p i fuel
                (pop.map (fun e => if e.1 = p then (e.1, subpop') else e)) r.1 r.2

/-- The row of a genome in the section `Genomes` of a dump:
`p<subpop>:<i> <mutation id> ...`. -/
def genome_row (pop : Population) (M : List (Int × Mutation)) (sub line : CppString) :
    Outcome (Population × CppString) := do
  let r := (IStringStream.open line).extract sub
  let sub := r.2.drop 1
  let pos : Int := if ':' ∈ sub then toInt32 (sub.indexOf ':') else -1
  let count := to_size_t (← Outcome.ofInt (int_succ pos))
  let p ← Outcome.ofInt (atoi (sub.take count))
  let sub := sub.drop count
  let i ← Outcome.ofInt (atoi sub)
  genome_loop M p i (line.length + 1) pop r.1 sub

/-- The loop `while (!infile.eof())` over the rows of the section `Genomes`. -/
def load_genomes (M : List (Int × Mutation)) (pop : Population) (sub : CppString) :
    List CppString → Outcome (Population × CppString)
  | [] => .ok (pop, sub)
  | raw :: lines =>
    (genome_row pop M sub (sanitize raw)).bind (fun r => load_genomes M r.1 r.2 lines)

/-- The loop over the rows of the section `Mutations`, up to the line that
contains `Genomes`, followed by the rest of the function. -/
def load_mutations (c : Chromosome) (pop : Population) (M : List (Int × Mutation))
    (sub : CppString) : List CppString → Outcome (Population × CppString)
  | [] => .ok (pop, sub)
  | raw :: lines =>
    if has_substr "Genomes".toList (sanitize raw) then load_genomes M pop sub lines
    else (mutation_row c M sub (sanitize raw)).bind (fun r => load_mutations c pop r.1 r.2 lines)

/-- The loop over the rows of the section `Populations`, up to the line that
contains `Mutations`, followed by the rest of the function. -/
def load_subpopulations (c : Chromosome) (pop : Population) (sub : CppString) :
    List CppString → Outcome (Population × CppString)
  | [] => .ok (pop, sub)
  | raw :: lines =>
    if has_substr "Mutations".toList (sanitize raw) then load_mutations c pop [] sub lines
    else (subpopulation_row pop sub (sanitize raw)).bind
      (fun r => load_subpopulations c r.1 r.2 lines)

/-- The loop that looks for the line that contains `Populations`, followed by
the rest of the function. -/
def seek_populations (c : Chromosome) (pop : Population) :
    List CppString → Outcome (Population × CppString)
  | [] => .ok (pop, [])
  | raw :: lines =>
    if has_substr "Populations".toList (sanitize raw) then load_subpopulations c pop [] lines
    else seek_populations c pop lines

/-- Function `InitializePopulationFromFile`.  `files` gives the files by name;
as in `CheckInputFile`, the loops look at the complete lines of the file and
end when `getline` reaches its end. -/
def InitializePopulationFromFile (files : CppString → Option InputFile) (p_population : Population)
    (p_file : CppString) (p_chromosome : Chromosome) : Outcome Population :=
  match files p_file with
  | none => .exits "ERROR (Initialize): could not open initialization file"
  | some infile =>
    (seek_populations p_chromosome p_population infile.lines).bind
      (fun r => .ok (r.1.map (fun e => (e.1, UpdateFitness e.2))))

/-! ### `Initialize` -/

/-- The loop `while (iss >> sub)` of a `#GENOMIC ELEMENT TYPES` row: a mutation
type `m<id>`, which must be defined, and after it a fraction. -/
def element_type_loop (c : Chromosome) :
    Nat → IStringStream → CppString → List MutationType → List Double →
      Outcome (List MutationType × List Double × CppString)
  | 0, _, _, _, _ => .out_of_fuel
  | fuel + 1, iss, sub, mutation_types, mutation_fractions =>
    let r := iss.extract sub
    if r.1.failbit then .ok (mutation_types, mutation_fractions, r.2)
    else
      match atoi (r.2.drop 1) with
      | none => .undefined
      | some mutation_type_id =>
        match map_find c.mutation_types_ mutation_type_id with
        | none =>
          .exits ("ERROR (Initialize): mutation type m" ++ toString mutation_type_id ++
            " not defined")
        | some mutation_type_ptr =>
          let r := r.1.extract (r.2.drop 1)
          element_type_loop c fuel r.1 r.2 (mutation_types ++ [mutation_type_ptr])
            (mutation_fractions ++ [atof r.2])

/-- The loop `while (iss >> sub)` that ends a `#PREDETERMINED MUTATIONS` row:
after a token that contains `P`, the next token is a target prevalence. -/
def partial_sweep_loop (mutation_type_ptr : MutationType) (position : Int) :
    Nat → IStringStream → CppString → List PartialSweep → Option (List PartialSweep × CppString)
  | 0, _, _, _ => none
  | fuel + 1, iss, sub, sweeps =>
    let r := iss.extract sub
    if r.1.failbit then some (sweeps, r.2)
    else if r.2.contains 'P' then
      let r := r.1.extract r.2
      partial_sweep_loop mutation_type_ptr position fuel r.1 r.2
        (sweeps ++ [⟨mutation_type_ptr, position, atof r.2⟩])
    else partial_sweep_loop mutation_type_ptr position fuel r.1 r.2 sweeps

/-- The header that `Initialize` records in `p_parameters` when it enters a
section; none for `#SEED`, which is recorded at the end. -/
def ParameterSection.header (s : ParameterSection) : List CppString :=
  match s with
  | .SEED => []
  | s => [('#' :: s.keyword)]

/-- The body of a row of a section in `Initialize`, from `istringstream
iss(line)` on: the variables as the row leaves them, and `sub`. -/
def initialize_row (files : CppString → Option InputFile) (s : ParameterSection)
    (sim : Simulation) (sub line : CppString) : Outcome (Simulation × CppString) :=
  let r := (IStringStream.open line).extract sub
  match s with
  | .MUTATION_RATE =>
    .ok ({ sim with
      p_chromosome := { sim.p_chromosome with overall_mutation_rate_ := atof r.2 } }, r.2)
  | .MUTATION_TYPES => do
    let map_identifier ← Outcome.ofInt (atoi (r.2.drop 1))
    if (map_find sim.p_chromosome.mutation_types_ map_identifier).isSome then
      Outcome.exits ("ERROR (Initialize): mutation type " ++ toString map_identifier ++
        " already defined")
    else
      let r := r.1.extract (r.2.drop 1)
      let dominance_coeff := atof r.2
      let r := r.1.extract r.2
      match r.2 with
      | [] => Outcome.throws
      | dfe_type :: _ =>
        match read_tokens (line.length + 1) r.1 r.2 with
        | none => Outcome.out_of_fuel
        | some t =>
          let new_mutation_type : MutationType :=
            ⟨map_identifier, dominance_coeff, dfe_type, t.1.map atof⟩
          let mutation_types := map_insert sim.p_chromosome.mutation_types_ map_identifier
            new_mutation_type
          pure ({ sim with
            p_chromosome := { sim.p_chromosome with mutation_types_ := mutation_types } }, t.2.2)
  | .GENOMIC_ELEMENT_TYPES => do
    let map_identifier ← Outcome.ofInt (atoi (r.2.drop 1))
    let t ← element_type_loop sim.p_chromosome (line.length + 1) r.1 (r.2.drop 1) [] []
    if (map_find sim.p_chromosome.genomic_element_types_ map_identifier).isSome then
      Outcome.exits ("ERROR (Initialize): genomic element type " ++ toString map_identifier ++
        " already defined")
    else
      let new_genomic_element_type : GenomicElementType := ⟨map_identifier, t.1, t.2.1⟩
      let genomic_element_types := map_insert sim.p_chromosome.genomic_element_types_
        map_identifier new_genomic_element_type
      pure ({ sim with
        p_chromosome :=
          { sim.p_chromosome with genomic_element_types_ := genomic_element_types } }, t.2.2)
  | .CHROMOSOME_ORGANIZATION => do
    let genomic_element_type ← Outcome.ofInt (atoi (r.2.drop 1))
    let r := r.1.extract (r.2.drop 1)
    let start_position ← Outcome.ofInt ((static_cast_int (atof r.2)).bind int_pred)
    let r := r.1.extract r.2
    let end_position ← Outcome.ofInt ((static_cast_int (atof r.2)).bind int_pred)
    match map_find sim.p_chromosome.genomic_element_types_ genomic_element_type with
    | none =>
      Outcome.exits ("ERROR (Initialize): genomic element type m" ++
        toString genomic_element_type ++ " not defined")
    | some genomic_element_type_ptr =>
      let new_genomic_element : GenomicElement :=
        ⟨genomic_element_type_ptr, start_position, end_position⟩
      pure ({ sim with
        p_chromosome := { sim.p_chromosome with
          elements := sim.p_chromosome.elements ++ [new_genomic_element] } }, r.2)
  | .RECOMBINATION_RATE => do
    let recombination_end_position ←
      Outcome.ofInt ((static_cast_int (atof r.2)).bind int_pred)
    let r := r.1.extract r.2
    pure ({ sim with
      p_chromosome := { sim.p_chromosome with
        recombination_end_positions_ :=
          sim.p_chromosome.recombination_end_positions_ ++ [recombination_end_position],
        recombination_rates_ := sim.p_chromosome.recombination_rates_ ++ [atof r.2] } }, r.2)
  | .GENE_CONVERSION =>
    let gene_conversion_fraction := atof r.2
    let r := r.1.extract r.2
    .ok ({ sim with
      p_chromosome := { sim.p_chromosome with
        gene_conversion_fraction_ := gene_conversion_fraction,
        gene_conversion_avg_length_ := atof r.2 } }, r.2)
  | .GENERATIONS => do
    let p_time_duration ← Outcome.ofInt (static_cast_int (atof r.2))
    let r := r.1.extract r.2
    if !r.1.failbit then
      let p_time_start ← Outcome.ofInt (static_cast_int (atof r.2))
      pure ({ sim with p_time_duration := p_time_duration, p_time_start := p_time_start }, r.2)
    else
      pure ({ sim with p_time_duration := p_time_duration, p_time_start := 1 }, r.2)
  | .DEMOGRAPHY_AND_STRUCTURE => do
    let event_time ← Outcome.ofInt (static_cast_int (atof r.2))
    let r := r.1.extract r.2
    match r.2 with
    | [] => Outcome.throws
    | event_type :: _ =>
      match read_tokens (line.length + 1) r.1 r.2 with
      | none => Outcome.out_of_fuel
      | some t =>
        let new_event : Event := ⟨event_type, t.1.map c_str⟩
        pure ({ sim with p_events := multimap_insert sim.p_events event_time new_event }, t.2.2)
  | .OUTPUT => do
    let event_time ← Outcome.ofInt (static_cast_int (atof r.2))
    let r := r.1.extract r.2
    match r.2 with
    | [] => Outcome.throws
    | event_type :: _ =>
      match read_tokens (line.length + 1) r.1 r.2 with
      | none => Outcome.out_of_fuel
      | some t =>
        let new_event : Event := ⟨event_type, t.1.map c_str⟩
        pure ({ sim with p_outputs := multimap_insert sim.p_outputs event_time new_event }, t.2.2)
  | .PREDETERMINED_MUTATIONS => do
    let generation ← Outcome.ofInt (static_cast_int (atof r.2))
    let r := r.1.extract r.2
    let mutation_type_id ← Outcome.ofInt (atoi (r.2.drop 1))
    let r := r.1.extract (r.2.drop 1)
    let position ← Outcome.ofInt ((static_cast_int (atof r.2)).bind int_pred)
    let r := r.1.extract r.2
    let subpop_index ← Outcome.ofInt (atoi (r.2.drop 1))
    let r := r.1.extract (r.2.drop 1)
    let num_AA ← Outcome.ofInt (static_cast_int (atof r.2))
    let r := r.1.extract r.2
    let num_Aa ← Outcome.ofInt (static_cast_int (atof r.2))
    match map_find sim.p_chromosome.mutation_types_ mutation_type_id with
    | none =>
      Outcome.exits ("ERROR (Initialize): mutation type m" ++ toString mutation_type_id ++
        " not defined")
    | some mutation_type_ptr =>
      match partial_sweep_loop mutation_type_ptr position (line.length + 1) r.1 r.2 [] with
      | none => Outcome.out_of_fuel
      | some t =>
        let new_introduced_mutation : IntroducedMutation :=
          ⟨mutation_type_ptr, position, subpop_index, generation, num_AA, num_Aa⟩
        pure ({ sim with
          p_introduced_mutations :=
            multimap_insert sim.p_introduced_mutations generation new_introduced_mutation,
          p_partial_sweeps := sim.p_partial_sweeps ++ t.1 }, t.2)
  | .SEED => do
    let seed ← Outcome.ofInt (atoi r.2)
    pure ({ sim with seed := seed }, r.2)
  | .INITIALIZATION => do
    let pop ← InitializePopulationFromFile files sim.p_population (c_str r.2) sim.p_chromosome
    pure ({ sim with p_population := pop }, r.2)

/-- The statement `p_parameters.push_back(line)` of a row; the rows of `#SEED`
are not recorded. -/
def record_row (s : ParameterSection) (sim : Simulation) (line : CppString) : Simulation :=
  match s with
  | .SEED => sim
  | _ => { sim with p_parameters := sim.p_parameters ++ [line] }

/-- The main loop of `Initialize`, entered at a call of `GetInputLine`, in the
manner of `check_lines`.  A line that contains `#` and the keyword of a section
records the header and enters the section; a line that contains `#` and no
keyword is tested again and again, since nothing reads the next line. -/
def initialize_lines (files : CppString → Option InputFile) (current : Option ParameterSection)
    (sub : CppString) (sim : Simulation) : List CppString → Outcome (Simulation × CppString)
  | [] => .ok (sim, sub)
  | raw :: lines =>
    let line := sanitize raw
    if line.contains '#' then
      match find_section line with
      | some s =>
        initialize_lines files (some s) sub
          { sim with p_parameters := sim.p_parameters ++ s.header } lines
      | none => .hangs
    else
      match current with
      | none => initialize_lines files none sub sim lines
      | some s =>
        if line.length = 0 then initialize_lines files (some s) sub sim lines
        else
          (initialize_row files s (record_row s sim line) sub line).bind
            (fun r => initialize_lines files (some s) r.2 r.1 lines)

/-- What `Initialize` leaves: the variables it was given by reference, and the
seed with which it calls `InitializeRNGFromSeed`. -/
structure Initialized where
  sim : Simulation
  rng_seed : Int
  deriving DecidableEq, Repr, Inhabited

/-- Function `Initialize`.  `sim` holds the objects given by reference as they are
on entry, with `sim.seed` the value of `GenerateSeedFromPIDAndTime()`.  The
output to `cout` is not part of the embedding.  On a file that cannot be opened
`getline` fails without ever setting `eofbit`, so the loop `while
(!infile.eof())` never ends. -/
def Initialize (files : CppString → Option InputFile) (sim : Simulation)
    (p_input_file : CppString) (p_override_seed : Option Int) : Outcome Initialized :=
  match files p_input_file with
  | none => .hangs
  | some infile =>
    (initialize_lines files none [] sim infile.lines).bind (fun r =>
      let sim := { r.1 with p_chromosome := InitializeDraws r.1.p_chromosome }
      let seed := match p_override_seed with
        | some s => s
        | none => sim.seed
      .ok ⟨{ sim with
              seed := seed,
              p_parameters := sim.p_parameters ++ ["#SEED".toList, int_text seed] }, seed⟩)

/-- The objects before `Initialize`: nothing defined, and `seed` as generated. -/
def Simulation.empty (generated_seed : Int) : Simulation :=
  { p_population := [],
    p_chromosome := ⟨[], [], [], [], [], .decimal false 0 0, .decimal false 0 0,
      .decimal false 0 0⟩,
    p_time_start := 0,
    p_time_duration := 0,
    p_events := [],
    p_outputs := [],
    p_introduced_mutations := [],
    p_partial_sweeps := [],
    p_parameters := [],
    seed := generated_seed }

/-- A file system that holds one file. -/
def one_file (name : CppString) (f : InputFile) : CppString → Option InputFile :=
  fun n => if n = name then some f else none

/-! ### Integer tokens, used to state properties of `Initialize` -/

/-- The number that a token denotes in a parameter file: a run of digits, or a
run of digits, `e` and a run of digits (`1e4` denotes 10000); none for any other
token. -/
def token_value (t : CppString) : Option Nat :=
  match t.dropWhile isdigit with
  | [] => if t = [] then none else some (digits_value t)
  | c :: es =>
    if c = 'e' ∧ t.takeWhile isdigit ≠ [] ∧ es ≠ [] ∧ es.all isdigit then
      some (digits_value (t.takeWhile isdigit) * 10 ^ digits_value es)
    else none

/-- An integer token: a token that denotes the number `v`, which is an `int`. -/
def is_integer_token (t : CppString) (v : Nat) : Prop :=
  token_value t = some v ∧ v < 2147483648

instance (t : CppString) (v : Nat) : Decidable (is_integer_token t v) := by
  unfold is_integer_token; infer_instance

/-- A token made of digits only that denotes the number `v`, which is an
`int`. -/
def is_digits_token (t : CppString) (v : Nat) : Prop :=
  is_word "1234567890" t ∧ digits_value t = v ∧ v < 2147483648

instance (t : CppString) (v : Nat) : Decidable (is_digits_token t v) := by
  unfold is_digits_token; infer_instance

/-- The end position that `Initialize` stores for a `#RECOMBINATION RATE` row
that has a first token: `static_cast<int>(atof(token)) - 1`. -/
def end_position_of (row : CppString) : Option Int :=
  (static_cast_int (atof (token_at 0 row))).bind int_pred

/-- What a run has produced, when it has run to its end. -/
def Outcome.result {α : Type} : Outcome α → Option α
  | .ok a => some a
  | _ => none

/-- A complete parameter file whose `#RECOMBINATION RATE` rows are `2000 1e-8`
and `1000 1e-8`, in this order. -/
def decreasing_recombination_file : InputFile :=
  InputFile.ofChars ("#MUTATION RATE\n1e-8\n#MUTATION TYPES\nm1 0.5 f 0.0\n" ++
    "#GENOMIC ELEMENT TYPES\ng1 m1 1.0\n#CHROMOSOME ORGANIZATION\ng1 1 1000\n" ++
    "#RECOMBINATION RATE\n2000 1e-8\n1000 1e-8\n#GENERATIONS\n10\n" ++
    "#DEMOGRAPHY AND STRUCTURE\n1 P p1 100\n").toList

/-- The stream over a line after `k` of its tokens have been read. -/
def stream_at (line : CppString) (k : Nat) : IStringStream :=
  ⟨rest_after k line, (rest_after k line).isEmpty, false⟩

/-- A state of the objects in which the mutation types `m1` and `m7` and the
genomic element type `g1` are defined. -/
def example_simulation : Simulation :=
  { Simulation.empty 0 with
    p_chromosome := { (Simulation.empty 0).p_chromosome with
      mutation_types_ := [(1, ⟨1, .decimal false 5 (-1), 'f', [.decimal false 0 0]⟩),
        (7, ⟨7, .decimal false 5 (-1), 'f', [.decimal false 0 0]⟩)],
      genomic_element_types_ := [(1, ⟨1, [], []⟩)] } }

/-- What a run has produced; a default value when it has not run to its end. -/
def Outcome.get {α : Type} [Inhabited α] : Outcome α → α
  | .ok a => a
  | _ => default
/-! ### The seed and the recorded parameters -/

/-- What the lines of a parameter file contribute to `p_parameters`, stated from
the structure of the file: the text `#KEYWORD` for each header of a section
other than `#SEED`, and each row of such a section, in the order of the file
(up to a line with `#` and no keyword, which `Initialize` never gets past). -/
def recorded_lines (current : Option ParameterSection) : List CppString → List CppString
  | [] => []
  | raw :: lines =>
    if (sanitize raw).contains '#' then
      match find_section (sanitize raw) with
      | some s =>
        (if s = .SEED then [] else [('#' :: s.keyword)]) ++ recorded_lines (some s) lines
      | none => []
    else
      match current with
      | none => recorded_lines none lines
      | some s =>
        if sanitize raw = [] then recorded_lines (some s) lines
        else (if s = .SEED then [] else [sanitize raw]) ++ recorded_lines (some s) lines

/-- The seed that a file asks for: the value that `atoi` reads from the first
token of its last `#SEED` row, and the generated seed when it has no such row
(`none` when that token is outside the range of `int`). -/
def file_seed (generated_seed : Int) (f : InputFile) : Option Int :=
  match (f.rows .SEED).getLast? with
  | none => some generated_seed
  | some row => atoi (token_at 0 row)

/-- A parameter file with two `#SEED` rows. -/
def two_seeds_file : InputFile :=
  { lines := ["#MUTATION RATE", "1e-8", "#SEED", "17", "#GENERATIONS", "10", "#SEED", "42"].map
      String.toList,
    last := [] }

/-! ### Events -/

/-- The tokens of a line from token `k` on, at most `bound` of them. -/
def tokens_from : Nat → Nat → CppString → List CppString
  | 0, _, _ => []
  | bound + 1, k, line =>
    if token_at k line = [] then [] else token_at k line :: tokens_from bound (k + 1) line

/-- The tokens of a row after its first two (a line has fewer tokens than
characters, so the bound leaves none out). -/
def row_parameters (row : CppString) : List CppString :=
  tokens_from (row.length + 1) 2 row

/-- The event that a row `<time> <kind> [parameters]` stands for: the time read
from the first token, the first letter of the second token, and the remaining
tokens (each up to a NUL character, should it hold one).  `none` when the row
has no second token or the time is outside the range of `int`. -/
def event_of_row (row : CppString) : Option (Int × Event) :=
  match static_cast_int (atof (token_at 0 row)), token_at 1 row with
  | some t, kind :: _ => some (t, ⟨kind, (row_parameters row).map c_str⟩)
  | _, _ => none

/-- A parameter file with several events in one generation. -/
def events_file : InputFile :=
  { lines := ["#MUTATION RATE", "1e-8", "#MUTATION TYPES", "m1 0.5 f 0.0",
      "#GENOMIC ELEMENT TYPES", "g1 m1 1.0", "#CHROMOSOME ORGANIZATION", "g1 1 1000",
      "#RECOMBINATION RATE", "1000 1e-8", "#GENERATIONS", "100",
      "#DEMOGRAPHY AND STRUCTURE", "1 P p1 100", "5 N p1 50", "1 S p1 0.1", "1 P p2 10 p1",
      "#OUTPUT", "5 A out.txt", "5 R p1 10", "2 F"].map String.toList,
    last := [] }

/-! ### Genomes of a dump -/

/-- Genome `j` (counted from 0) of subpopulation `p`. -/
def genome_at (pop : Population) (p : Int) (j : Nat) : Option Genome :=
  (map_find pop p).bind (fun s => s.parent_genomes_[j]?)

/-- The mutations that a list of tokens names, looked up in the map `M` of a
dump by the id that `atoi` reads from each token. -/
def lookup_all (M : List (Int × Mutation)) : List CppString → Option (List Mutation)
  | [] => some []
  | t :: ts =>
    match (atoi t).bind (map_find M), lookup_all M ts with
    | some m, some ms => some (m :: ms)
    | _, _ => none

/-- The subpopulation `p` and the genome number `i` that the first token
`p<p>:<i>` of a genome row names, as the row reads them. -/
def genome_of_row (row : CppString) : Option (Int × Int) :=
  let sub := (token_at 0 row).drop 1
  let pos : Int := if ':' ∈ sub then toInt32 (sub.indexOf ':') else -1
  match int_succ pos with
  | none => none
  | some count =>
    match atoi (sub.take (to_size_t count)), atoi (sub.drop (to_size_t count)) with
    | some p, some i => some (p, i)
    | _, _ => none

/-- The positions of the mutations of each parent genome of each
subpopulation. -/
def genome_positions (pop : Population) : List (List (List Int)) :=
  pop.map (fun e => e.2.parent_genomes_.map (fun g => g.map (fun m => m.position_)))

/-- The invariant of a genome: its mutations are in non-decreasing order of
position. -/
def genome_sorted (g : Genome) : Prop :=
  g.Pairwise (fun a b => a.position_ ≤ b.position_)

instance (g : Genome) : Decidable (genome_sorted g) := by
  unfold genome_sorted
  infer_instance

/-- A population dump whose first genome names mutation 1, at position 500,
before mutation 2, at position 100. -/
def unsorted_dump : InputFile :=
  { lines := ["#OUT: 10 A", "Populations:", "p1 1", "Mutations:", "1 m1 500 0.0 0.5 p1 1",
      "2 m1 100 0.0 0.5 p1 1", "Genomes:", "p1:1 1 2", "p1:2 2"].map String.toList,
    last := [] }

/-! ### Referential integrity -/

/-- The messages with which `Initialize` reports an id that is defined twice or
is not defined. -/
def definition_error (msg : String) : Prop :=
  ∃ id : Int,
    msg = "ERROR (Initialize): mutation type " ++ toString id ++ " already defined" ∨
    msg = "ERROR (Initialize): genomic element type " ++ toString id ++ " already defined" ∨
    msg = "ERROR (Initialize): mutation type m" ++ toString id ++ " not defined" ∨
    msg = "ERROR (Initialize): genomic element type m" ++ toString id ++ " not defined"

/-- A run ends in one of three ways: it runs to its end, or it exits with a
message of the kind `P`, or an integer read from the file is out of range (the
behaviour of the source is then undefined). -/
def Outcome.ends_well {α : Type} (P : String → Prop) : Outcome α → Prop
  | .ok _ => True
  | .undefined => True
  | .exits m => P m
  | _ => False

/-- Modelled from the spec: a float of the script language (class
`ScriptValue_Float` is missing), taken as the decimal fraction `units /
10 ^ places` with exact arithmetic; rounding is not part of the embedding.  In
normal form `places` is 0 or `units` does not end in 0, so that equal values
are equal terms. -/
structure Decimal where
  units : Int
  places : Nat
  deriving DecidableEq, Repr, Inhabited

/-- The normal form of `units / 10 ^ places`. -/
def Decimal.strip : Nat → Int → Decimal
  | 0, u => ⟨u, 0⟩
  | p + 1, u => if u % 10 = 0 then Decimal.strip p (u / 10) else ⟨u, p + 1⟩

/-- The float that an integer converts to. -/
def Decimal.ofInt (i : Int) : Decimal := ⟨i, 0⟩

/-- The numerator of a value over `10 ^ p`, for `p` not less than its places. -/
def Decimal.scaled (d : Decimal) (p : Nat) : Int := d.units * 10 ^ (p - d.places)

/-- The sum of two floats. -/
def Decimal.add (a b : Decimal) : Decimal :=
  Decimal.strip (max a.places b.places)
    (a.scaled (max a.places b.places) + b.scaled (max a.places b.places))

/-- The negative of a float. -/
def Decimal.neg (a : Decimal) : Decimal := ⟨-a.units, a.places⟩

/-- The difference of two floats. -/
def Decimal.sub (a b : Decimal) : Decimal := Decimal.add a (Decimal.neg b)

/-- The order of the floats. -/
def Decimal.lt (a b : Decimal) : Prop :=
  a.scaled (max a.places b.places) < b.scaled (max a.places b.places)

instance : LT Decimal := ⟨Decimal.lt⟩

instance (a b : Decimal) : Decidable (a < b) := by
  show Decidable (Decimal.lt a b)
  unfold Decimal.lt
  infer_instance

/-- The rational number that a float stands for. -/
def Decimal.value (d : Decimal) : ℚ := (d.units : ℚ) / (10 : ℚ) ^ d.places

/-- The digits of a natural number, padded with zeros on the left to a given
width. -/
def padded_digits (width n : Nat) : CppString :=
  List.replicate (width - (Nat.repr n).length) '0' ++ (Nat.repr n).toList

/-- Modelled from the spec: the printed form of a float (the stream output of
`ScriptValue_Float` is missing), as the tests show it: `5.0` prints as `5` and
`5.1` as `5.1`.  Every value is printed in full; the rounding to six digits and
the exponent form of a stream are not part of the embedding. -/
def float_text (d : Decimal) : CppString :=
  if d.places = 0 then int_text d.units
  else
    (if d.units < 0 then ['-'] else []) ++
      (Nat.repr (d.units.natAbs / 10 ^ d.places)).toList ++ ['.'] ++
      padded_digits d.places (d.units.natAbs % 10 ^ d.places)

/-- Modelled from the spec: a value of the script language (class `ScriptValue`
and its subclasses are missing), "a tagged, length-carrying vector with type in
NULL, logical, integer, float, string, object".  Objects take no part in the
operators and functions modelled here and are left out. -/
inductive ScriptValue where
  | null
  | logical (v : List Bool)
  | int (v : List Int)
  | float (v : List Decimal)
  | string (v : List CppString)
  deriving DecidableEq, Repr, Inhabited

/-- Modelled from the spec: the length of a value (`Count()`); `NULL` has length
0. -/
def ScriptValue.Count : ScriptValue → Nat
  | .null => 0
  | .logical v => v.length
  | .int v => v.length
  | .float v => v.length
  | .string v => v.length

/-- The place of a type in the order of promotion: NULL, logical, integer,
float, string. -/
def ScriptValue.rank : ScriptValue → Nat
  | .null => 0
  | .logical _ => 1
  | .int _ => 2
  | .float _ => 3
  | .string _ => 4

/-- The printed form of a logical: `T` or `F`. -/
def logical_text (b : Bool) : CppString := if b then ['T'] else ['F']

/-- Modelled from the spec: the printed forms of the elements of a value, which
`+` concatenates with a string (the tests: `"foo"+5` is `foo5`, `5.1+"foo"` is
`5.1foo`, `c("bar","baz")+T` is `barT`, `bazT`). -/
def ScriptValue.texts : ScriptValue → List CppString
  | .null => []
  | .logical v => v.map logical_text
  | .int v => v.map int_text
  | .float v => v.map float_text
  | .string v => v

/-- The integers that a logical or integer value stands for ("logical in +, -
with numerics coerces to 0/1"). -/
def ScriptValue.ints : ScriptValue → List Int
  | .logical v => v.map (fun b => if b then 1 else 0)
  | .int v => v
  | _ => []

/-- The floats that a logical, integer or float value stands for. -/
def ScriptValue.floats : ScriptValue → List Decimal
  | .float v => v
  | x => x.ints.map Decimal.ofInt

/-- Modelled from the spec: "both operands must be length-1 or equal-length; a
length-1 operand broadcasts".  The operation is applied element by element to
operands of equal length, and to each element of one operand and the single
element of the other; `none` (a raise) for any other pair of lengths. -/
def broadcast {α β γ : Type} (f : α → β → γ) (a : List α) (b : List β) : Option (List γ) :=
  if a.length = b.length then some (List.zipWith f a b)
  else
    match a, b with
    | [x], _ => some (b.map (f x))
    | _, [y] => some (a.map (fun x => f x y))
    | _, _ => none

/-- The lengths for which an elementwise operation is defined. -/
def compatible (m n : Nat) : Prop := m = n ∨ m = 1 ∨ n = 1

instance (m n : Nat) : Decidable (compatible m n) := by
  unfold compatible
  infer_instance

/-- Modelled from the spec: arithmetic of the numeric types (operators `+` and
`-` of the interpreter are missing).  "integer+float gives float; logical in +,
- with numerics coerces to 0/1; + and - on pure logicals fail".  With `NULL`
the result is `NULL` when the lengths allow the operation; the tests have
`NULL+(0:2)` raise. -/
def arithmetic (fi : Int → Int → Int) (ff : Decimal → Decimal → Decimal)
    (a b : ScriptValue) : Option ScriptValue :=
  if a.rank = 4 ∨ b.rank = 4 then none
  else if a.rank = 0 ∨ b.rank = 0 then
    if a.rank = 1 ∨ b.rank = 1 then none
    else if compatible a.Count b.Count then some .null else none
  else if a.rank = 1 ∧ b.rank = 1 then none
  else if a.rank = 3 ∨ b.rank = 3 then (broadcast ff a.floats b.floats).map .float
  else (broadcast fi a.ints b.ints).map .int

/-- Modelled from the spec: the binary operator `+`.  "anything+string gives
string (component-wise concat)", of the printed forms in the order of the
operands; otherwise the sum of numbers. -/
def plus (a b : ScriptValue) : Option ScriptValue :=
  if a.rank = 4 ∨ b.rank = 4 then
    (broadcast (fun x y => x ++ y) a.texts b.texts).map .string
  else arithmetic (fun x y => x + y) Decimal.add a b

/-- Modelled from the spec: the binary operator `-`; the tests have `"foo"-1`
raise. -/
def minus (a b : ScriptValue) : Option ScriptValue :=
  arithmetic (fun x y => x - y) Decimal.sub a b

/-- Modelled from the spec: the unary operators: unary `+` and `-` require a numeric operand. -/
def unary (fi : Int → Int) (ff : Decimal → Decimal) : ScriptValue → Option ScriptValue
  | .int v => some (.int (v.map fi))
  | .float v => some (.float (v.map ff))
  | _ => none

/-- The six relational operators. -/
inductive Comparison where
  | eq
  | ne
  | lt
  | le
  | gt
  | ge
  deriving DecidableEq, Repr, Inhabited

/-- The truth of a comparison of two elements. -/
def Comparison.test {α : Type} [DecidableEq α] [LT α] [DecidableRel (fun a b : α => a < b)]
    (op : Comparison) (a b : α) : Bool :=
  match op with
  | .eq => decide (a = b)
  | .ne => decide (a ≠ b)
  | .lt => decide (a < b)
  | .le => decide (¬ b < a)
  | .gt => decide (b < a)
  | .ge => decide (¬ a < b)

/-- Modelled from the spec: the relational operators (missing with the
interpreter): "Comparisons return logical vectors of the broadcast length", the
operands being promoted to a common type as for `+`.  A comparison with `NULL`
is taken to raise. -/
def compare_values (op : Comparison) (a b : ScriptValue) : Option ScriptValue :=
  if a.rank = 0 ∨ b.rank = 0 then none
  else if a.rank = 4 ∨ b.rank = 4 then (broadcast op.test a.texts b.texts).map .logical
  else if a.rank = 3 ∨ b.rank = 3 then (broadcast op.test a.floats b.floats).map .logical
  else (broadcast op.test a.ints b.ints).map .logical

/-- The terms `f`, `f + b`, `f + 2 b`, ... from `f` up to the last one that is
not beyond `t`, for a step `b` that leads from `f` towards `t`. -/
def progression (f t b : Int) : List Int :=
  (List.range ((t - f).natAbs / b.natAbs + 1)).map (fun (k : Nat) => f + (k : Int) * b)

/-- Modelled from the spec: the sequence of `seq(from, to, by)` on integers
(function `seq` is missing).  "sign of by must match to-from; zero by fails";
"seq(a,a,by) returns [a] regardless of by". -/
def seq_terms (f t b : Int) : Option (List Int) :=
  if f = t then some [f]
  else if b = 0 then none
  else if (0 < t - f ∧ b < 0) ∨ (t - f < 0 ∧ 0 < b) then none
  else some (progression f t b)

/-- The single number of a numeric argument. -/
def ScriptValue.number : ScriptValue → Option Decimal
  | .int [i] => some (Decimal.ofInt i)
  | .float [d] => some d
  | _ => none

/-- Modelled from the spec: the function `seq(from, to, by)`.  The arguments are
single numbers; "a string or logical argument raises".  The result is an integer
vector when all three arguments are integers (the test `seq(1, 10, 2)`) and a
float vector otherwise, whose terms are computed on the common number of
decimal places of the arguments. -/
def seq3 (a b c : ScriptValue) : Option ScriptValue :=
  match a, b, c with
  | .int [f], .int [t], .int [s] => (seq_terms f t s).map .int
  | _, _, _ =>
    match a.number, b.number, c.number with
    | some f, some t, some s =>
      let p := max (max f.places t.places) s.places
      (seq_terms (f.scaled p) (t.scaled p) (s.scaled p)).map
        (fun l => .float (l.map (Decimal.strip p)))
    | _, _, _ => none

/-- Modelled from the spec: the function `seq(from, to)` and the operator
`from:to`: the step is 1 or -1, towards `to`. -/
def seq2 (a b : ScriptValue) : Option ScriptValue :=
  match a.number, b.number with
  | some f, some t => seq3 a b (.int [if t < f then -1 else 1])
  | _, _ => none

/-- Modelled from the spec: the function `rev`: "rev reverses". -/
def rev : ScriptValue → ScriptValue
  | .null => .null
  | .logical v => .logical v.reverse
  | .int v => .int v.reverse
  | .float v => .float v.reverse
  | .string v => .string v.reverse

/-- Modelled from the spec: the function `rep(x, n)` (missing), as the test
`rep(1:3, 2)` shows it: the elements of `x`, `n` times over. -/
def rep (x n : ScriptValue) : Option ScriptValue :=
  match n with
  | .int [k] =>
    if k < 0 then none
    else
      match x with
      | .null => some .null
      | .logical v => some (.logical (List.replicate k.toNat v).flatten)
      | .int v => some (.int (List.replicate k.toNat v).flatten)
      | .float v => some (.float (List.replicate k.toNat v).flatten)
      | .string v => some (.string (List.replicate k.toNat v).flatten)
  | _ => none

/-- Modelled from the spec: the function `c` on two arguments: "c(...)
concatenates with type-promoting rules mirroring binary ops". -/
def concatenate (a b : ScriptValue) : ScriptValue :=
  if a.rank = 4 ∨ b.rank = 4 then .string (a.texts ++ b.texts)
  else if a.rank = 3 ∨ b.rank = 3 then .float (a.floats ++ b.floats)
  else if a.rank = 2 ∨ b.rank = 2 then .int (a.ints ++ b.ints)
  else
    match a, b with
    | .logical u, .logical v => .logical (u ++ v)
    | .logical u, _ => .logical u
    | _, .logical v => .logical v
    | _, _ => .null

/-- The expressions of the tests of `RunSLiMScriptTests`, as the parser of the
interpreter reads them (`:` binds more tightly than `+` and `-`, which group
to the left; a call `c(x, y, z)` is `c(c(x, y), z)`). -/
inductive Expr where
  | lit (v : ScriptValue)
  | pos (e : Expr)
  | neg (e : Expr)
  | add (a b : Expr)
  | sub (a b : Expr)
  | cmp (op : Comparison) (a b : Expr)
  | range (a b : Expr)
  | call_rep (x n : Expr)
  | call_seq (a b : Expr)
  | call_seq_by (a b c : Expr)
  | call_rev (x : Expr)
  | call_c (a b : Expr)
  deriving Repr, Inhabited

/-- The value of an expression; `none` when its evaluation raises. -/
def Expr.eval : Expr → Option ScriptValue
  | .lit v => some v
  | .pos e => e.eval.bind (unary (fun x => x) (fun x => x))
  | .neg e => e.eval.bind (unary (fun x => -x) Decimal.neg)
  | .add a b => a.eval.bind (fun x => b.eval.bind (fun y => plus x y))
  | .sub a b => a.eval.bind (fun x => b.eval.bind (fun y => minus x y))
  | .cmp op a b => a.eval.bind (fun x => b.eval.bind (fun y => compare_values op x y))
  | .range a b => a.eval.bind (fun x => b.eval.bind (fun y => seq2 x y))
  | .call_rep x n => x.eval.bind (fun u => n.eval.bind (fun k => rep u k))
  | .call_seq a b => a.eval.bind (fun x => b.eval.bind (fun y => seq2 x y))
  | .call_seq_by a b c =>
    a.eval.bind (fun x => b.eval.bind (fun y => c.eval.bind (fun z => seq3 x y z)))
  | .call_rev x => x.eval.map rev
  | .call_c a b => a.eval.bind (fun x => b.eval.map (fun y => concatenate x y))

/-- An integer literal. -/
def Expr.i (n : Int) : Expr := .lit (.int [n])

/-- A float literal `units / 10 ^ places`. -/
def Expr.f (units : Int) (places : Nat) : Expr := .lit (.float [⟨units, places⟩])

/-- A string literal. -/
def Expr.s (text : String) : Expr := .lit (.string [text.toList])

/-- The literals `T` and `F`. -/
def Expr.l (b : Bool) : Expr := .lit (.logical [b])

/-- The value `ScriptValue_Int(...)` that a test expects. -/
def expect_int (v : List Int) : Option ScriptValue := some (.int v)

/-- The value `ScriptValue_Float(...)` that a test expects. -/
def expect_float (v : List Int) : Option ScriptValue := some (.float (v.map Decimal.ofInt))

/-- The value `ScriptValue_String(...)` that a test expects. -/
def expect_string (v : List String) : Option ScriptValue := some (.string (v.map String.toList))

/-- The value `ScriptValue_Logical(...)` that a test expects. -/
def expect_logical (v : List Bool) : Option ScriptValue := some (.logical v)

/-- The expression `rep(1:3, 2)` of the tests of the comparisons. -/
def rep_1_3_2 : Expr := .call_rep (.range (.i 1) (.i 3)) (.i 2)

/-- The expression `c("bar", "baz")`. -/
def bar_baz : Expr := .call_c (.s "bar") (.s "baz")

/-- The expression `c(1, 1.2, 1.4, 1.6, 1.8, 2.0)`. -/
def up_by_fifths : Expr :=
  .call_c (.call_c (.call_c (.call_c (.call_c (.i 1) (.f 12 1)) (.f 14 1)) (.f 16 1)) (.f 18 1)) (.f 2 0)

/-- The expression `c(2.0, 1.8, 1.6, 1.4, 1.2, 1)`. -/
def down_by_fifths : Expr :=
  .call_c (.call_c (.call_c (.call_c (.call_c (.f 2 0) (.f 18 1)) (.f 16 1)) (.f 14 1)) (.f 12 1)) (.i 1)

/-- The assertions on the vector-to-singleton comparisons for integers (lines 156
to 168 of `script_test.cpp`), each with the value that `AssertScriptSuccess`
expects, or `none` for `AssertScriptRaise`. -/
def comparison_tests : List (Expr × Option ScriptValue) :=
  [ (.cmp .eq rep_1_3_2 (.i 2), expect_logical [false, true, false, false, true, false]),
    (.cmp .ne rep_1_3_2 (.i 2), expect_logical [true, false, true, true, false, true]),
    (.cmp .lt rep_1_3_2 (.i 2), expect_logical [true, false, false, true, false, false]),
    (.cmp .le rep_1_3_2 (.i 2), expect_logical [true, true, false, true, true, false]),
    (.cmp .gt rep_1_3_2 (.i 2), expect_logical [false, false, true, false, false, true]),
    (.cmp .ge rep_1_3_2 (.i 2), expect_logical [false, true, true, false, true, true]),
    (.cmp .eq (.i 2) rep_1_3_2, expect_logical [false, true, false, false, true, false]),
    (.cmp .ne (.i 2) rep_1_3_2, expect_logical [true, false, true, true, false, true]),
    (.cmp .gt (.i 2) rep_1_3_2, expect_logical [true, false, false, true, false, false]),
    (.cmp .ge (.i 2) rep_1_3_2, expect_logical [true, true, false, true, true, false]),
    (.cmp .lt (.i 2) rep_1_3_2, expect_logical [false, false, true, false, false, true]),
    (.cmp .le (.i 2) rep_1_3_2, expect_logical [false, true, true, false, true, true])]

/-- The assertions on the operator `+` (lines 171 to 207). -/
def plus_tests : List (Expr × Option ScriptValue) :=
  [ (.add (.i 1) (.i 1), expect_int [2]),
    (.add (.i 1) (.neg (.i 1)), expect_int [0]),
    (.add (.range (.i 0) (.i 2)) (.i 10), expect_int [10, 11, 12]),
    (.add (.i 10) (.range (.i 0) (.i 2)), expect_int [10, 11, 12]),
    (.add (.range (.i 15) (.i 13)) (.range (.i 0) (.i 2)), expect_int [15, 15, 15]),
    (.add (.range (.i 15) (.i 12)) (.range (.i 0) (.i 2)), none),
    (.add (.lit .null) (.range (.i 0) (.i 2)), none),
    (.add (.i 1) (.f 1 0), expect_float [2]),
    (.add (.f 1 0) (.i 1), expect_float [2]),
    (.add (.f 1 0) (.neg (.f 1 0)), expect_float [0]),
    (.add (.range (.i 0) (.f 2 0)) (.i 10), expect_float [10, 11, 12]),
    (.add (.f 10 0) (.range (.i 0) (.i 2)), expect_float [10, 11, 12]),
    (.add (.range (.f 15 0) (.i 13)) (.range (.i 0) (.f 2 0)), expect_float [15, 15, 15]),
    (.add (.range (.i 15) (.f 12 0)) (.range (.i 0) (.i 2)), none),
    (.add (.lit .null) (.range (.i 0) (.f 2 0)), none),
    (.add (.s "foo") (.i 5), expect_string ["foo5"]),
    (.add (.s "foo") (.f 5 0), expect_string ["foo5"]),
    (.add (.s "foo") (.f 51 1), expect_string ["foo5.1"]),
    (.add (.i 5) (.s "foo"), expect_string ["5foo"]),
    (.add (.f 5 0) (.s "foo"), expect_string ["5foo"]),
    (.add (.f 51 1) (.s "foo"), expect_string ["5.1foo"]),
    (.add (.s "foo") (.range (.i 1) (.i 3)), expect_string ["foo1", "foo2", "foo3"]),
    (.add (.range (.i 1) (.i 3)) (.s "foo"), expect_string ["1foo", "2foo", "3foo"]),
    (.add (.lit .null) (.s "foo"), expect_string []),
    (.add (.s "foo") (.s "bar"), expect_string ["foobar"]),
    (.add (.s "foo") bar_baz, expect_string ["foobar", "foobaz"]),
    (.add bar_baz (.s "foo"), expect_string ["barfoo", "bazfoo"]),
    (.add bar_baz (.l true), expect_string ["barT", "bazT"]),
    (.add (.l false) bar_baz, expect_string ["Fbar", "Fbaz"]),
    (.add (.l true) (.l false), none),
    (.add (.l true) (.l true), none),
    (.add (.l false) (.l false), none),
    (.pos (.i 5), expect_int [5]),
    (.pos (.f 5 0), expect_float [5]),
    (.pos (.s "foo"), none),
    (.pos (.l true), none),
    (.add (.add (.i 3) (.i 4)) (.i 5), expect_int [12])]

/-- The assertions on the operator `-` (lines 210 to 233). -/
def minus_tests : List (Expr × Option ScriptValue) :=
  [ (.sub (.i 1) (.i 1), expect_int [0]),
    (.sub (.i 1) (.neg (.i 1)), expect_int [2]),
    (.sub (.range (.i 0) (.i 2)) (.i 10), expect_int [-10, -9, -8]),
    (.sub (.i 10) (.range (.i 0) (.i 2)), expect_int [10, 9, 8]),
    (.sub (.range (.i 15) (.i 13)) (.range (.i 0) (.i 2)), expect_int [15, 13, 11]),
    (.sub (.range (.i 15) (.i 12)) (.range (.i 0) (.i 2)), none),
    (.sub (.lit .null) (.range (.i 0) (.i 2)), none),
    (.sub (.i 1) (.f 1 0), expect_float [0]),
    (.sub (.f 1 0) (.i 1), expect_float [0]),
    (.sub (.f 1 0) (.neg (.f 1 0)), expect_float [2]),
    (.sub (.range (.i 0) (.f 2 0)) (.i 10), expect_float [-10, -9, -8]),
    (.sub (.f 10 0) (.range (.i 0) (.i 2)), expect_float [10, 9, 8]),
    (.sub (.range (.f 15 0) (.i 13)) (.range (.i 0) (.f 2 0)), expect_float [15, 13, 11]),
    (.sub (.range (.i 15) (.f 12 0)) (.range (.i 0) (.i 2)), none),
    (.sub (.lit .null) (.range (.i 0) (.f 2 0)), none),
    (.sub (.s "foo") (.i 1), none),
    (.sub (.l true) (.l false), none),
    (.sub (.l true) (.l true), none),
    (.sub (.l false) (.l false), none),
    (.neg (.i 5), expect_int [-5]),
    (.neg (.f 5 0), expect_float [-5]),
    (.neg (.s "foo"), none),
    (.neg (.l true), none),
    (.sub (.sub (.i 3) (.i 4)) (.i 5), expect_int [-6])]

/-- The assertions on the function `seq` (lines 236 to 251). -/
def seq_tests : List (Expr × Option ScriptValue) :=
  [ (.call_seq (.i 1) (.i 5), expect_int [1, 2, 3, 4, 5]),
    (.call_seq (.i 5) (.i 1), expect_int [5, 4, 3, 2, 1]),
    (.call_seq (.f 11 1) (.i 5), some (.float [⟨11, 1⟩, ⟨21, 1⟩, ⟨31, 1⟩, ⟨41, 1⟩])),
    (.call_seq (.i 1) (.f 51 1), expect_float [1, 2, 3, 4, 5]),
    (.call_seq_by (.i 1) (.i 10) (.i 2), expect_int [1, 3, 5, 7, 9]),
    (.call_seq_by (.i 1) (.i 10) (.i (-2)), none),
    (.call_seq_by (.i 10) (.i 1) (.i (-2)), expect_int [10, 8, 6, 4, 2]),
    (.cmp .lt (.sub (.call_seq_by (.i 1) (.i 2) (.f 2 1)) up_by_fifths) (.f 1 9),
      expect_logical [true, true, true, true, true, true]),
    (.call_seq_by (.i 1) (.i 2) (.f (-2) 1), none),
    (.cmp .lt (.sub (.call_seq_by (.i 2) (.i 1) (.f (-2) 1)) down_by_fifths) (.f 1 9),
      expect_logical [true, true, true, true, true, true]),
    (.call_seq_by (.s "foo") (.i 2) (.i 1), none),
    (.call_seq_by (.i 1) (.s "foo") (.i 2), none),
    (.call_seq_by (.i 2) (.i 1) (.s "foo"), none),
    (.call_seq_by (.l true) (.i 2) (.i 1), none),
    (.call_seq_by (.i 1) (.l true) (.i 2), none),
    (.call_seq_by (.i 2) (.i 1) (.l true), none)]

/-- The assertions on the function `rev` (lines 255 to 262). -/
def rev_tests : List (Expr × Option ScriptValue) :=
  [ (.call_rev (.range (.i 6) (.i 10)), expect_int [10, 9, 8, 7, 6]),
    (.call_rev (.neg (.range (.i 6) (.i 10))), expect_int [-10, -9, -8, -7, -6]),
    (.call_rev (.call_c (.call_c (.s "foo") (.s "bar")) (.s "baz")), expect_string ["baz", "bar", "foo"]),
    (.call_rev (.neg (.i 1)), expect_int [-1]),
    (.call_rev (.f 1 0), expect_float [1]),
    (.call_rev (.s "foo"), expect_string ["foo"]),
    (.call_rev (.range (.f 6 0) (.i 10)), expect_float [10, 9, 8, 7, 6]),
    (.call_rev (.call_c (.call_c (.call_c (.l true) (.l true)) (.l true)) (.l false)),
      expect_logical [false, true, true, true])]

/-- The assertions of `RunSLiMScriptTests` on the operators and functions (lines
156 to 262 of `script_test.cpp`). -/
def script_tests : List (Expr × Option ScriptValue) :=
  comparison_tests ++ plus_tests ++ minus_tests ++ seq_tests ++ rev_tests

/-! ### The symbol table: well-formed states, bindings and sequences of client calls -/

/-- The state of a table in which one tier is populated, every dense slot
records the exact length of its name, and no two slots of the tier in use carry
the same name. -/
def EidosSymbolTable.WellFormed (t : EidosSymbolTable) : Prop :=
  t.OneTier ∧ t.LengthsExact ∧ t.names.Nodup

instance (t : EidosSymbolTable) : Decidable t.WellFormed := by
  unfold EidosSymbolTable.WellFormed; infer_instance

/-- What the getters find for a name: the value and the constness of the slot
that the dense scan (`_SlotIndexForSymbol` and the loops of the getters) or
`hash_symbols_.find` arrives at.  `GetValueOrNullForSymbol` returns the value,
`GetNonConstantValueOrRaiseForToken` reads both. -/
def EidosSymbolTable.binding (t : EidosSymbolTable) (p_symbol_name : CppString) :
    Option (EidosValue × Bool) :=
  if t.using_internal_symbols_ then
    (scan_slots t.internal_symbols_ (toInt32 p_symbol_name.length) p_symbol_name).map
      (fun p => (p.2.symbol_value_SP_, p.2.symbol_is_const_))
  else
    (hash_find t.hash_symbols_ p_symbol_name).map
      (fun s => (s.symbol_value_SP_, s.symbol_is_const_))

/-- The slots of `t2` are those of `t` that carry another name than `n`,
and one slot that binds `n` to `v` with constness `c`. -/
def binds (t t2 : EidosSymbolTable) (n : CppString) (v : EidosValue) (c : Bool) : Prop :=
  ∀ e, e ∈ t2.bindings ↔ (e ∈ t.bindings ∧ e.1 ≠ n) ∨ e = (n, v, c)

/-- The slots of `t2` are those of `t` that carry another name than `n`. -/
def unbinds (t t2 : EidosSymbolTable) (n : CppString) : Prop :=
  ∀ e, e ∈ t2.bindings ↔ e ∈ t.bindings ∧ e.1 ≠ n

/-- The bound on the dense array: `internal_symbol_count_` is at most
`EIDOS_SYMBOL_TABLE_BASE_SIZE`, and it is 0 in hash mode. -/
def EidosSymbolTable.DenseBound (b : EidosBuild) (t : EidosSymbolTable) : Prop :=
  t.internal_symbol_count_ ≤ b.EIDOS_SYMBOL_TABLE_BASE_SIZE ∧
    (t.using_internal_symbols_ = false → t.internal_symbol_count_ = 0)

instance (b : EidosBuild) (t : EidosSymbolTable) : Decidable (t.DenseBound b) := by
  unfold EidosSymbolTable.DenseBound; infer_instance

/-- The name that a call is about. -/
def TableCall.name : TableCall → CppString
  | .SetValueForSymbol n _ _ => n
  | .SetConstantForSymbol n _ _ => n
  | .InitializeConstantSymbolEntry e => e.1
  | .InitializeConstantSymbolEntry_name n _ => n
  | .ReinitializeConstantSymbolEntry e => e.1
  | .ReinitializeConstantSymbolEntry_name n _ => n
  | .RemoveValueForSymbol n _ => n

/-- Whether a call is one of `InitializeConstantSymbolEntry`, which "assume
that this symbol is not yet defined". -/
def TableCall.assumes_undefined : TableCall → Bool
  | .InitializeConstantSymbolEntry _ => true
  | .InitializeConstantSymbolEntry_name _ _ => true
  | _ => false

/-- A sequence of calls, run from `t`, in which every name is shorter than
`limit` characters and `InitializeConstantSymbolEntry` is called only on
names that no slot carries at the time of the call. -/
def calls_in_order (b : EidosBuild) (limit : Nat) (t : EidosSymbolTable) :
    List TableCall → Bool
  | [] => true
  | c :: rest =>
    decide (c.name.length < limit) &&
      (!c.assumes_undefined || decide (c.name ∉ t.names)) &&
      calls_in_order b limit (table_after (c.run b t)) rest

/-- A call made by a client of the table that sets symbols and looks them up. -/
inductive ClientCall where
  | SetValueForSymbol (p_symbol_name : CppString) (p_value : EidosValue) (fresh : Nat)
  | SetConstantForSymbol (p_symbol_name : CppString) (p_value : EidosValue) (fresh : Nat)
  | GetValueOrRaiseForSymbol (p_symbol_name : CppString)
  deriving DecidableEq, Repr

/-- The name that a client call is about. -/
def ClientCall.name : ClientCall → CppString
  | .SetValueForSymbol n _ _ => n
  | .SetConstantForSymbol n _ _ => n
  | .GetValueOrRaiseForSymbol n => n

/-- What a client sees of a call: that it returned, the value it returned, or
the error it raised. -/
inductive Observation where
  | returned
  | value (v : EidosValue)
  | raised (e : EidosError)
  deriving DecidableEq, Repr

/-- What a client sees of a mutating call. -/
def observe_result : EidosResult → Observation
  | .ok _ => .returned
  | .error (e, _) => .raised e

/-- What a client sees of a lookup. -/
def observe_lookup : Except EidosError EidosValue → Observation
  | .ok v => .value v
  | .error e => .raised e

/-- One client call: what the client sees of it, and the table it leaves. -/
def ClientCall.step (b : EidosBuild) (t : EidosSymbolTable) :
    ClientCall → Observation × EidosSymbolTable
  | .SetValueForSymbol n v fresh =>
    (observe_result (t.SetValueForSymbol b n v fresh),
      table_after (t.SetValueForSymbol b n v fresh))
  | .SetConstantForSymbol n v fresh =>
    (observe_result (t.SetConstantForSymbol b n v fresh),
      table_after (t.SetConstantForSymbol b n v fresh))
  | .GetValueOrRaiseForSymbol n => (observe_lookup (t.GetValueOrRaiseForSymbol n), t)

/-- What a client sees of a sequence of calls made one after the other on a
table; a call that raises leaves the table as it is at the raise. -/
def observations (b : EidosBuild) (t : EidosSymbolTable) : List ClientCall → List Observation
  | [] => []
  | c :: rest => (c.step b t).1 :: observations b (c.step b t).2 rest

/-- The table that the constructor leaves in hash mode when all seven reserved
constants are defined. -/
def hash_constants_table : EidosSymbolTable :=
  table_after (EidosSymbolTable.new build16 statics0 none true)

/-- The table that the constructor leaves in dense mode when all seven reserved
constants are defined. -/
def dense_constants_table : EidosSymbolTable :=
  table_after (EidosSymbolTable.new build16 statics0 none false)

/-- The dense table in which `SetConstantForSymbol` has defined `x` as the
constant `1`. -/
def owned_constant_table : EidosSymbolTable :=
  table_after (empty_dense.SetConstantForSymbol build16 ['x'] value_one 0)

/-- The table constructed in hash mode for a script that uses no reserved
constant. -/
def empty_hash : EidosSymbolTable := ⟨false, [], []⟩

/-- A client that sets a symbol with a name of 65536 characters and looks it up. -/
def long_name_client : List ClientCall :=
  [.SetValueForSymbol long_name value_one 0, .GetValueOrRaiseForSymbol long_name]

/-- A client that sets, defines and looks up symbols with short names. -/
def short_name_client : List ClientCall :=
  [.SetValueForSymbol ['x'] value_one 0, .SetConstantForSymbol ['y'] invisible_one 400,
   .SetValueForSymbol ['y'] value_two 0, .SetValueForSymbol ['z'] value_two 0,
   .GetValueOrRaiseForSymbol ['y'], .GetValueOrRaiseForSymbol ['w'],
   .SetConstantForSymbol ['x'] value_one 0]

/-- Whether the dense slot that the scan arrives at for a name owns the string
of its name (`symbol_name_externally_owned_` is false), as the slots written by
`SetValueForSymbol` and `SetConstantForSymbol` do. -/
def EidosSymbolTable.owns_name (t : EidosSymbolTable) (p_symbol_name : CppString) : Bool :=
  t.using_internal_symbols_ &&
    match scan_slots t.internal_symbols_ (toInt32 p_symbol_name.length) p_symbol_name with
    | some (_, symbol_slot) => !symbol_slot.symbol_name_externally_owned_
    | none => false

/-! ### `Script_PathElement`: the methods `readFile` and `writeFile`

`src/core/script_pathelement.cpp`.  The files are the texts that a path leads
to; the stream errors that `bad()` reports are not part of the embedding. -/

/-- The files as the methods of a path element meet them: the contents of the
files that can be opened for reading, by path, and the paths at which a file
can be opened for writing. -/
structure Disk where
  contents : CppString → Option CppString
  writable : CppString → Bool
  deriving Inhabited

/-- A file written: what `std::ofstream` leaves at a path when it is closed. -/
def Disk.store (d : Disk) (path text : CppString) : Disk :=
  { d with contents := fun p => if p = path then some text else d.contents p }

/-- An `std::ifstream`: the unread characters and the state bits. -/
structure IFStream where
  buf : CppString
  eofbit : Bool
  failbit : Bool
  deriving DecidableEq, Repr, Inhabited

/-- The call `getline(file_stream, line)` of the standard library.  A stream
that is not good sets `failbit` and leaves `line` alone.  Otherwise the
characters up to the next newline are extracted into `line`, and the newline is
extracted and dropped; when the end of the file comes first, `eofbit` is set,
and `failbit` too when no character was extracted. -/
def getline (s : IFStream) (line : CppString) : IFStream × CppString :=
  if s.eofbit || s.failbit then ({ s with failbit := true }, line)
  else
    let text := s.buf.takeWhile (fun c => c ≠ '\n')
    match s.buf.dropWhile (fun c => c ≠ '\n') with
    | [] => ({ buf := [], eofbit := true, failbit := text.isEmpty }, text)
    | _ :: rest => ({ buf := rest, eofbit := false, failbit := false }, text)

/-- The loop `while (getline(file_stream, line)) string_result->PushString(line);`
of `readFile`; the stream converts to true when `failbit` is not set.  `none`
when the bound on the number of rounds is too small. -/
def read_lines : Nat → IFStream → CppString → List CppString → Option (List CppString)
  | 0, _, _, _ => none
  | fuel + 1, s, line, string_result =>
    let r := getline s line
    if r.1.failbit then some string_result
    else read_lines fuel r.1 r.2 (string_result ++ [r.2])

/-- Modelled from the spec: `ScriptValue::StringAtIndex` is not among the
sources.  The string at an index of a value: the element of a string vector,
and the printed form of an element of another type. -/
def StringAtIndex (x : ScriptValue) (index : Nat) : CppString :=
  x.texts.getD index []

/-- The loop `for (value_index = 0; value_index < arg1_count; ++value_index)` of
`writeFile`: a newline (`endl`) before every element but the first, then the
element.  `rounds` is the number of rounds left. -/
def write_values (arg1_value : ScriptValue) : Nat → Nat → CppString → CppString
  | 0, _, file_stream => file_stream
  | rounds + 1, value_index, file_stream =>
    write_values arg1_value rounds (value_index + 1)
      ((if value_index > 0 then file_stream ++ ['\n'] else file_stream) ++
        StringAtIndex arg1_value value_index)

/-- Method `Script_PathElement::ResolvedBasePath`: a leading `~` is replaced by
the home directory (the value of `HOME`, or the directory of the password
entry), unless that is empty. -/
def ResolvedBasePath (base_path_ homedir : CppString) : CppString :=
  match base_path_ with
  | '~' :: rest => if (c_str homedir).length > 0 then c_str homedir ++ rest else '~' :: rest
  | path => path

/-- What a method of a path element leaves: the value it returns (`null` for
`gStaticScriptValueNULLInvisible`), the warnings it writes to the output stream
of the interpreter, and the files. -/
structure MethodReturn where
  value : ScriptValue
  warnings : List CppString
  disk : Disk
  deriving Inhabited

/-- The case `gID_readFile` of `Script_PathElement::ExecuteMethod`; an error is
a raise through `SLIM_TERMINATION`. -/
def ExecuteMethod_readFile (base_path_ homedir : CppString) (d : Disk)
    (arg0_value : ScriptValue) : Except String MethodReturn :=
  if arg0_value.Count ≠ 1 then
    .error ("ERROR (Script_PathElement::ExecuteMethod): method readFile() requires that " ++
      "its first argument's size() == 1.")
  else
    let filename := StringAtIndex arg0_value 0
    let file_path := ResolvedBasePath base_path_ homedir ++ ['/'] ++ filename
    match d.contents (c_str file_path) with
    | none =>
      .ok ⟨.null, ["WARNING: File at path ".toList ++ file_path ++
        " could not be read.".toList], d⟩
    | some text =>
      match read_lines (text.length + 2) ⟨text, false, false⟩ [] [] with
      | none => .error "out of fuel"
      | some string_result => .ok ⟨.string string_result, [], d⟩

/-- The case `gID_writeFile` of `Script_PathElement::ExecuteMethod`; an error is
a raise through `SLIM_TERMINATION`. -/
def ExecuteMethod_writeFile (base_path_ homedir : CppString) (d : Disk)
    (arg0_value arg1_value : ScriptValue) : Except String MethodReturn :=
  if arg0_value.Count ≠ 1 then
    .error ("ERROR (Script_PathElement::ExecuteMethod): method writeFile() requires that " ++
      "its first argument's size() == 1.")
  else
    let filename := StringAtIndex arg0_value 0
    let file_path := ResolvedBasePath base_path_ homedir ++ ['/'] ++ filename
    if !d.writable (c_str file_path) then
      .ok ⟨.null, ["WARNING (Script_PathElement::ExecuteMethod): File at path ".toList ++
        file_path ++ " could not be opened.".toList], d⟩
    else
      .ok ⟨.null, [], d.store (c_str file_path) (write_values arg1_value arg1_value.Count 0 [])⟩

/-- The elements of a string vector joined by newlines, with no newline after
the last one. -/
def joined_by_newlines : List CppString → CppString
  | [] => []
  | [s] => s
  | s :: rest => s ++ '\n' :: joined_by_newlines rest

/-- The string vector that `readFile` makes of the file that `writeFile` writes
for a string vector: an empty last element is lost. -/
def read_back (v : List CppString) : List CppString :=
  if v.getLast? = some [] then v.dropLast else v

/-- A disk with no file, on which every path can be written. -/
def empty_disk : Disk := { contents := fun _ => none, writable := fun _ => true }

/-- The call `writeFile(name, v)` followed by the call `readFile(name)` on the
same path element: the value that `readFile` returns; `none` when one of the
two calls raises. -/
def file_round_trip (base_path_ homedir : CppString) (d : Disk) (name v : ScriptValue) :
    Option ScriptValue :=
  match ExecuteMethod_writeFile base_path_ homedir d name v with
  | .error _ => none
  | .ok written =>
    match ExecuteMethod_readFile base_path_ homedir written.disk name with
    | .error _ => none
    | .ok read => some read.value

/-! ### The strings that tables share

The slots written by `InitializeConstantSymbolEntry` point to strings that the
table does not own: the names of the static entries of the constructor, which
every table of the process points to.  What follows keeps, next to a table, the
strings that calls of `_SwitchToHash` have deleted in the process. -/

/-- The strings deleted by a call of `SetValueForSymbol`: those of
`_SwitchToHash`, which is called when the scan finds no slot for the name and
the dense array is full. -/
def EidosSymbolTable.SetValueForSymbol_deletes (b : EidosBuild) (t : EidosSymbolTable)
    (p_symbol_name : CppString) : List CppString :=
  if t.using_internal_symbols_ then
    let key_length := toInt32 p_symbol_name.length
    match t._SlotIndexForSymbol key_length p_symbol_name with
    | none =>
      if t.internal_symbol_count_ < b.EIDOS_SYMBOL_TABLE_BASE_SIZE then []
      else t._SwitchToHash_deletes
    | some _ => []
  else []

/-- The strings deleted by a call of
`InitializeConstantSymbolEntry(EidosSymbolTableEntry *)`: those of
`_SwitchToHash`, which is called when the dense array is full. -/
def EidosSymbolTable.InitializeConstantSymbolEntry_deletes (b : EidosBuild)
    (t : EidosSymbolTable) (p_new_entry : EidosSymbolTableEntry) : List CppString :=
  if b.DEBUG && p_new_entry.2.Invisible then []
  else if t.using_internal_symbols_ then
    if t.internal_symbol_count_ < b.EIDOS_SYMBOL_TABLE_BASE_SIZE then []
    else t._SwitchToHash_deletes
  else []

/-- The statements `if (flag) InitializeConstantSymbolEntry(entry);` of the
constructor, in order, run in a process in which the strings `deleted` have
been deleted.  A statement that is run reads the entry (`p_new_entry->first`,
and `p_new_entry->second` before it when `DEBUG` is defined); when the name of
the entry has been deleted the behaviour is undefined, which is `none`.
Otherwise the result is that of the statements, with the strings deleted by
then. -/
def construct_chain (b : EidosBuild) :
    List (Bool × EidosSymbolTableEntry) → EidosSymbolTable → List CppString →
      Option (EidosResult × List CppString)
  | [], t, deleted => some (.ok t, deleted)
  | (flag, entry) :: rest, t, deleted =>
    if flag then
      if entry.1 ∈ deleted then none
      else
        match t.InitializeConstantSymbolEntry b entry with
        | .ok t2 =>
          construct_chain b rest t2
            (deleted ++ t.InitializeConstantSymbolEntry_deletes b entry)
        | .error e => some (.error e, deleted)
    else construct_chain b rest t deleted

/-- The constructor `EidosSymbolTable::EidosSymbolTable(p_symbol_usage,
p_start_with_hash)` in a process in which the strings `deleted` have been
deleted: `none` when it reads a static entry whose name has been deleted, where
the behaviour of the source is undefined. -/
def EidosSymbolTable.new_in (b : EidosBuild) (g : EidosStaticObjects) (deleted : List CppString)
    (p_symbol_usage : Option EidosSymbolUsageParamBlock) (p_start_with_hash : Bool) :
    Option (EidosResult × List CppString) :=
  construct_chain b (base_entries g p_symbol_usage)
    { using_internal_symbols_ := !p_start_with_hash, internal_symbols_ := [],
      hash_symbols_ := [] } deleted

/-- A run of calls `SetValueForSymbol(name, value)` on a table, with the strings
deleted in the process so far.  A call that raises leaves the table as it
is. -/
def set_values_in (b : EidosBuild) :
    List (CppString × EidosValue) → EidosSymbolTable × List CppString →
      EidosSymbolTable × List CppString
  | [], st => st
  | (n, v) :: rest, st =>
    set_values_in b rest
      (table_after (st.1.SetValueForSymbol b n v 0), st.2 ++ st.1.SetValueForSymbol_deletes b n)

/-- Ten variables `a` to `j`, each set to the integer `1`. -/
def ten_variables : List (CppString × EidosValue) :=
  [(['a'], value_one), (['b'], value_one), (['c'], value_one), (['d'], value_one),
   (['e'], value_one), (['f'], value_one), (['g'], value_one), (['h'], value_one),
   (['i'], value_one), (['j'], value_one)]

/-- A usage block of a script that uses the reserved constant `T` only. -/
def usage_T : EidosSymbolUsageParamBlock :=
  ⟨true, false, false, false, false, false, false⟩

/-- A build with one dense slot, without `DEBUG`. -/
def build1 : EidosBuild := ⟨1, false⟩

/-- The dense table with one slot, as `SetValueForSymbol` writes it for a name
`n` of 65536 characters and the value `v`. -/
def truncated_table (n : CppString) (v : EidosValue) : EidosSymbolTable :=
  ⟨true, [truncated_slot n v false], []⟩

/-! ### Lines of tabs, and further example files -/

/-- A line has a token: it holds a character that is not whitespace. -/
def has_token (line : CppString) : Bool := line.any (fun c => !isspace c)

/-- A complete parameter file whose `#MUTATION RATE` section holds one line, a
single tab, below a `#SEED` section with the row `5`. -/
def tab_rate_file : InputFile :=
  { lines := ["#SEED", "5", "#MUTATION RATE", "\t", "#MUTATION TYPES", "m1 0.5 f 0.0",
      "#GENOMIC ELEMENT TYPES", "g1 m1 1.0", "#CHROMOSOME ORGANIZATION", "g1 1 1000",
      "#RECOMBINATION RATE", "1000 1e-8", "#GENERATIONS", "10",
      "#DEMOGRAPHY AND STRUCTURE", "1 P p1 100"].map String.toList,
    last := [] }

/-- A complete parameter file with a `#SEED` section that holds one line, a
single tab, below the `#CHROMOSOME ORGANIZATION` row `g1 1 1000`. -/
def tab_seed_file : InputFile :=
  { lines := ["#MUTATION RATE", "1e-8", "#MUTATION TYPES", "m1 0.5 f 0.0",
      "#GENOMIC ELEMENT TYPES", "g1 m1 1.0", "#CHROMOSOME ORGANIZATION", "g1 1 1000",
      "#SEED", "\t", "#RECOMBINATION RATE", "1000 1e-8", "#GENERATIONS", "10",
      "#DEMOGRAPHY AND STRUCTURE", "1 P p1 100"].map String.toList,
    last := [] }

theorem toInt32_of_lt {n : Nat} (h : n < 2147483648) : toInt32 n = (n : Int) := by
  unfold toInt32
  have h1 : n % 4294967296 = n := Nat.mod_eq_of_lt (by omega)
  rw [h1]
  simp [h]

theorem toUInt16_of_lt {n : Nat} (h : n < 65536) : toUInt16 (n : Int) = n := by
  unfold toUInt16
  omega

theorem toUInt16_65536 : toUInt16 65536 = 0 := by decide

/-! ## Lemmas: the dense scan -/

theorem scan_slots_append (l : List EidosSymbolTable_InternalSlot)
    (s : EidosSymbolTable_InternalSlot) (k : Int) (n : CppString) :
    scan_slots (l ++ [s]) k n =
      if slot_matches s k n then some (l.length, s) else scan_slots l k n := by
  induction l with
  | nil => simp [scan_slots]
  | cons a l ih =>
    simp only [List.cons_append, List.length_cons]
    rw [scan_slots, ih]
    by_cases hs : slot_matches s k n = true
    · simp [hs]
    · simp only [hs]
      rw [scan_slots]
      simp

theorem scan_slots_some {l : List EidosSymbolTable_InternalSlot} {k : Int} {n : CppString}
    {i : Nat} {s : EidosSymbolTable_InternalSlot} (h : scan_slots l k n = some (i, s)) :
    l.get? i = some s ∧ slot_matches s k n = true := by
  induction l generalizing i with
  | nil => simp [scan_slots] at h
  | cons a l ih =>
    simp only [scan_slots] at h
    cases hr : scan_slots l k n with
    | none =>
      rw [hr] at h
      by_cases ha : slot_matches a k n = true
      · simp [ha] at h
        obtain ⟨rfl, rfl⟩ := h
        simp [ha]
      · simp [ha] at h
    | some p =>
      obtain ⟨j, s'⟩ := p
      rw [hr] at h
      simp at h
      obtain ⟨rfl, rfl⟩ := h
      have := ih hr
      simpa using this

theorem long_name_length : long_name.length = 65536 :=
  List.length_replicate 65536 'a'

theorem toInt32_65536 {n : CppString} (h : n.length = 65536) : toInt32 n.length = 65536 := by
  rw [h]; decide

theorem new_no_usage :
    EidosSymbolTable.new build16 statics0 (some no_usage) false = .ok empty_dense := rfl

theorem truncated_slot_no_match (n : CppString) (v : EidosValue) (c : Bool) :
    slot_matches (truncated_slot n v c) 65536 n = false := by
  simp [slot_matches, truncated_slot]

theorem set_truncated {n : CppString} (h : n.length = 65536) :
    empty_dense.SetValueForSymbol build16 n value_one 0
      = .ok ⟨true, [truncated_slot n value_one false], []⟩ := by
  simp [EidosSymbolTable.SetValueForSymbol, EidosSymbolTable._SlotIndexForSymbol, empty_dense,
    scan_slots, toInt32_65536 h, EidosSymbolTable.internal_symbol_count_, build16, value_one,
    EidosValue.Invisible, truncated_slot, toUInt16_65536]

theorem get_truncated {n : CppString} (h : n.length = 65536) (v : EidosValue) (c : Bool) :
    (⟨true, [truncated_slot n v c], []⟩ : EidosSymbolTable).GetValueOrRaiseForSymbol n
      = .error (.undefined_identifier n) := by
  simp [EidosSymbolTable.GetValueOrRaiseForSymbol, scan_slots, toInt32_65536 h,
    truncated_slot_no_match]

theorem get_token_truncated {n : CppString} (h : n.length = 65536) (v : EidosValue) (c : Bool) :
    (⟨true, [truncated_slot n v c], []⟩ : EidosSymbolTable).GetValueOrRaiseForToken ⟨n⟩
      = .error (.undefined_identifier n) := by
  simp [EidosSymbolTable.GetValueOrRaiseForToken, scan_slots, toInt32_65536 h,
    truncated_slot_no_match]

theorem get_null_truncated {n : CppString} (h : n.length = 65536) (v : EidosValue) (c : Bool) :
    (⟨true, [truncated_slot n v c], []⟩ : EidosSymbolTable).GetValueOrNullForSymbol n = none := by
  simp [EidosSymbolTable.GetValueOrNullForSymbol, scan_slots, toInt32_65536 h,
    truncated_slot_no_match]

theorem get_empty_truncated (n : CppString) (v : EidosValue) (c : Bool) :
    (⟨true, [truncated_slot n v c], []⟩ : EidosSymbolTable).GetValueOrRaiseForSymbol [] = .ok v ∧
    (⟨true, [truncated_slot n v c], []⟩ : EidosSymbolTable).GetValueOrRaiseForToken ⟨[]⟩ = .ok v ∧
    (⟨true, [truncated_slot n v c], []⟩ : EidosSymbolTable).GetValueOrNullForSymbol [] = some v := by
  have h0 : toInt32 0 = 0 := by decide
  have hm : slot_matches (truncated_slot n v c) 0 [] = true := by
    simp [slot_matches, truncated_slot]
  have hv : (truncated_slot n v c).symbol_value_SP_ = v := rfl
  simp [EidosSymbolTable.GetValueOrRaiseForSymbol, EidosSymbolTable.GetValueOrRaiseForToken,
    EidosSymbolTable.GetValueOrNullForSymbol, scan_slots, h0, hm, hv]

theorem set_after_truncated_constant {n : CppString} (h : n.length = 65536) :
    (⟨true, [truncated_slot n value_one true], []⟩ : EidosSymbolTable).SetValueForSymbol
        build16 n value_two 0
      = .ok ⟨true, [truncated_slot n value_one true, truncated_slot n value_two false], []⟩ := by
  have hm : scan_slots [truncated_slot n value_one true] 65536 n = none := by
    simp [scan_slots, truncated_slot_no_match]
  simp [EidosSymbolTable.SetValueForSymbol, EidosSymbolTable._SlotIndexForSymbol, hm,
    toInt32_65536 h, EidosSymbolTable.internal_symbol_count_, build16, value_two,
    EidosValue.Invisible, toUInt16_65536]
  rfl

theorem setConstant_truncated {n : CppString} (h : n.length = 65536) :
    empty_dense.SetConstantForSymbol build16 n value_one 0
      = .ok ⟨true, [truncated_slot n value_one true], []⟩ := by
  simp [EidosSymbolTable.SetConstantForSymbol, EidosSymbolTable._SlotIndexForSymbol,
    empty_dense, scan_slots, toInt32_65536 h, EidosSymbolTable.internal_symbol_count_, build16,
    value_one, EidosValue.Invisible, truncated_slot, toUInt16_65536]

theorem readOnly_truncated (n : CppString) (v : EidosValue) :
    (⟨true, [truncated_slot n v true], []⟩ : EidosSymbolTable).ReadOnlySymbols = [n] := by
  simp [EidosSymbolTable.ReadOnlySymbols, truncated_slot]

theorem hash_find_eq_none_iff (m : List (CppString × EidosSymbolTable_ExternalSlot))
    (k : CppString) : hash_find m k = none ↔ k ∉ m.map Prod.fst := by
  induction m with
  | nil => simp [hash_find]
  | cons a m ih =>
    obtain ⟨k', s⟩ := a
    by_cases hk : k' = k
    · simp [hash_find, hk]
    · have hk' : ¬ k = k' := fun h => hk h.symm
      simp [hash_find, hk, hk', ih]

theorem hash_find_mem {m : List (CppString × EidosSymbolTable_ExternalSlot)} {k : CppString}
    {s : EidosSymbolTable_ExternalSlot} (h : hash_find m k = some s) : (k, s) ∈ m := by
  induction m with
  | nil => simp [hash_find] at h
  | cons a m ih =>
    obtain ⟨k', s'⟩ := a
    by_cases hk : k' = k
    · simp [hash_find, hk] at h
      simp [hk, h]
    · simp [hash_find, hk] at h
      exact List.mem_cons_of_mem _ (ih h)

theorem hash_find_append (m m' : List (CppString × EidosSymbolTable_ExternalSlot))
    (k : CppString) :
    hash_find (m ++ m') k = (hash_find m k).orElse (fun _ => hash_find m' k) := by
  induction m with
  | nil => simp [hash_find]
  | cons a m ih =>
    obtain ⟨k', s⟩ := a
    by_cases hk : k' = k
    · simp [hash_find, hk]
    · simp [hash_find, hk, ih]

theorem hash_find_insert_self {m : List (CppString × EidosSymbolTable_ExternalSlot)}
    {k : CppString} (s : EidosSymbolTable_ExternalSlot) (h : hash_find m k = none) :
    hash_find (hash_insert m k s) k = some s := by
  simp [hash_insert, h, hash_find_append, hash_find]

theorem hash_insert_of_none {m : List (CppString × EidosSymbolTable_ExternalSlot)}
    {k : CppString} (s : EidosSymbolTable_ExternalSlot) (h : hash_find m k = none) :
    hash_insert m k s = m ++ [(k, s)] := by
  simp [hash_insert, h]

theorem hash_find_assign_self {m : List (CppString × EidosSymbolTable_ExternalSlot)}
    {k : CppString} {s : EidosSymbolTable_ExternalSlot} (v : EidosValue)
    (h : hash_find m k = some s) :
    hash_find (hash_assign m k v) k = some { s with symbol_value_SP_ := v } := by
  induction m with
  | nil => simp [hash_find] at h
  | cons a m ih =>
    obtain ⟨k', s'⟩ := a
    by_cases hk : k' = k
    · simp [hash_find, hk] at h
      simp [hash_assign, hash_find, hk, h]
    · simp [hash_find, hk] at h
      simp [hash_assign, hash_find, hk, ih h]

/-- The entry that `_SwitchToHash` makes of a dense slot. -/
theorem switch_insert_eq (slots : List EidosSymbolTable_InternalSlot)
    (m : List (CppString × EidosSymbolTable_ExternalSlot))
    (hnodup : (slots.map (fun s => s.symbol_name_)).Nodup)
    (hdisj : ∀ s ∈ slots, s.symbol_name_ ∉ m.map Prod.fst) :
    switch_insert slots m =
      m ++ slots.map (fun s => (s.symbol_name_, ⟨s.symbol_value_SP_, s.symbol_is_const_⟩)) := by
  induction slots generalizing m with
  | nil => simp [switch_insert]
  | cons a slots ih =>
    simp only [List.map_cons, List.nodup_cons] at hnodup
    have ha : hash_find m a.symbol_name_ = none :=
      (hash_find_eq_none_iff m _).2 (hdisj a (List.mem_cons_self _ _))
    rw [switch_insert, hash_insert_of_none _ ha, ih _ hnodup.2]
    · simp
    · intro s hs
      simp only [List.map_append, List.map_cons, List.map_nil, List.mem_append,
        List.mem_singleton, not_or]
      refine ⟨hdisj s (List.mem_cons_of_mem _ hs), ?_⟩
      intro heq
      exact hnodup.1 (heq ▸ List.mem_map_of_mem (fun s => s.symbol_name_) hs)

theorem bindings_switch (t : EidosSymbolTable) (hd : t.using_internal_symbols_ = true)
    (hh : t.hash_symbols_ = []) (hn : t.names.Nodup) :
    t._SwitchToHash.bindings = t.bindings ∧ t._SwitchToHash.using_internal_symbols_ = false ∧
      t._SwitchToHash.internal_symbols_ = [] := by
  have hn' : (t.internal_symbols_.map (fun s => s.symbol_name_)).Nodup := by
    simpa [EidosSymbolTable.names, EidosSymbolTable.bindings, hd, List.map_map, Function.comp_def]
      using hn
  have := switch_insert_eq t.internal_symbols_ [] hn' (by simp)
  simp [EidosSymbolTable._SwitchToHash, EidosSymbolTable.bindings, hd, hh, this, List.map_map,
    Function.comp_def]

/-! ## Lemmas: lookup in a table whose recorded lengths are exact -/

theorem slot_matches_iff_name {s : EidosSymbolTable_InternalSlot} {n : CppString}
    (hs : s.symbol_name_length_ = s.symbol_name_.length) (hn : n.length < 2147483648) :
    slot_matches s (toInt32 n.length) n = true ↔ s.symbol_name_ = n := by
  rw [toInt32_of_lt hn]
  simp only [slot_matches, Bool.and_eq_true, decide_eq_true_eq, Int.toNat_ofNat, hs,
    Nat.cast_inj, List.take_length]
  constructor
  · rintro ⟨h1, h2⟩
    rw [← h1, List.take_length] at h2
    exact h2
  · rintro rfl
    simp

theorem scan_slots_eq_none_iff (l : List EidosSymbolTable_InternalSlot) (k : Int)
    (n : CppString) : scan_slots l k n = none ↔ ∀ s ∈ l, slot_matches s k n = false := by
  induction l with
  | nil => simp [scan_slots]
  | cons a l ih =>
    rw [scan_slots]
    cases hr : scan_slots l k n with
    | none =>
      have := ih.1 hr
      by_cases ha : slot_matches a k n = true
      · simp [ha]
      · simpa [ha] using this
    | some p =>
      have hne : ¬ ∀ s ∈ l, slot_matches s k n = false := by
        rw [← ih, hr]; simp
      simp only [reduceCtorEq, List.mem_cons, forall_eq_or_imp, false_iff, not_and]
      intro _
      exact hne

theorem scan_slots_mem {l : List EidosSymbolTable_InternalSlot} {k : Int} {n : CppString}
    {i : Nat} {s : EidosSymbolTable_InternalSlot} (h : scan_slots l k n = some (i, s)) :
    s ∈ l :=
  List.get?_mem (scan_slots_some h).1

theorem scan_none_iff_not_mem {l : List EidosSymbolTable_InternalSlot} {n : CppString}
    (hl : ∀ s ∈ l, s.symbol_name_length_ = s.symbol_name_.length) (hn : n.length < 2147483648) :
    scan_slots l (toInt32 n.length) n = none ↔ n ∉ l.map (fun s => s.symbol_name_) := by
  rw [scan_slots_eq_none_iff]
  constructor
  · intro h hmem
    obtain ⟨s, hs, rfl⟩ := List.mem_map.1 hmem
    have := (slot_matches_iff_name (hl s hs) hn).2 rfl
    rw [h s hs] at this
    exact Bool.false_ne_true this
  · intro h s hs
    by_contra hm
    have hm' : slot_matches s (toInt32 n.length) n = true := by simpa using hm
    exact h (List.mem_map.2 ⟨s, hs, (slot_matches_iff_name (hl s hs) hn).1 hm'⟩)

theorem names_dense {t : EidosSymbolTable} (hd : t.using_internal_symbols_ = true) :
    t.names = t.internal_symbols_.map (fun s => s.symbol_name_) := by
  simp [EidosSymbolTable.names, EidosSymbolTable.bindings, hd, List.map_map, Function.comp_def]

theorem names_hash {t : EidosSymbolTable} (hd : t.using_internal_symbols_ = false) :
    t.names = t.hash_symbols_.map Prod.fst := by
  simp [EidosSymbolTable.names, EidosSymbolTable.bindings, hd, List.map_map, Function.comp_def]

theorem hash_symbols_switch (t : EidosSymbolTable) (hd : t.using_internal_symbols_ = true)
    (hh : t.hash_symbols_ = []) (hn : t.names.Nodup) :
    t._SwitchToHash.hash_symbols_ =
      t.internal_symbols_.map
        (fun s => (s.symbol_name_, ⟨s.symbol_value_SP_, s.symbol_is_const_⟩)) := by
  have hn' : (t.internal_symbols_.map (fun s => s.symbol_name_)).Nodup := by
    rw [← names_dense hd]; exact hn
  have := switch_insert_eq t.internal_symbols_ [] hn' (by simp)
  simp [EidosSymbolTable._SwitchToHash, hd, hh, this]

theorem names_switch (t : EidosSymbolTable) (hd : t.using_internal_symbols_ = true)
    (hh : t.hash_symbols_ = []) (hn : t.names.Nodup) : t._SwitchToHash.names = t.names := by
  unfold EidosSymbolTable.names
  rw [(bindings_switch t hd hh hn).1]

theorem set_hash_new {t : EidosSymbolTable} {n : CppString} (v : EidosValue)
    (hd : t.using_internal_symbols_ = false) (hn : n ∉ t.names) :
    t.SetValueForSymbol_hash n v =
      .ok { t with hash_symbols_ := t.hash_symbols_ ++ [(n, ⟨v, false⟩)] } := by
  have hf : hash_find t.hash_symbols_ n = none := by
    rw [hash_find_eq_none_iff, ← names_hash hd]; exact hn
  simp [EidosSymbolTable.SetValueForSymbol_hash, hf, hash_insert_of_none]

theorem get_of_mem_bindings {t : EidosSymbolTable} (hl : t.LengthsExact) (hnd : t.names.Nodup)
    {n : CppString} {v : EidosValue} {c : Bool} (hmem : (n, v, c) ∈ t.bindings)
    (hshort : n.length < 2147483648) :
    t.GetValueOrRaiseForSymbol n = .ok v ∧ t.GetValueOrRaiseForToken ⟨n⟩ = .ok v ∧
      t.GetValueOrNullForSymbol n = some v := by
  cases hd : t.using_internal_symbols_ with
  | true =>
    have hnd' : (t.internal_symbols_.map (fun s => s.symbol_name_)).Nodup := by
      rw [← names_dense hd]; exact hnd
    simp only [EidosSymbolTable.bindings, hd, if_true, List.mem_map] at hmem
    obtain ⟨s0, hs0, heq⟩ := hmem
    simp only [Prod.mk.injEq] at heq
    obtain ⟨hname, hval, _⟩ := heq
    cases hscan : scan_slots t.internal_symbols_ (toInt32 n.length) n with
    | none =>
      exfalso
      have := (scan_none_iff_not_mem hl hshort).1 hscan
      exact this (List.mem_map.2 ⟨s0, hs0, hname⟩)
    | some p =>
      obtain ⟨i, s⟩ := p
      have hs := scan_slots_mem hscan
      have hsn := (slot_matches_iff_name (hl s hs) hshort).1 (scan_slots_some hscan).2
      have : s = s0 := List.inj_on_of_nodup_map hnd' hs hs0 (hsn.trans hname.symm)
      subst this
      simp [EidosSymbolTable.GetValueOrRaiseForSymbol, EidosSymbolTable.GetValueOrRaiseForToken,
        EidosSymbolTable.GetValueOrNullForSymbol, hd, hscan, hval]
  | false =>
    have hnd' : (t.hash_symbols_.map Prod.fst).Nodup := by
      rw [← names_hash hd]; exact hnd
    simp only [EidosSymbolTable.bindings, hd, Bool.false_eq_true, if_false, List.mem_map] at hmem
    obtain ⟨e0, he0, heq⟩ := hmem
    simp only [Prod.mk.injEq] at heq
    obtain ⟨hname, hval, _⟩ := heq
    cases hf : hash_find t.hash_symbols_ n with
    | none =>
      exfalso
      exact (hash_find_eq_none_iff _ _).1 hf (List.mem_map.2 ⟨e0, he0, hname⟩)
    | some s =>
      have hs := hash_find_mem hf
      have : (n, s) = e0 := List.inj_on_of_nodup_map hnd' hs he0 (by simp [hname])
      subst this
      simp [EidosSymbolTable.GetValueOrRaiseForSymbol, EidosSymbolTable.GetValueOrRaiseForToken,
        EidosSymbolTable.GetValueOrNullForSymbol, hd, hf, ← hval]

theorem initialize_name_spec (b : EidosBuild) {t : EidosSymbolTable} {n : CppString}
    {v : EidosValue} (hvis : v.invisible = false) (hone : t.OneTier) (hl : t.LengthsExact)
    (hnd : t.names.Nodup) (hn : n ∉ t.names) (hshort : n.length < 65536) :
    ∃ t', t.InitializeConstantSymbolEntry_name b n v = .ok t' ∧
      t'.bindings = t.bindings ++ [(n, v, true)] ∧ t'.OneTier ∧ t'.LengthsExact := by
  cases hd : t.using_internal_symbols_ with
  | true =>
    have hh := hone.1 hd
    by_cases hlt : t.internal_symbol_count_ < b.EIDOS_SYMBOL_TABLE_BASE_SIZE
    · refine ⟨{ t with internal_symbols_ := t.internal_symbols_ ++
                  [⟨v, n, toUInt16 (n.length : Int), true, true⟩] }, ?_, ?_, ?_, ?_⟩
      · simp only [EidosSymbolTable.InitializeConstantSymbolEntry_name, EidosValue.Invisible, hvis,
          Bool.and_false, Bool.false_eq_true, if_false, hd, if_true, hlt]
      · simp [EidosSymbolTable.bindings, hd]
      · exact ⟨fun _ => hh, fun h => by simp [hd] at h⟩
      · intro s hs
        simp only [List.mem_append, List.mem_singleton] at hs
        rcases hs with hs | rfl
        · exact hl s hs
        · exact toUInt16_of_lt hshort
    · obtain ⟨hb, hu, hi⟩ := bindings_switch t hd hh hnd
      have hn' : n ∉ t._SwitchToHash.names := by rw [names_switch t hd hh hnd]; exact hn
      have hf : hash_find t._SwitchToHash.hash_symbols_ n = none := by
        rw [hash_find_eq_none_iff, ← names_hash hu]; exact hn'
      refine ⟨{ t._SwitchToHash with hash_symbols_ :=
                  t._SwitchToHash.hash_symbols_ ++ [(n, ⟨v, true⟩)] }, ?_, ?_, ?_, ?_⟩
      · simp only [EidosSymbolTable.InitializeConstantSymbolEntry_name, EidosValue.Invisible, hvis,
          Bool.and_false, Bool.false_eq_true, if_false, hd, if_true, hlt,
          hash_insert_of_none _ hf]
      · rw [← hb]
        simp [EidosSymbolTable.bindings, hu]
      · exact ⟨fun h => by simp [hu] at h, fun _ => hi⟩
      · intro s hs
        simp [hi] at hs
  | false =>
    have hi := hone.2 hd
    have hf : hash_find t.hash_symbols_ n = none := by
      rw [hash_find_eq_none_iff, ← names_hash hd]; exact hn
    refine ⟨{ t with hash_symbols_ := t.hash_symbols_ ++ [(n, ⟨v, true⟩)] }, ?_, ?_, ?_, ?_⟩
    · simp only [EidosSymbolTable.InitializeConstantSymbolEntry_name, EidosValue.Invisible, hvis,
        Bool.and_false, Bool.false_eq_true, if_false, hd, hash_insert_of_none _ hf]
    · simp [EidosSymbolTable.bindings, hd]
    · exact ⟨fun h => by simp [hd] at h, fun _ => hi⟩
    · intro s hs
      simp [hi] at hs

theorem readOnlySymbols_eq (t : EidosSymbolTable) :
    t.ReadOnlySymbols = (t.bindings.filter (fun e => e.2.2)).map (fun e => e.1) := by
  cases hd : t.using_internal_symbols_ <;>
    simp [EidosSymbolTable.ReadOnlySymbols, EidosSymbolTable.bindings, hd, List.filter_map,
      List.map_map, Function.comp_def]

theorem readWriteSymbols_eq (t : EidosSymbolTable) :
    t.ReadWriteSymbols = (t.bindings.filter (fun e => !e.2.2)).map (fun e => e.1) := by
  cases hd : t.using_internal_symbols_ <;>
    simp [EidosSymbolTable.ReadWriteSymbols, EidosSymbolTable.bindings, hd, List.filter_map,
      List.map_map, Function.comp_def]

theorem initialize_chain_spec (b : EidosBuild) (entries : List (Bool × EidosSymbolTableEntry))
    (t : EidosSymbolTable) (hone : t.OneTier) (hl : t.LengthsExact) (hnd : t.names.Nodup)
    (hnames : (entries.map (fun fe => fe.2.1)).Nodup)
    (hnew : ∀ fe ∈ entries, fe.2.1 ∉ t.names)
    (hvis : ∀ fe ∈ entries, fe.2.2.invisible = false)
    (hshort : ∀ fe ∈ entries, fe.2.1.length < 65536) :
    ∃ t', initialize_chain b entries t = .ok t' ∧
      t'.bindings = t.bindings ++
        (entries.filter (fun fe => fe.1)).map (fun fe => (fe.2.1, fe.2.2, true)) ∧
      t'.OneTier ∧ t'.LengthsExact := by
  induction entries generalizing t with
  | nil => exact ⟨t, rfl, by simp, hone, hl⟩
  | cons fe rest ih =>
    obtain ⟨flag, entry⟩ := fe
    simp only [List.map_cons, List.nodup_cons] at hnames
    cases flag with
    | false =>
      obtain ⟨t', h1, h2, h3, h4⟩ := ih t hone hl hnd hnames.2
        (fun fe h => hnew fe (List.mem_cons_of_mem _ h))
        (fun fe h => hvis fe (List.mem_cons_of_mem _ h))
        (fun fe h => hshort fe (List.mem_cons_of_mem _ h))
      refine ⟨t', ?_, ?_, h3, h4⟩
      · rw [initialize_chain]
        simp only [initialize_if, Bool.false_eq_true, if_false]
        exact h1
      · simpa using h2
    | true =>
      obtain ⟨t1, e1, b1, o1, l1⟩ := initialize_name_spec b
        (hvis (true, entry) (List.mem_cons_self _ _)) hone hl hnd
        (hnew (true, entry) (List.mem_cons_self _ _))
        (hshort (true, entry) (List.mem_cons_self _ _))
      have hn1 : t1.names = t.names ++ [entry.1] := by
        simp [EidosSymbolTable.names, b1]
      have hnd1 : t1.names.Nodup := by
        rw [hn1]
        refine List.Nodup.append hnd (List.nodup_singleton _) ?_
        simp only [List.disjoint_singleton]
        exact hnew (true, entry) (List.mem_cons_self _ _)
      obtain ⟨t', h1, h2, h3, h4⟩ := ih t1 o1 l1 hnd1 hnames.2
        (fun fe h => by
          rw [hn1]
          simp only [List.mem_append, List.mem_singleton, not_or]
          refine ⟨hnew fe (List.mem_cons_of_mem _ h), ?_⟩
          intro heq
          exact hnames.1 (heq ▸ List.mem_map_of_mem (fun fe => fe.2.1) h))
        (fun fe h => hvis fe (List.mem_cons_of_mem _ h))
        (fun fe h => hshort fe (List.mem_cons_of_mem _ h))
      refine ⟨t', ?_, ?_, h3, h4⟩
      · rw [initialize_chain]
        simp only [initialize_if, if_true, EidosSymbolTable.InitializeConstantSymbolEntry, e1]
        exact h1
      · rw [h2, b1]
        simp

theorem hash_find_insert_ne (m : List (CppString × EidosSymbolTable_ExternalSlot))
    {k k' : CppString} (s : EidosSymbolTable_ExternalSlot) (h : k' ≠ k) :
    hash_find (hash_insert m k' s) k = hash_find m k := by
  unfold hash_insert
  cases hf : hash_find m k' with
  | some _ => rfl
  | none =>
    simp only [hash_find_append, hash_find, h, if_false]
    cases hash_find m k <;> rfl

theorem hash_find_switch_insert_none (slots : List EidosSymbolTable_InternalSlot)
    (m : List (CppString × EidosSymbolTable_ExternalSlot)) (k : CppString) :
    hash_find (switch_insert slots m) k = none ↔
      hash_find m k = none ∧ k ∉ slots.map (fun s => s.symbol_name_) := by
  induction slots generalizing m with
  | nil => simp [switch_insert]
  | cons a slots ih =>
    rw [switch_insert, ih]
    by_cases hk : a.symbol_name_ = k
    · subst hk
      constructor
      · rintro ⟨h1, _⟩
        exfalso
        unfold hash_insert at h1
        cases hf : hash_find m a.symbol_name_ with
        | some x => simp [hf] at h1
        | none =>
          simp only [hf] at h1
          rw [hash_find_append, hf] at h1
          simp [hash_find] at h1
      · rintro ⟨_, h2⟩
        simp at h2
    · rw [hash_find_insert_ne m _ hk]
      have hk' : ¬ k = a.symbol_name_ := fun h => hk h.symm
      simp [hk']

theorem stored_value_visible (v : EidosValue) (fresh : Nat) :
    (stored_value v fresh).invisible = false := by
  unfold stored_value EidosValue.Invisible EidosValue.CopyValues
  cases h : v.invisible <;> simp [h]

theorem slot_matches_self {n : CppString} (v : EidosValue) (o c : Bool)
    (hn : n.length < 65536) :
    slot_matches ⟨v, n, toUInt16 (toInt32 n.length), o, c⟩ (toInt32 n.length) n = true := by
  rw [toInt32_of_lt (by omega), toUInt16_of_lt hn]
  simp [slot_matches]

/-! ## Lemmas: no operation stores an invisible value -/

theorem hash_insert_visible {m : List (CppString × EidosSymbolTable_ExternalSlot)}
    {k : CppString} {s : EidosSymbolTable_ExternalSlot}
    (hm : ∀ e ∈ m, e.2.symbol_value_SP_.invisible = false)
    (hs : s.symbol_value_SP_.invisible = false) :
    ∀ e ∈ hash_insert m k s, e.2.symbol_value_SP_.invisible = false := by
  unfold hash_insert
  cases hash_find m k with
  | some _ => exact hm
  | none =>
    intro e he
    simp only [List.mem_append, List.mem_singleton] at he
    rcases he with he | rfl
    · exact hm e he
    · exact hs

theorem hash_assign_visible {m : List (CppString × EidosSymbolTable_ExternalSlot)}
    {k : CppString} {v : EidosValue}
    (hm : ∀ e ∈ m, e.2.symbol_value_SP_.invisible = false) (hv : v.invisible = false) :
    ∀ e ∈ hash_assign m k v, e.2.symbol_value_SP_.invisible = false := by
  induction m with
  | nil => simp [hash_assign]
  | cons a m ih =>
    obtain ⟨k', s⟩ := a
    intro e he
    unfold hash_assign at he
    by_cases hk : k' = k
    · simp only [hk, if_true, List.mem_cons] at he
      rcases he with rfl | he
      · exact hv
      · exact hm e (List.mem_cons_of_mem _ he)
    · simp only [hk, if_false, List.mem_cons] at he
      rcases he with rfl | he
      · exact hm _ (List.mem_cons_self _ _)
      · exact ih (fun e he => hm e (List.mem_cons_of_mem _ he)) e he

theorem switch_insert_visible {slots : List EidosSymbolTable_InternalSlot}
    {m : List (CppString × EidosSymbolTable_ExternalSlot)}
    (hs : ∀ s ∈ slots, s.symbol_value_SP_.invisible = false)
    (hm : ∀ e ∈ m, e.2.symbol_value_SP_.invisible = false) :
    ∀ e ∈ switch_insert slots m, e.2.symbol_value_SP_.invisible = false := by
  induction slots generalizing m with
  | nil => exact hm
  | cons a slots ih =>
    rw [switch_insert]
    exact ih (fun s h => hs s (List.mem_cons_of_mem _ h))
      (hash_insert_visible hm (hs a (List.mem_cons_self _ _)))

theorem switch_visible {t : EidosSymbolTable} (h : t.AllVisible) : t._SwitchToHash.AllVisible := by
  unfold EidosSymbolTable._SwitchToHash
  cases hd : t.using_internal_symbols_ with
  | true => exact ⟨by simp, switch_insert_visible h.1 h.2⟩
  | false => exact h

theorem backfill_visible {slots : List EidosSymbolTable_InternalSlot} (i : Nat)
    (hs : ∀ s ∈ slots, s.symbol_value_SP_.invisible = false) :
    ∀ s ∈ backfill slots i, s.symbol_value_SP_.invisible = false := by
  unfold backfill
  cases hl : slots.getLast? with
  | none => exact hs
  | some last =>
    have hlast : last ∈ slots := List.mem_of_getLast?_eq_some hl
    by_cases hi : i = slots.length - 1
    · simp only [hi, if_true]
      intro s h
      exact hs s (List.dropLast_subset _ h)
    · simp only [hi, if_false]
      intro s h
      have h' := List.dropLast_subset _ h
      rcases List.mem_or_eq_of_mem_set h' with h'' | rfl
      · exact hs s h''
      · exact hs _ hlast

theorem append_slot_visible {t : EidosSymbolTable} (h : t.AllVisible)
    {s : EidosSymbolTable_InternalSlot} (hs : s.symbol_value_SP_.invisible = false) :
    ({ t with internal_symbols_ := t.internal_symbols_ ++ [s] } : EidosSymbolTable).AllVisible := by
  refine ⟨?_, h.2⟩
  intro s' hs'
  simp only [List.mem_append, List.mem_singleton] at hs'
  rcases hs' with hs' | rfl
  · exact h.1 s' hs'
  · exact hs

theorem insert_entry_visible {t : EidosSymbolTable} (h : t.AllVisible) (k : CppString)
    {s : EidosSymbolTable_ExternalSlot} (hs : s.symbol_value_SP_.invisible = false) :
    ({ t with hash_symbols_ := hash_insert t.hash_symbols_ k s } : EidosSymbolTable).AllVisible :=
  ⟨h.1, hash_insert_visible h.2 hs⟩

theorem setValue_hash_visible {t : EidosSymbolTable} (h : t.AllVisible) (n : CppString)
    {v : EidosValue} (hv : v.invisible = false) :
    (table_after (t.SetValueForSymbol_hash n v)).AllVisible := by
  unfold EidosSymbolTable.SetValueForSymbol_hash
  cases hf : hash_find t.hash_symbols_ n with
  | none => exact insert_entry_visible h n hv
  | some existing =>
    by_cases hc : existing.symbol_is_const_ = true
    · simp only [hc, if_true]; exact h
    · simp only [hc, if_false]; exact ⟨h.1, hash_assign_visible h.2 hv⟩

theorem setConstant_hash_visible {t : EidosSymbolTable} (h : t.AllVisible) (n : CppString)
    {v : EidosValue} (hv : v.invisible = false) :
    (table_after (t.SetConstantForSymbol_hash n v)).AllVisible := by
  unfold EidosSymbolTable.SetConstantForSymbol_hash
  cases hf : hash_find t.hash_symbols_ n with
  | none => exact insert_entry_visible h n hv
  | some existing => exact h

theorem setValue_visible (b : EidosBuild) {t : EidosSymbolTable} (h : t.AllVisible)
    (n : CppString) (v : EidosValue) (fresh : Nat) :
    (table_after (t.SetValueForSymbol b n v fresh)).AllVisible := by
  have hv := stored_value_visible v fresh
  unfold stored_value at hv
  unfold EidosSymbolTable.SetValueForSymbol
  simp only
  cases hd : t.using_internal_symbols_ with
  | false => simp only [Bool.false_eq_true, if_false]; exact setValue_hash_visible h n hv
  | true =>
    simp only [if_true]
    cases hs : t._SlotIndexForSymbol (toInt32 n.length) n with
    | none =>
      by_cases hlt : t.internal_symbol_count_ < b.EIDOS_SYMBOL_TABLE_BASE_SIZE
      · simp only [hlt, if_true]; exact append_slot_visible h hv
      · simp only [hlt, if_false]; exact setValue_hash_visible (switch_visible h) n hv
    | some i =>
      dsimp only
      cases hg : t.internal_symbols_.get? i with
      | none => exact h
      | some existing =>
        dsimp only
        by_cases hc : existing.symbol_is_const_ = true
        · simp only [hc, if_true]; exact h
        · simp only [hc, if_false]
          refine ⟨?_, h.2⟩
          intro s hs'
          rcases List.mem_or_eq_of_mem_set hs' with h' | rfl
          · exact h.1 s h'
          · exact hv

theorem setConstant_visible (b : EidosBuild) {t : EidosSymbolTable} (h : t.AllVisible)
    (n : CppString) (v : EidosValue) (fresh : Nat) :
    (table_after (t.SetConstantForSymbol b n v fresh)).AllVisible := by
  have hv := stored_value_visible v fresh
  unfold stored_value at hv
  unfold EidosSymbolTable.SetConstantForSymbol
  simp only
  cases hd : t.using_internal_symbols_ with
  | false => simp only [Bool.false_eq_true, if_false]; exact setConstant_hash_visible h n hv
  | true =>
    simp only [if_true]
    cases hs : t._SlotIndexForSymbol (toInt32 n.length) n with
    | some i => exact h
    | none =>
      by_cases hlt : t.internal_symbol_count_ < b.EIDOS_SYMBOL_TABLE_BASE_SIZE
      · simp only [hlt, if_true]; exact append_slot_visible h hv
      · simp only [hlt, if_false]; exact setConstant_hash_visible (switch_visible h) n hv

theorem remove_visible {t : EidosSymbolTable} (h : t.AllVisible) (n : CppString) (c : Bool) :
    (table_after (t.RemoveValueForSymbol n c)).AllVisible := by
  unfold EidosSymbolTable.RemoveValueForSymbol
  simp only
  cases hd : t.using_internal_symbols_ with
  | false =>
    simp only [Bool.false_eq_true, if_false]
    refine ⟨h.1, ?_⟩
    intro e he
    exact h.2 e (List.mem_of_mem_filter he)
  | true =>
    simp only [if_true]
    cases hs : t._SlotIndexForSymbol (toInt32 n.length) n with
    | none => exact h
    | some i =>
      dsimp only
      cases hg : t.internal_symbols_.get? i with
      | none => exact h
      | some existing =>
        dsimp only
        by_cases hc : (existing.symbol_is_const_ && !c) = true
        · simp only [hc, if_true]; exact h
        · simp only [hc, if_false]; exact ⟨backfill_visible i h.1, h.2⟩

theorem initialize_name_visible (b : EidosBuild) {t : EidosSymbolTable} (h : t.AllVisible)
    (n : CppString) {v : EidosValue} (hv : b.DEBUG = true ∨ v.invisible = false) :
    (table_after (t.InitializeConstantSymbolEntry_name b n v)).AllVisible := by
  unfold EidosSymbolTable.InitializeConstantSymbolEntry_name
  by_cases hraise : (b.DEBUG && v.Invisible) = true
  · simp only [hraise, if_true]; exact h
  · simp only [hraise, Bool.false_eq_true, if_false]
    have hv' : v.invisible = false := by
      rcases hv with hv | hv
      · simpa [hv, EidosValue.Invisible] using hraise
      · exact hv
    cases hd : t.using_internal_symbols_ with
    | false => exact insert_entry_visible h n hv'
    | true =>
      by_cases hlt : t.internal_symbol_count_ < b.EIDOS_SYMBOL_TABLE_BASE_SIZE
      · simp only [if_true, hlt]; exact append_slot_visible h hv'
      · simp only [if_true, hlt, if_false]; exact insert_entry_visible (switch_visible h) n hv'

theorem reinitialize_define_visible (b : EidosBuild) {t : EidosSymbolTable} (h : t.AllVisible)
    (n : CppString) {v : EidosValue} (hv : v.invisible = false) :
    (table_after (t.Reinitialize_define b n v)).AllVisible := by
  unfold EidosSymbolTable.Reinitialize_define
  have key : ∀ t1 : EidosSymbolTable, t1.AllVisible →
      (table_after (match hash_find t1.hash_symbols_ n with
        | none => (.ok { t1 with hash_symbols_ := hash_insert t1.hash_symbols_ n ⟨v, true⟩ } :
            EidosResult)
        | some old_slot =>
          if (!old_slot.symbol_is_const_) ||
              decide (old_slot.symbol_value_SP_.addr ≠ v.addr) then
            .error (.does_not_match n, t1)
          else .ok t1)).AllVisible := by
    intro t1 h1
    cases hf : hash_find t1.hash_symbols_ n with
    | none => exact insert_entry_visible h1 n hv
    | some old_slot =>
      dsimp only
      split
      · exact h1
      · exact h1
  cases hd : t.using_internal_symbols_ with
  | false => exact key t h
  | true =>
    by_cases hlt : t.internal_symbol_count_ < b.EIDOS_SYMBOL_TABLE_BASE_SIZE
    · simp only [if_true, hlt]; exact append_slot_visible h hv
    · simp only [if_true, hlt, if_false]; exact key _ (switch_visible h)

theorem reinitialize_visible (b : EidosBuild) {t : EidosSymbolTable} (h : t.AllVisible)
    {e : EidosSymbolTableEntry} (hv : b.DEBUG = true ∨ e.2.invisible = false) :
    (table_after (t.ReinitializeConstantSymbolEntry b e)).AllVisible := by
  unfold EidosSymbolTable.ReinitializeConstantSymbolEntry
  by_cases hraise : (b.DEBUG && e.2.Invisible) = true
  · simp only [hraise, if_true]; exact h
  · simp only [hraise, Bool.false_eq_true, if_false]
    have hv' : e.2.invisible = false := by
      rcases hv with hv | hv
      · simpa [hv, EidosValue.Invisible] using hraise
      · exact hv
    generalize (if t.using_internal_symbols_ = true then _ else none) = found
    cases found with
    | none => exact reinitialize_define_visible b h _ hv'
    | some old_slot =>
      dsimp only
      split
      · exact h
      · exact h

theorem reinitialize_name_visible (b : EidosBuild) {t : EidosSymbolTable} (h : t.AllVisible)
    (n : CppString) {v : EidosValue} (hv : b.DEBUG = true ∨ v.invisible = false) :
    (table_after (t.ReinitializeConstantSymbolEntry_name b n v)).AllVisible := by
  unfold EidosSymbolTable.ReinitializeConstantSymbolEntry_name
  by_cases hraise : (b.DEBUG && v.Invisible) = true
  · simp only [hraise, if_true]; exact h
  · simp only [hraise, Bool.false_eq_true, if_false]
    have hv' : v.invisible = false := by
      rcases hv with hv | hv
      · simpa [hv, EidosValue.Invisible] using hraise
      · exact hv
    generalize (if t.using_internal_symbols_ = true then _ else none) = found
    cases found with
    | none => exact reinitialize_define_visible b h _ hv'
    | some old_slot =>
      dsimp only
      split
      · exact h
      · exact h

theorem call_visible (b : EidosBuild) {t : EidosSymbolTable} (h : t.AllVisible) (c : TableCall)
    (hv : b.DEBUG = true ∨ ∀ v, c.stored_as_given = some v → v.invisible = false) :
    (table_after (c.run b t)).AllVisible := by
  cases c with
  | SetValueForSymbol n v fresh => exact setValue_visible b h n v fresh
  | SetConstantForSymbol n v fresh => exact setConstant_visible b h n v fresh
  | InitializeConstantSymbolEntry e =>
    exact initialize_name_visible b h e.1 (hv.imp id (fun f => f e.2 rfl))
  | InitializeConstantSymbolEntry_name n v =>
    exact initialize_name_visible b h n (hv.imp id (fun f => f v rfl))
  | ReinitializeConstantSymbolEntry e =>
    exact reinitialize_visible b h (hv.imp id (fun f => f e.2 rfl))
  | ReinitializeConstantSymbolEntry_name n v =>
    exact reinitialize_name_visible b h n (hv.imp id (fun f => f v rfl))
  | RemoveValueForSymbol n c => exact remove_visible h n c

theorem run_calls_visible (b : EidosBuild) (calls : List TableCall) {t : EidosSymbolTable}
    (h : t.AllVisible)
    (hv : b.DEBUG = true ∨ ∀ c ∈ calls, ∀ v, c.stored_as_given = some v → v.invisible = false) :
    (run_calls b t calls).AllVisible := by
  induction calls generalizing t with
  | nil => exact h
  | cons c calls ih =>
    unfold run_calls
    rw [List.foldl_cons]
    exact ih (call_visible b h c (hv.imp id (fun f => f c (List.mem_cons_self _ _))))
      (hv.imp id (fun f c' hc' => f c' (List.mem_cons_of_mem _ hc')))

theorem lookup_visible {t : EidosSymbolTable} (h : t.AllVisible) {n : CppString}
    {v : EidosValue} (hget : t.GetValueOrNullForSymbol n = some v) : v.invisible = false := by
  unfold EidosSymbolTable.GetValueOrNullForSymbol at hget
  cases hd : t.using_internal_symbols_ with
  | true =>
    simp only [hd, if_true] at hget
    cases hs : scan_slots t.internal_symbols_ (toInt32 n.length) n with
    | none => simp [hs] at hget
    | some p =>
      obtain ⟨i, s⟩ := p
      simp only [hs, Option.some.injEq] at hget
      rw [← hget]
      exact h.1 s (scan_slots_mem hs)
  | false =>
    simp only [hd, Bool.false_eq_true, if_false] at hget
    cases hf : hash_find t.hash_symbols_ n with
    | none => simp [hf] at hget
    | some s =>
      simp only [hf, Option.some.injEq] at hget
      rw [← hget]
      exact h.2 _ (hash_find_mem hf)

theorem getOrRaise_eq_ok_iff (t : EidosSymbolTable) (n : CppString) (v : EidosValue) :
    t.GetValueOrRaiseForSymbol n = .ok v ↔ t.GetValueOrNullForSymbol n = some v := by
  unfold EidosSymbolTable.GetValueOrRaiseForSymbol EidosSymbolTable.GetValueOrNullForSymbol
  cases t.using_internal_symbols_ with
  | true =>
    simp only [if_true]
    cases scan_slots t.internal_symbols_ (toInt32 n.length) n <;> simp
  | false =>
    simp only [Bool.false_eq_true, if_false]
    cases hash_find t.hash_symbols_ n <;> simp

theorem getForToken_eq (t : EidosSymbolTable) (n : CppString) :
    t.GetValueOrRaiseForToken ⟨n⟩ = t.GetValueOrRaiseForSymbol n := rfl


/-! ## Claims C1 to C3: names of 65536 characters in the dense array -/

/-- The table that holds one slot for `long_name`, written by a dense path. -/
theorem set_long_name :
    empty_dense.SetValueForSymbol build16 long_name value_one 0 = .ok (long_name_table false) :=
  set_truncated long_name_length

theorem long_name_mem_names (c : Bool) : long_name ∈ (long_name_table c).names := by
  simp [EidosSymbolTable.names, EidosSymbolTable.bindings, long_name_table, truncated_slot]

theorem nil_not_mem_names (c : Bool) : ([] : CppString) ∉ (long_name_table c).names := by
  simp only [EidosSymbolTable.names, EidosSymbolTable.bindings, long_name_table, truncated_slot,
    if_true, List.map_cons, List.map_nil, List.mem_singleton]
  intro h
  have := congrArg List.length h
  rw [long_name_length] at this
  simp at this

/-- C1 (the code at the failing input).  In the dense-mode table built by the
constructor for a script that uses no reserved constant, `SetValueForSymbol`
returns for the 65536-character name `long_name` and the value `value_one`; the
slot it writes records the length `(uint16_t)65536 = 0`; afterwards all three
getters miss the name: `GetValueOrRaiseForSymbol` and `GetValueOrRaiseForToken`
raise "undefined identifier" and `GetValueOrNullForSymbol` returns the null
pointer. -/
theorem long_name_round_trip_fails :
    EidosSymbolTable.new build16 statics0 (some no_usage) false = .ok empty_dense ∧
    empty_dense.SetValueForSymbol build16 long_name value_one 0 = .ok (long_name_table false) ∧
    (long_name_table false).GetValueOrRaiseForSymbol long_name
      = .error (.undefined_identifier long_name) ∧
    (long_name_table false).GetValueOrRaiseForToken ⟨long_name⟩
      = .error (.undefined_identifier long_name) ∧
    (long_name_table false).GetValueOrNullForSymbol long_name = none :=
  ⟨new_no_usage, set_long_name, get_truncated long_name_length value_one false,
    get_token_truncated long_name_length value_one false,
    get_null_truncated long_name_length value_one false⟩

/-- C2 (the code at the failing input).  The table `long_name_table false` is
reached from the empty dense table by `SetValueForSymbol long_name value_one`.
Its one slot carries the name `long_name`, yet `GetValueOrRaiseForSymbol
long_name` raises "undefined identifier"; and no slot carries the empty name,
yet `GetValueOrRaiseForSymbol` and `GetValueOrNullForSymbol` return `value_one`
for the empty name, because the slot records the length 0. -/
theorem lookup_disagrees_with_slots :
    empty_dense.SetValueForSymbol build16 long_name value_one 0 = .ok (long_name_table false) ∧
    long_name ∈ (long_name_table false).names ∧
    (long_name_table false).GetValueOrRaiseForSymbol long_name
      = .error (.undefined_identifier long_name) ∧
    ([] : CppString) ∉ (long_name_table false).names ∧
    (long_name_table false).GetValueOrRaiseForSymbol [] = .ok value_one ∧
    (long_name_table false).GetValueOrRaiseForToken ⟨[]⟩ = .ok value_one ∧
    (long_name_table false).GetValueOrNullForSymbol [] = some value_one :=
  ⟨set_long_name, long_name_mem_names false, get_truncated long_name_length value_one false,
    nil_not_mem_names false, get_empty_truncated long_name value_one false⟩

/-- C3 (the code at the failing input).  `SetConstantForSymbol long_name
value_one` on the empty dense table returns and leaves `long_name` bound as a
constant (`ReadOnlySymbols` lists it).  A following `SetValueForSymbol long_name
value_two` does not raise: it returns and appends a second, non-constant slot
for the same name. -/
theorem long_constant_reassigned :
    empty_dense.SetConstantForSymbol build16 long_name value_one 0
      = .ok (long_name_table true) ∧
    (long_name_table true).ReadOnlySymbols = [long_name] ∧
    (long_name_table true).SetValueForSymbol build16 long_name value_two 0
      = .ok ⟨true, [truncated_slot long_name value_one true,
                    truncated_slot long_name value_two false], []⟩ :=
  ⟨setConstant_truncated long_name_length, readOnly_truncated long_name value_one,
    set_after_truncated_constant long_name_length⟩

/-! ## Claim C4: `SetConstantForSymbol` -/

theorem setConstant_dense_found {b : EidosBuild} {t : EidosSymbolTable} {n : CppString}
    (v : EidosValue) (fresh : Nat) (hd : t.using_internal_symbols_ = true)
    {p : Nat × EidosSymbolTable_InternalSlot}
    (hs : scan_slots t.internal_symbols_ (toInt32 n.length) n = some p) :
    t.SetConstantForSymbol b n v fresh = .error (.already_defined n, t) := by
  simp [EidosSymbolTable.SetConstantForSymbol, hd, EidosSymbolTable._SlotIndexForSymbol, hs]

theorem setConstant_dense_room {b : EidosBuild} {t : EidosSymbolTable} {n : CppString}
    (v : EidosValue) (fresh : Nat) (hd : t.using_internal_symbols_ = true)
    (hs : scan_slots t.internal_symbols_ (toInt32 n.length) n = none)
    (hlt : t.internal_symbol_count_ < b.EIDOS_SYMBOL_TABLE_BASE_SIZE) :
    t.SetConstantForSymbol b n v fresh =
      .ok { t with internal_symbols_ := t.internal_symbols_ ++
              [⟨stored_value v fresh, n, toUInt16 (toInt32 n.length), false, true⟩] } := by
  simp [EidosSymbolTable.SetConstantForSymbol, hd, EidosSymbolTable._SlotIndexForSymbol, hs, hlt,
    stored_value]

theorem setConstant_dense_full {b : EidosBuild} {t : EidosSymbolTable} {n : CppString}
    (v : EidosValue) (fresh : Nat) (hd : t.using_internal_symbols_ = true)
    (hs : scan_slots t.internal_symbols_ (toInt32 n.length) n = none)
    (hlt : ¬ t.internal_symbol_count_ < b.EIDOS_SYMBOL_TABLE_BASE_SIZE) :
    t.SetConstantForSymbol b n v fresh =
      t._SwitchToHash.SetConstantForSymbol_hash n (stored_value v fresh) := by
  simp [EidosSymbolTable.SetConstantForSymbol, hd, EidosSymbolTable._SlotIndexForSymbol, hs, hlt,
    stored_value]

theorem setConstant_hash {b : EidosBuild} {t : EidosSymbolTable} {n : CppString}
    (v : EidosValue) (fresh : Nat) (hd : t.using_internal_symbols_ = false) :
    t.SetConstantForSymbol b n v fresh = t.SetConstantForSymbol_hash n (stored_value v fresh) := by
  simp [EidosSymbolTable.SetConstantForSymbol, hd, stored_value]

theorem setConstant_hash_new {t : EidosSymbolTable} {n : CppString} (v : EidosValue)
    (hf : hash_find t.hash_symbols_ n = none) :
    t.SetConstantForSymbol_hash n v =
      .ok { t with hash_symbols_ := t.hash_symbols_ ++ [(n, ⟨v, true⟩)] } := by
  simp [EidosSymbolTable.SetConstantForSymbol_hash, hf, hash_insert_of_none]

theorem setValue_on_hash_constant (b : EidosBuild) {t : EidosSymbolTable} {n : CppString}
    {s : EidosSymbolTable_ExternalSlot} (w : EidosValue) (f : Nat)
    (hd : t.using_internal_symbols_ = false) (hf : hash_find t.hash_symbols_ n = some s)
    (hc : s.symbol_is_const_ = true) :
    t.SetValueForSymbol b n w f = .error (.cannot_be_redefined n, t) := by
  simp [EidosSymbolTable.SetValueForSymbol, hd, EidosSymbolTable.SetValueForSymbol_hash, hf, hc]

theorem setValue_on_dense_constant (b : EidosBuild) {t : EidosSymbolTable} {n : CppString}
    {i : Nat} {s : EidosSymbolTable_InternalSlot} (w : EidosValue) (f : Nat)
    (hd : t.using_internal_symbols_ = true)
    (hs : scan_slots t.internal_symbols_ (toInt32 n.length) n = some (i, s))
    (hc : s.symbol_is_const_ = true) :
    t.SetValueForSymbol b n w f = .error (.cannot_be_redefined n, t) := by
  have hget : t.internal_symbols_[i]? = some s := by simpa using (scan_slots_some hs).1
  simp [EidosSymbolTable.SetValueForSymbol, hd, EidosSymbolTable._SlotIndexForSymbol, hs, hget, hc]

/-- What `SetConstantForSymbol` does for a name that no slot carries, in a
table whose recorded lengths are exact. -/
theorem setConstant_unbound (b : EidosBuild) {t : EidosSymbolTable} {n : CppString}
    (v : EidosValue) (fresh : Nat) (hone : t.OneTier) (hl : t.LengthsExact)
    (hn : n.length < 65536) (hnew : n ∉ t.names) :
    ∃ t', t.SetConstantForSymbol b n v fresh = .ok t' ∧
      (n, stored_value v fresh, true) ∈ t'.bindings ∧
      t'.GetValueOrRaiseForSymbol n = .ok (stored_value v fresh) ∧
      ∀ (w : EidosValue) (f : Nat),
        t'.SetValueForSymbol b n w f = .error (.cannot_be_redefined n, t') := by
  cases hd : t.using_internal_symbols_ with
  | true =>
    have hscan : scan_slots t.internal_symbols_ (toInt32 n.length) n = none := by
      rw [scan_none_iff_not_mem hl (by omega), ← names_dense hd]; exact hnew
    by_cases hlt : t.internal_symbol_count_ < b.EIDOS_SYMBOL_TABLE_BASE_SIZE
    · have hscan' : scan_slots (t.internal_symbols_ ++
          [⟨stored_value v fresh, n, toUInt16 (toInt32 n.length), false, true⟩])
          (toInt32 n.length) n = some (t.internal_symbols_.length,
            ⟨stored_value v fresh, n, toUInt16 (toInt32 n.length), false, true⟩) := by
        rw [scan_slots_append, slot_matches_self _ _ _ hn]; rfl
      refine ⟨_, setConstant_dense_room v fresh hd hscan hlt, ?_, ?_, ?_⟩
      · simp [EidosSymbolTable.bindings, hd]
      · simp [EidosSymbolTable.GetValueOrRaiseForSymbol, hd, hscan']
      · intro w f
        exact setValue_on_dense_constant b w f hd hscan' rfl
    · have hf : hash_find t._SwitchToHash.hash_symbols_ n = none := by
        simp only [EidosSymbolTable._SwitchToHash, hd, if_true, hone.1 hd]
        rw [hash_find_switch_insert_none]
        refine ⟨rfl, ?_⟩
        rw [← names_dense hd]; exact hnew
      have hu : t._SwitchToHash.using_internal_symbols_ = false := by
        simp [EidosSymbolTable._SwitchToHash, hd]
      have hfind : hash_find (t._SwitchToHash.hash_symbols_ ++
          [(n, (⟨stored_value v fresh, true⟩ : EidosSymbolTable_ExternalSlot))]) n
            = some ⟨stored_value v fresh, true⟩ := by
        rw [hash_find_append, hf]; simp [hash_find]
      refine ⟨_, (setConstant_dense_full v fresh hd hscan hlt).trans
        (setConstant_hash_new _ hf), ?_, ?_, ?_⟩
      · simp [EidosSymbolTable.bindings, hu]
      · simp [EidosSymbolTable.GetValueOrRaiseForSymbol, hu, hfind]
      · intro w f
        exact setValue_on_hash_constant b w f hu hfind rfl
  | false =>
    have hf : hash_find t.hash_symbols_ n = none := by
      rw [hash_find_eq_none_iff, ← names_hash hd]; exact hnew
    have hfind : hash_find (t.hash_symbols_ ++
        [(n, (⟨stored_value v fresh, true⟩ : EidosSymbolTable_ExternalSlot))]) n
          = some ⟨stored_value v fresh, true⟩ := by
      rw [hash_find_append, hf]; simp [hash_find]
    refine ⟨_, (setConstant_hash v fresh hd).trans (setConstant_hash_new _ hf), ?_, ?_, ?_⟩
    · simp [EidosSymbolTable.bindings, hd]
    · simp [EidosSymbolTable.GetValueOrRaiseForSymbol, hd, hfind]
    · intro w f
      exact setValue_on_hash_constant b w f hd hfind rfl

theorem setConstant_bound (b : EidosBuild) {t : EidosSymbolTable} {n : CppString}
    (v : EidosValue) (fresh : Nat) (hl : t.LengthsExact)
    (hn : n.length < 65536) (hbound : n ∈ t.names) :
    t.SetConstantForSymbol b n v fresh = .error (.already_defined n, t) := by
  cases hd : t.using_internal_symbols_ with
  | true =>
    cases hscan : scan_slots t.internal_symbols_ (toInt32 n.length) n with
    | none =>
      exfalso
      rw [scan_none_iff_not_mem hl (by omega), ← names_dense hd] at hscan
      exact hscan hbound
    | some p => exact setConstant_dense_found v fresh hd hscan
  | false =>
    cases hf : hash_find t.hash_symbols_ n with
    | none =>
      exfalso
      rw [hash_find_eq_none_iff, ← names_hash hd] at hf
      exact hf hbound
    | some s =>
      rw [setConstant_hash v fresh hd]
      simp [EidosSymbolTable.SetConstantForSymbol_hash, hf]

/-- C4 (amended).  In a table of which only one tier is populated and whose
dense slots record the exact length of their names, and for a name `n` shorter
than 65536 characters: `SetConstantForSymbol(n, v)` raises the "already
defined" error if and only if a slot carries `n` (variable or constant), in
either tier, and then leaves the table as it was; when no slot carries `n` the
call returns, `n` is bound as a constant to the stored value (`v` itself, or
its visible copy made by `CopyValues` when `v` is invisible),
`GetValueOrRaiseForSymbol(n)` returns that stored value, and every later
`SetValueForSymbol(n, w)` raises the "cannot be redefined" error and leaves
the table unchanged. -/
theorem setConstant_defines_constant (b : EidosBuild) (t : EidosSymbolTable) (n : CppString)
    (v : EidosValue) (fresh : Nat) (hone : t.OneTier) (hl : t.LengthsExact)
    (hn : n.length < 65536) :
    ((∃ t', t.SetConstantForSymbol b n v fresh = .error (.already_defined n, t')) ↔
        n ∈ t.names) ∧
    (n ∈ t.names → t.SetConstantForSymbol b n v fresh = .error (.already_defined n, t)) ∧
    (n ∉ t.names →
      ∃ t', t.SetConstantForSymbol b n v fresh = .ok t' ∧
        (n, stored_value v fresh, true) ∈ t'.bindings ∧
        t'.GetValueOrRaiseForSymbol n = .ok (stored_value v fresh) ∧
        ∀ (w : EidosValue) (f : Nat),
          t'.SetValueForSymbol b n w f = .error (.cannot_be_redefined n, t')) := by
  refine ⟨⟨?_, fun h => ⟨t, setConstant_bound b v fresh hl hn h⟩⟩,
    setConstant_bound b v fresh hl hn, setConstant_unbound b v fresh hone hl hn⟩
  rintro ⟨t', ht'⟩
  by_contra hnew
  obtain ⟨t'', h1, _⟩ := setConstant_unbound b v fresh hone hl hn hnew
  rw [h1] at ht'
  cases ht'

theorem setConstant_defines_constant_witness :
    two_slot_table.OneTier ∧ two_slot_table.LengthsExact ∧ (['y'] : CppString).length < 65536 ∧
    (((∃ t', two_slot_table.SetConstantForSymbol build2 ['y'] invisible_one 301
          = .error (.already_defined ['y'], t')) ↔ ['y'] ∈ two_slot_table.names) ∧
     (['y'] ∈ two_slot_table.names →
        two_slot_table.SetConstantForSymbol build2 ['y'] invisible_one 301
          = .error (.already_defined ['y'], two_slot_table)) ∧
     (['y'] ∉ two_slot_table.names →
        ∃ t', two_slot_table.SetConstantForSymbol build2 ['y'] invisible_one 301 = .ok t' ∧
          (['y'], stored_value invisible_one 301, true) ∈ t'.bindings ∧
          t'.GetValueOrRaiseForSymbol ['y'] = .ok (stored_value invisible_one 301) ∧
          ∀ (w : EidosValue) (f : Nat),
            t'.SetValueForSymbol build2 ['y'] w f = .error (.cannot_be_redefined ['y'], t'))) :=
  ⟨by decide, by decide, by decide,
    setConstant_defines_constant build2 two_slot_table ['y'] invisible_one 301
      (by decide) (by decide) (by decide)⟩

/-- C4 (counterexample).  On the empty dense table `SetConstantForSymbol` is
called for the unbound name `x` with the invisible value `invisible_one` (held
at address 300); the call returns, and `GetValueOrRaiseForSymbol` then returns
not that value but the visible copy allocated at address 301. -/
theorem setConstant_invisible_returns_copy :
    empty_dense.SetConstantForSymbol build16 ['x'] invisible_one 301
      = .ok ⟨true, [⟨⟨301, false, .integer [1]⟩, ['x'], 1, false, true⟩], []⟩ ∧
    (⟨true, [⟨⟨301, false, .integer [1]⟩, ['x'], 1, false, true⟩], []⟩ :
        EidosSymbolTable).GetValueOrRaiseForSymbol ['x'] = .ok ⟨301, false, .integer [1]⟩ ∧
    (⟨301, false, .integer [1]⟩ : EidosValue) ≠ invisible_one :=
  ⟨rfl, rfl, by decide⟩

/-! ## The constructor, its static entries being intact -/

theorem result_bind_ok (x : EidosResult) : (x >>= fun t => Except.ok t) = x := by
  cases x <;> rfl

theorem new_eq_chain (b : EidosBuild) (g : EidosStaticObjects)
    (p_symbol_usage : Option EidosSymbolUsageParamBlock) (p_start_with_hash : Bool) :
    EidosSymbolTable.new b g p_symbol_usage p_start_with_hash =
      initialize_chain b (base_entries g p_symbol_usage) ⟨!p_start_with_hash, [], []⟩ := by
  cases p_symbol_usage with
  | none =>
    simp only [EidosSymbolTable.new, base_entries, initialize_chain, initialize_if, if_true,
      bind_assoc, result_bind_ok]
  | some u =>
    simp only [EidosSymbolTable.new, base_entries, initialize_chain, bind_assoc, result_bind_ok]

theorem base_entries_names (g : EidosStaticObjects)
    (p_symbol_usage : Option EidosSymbolUsageParamBlock) :
    (base_entries g p_symbol_usage).map (fun fe => fe.2.1) =
      [gEidosStr_NAN, gEidosStr_INF, gEidosStr_PI, gEidosStr_E, gEidosStr_NULL, gEidosStr_F,
        gEidosStr_T] := by
  cases p_symbol_usage <;> rfl

theorem base_entries_requested (g : EidosStaticObjects)
    (p_symbol_usage : Option EidosSymbolUsageParamBlock) :
    ((base_entries g p_symbol_usage).filter (fun fe => fe.1)).map (fun fe => fe.2.1) =
      requested_constants p_symbol_usage := by
  cases p_symbol_usage with
  | none => rfl
  | some u =>
    obtain ⟨a1, a2, a3, a4, a5, a6, a7⟩ := u
    cases a1 <;> cases a2 <;> cases a3 <;> cases a4 <;> cases a5 <;> cases a6 <;> cases a7 <;> rfl

/-- What the constructor builds, for every build, starting tier and usage
block. -/
theorem new_spec (b : EidosBuild) (g : EidosStaticObjects)
    (p_symbol_usage : Option EidosSymbolUsageParamBlock) (p_start_with_hash : Bool) :
    ∃ t, EidosSymbolTable.new b g p_symbol_usage p_start_with_hash = .ok t ∧
      t.bindings = ((base_entries g p_symbol_usage).filter (fun fe => fe.1)).map
        (fun fe => (fe.2.1, fe.2.2, true)) ∧
      t.names = requested_constants p_symbol_usage ∧ t.names.Nodup ∧
      t.OneTier ∧ t.LengthsExact ∧ t.AllVisible ∧
      (∀ e ∈ t.bindings, e.1.length < 65536 ∧ e.2.1.invisible = false ∧ e.2.2 = true) := by
  have hnames := base_entries_names g p_symbol_usage
  have hmem : ∀ fe ∈ base_entries g p_symbol_usage,
      fe.2.2.invisible = false ∧ fe.2.1.length < 65536 := by
    cases p_symbol_usage <;>
      simp [base_entries, nanConstant, infConstant, piConstant, eConstant, nullConstant,
        falseConstant, trueConstant, gEidosStr_NAN, gEidosStr_INF, gEidosStr_PI, gEidosStr_E,
        gEidosStr_NULL, gEidosStr_F, gEidosStr_T]
  obtain ⟨t, h1, h2, h3, h4⟩ := initialize_chain_spec b (base_entries g p_symbol_usage)
    ⟨!p_start_with_hash, [], []⟩
    ⟨fun _ => rfl, fun _ => rfl⟩ (by intro s hs; simp at hs)
    (by cases p_start_with_hash <;> simp [EidosSymbolTable.names, EidosSymbolTable.bindings])
    (by rw [hnames]; decide)
    (by intro fe _; cases p_start_with_hash <;>
          simp [EidosSymbolTable.names, EidosSymbolTable.bindings])
    (fun fe h => (hmem fe h).1) (fun fe h => (hmem fe h).2)
  have hb0 : (⟨!p_start_with_hash, [], []⟩ : EidosSymbolTable).bindings = [] := by
    cases p_start_with_hash <;> simp [EidosSymbolTable.bindings]
  rw [hb0, List.nil_append] at h2
  have hn : t.names = requested_constants p_symbol_usage := by
    rw [← base_entries_requested g]
    simp [EidosSymbolTable.names, h2, List.map_map, Function.comp_def]
  have hnd : t.names.Nodup := by
    rw [hn, ← base_entries_requested g]
    have : ((base_entries g p_symbol_usage).map (fun fe => fe.2.1)).Nodup := by
      rw [hnames]; decide
    exact (List.Nodup.filter _ (List.Nodup.of_map _ this)).map_on
      (fun x hx y hy hxy => List.inj_on_of_nodup_map this (List.mem_of_mem_filter hx)
        (List.mem_of_mem_filter hy) hxy)
  have hall : ∀ e ∈ t.bindings, e.1.length < 65536 ∧ e.2.1.invisible = false ∧ e.2.2 = true := by
    intro e he
    rw [h2] at he
    obtain ⟨fe, hfe, rfl⟩ := List.mem_map.1 he
    have := hmem fe (List.mem_of_mem_filter hfe)
    exact ⟨this.2, this.1, rfl⟩
  have hvis : t.AllVisible := by
    cases hd : t.using_internal_symbols_ with
    | true =>
      refine ⟨?_, by rw [h3.1 hd]; simp⟩
      intro s hs
      have : (s.symbol_name_, s.symbol_value_SP_, s.symbol_is_const_) ∈ t.bindings := by
        simp only [EidosSymbolTable.bindings, hd, if_true]
        exact List.mem_map_of_mem _ hs
      exact (hall _ this).2.1
    | false =>
      refine ⟨by rw [h3.2 hd]; simp, ?_⟩
      intro e he
      have : (e.1, e.2.symbol_value_SP_, e.2.symbol_is_const_) ∈ t.bindings := by
        simp only [EidosSymbolTable.bindings, hd, Bool.false_eq_true, if_false]
        exact List.mem_map_of_mem _ he
      exact (hall _ this).2.1
  exact ⟨t, by rw [new_eq_chain]; exact h1, h2, hn, hnd, h3, h4, hvis, hall⟩

/-! ## The slots after the switch to the hash map -/

/-- The slots that `_SwitchToHash` leaves.  For every table in dense mode (its
map still empty) whose slot names are pairwise distinct, the table after
`_SwitchToHash` is in hash mode and its entries carry the names, values and
constness of the dense slots, in slot order.  When the dense array is full and
`SetValueForSymbol` is called for a name that no slot carries and that the
dense scan does not find, the call returns, the table is in hash mode, and its
entries are the earlier ones and the new one.  This is about the slots; what
the lookups return before and after the switch is the subject of
`switch_keeps_lookups_of_exact_slots` and `switch_to_hash_changes_lookups`. -/
theorem switch_to_hash_preserves_bindings (b : EidosBuild) (t : EidosSymbolTable)
    (hd : t.using_internal_symbols_ = true) (hh : t.hash_symbols_ = [])
    (hn : t.names.Nodup) :
    t._SwitchToHash.using_internal_symbols_ = false ∧
    t._SwitchToHash.bindings = t.bindings ∧
    ∀ (n : CppString) (v : EidosValue) (fresh : Nat),
      b.EIDOS_SYMBOL_TABLE_BASE_SIZE ≤ t.internal_symbol_count_ →
      n ∉ t.names → t._SlotIndexForSymbol (toInt32 n.length) n = none →
      ∃ t', t.SetValueForSymbol b n v fresh = .ok t' ∧ t'.using_internal_symbols_ = false ∧
        t'.bindings = t.bindings ++ [(n, stored_value v fresh, false)] := by
  obtain ⟨hb, hu, _⟩ := bindings_switch t hd hh hn
  refine ⟨hu, hb, ?_⟩
  intro n v fresh hfull hnew hscan
  have hnew' : n ∉ t._SwitchToHash.names := by rw [names_switch t hd hh hn]; exact hnew
  have hlt : ¬ t.internal_symbol_count_ < b.EIDOS_SYMBOL_TABLE_BASE_SIZE := by omega
  have heq : t.SetValueForSymbol b n v fresh =
      .ok { t._SwitchToHash with hash_symbols_ :=
              t._SwitchToHash.hash_symbols_ ++ [(n, ⟨stored_value v fresh, false⟩)] } := by
    simp only [EidosSymbolTable.SetValueForSymbol, hd, hscan, hlt, if_true, if_false]
    exact set_hash_new _ hu hnew'
  refine ⟨_, heq, hu, ?_⟩
  rw [← hb]
  simp [EidosSymbolTable.bindings, hu]

theorem switch_to_hash_preserves_bindings_example :
    two_slot_table._SwitchToHash.using_internal_symbols_ = false ∧
    two_slot_table._SwitchToHash.bindings = two_slot_table.bindings ∧
    ∃ t', two_slot_table.SetValueForSymbol build2 ['y'] ⟨101, true, .integer [2]⟩ 102
        = .ok t' ∧ t'.using_internal_symbols_ = false ∧
      t'.bindings = two_slot_table.bindings ++ [(['y'], ⟨102, false, .integer [2]⟩, false)] := by
  have h := switch_to_hash_preserves_bindings build2 two_slot_table rfl rfl (by decide)
  exact ⟨h.1, h.2.1,
    h.2.2 ['y'] ⟨101, true, .integer [2]⟩ 102 (by decide) (by decide) (by rfl)⟩

/-! ## Claim C7: invisible values -/

/-- C7 (amended).  For every build, every usage block and starting tier, and
every sequence of calls of `SetValueForSymbol`, `SetConstantForSymbol`,
`InitializeConstantSymbolEntry`, `ReinitializeConstantSymbolEntry` (both
overloads of each) and `RemoveValueForSymbol` made on the table that the
constructor returns: if the build defines `DEBUG`, or if every value passed to
a call of the `InitializeConstantSymbolEntry` and
`ReinitializeConstantSymbolEntry` families is not invisible, then every value
returned by `GetValueOrRaiseForSymbol`, `GetValueOrRaiseForToken` or
`GetValueOrNullForSymbol` afterwards is not invisible.  The values passed to
`SetValueForSymbol` and `SetConstantForSymbol` are arbitrary. -/
theorem lookups_never_invisible (b : EidosBuild) (g : EidosStaticObjects)
    (p_symbol_usage : Option EidosSymbolUsageParamBlock) (p_start_with_hash : Bool)
    (calls : List TableCall)
    (hgiven : b.DEBUG = true ∨
      ∀ c ∈ calls, ∀ v, c.stored_as_given = some v → v.invisible = false) :
    ∃ t0, EidosSymbolTable.new b g p_symbol_usage p_start_with_hash = .ok t0 ∧
      ∀ (n : CppString) (v : EidosValue),
        ((run_calls b t0 calls).GetValueOrRaiseForSymbol n = .ok v → v.invisible = false) ∧
        ((run_calls b t0 calls).GetValueOrRaiseForToken ⟨n⟩ = .ok v → v.invisible = false) ∧
        ((run_calls b t0 calls).GetValueOrNullForSymbol n = some v → v.invisible = false) := by
  obtain ⟨t0, h1, _, _, _, _, _, hvis, _⟩ := new_spec b g p_symbol_usage p_start_with_hash
  have hrun := run_calls_visible b calls hvis hgiven
  refine ⟨t0, h1, fun n v => ⟨fun h => ?_, fun h => ?_, fun h => lookup_visible hrun h⟩⟩
  · exact lookup_visible hrun ((getOrRaise_eq_ok_iff _ _ _).1 h)
  · rw [getForToken_eq] at h
    exact lookup_visible hrun ((getOrRaise_eq_ok_iff _ _ _).1 h)

theorem lookups_never_invisible_witness :
    (build16_debug.DEBUG = true ∨
      ∀ c ∈ example_calls, ∀ v, c.stored_as_given = some v → v.invisible = false) ∧
    ∃ t0, EidosSymbolTable.new build16_debug statics0 none false = .ok t0 ∧
      ∀ (n : CppString) (v : EidosValue),
        ((run_calls build16_debug t0 example_calls).GetValueOrRaiseForSymbol n = .ok v →
          v.invisible = false) ∧
        ((run_calls build16_debug t0 example_calls).GetValueOrRaiseForToken ⟨n⟩ = .ok v →
          v.invisible = false) ∧
        ((run_calls build16_debug t0 example_calls).GetValueOrNullForSymbol n = some v →
          v.invisible = false) :=
  ⟨Or.inl rfl, lookups_never_invisible build16_debug statics0 none false example_calls (Or.inl rfl)⟩

/-- C7 (counterexample).  In a build without `DEBUG`, on the table built by the
constructor for a script that uses no reserved constant,
`InitializeConstantSymbolEntry("x", invisible_one)` stores the invisible value
as it is, and `GetValueOrRaiseForSymbol("x")` and `GetValueOrNullForSymbol("x")`
return it. -/
theorem initialize_stores_invisible :
    EidosSymbolTable.new build16 statics0 (some no_usage) false = .ok empty_dense ∧
    (run_calls build16 empty_dense
        [.InitializeConstantSymbolEntry_name ['x'] invisible_one]).GetValueOrRaiseForSymbol ['x']
      = .ok invisible_one ∧
    (run_calls build16 empty_dense
        [.InitializeConstantSymbolEntry_name ['x'] invisible_one]).GetValueOrNullForSymbol ['x']
      = some invisible_one ∧
    invisible_one.Invisible = true :=
  ⟨rfl, rfl, rfl, rfl⟩

/-! ## Round trip and lookup for names shorter than 65536 characters -/

theorem scan_slots_set {l : List EidosSymbolTable_InternalSlot} {k : Int} {n : CppString}
    {i : Nat} {s : EidosSymbolTable_InternalSlot} (v : EidosValue)
    (h : scan_slots l k n = some (i, s)) :
    scan_slots (l.set i { s with symbol_value_SP_ := v }) k n =
      some (i, { s with symbol_value_SP_ := v }) := by
  induction l generalizing i with
  | nil => simp [scan_slots] at h
  | cons a l ih =>
    rw [scan_slots] at h
    cases hr : scan_slots l k n with
    | none =>
      rw [hr] at h
      by_cases ha : slot_matches a k n = true
      · simp only [ha, if_true, Option.some.injEq, Prod.mk.injEq] at h
        obtain ⟨rfl, rfl⟩ := h
        have ha' : slot_matches { a with symbol_value_SP_ := v } k n = true := ha
        simp only [List.set_cons_zero]
        rw [scan_slots, hr]
        simp only [ha', if_true]
      · simp [ha] at h
    | some p =>
      obtain ⟨j, f⟩ := p
      rw [hr] at h
      simp only [Option.some.injEq, Prod.mk.injEq] at h
      obtain ⟨rfl, rfl⟩ := h
      simp only [List.set_cons_succ]
      rw [scan_slots, ih hr]

theorem setValue_hash_round_trip {t t' : EidosSymbolTable} {n : CppString} {v : EidosValue}
    (hd : t.using_internal_symbols_ = false) (h : t.SetValueForSymbol_hash n v = .ok t') :
    t'.using_internal_symbols_ = false ∧
      ∃ s, hash_find t'.hash_symbols_ n = some s ∧ s.symbol_value_SP_ = v := by
  unfold EidosSymbolTable.SetValueForSymbol_hash at h
  cases hf : hash_find t.hash_symbols_ n with
  | none =>
    simp only [hf, Except.ok.injEq] at h
    subst h
    exact ⟨hd, _, hash_find_insert_self _ hf, rfl⟩
  | some existing =>
    simp only [hf] at h
    by_cases hc : existing.symbol_is_const_ = true
    · simp [hc] at h
    · simp only [hc, Bool.false_eq_true, if_false, Except.ok.injEq] at h
      subst h
      exact ⟨hd, _, hash_find_assign_self v hf, rfl⟩

/-- For a name shorter than 65536 characters, in every table state: when
`SetValueForSymbol` returns, all three getters return the stored value (the
argument, or its visible copy when the argument is invisible), whether the
table is in dense mode, in hash mode, or switches during the call. -/
theorem setValue_round_trip_short_name (b : EidosBuild) (t t' : EidosSymbolTable)
    (n : CppString) (v : EidosValue) (fresh : Nat) (hn : n.length < 65536)
    (h : t.SetValueForSymbol b n v fresh = .ok t') :
    t'.GetValueOrRaiseForSymbol n = .ok (stored_value v fresh) ∧
    t'.GetValueOrRaiseForToken ⟨n⟩ = .ok (stored_value v fresh) ∧
    t'.GetValueOrNullForSymbol n = some (stored_value v fresh) := by
  have key : t'.GetValueOrNullForSymbol n = some (stored_value v fresh) := by
    have hash_case : ∀ t0 : EidosSymbolTable, t0.using_internal_symbols_ = false →
        t0.SetValueForSymbol_hash n (stored_value v fresh) = .ok t' →
        t'.GetValueOrNullForSymbol n = some (stored_value v fresh) := by
      intro t0 h0 hset
      obtain ⟨hu, s, hs, hv⟩ := setValue_hash_round_trip h0 hset
      simp [EidosSymbolTable.GetValueOrNullForSymbol, hu, hs, hv]
    unfold EidosSymbolTable.SetValueForSymbol at h
    simp only at h
    cases hd : t.using_internal_symbols_ with
    | false =>
      simp only [hd, Bool.false_eq_true, if_false] at h
      exact hash_case t hd h
    | true =>
      simp only [hd, if_true] at h
      cases hscan : scan_slots t.internal_symbols_ (toInt32 n.length) n with
      | none =>
        simp only [EidosSymbolTable._SlotIndexForSymbol, hscan, Option.map_none'] at h
        by_cases hlt : t.internal_symbol_count_ < b.EIDOS_SYMBOL_TABLE_BASE_SIZE
        · simp only [hlt, if_true, Except.ok.injEq] at h
          subst h
          have := scan_slots_append t.internal_symbols_
            ⟨stored_value v fresh, n, toUInt16 (toInt32 n.length), false, false⟩
            (toInt32 n.length) n
          rw [slot_matches_self _ _ _ hn, if_pos rfl] at this
          simp only [EidosSymbolTable.GetValueOrNullForSymbol, hd, if_true]
          have h' : scan_slots (t.internal_symbols_ ++
              [⟨if v.Invisible = true then v.CopyValues fresh else v, n,
                toUInt16 (toInt32 n.length), false, false⟩]) (toInt32 n.length) n = _ := this
          rw [h']
        · simp only [hlt, if_false] at h
          exact hash_case _ (by simp [EidosSymbolTable._SwitchToHash, hd]) h
      | some p =>
        obtain ⟨i, s⟩ := p
        simp only [EidosSymbolTable._SlotIndexForSymbol, hscan, Option.map_some'] at h
        rw [(scan_slots_some hscan).1] at h
        by_cases hc : s.symbol_is_const_ = true
        · simp [hc] at h
        · simp only at h
          rw [if_neg hc] at h
          have h := Except.ok.inj h
          subst h
          have := scan_slots_set (stored_value v fresh) hscan
          simp only [EidosSymbolTable.GetValueOrNullForSymbol, hd, if_true]
          have h' : scan_slots (t.internal_symbols_.set i
              { s with symbol_value_SP_ := if v.Invisible = true then v.CopyValues fresh else v })
              (toInt32 n.length) n = _ := this
          rw [h']
  exact ⟨(getOrRaise_eq_ok_iff _ _ _).2 key,
    (getForToken_eq _ _).trans ((getOrRaise_eq_ok_iff _ _ _).2 key), key⟩

/-- In a table whose dense slots record the exact length of their names, a
lookup fails exactly for the names that no slot of the tier in use carries
(names shorter than `2^31` characters, for which the cast `(int)` is exact). -/
theorem lookup_fails_iff_unbound (t : EidosSymbolTable) (n : CppString) (hl : t.LengthsExact)
    (hn : n.length < 2147483648) :
    (t.GetValueOrRaiseForSymbol n = .error (.undefined_identifier n) ↔ n ∉ t.names) ∧
    (t.GetValueOrRaiseForToken ⟨n⟩ = .error (.undefined_identifier n) ↔ n ∉ t.names) ∧
    (t.GetValueOrNullForSymbol n = none ↔ n ∉ t.names) := by
  have key : t.GetValueOrNullForSymbol n = none ↔ n ∉ t.names := by
    cases hd : t.using_internal_symbols_ with
    | true =>
      rw [names_dense hd, ← scan_none_iff_not_mem hl hn]
      simp only [EidosSymbolTable.GetValueOrNullForSymbol, hd, if_true]
      cases scan_slots t.internal_symbols_ (toInt32 n.length) n <;> simp
    | false =>
      rw [names_hash hd, ← hash_find_eq_none_iff]
      simp only [EidosSymbolTable.GetValueOrNullForSymbol, hd, Bool.false_eq_true, if_false]
      cases hash_find t.hash_symbols_ n <;> simp
  have key2 : t.GetValueOrRaiseForSymbol n = .error (.undefined_identifier n) ↔
      t.GetValueOrNullForSymbol n = none := by
    unfold EidosSymbolTable.GetValueOrRaiseForSymbol EidosSymbolTable.GetValueOrNullForSymbol
    cases t.using_internal_symbols_ with
    | true =>
      simp only [if_true]
      cases scan_slots t.internal_symbols_ (toInt32 n.length) n <;> simp
    | false =>
      simp only [Bool.false_eq_true, if_false]
      cases hash_find t.hash_symbols_ n <;> simp
  exact ⟨key2.trans key, by rw [getForToken_eq]; exact key2.trans key, key⟩

/-! ## Lemmas: the "eat substring" predicate -/

theorem eat_good_iff (ss : IStringStream) (t pfx C : CppString) (e : EOFExpected) :
    (EatSubstringWithPrefixAndCharactersAtEOF ss t pfx C e).1 = true ↔
      t ≠ [] ∧ (pfx = [] ∨ pfx <+: t) ∧ (∀ c ∈ t.drop pfx.length, c ∈ C) ∧
      (e = .kEOFExpected → ss.eof = true) ∧ (e = .kEOFNotExpected → ss.eof = false) := by
  have hpre : pfx <+: t ↔ t.take pfx.length = pfx := by
    rw [List.prefix_iff_eq_take]; exact eq_comm
  cases hp : pfx with
  | nil =>
    cases e <;> cases heof : ss.eof <;>
      simp [EatSubstringWithPrefixAndCharactersAtEOF, heof] <;> tauto
  | cons a p =>
    rw [← hp]
    have hlen : 0 < pfx.length := by rw [hp]; simp
    have hne : pfx ≠ [] := by rw [hp]; simp
    cases e <;> cases heof : ss.eof <;>
      simp [EatSubstringWithPrefixAndCharactersAtEOF, heof, hlen, hne, hpre] <;> tauto

/-! ## Lemmas: streams and tokens -/

theorem dropWhile_isspace_head {b : CppString} {c : Char} {rest : CppString}
    (h : b.dropWhile isspace = c :: rest) : isspace c = false := by
  have := List.head_dropWhile_not isspace b (by rw [h]; simp)
  simpa [h] using this

theorem token_at_succ (k : Nat) (s : CppString) :
    token_at (k + 1) s = token_at 0 (rest_after (k + 1) s) := rfl

theorem token_at_eq (k : Nat) (s : CppString) : token_at k s = token_at 0 (rest_after k s) := rfl

theorem token_ne_nil_iff (b : CppString) : token_at 0 b ≠ [] ↔ b.dropWhile isspace ≠ [] := by
  unfold token_at rest_after
  cases h : b.dropWhile isspace with
  | nil => simp
  | cons c rest =>
    have hc := dropWhile_isspace_head h
    simp [List.takeWhile, hc]

theorem rest_ne_nil_of_token {k : Nat} {s : CppString} (h : token_at k s ≠ []) :
    rest_after k s ≠ [] := by
  intro h0
  apply h
  simp [token_at, h0]

theorem token_of_skip_ne_nil {b : CppString} (h : skip_token b ≠ []) : token_at 0 b ≠ [] := by
  rw [token_ne_nil_iff]
  intro h0
  apply h
  simp [skip_token, h0]

theorem token_pred_ne_nil {k : Nat} {s : CppString} (h : token_at (k + 1) s ≠ []) :
    token_at k s ≠ [] := by
  rw [token_at_eq]
  exact token_of_skip_ne_nil (rest_ne_nil_of_token h)

/-- Extraction from a good stream that holds a token. -/
theorem extract_token (b sub : CppString) (h : token_at 0 b ≠ []) :
    (⟨b, false, false⟩ : IStringStream).extract sub =
      (⟨skip_token b, (skip_token b).isEmpty, false⟩, token_at 0 b) := by
  rw [token_ne_nil_iff] at h
  unfold IStringStream.extract
  cases hd : b.dropWhile isspace with
  | nil => exact absurd hd h
  | cons c rest =>
    simp [skip_token, token_at, rest_after, hd]

/-- Extraction from a good stream that holds whitespace only. -/
theorem extract_no_token (b sub : CppString) (h : token_at 0 b = []) :
    (⟨b, false, false⟩ : IStringStream).extract sub = (⟨[], true, true⟩, sub) := by
  have h' : b.dropWhile isspace = [] := by
    by_contra hne
    exact (token_ne_nil_iff b).2 hne h
  simp [IStringStream.extract, h']

theorem token_at_not_space {k : Nat} {s : CppString} {c : Char} (h : c ∈ token_at k s) :
    isspace c = false := by
  unfold token_at at h
  have := List.mem_takeWhile_imp h
  simpa using this

/-! ## Lemmas: the row state along the tokens of a line -/

theorem start_at_token (good : Bool) (sub : CppString) {line : CppString}
    (h : token_at 0 line ≠ []) : at_token line 0 (RowState.start good sub line) := by
  unfold RowState.start IStringStream.open
  rw [extract_token line sub h]
  exact ⟨rfl, rfl⟩

theorem start_good (good : Bool) (sub line : CppString) :
    (RowState.start good sub line).good = good := rfl

theorem eat_prefixed_of_not_good {st : RowState} (h : st.good = false) (pfx chars : String)
    (e : EOFExpected) : st.eat_prefixed pfx chars e = st := by
  simp [RowState.eat_prefixed, h]

theorem eat_of_not_good {st : RowState} (h : st.good = false) (chars : String)
    (e : EOFExpected) : st.eat chars e = st := by
  simp [RowState.eat, h]

theorem eat_prefixed_good_imp {st : RowState} {pfx chars : String} {e : EOFExpected}
    (h : (st.eat_prefixed pfx chars e).good = true) : st.good = true := by
  by_contra hg
  have hg' : st.good = false := by simpa using hg
  rw [eat_prefixed_of_not_good hg'] at h
  exact hg h

theorem eat_good_imp {st : RowState} {chars : String} {e : EOFExpected}
    (h : (st.eat chars e).good = true) : st.good = true := by
  by_contra hg
  have hg' : st.good = false := by simpa using hg
  rw [eat_of_not_good hg'] at h
  exact hg h

theorem eat_eq_eat_prefixed (st : RowState) (chars : String) (e : EOFExpected) :
    st.eat chars e = st.eat_prefixed "" chars e := rfl

/-- A call with `kEOFNotExpected` made at token `k`, when a further token
exists, leaves the row state at token `k + 1`. -/
theorem eat_prefixed_advance {line : CppString} {k : Nat} {st : RowState}
    (hat : at_token line k st) (hg : st.good = true) (hnext : token_at (k + 1) line ≠ [])
    (pfx chars : String) :
    at_token line (k + 1) (st.eat_prefixed pfx chars .kEOFNotExpected) := by
  obtain ⟨hiss, hsub⟩ := hat
  have hrest : rest_after (k + 1) line ≠ [] := rest_ne_nil_of_token hnext
  have hempty : (rest_after (k + 1) line).isEmpty = false := by
    cases h : rest_after (k + 1) line with
    | nil => exact absurd h hrest
    | cons _ _ => rfl
  rw [hempty] at hiss
  have hx : ∀ sub : CppString, st.iss.extract sub =
      (⟨rest_after (k + 2) line, (rest_after (k + 2) line).isEmpty, false⟩,
        token_at (k + 1) line) := by
    intro sub
    rw [hiss]
    exact extract_token _ sub hnext
  unfold RowState.eat_prefixed EatSubstringWithPrefixAndCharactersAtEOF
  simp only [hg, if_true]
  exact ⟨by simp [hx], by simp [hx]⟩

theorem eat_advance {line : CppString} {k : Nat} {st : RowState}
    (hat : at_token line k st) (hg : st.good = true) (hnext : token_at (k + 1) line ≠ [])
    (chars : String) : at_token line (k + 1) (st.eat chars .kEOFNotExpected) :=
  eat_prefixed_advance hat hg hnext "" chars

/-- The value of `good` after a call that is made. -/
theorem eat_prefixed_good_iff {st : RowState} (hg : st.good = true) (pfx chars : String)
    (e : EOFExpected) :
    (st.eat_prefixed pfx chars e).good = true ↔
      st.sub ≠ [] ∧ (pfx.toList = [] ∨ pfx.toList <+: st.sub) ∧
      (∀ c ∈ st.sub.drop pfx.toList.length, c ∈ chars.toList) ∧
      (e = .kEOFExpected → st.iss.eof = true) ∧ (e = .kEOFNotExpected → st.iss.eof = false) := by
  unfold RowState.eat_prefixed
  simp only [hg, if_true]
  exact eat_good_iff st.iss st.sub pfx.toList chars.toList e

theorem eat_good_iff' {st : RowState} (hg : st.good = true) (chars : String)
    (e : EOFExpected) :
    (st.eat chars e).good = true ↔
      st.sub ≠ [] ∧ (∀ c ∈ st.sub, c ∈ chars.toList) ∧
      (e = .kEOFExpected → st.iss.eof = true) ∧ (e = .kEOFNotExpected → st.iss.eof = false) := by
  rw [eat_eq_eat_prefixed, eat_prefixed_good_iff hg]
  simp

/-! ## Lemmas: rows of `#MUTATION TYPES` -/

theorem dfe_eat_fails {line : CppString} (good : Bool) (sub : CppString)
    (h : ∃ c ∈ token_at 2 line, c ∉ "fge".toList) :
    ((((RowState.start good sub line).eat_prefixed "m" "1234567890" .kEOFNotExpected).eat
        "1234567890.-" .kEOFNotExpected).eat "fge" .kEOFNotExpected).good = false := by
  obtain ⟨c, hc, hnot⟩ := h
  have h2 : token_at 2 line ≠ [] := List.ne_nil_of_mem hc
  have h1 : token_at 1 line ≠ [] := token_pred_ne_nil h2
  have h0 : token_at 0 line ≠ [] := token_pred_ne_nil h1
  by_contra hgood
  have hg3 : ((((RowState.start good sub line).eat_prefixed "m" "1234567890"
      .kEOFNotExpected).eat "1234567890.-" .kEOFNotExpected).eat "fge"
      .kEOFNotExpected).good = true := by simpa using hgood
  have hg2 := eat_good_imp hg3
  have hg1 := eat_good_imp hg2
  have hg0 := eat_prefixed_good_imp hg1
  have a0 := start_at_token good sub h0
  have a1 := eat_prefixed_advance a0 hg0 h1 "m" "1234567890"
  have a2 := eat_advance a1 hg1 h2 "1234567890.-"
  have := (eat_good_iff' hg2 "fge" .kEOFNotExpected).1 hg3
  rw [a2.2] at this
  exact hnot (this.2.1 c hc)

theorem mutation_types_row_rejected (good : Bool) (sub line : CppString) (n : Counters)
    (h : ∃ c ∈ token_at 2 line, c ∉ "fge".toList) :
    ∃ st, row_body .MUTATION_TYPES good sub line n = (.done st, n) ∧ st.good = false := by
  have hbad := dfe_eat_fails good sub h
  unfold row_body
  simp only
  split
  · exact ⟨_, rfl, by rw [eat_of_not_good hbad]; exact hbad⟩
  · split
    · refine ⟨_, rfl, ?_⟩
      rw [eat_of_not_good hbad, eat_of_not_good hbad]; exact hbad
    · exact ⟨_, rfl, hbad⟩

theorem check_lines_row_rejected {s : ParameterSection} {good : Bool} {sub : CppString}
    {n : Counters} {raw : CppString} (lines : List CppString)
    (hhash : (sanitize raw).contains '#' = false) (hne : sanitize raw ≠ [])
    (hrow : ∃ st n', row_body s good sub (sanitize raw) n = (.done st, n') ∧ st.good = false) :
    check_lines (some s) good sub n (raw :: lines) = .input_error s.error (sanitize raw) := by
  obtain ⟨st, n', hbody, hgood⟩ := hrow
  have hlen : (sanitize raw).length ≠ 0 := by
    intro h0
    exact hne (List.length_eq_zero.1 h0)
  rw [check_lines]
  simp only [hhash, Bool.false_eq_true, if_false, hlen, hbody, hgood, Bool.not_false, if_true]

theorem check_lines_header {current : Option ParameterSection} {good : Bool} {sub : CppString}
    {n : Counters} {raw : CppString} {s : ParameterSection} (lines : List CppString)
    (hhash : (sanitize raw).contains '#' = true) (hsec : find_section (sanitize raw) = some s) :
    check_lines current good sub n (raw :: lines) = check_lines (some s) true sub n lines := by
  cases current <;> (rw [check_lines]; simp only [hhash, if_true, hsec])

theorem token_at_hash_free {line : CppString} (h : ∃ c ∈ token_at 2 line, c ∉ "fge".toList) :
    line ≠ [] := by
  obtain ⟨c, hc, _⟩ := h
  intro h0
  rw [h0] at hc
  simp [token_at, rest_after, skip_token] at hc

/-! ## Lemmas: counting rows -/

theorem final_checks_accepted {n n' : Counters} (h : final_checks n = .accepted n') :
    n' = n ∧ n.num_mutation_rates = 1 ∧ 1 ≤ n.num_mutation_types ∧
      1 ≤ n.num_genomic_element_types ∧ 1 ≤ n.num_chromosome_organizations ∧
      1 ≤ n.num_recombination_rates ∧ 1 ≤ n.num_generations ∧ 1 ≤ n.num_subpopulations := by
  unfold final_checks at h
  split at h
  · cases h
  · split at h
    · cases h
    · split at h
      · cases h
      · split at h
        · cases h
        · split at h
          · cases h
          · split at h
            · cases h
            · split at h
              · cases h
              · simp only [CheckResult.accepted.injEq] at h
                refine ⟨h.symm, ?_, ?_, ?_, ?_, ?_, ?_, ?_⟩ <;> omega

/-- In an accepted `#DEMOGRAPHY AND STRUCTURE` row the event type that the code
compares with `"P"` is the second token of the row, unless the row has no
second token, in which case neither is `"P"`. -/
theorem event_type_is_second_token {good : Bool} {sub line : CppString}
    (hg : ((RowState.start good sub line).eat "1234567890e" .kEOFNotExpected).good = true) :
    (((RowState.start good sub line).eat "1234567890e" .kEOFNotExpected).sub = "P".toList ↔
      token_at 1 line = "P".toList) := by
  have hg0 := eat_good_imp hg
  have hcond := (eat_good_iff' hg0 "1234567890e" .kEOFNotExpected).1 hg
  have heof : (RowState.start good sub line).iss.eof = false := hcond.2.2.2 rfl
  have h0 : token_at 0 line ≠ [] := by
    intro h0
    have : (RowState.start good sub line).iss.eof = true := by
      unfold RowState.start IStringStream.open
      rw [extract_no_token line sub h0]
      rfl
    rw [this] at heof
    cases heof
  have a0 := start_at_token good sub h0
  by_cases h1 : token_at 1 line = []
  · have hsub : ((RowState.start good sub line).eat "1234567890e" .kEOFNotExpected).sub
        = token_at 0 line := by
      have hiss := a0.1
      have hempty : (rest_after 1 line).isEmpty = false := by
        have := heof
        rw [hiss] at this
        exact this
      rw [hempty] at hiss
      unfold RowState.eat EatSubstringWithCharactersAtEOF EatSubstringWithPrefixAndCharactersAtEOF
      simp only [hg0, if_true, hiss]
      rw [extract_no_token _ _ (by rw [← token_at_eq]; exact h1)]
      simp [a0.2]
    rw [hsub, h1]
    constructor
    · intro hP
      have hmem := hcond.2.1 'P' (by rw [a0.2, hP]; decide)
      exact absurd hmem (by decide)
    · intro hP
      exact absurd hP (by decide)
  · have a1 := eat_advance a0 hg0 h1 "1234567890e"
    rw [a1.2]

theorem demography_row_counts {good : Bool} {sub line : CppString} {n n2 : Counters}
    {st : RowState}
    (hbody : row_body .DEMOGRAPHY_AND_STRUCTURE good sub line n = (.done st, n2))
    (hg : st.good = true) :
    n2 = if is_P_row line then { n with num_subpopulations := n.num_subpopulations + 1 } else n := by
  unfold row_body at hbody
  simp only at hbody
  have key : ((RowState.start good sub line).eat "1234567890e" .kEOFNotExpected).good = true := by
    split at hbody
    · simp only [Prod.mk.injEq, RowEnd.done.injEq] at hbody
      rw [← hbody.1] at hg
      split at hg
      · exact eat_good_imp (eat_prefixed_good_imp (eat_good_imp (eat_prefixed_good_imp hg)))
      · exact eat_good_imp (eat_prefixed_good_imp (eat_good_imp hg))
    · split at hbody
      · simp only [Prod.mk.injEq, RowEnd.done.injEq] at hbody
        rw [← hbody.1] at hg
        exact eat_good_imp (eat_prefixed_good_imp (eat_good_imp hg))
      · split at hbody
        · simp only [Prod.mk.injEq, RowEnd.done.injEq] at hbody
          rw [← hbody.1] at hg
          exact eat_good_imp (eat_prefixed_good_imp (eat_prefixed_good_imp (eat_good_imp hg)))
        · split at hbody
          · simp only [Prod.mk.injEq, RowEnd.done.injEq] at hbody
            rw [← hbody.1] at hg
            exact eat_good_imp (eat_prefixed_good_imp (eat_good_imp hg))
          · simp only [Prod.mk.injEq, RowEnd.done.injEq] at hbody
            rw [← hbody.1] at hg
            exact eat_good_imp hg
  have hiff := event_type_is_second_token key
  by_cases hP : token_at 1 line = "P".toList
  · have hev := hiff.2 hP
    simp only [hev, if_true, Prod.mk.injEq] at hbody
    have hrow : is_P_row line = true := by
      unfold is_P_row; exact decide_eq_true hP
    rw [hrow, if_pos rfl]
    exact hbody.2.symm
  · have hev : ¬ ((RowState.start good sub line).eat "1234567890e" .kEOFNotExpected).sub
        = "P".toList := fun h => hP (hiff.1 h)
    simp only [hev, if_false] at hbody
    have hn : n2 = n := by
      split at hbody
      · exact (Prod.mk.inj hbody).2.symm
      · split at hbody
        · exact (Prod.mk.inj hbody).2.symm
        · split at hbody
          · exact (Prod.mk.inj hbody).2.symm
          · exact (Prod.mk.inj hbody).2.symm
    have hrow : is_P_row line = false := by
      unfold is_P_row; exact decide_eq_false hP
    rw [hrow, hn]
    rfl

theorem row_body_counters {s : ParameterSection} {good : Bool} {sub line : CppString}
    {n n2 : Counters} {r : RowEnd} (hs : s ≠ .DEMOGRAPHY_AND_STRUCTURE)
    (hbody : row_body s good sub line n = (r, n2)) : n2 = n := by
  cases s with
  | DEMOGRAPHY_AND_STRUCTURE => exact absurd rfl hs
  | MUTATION_TYPES =>
    unfold row_body at hbody
    simp only at hbody
    split at hbody
    · exact (Prod.mk.inj hbody).2.symm
    · split at hbody <;> exact (Prod.mk.inj hbody).2.symm
  | GENERATIONS =>
    unfold row_body at hbody
    simp only at hbody
    split at hbody <;> exact (Prod.mk.inj hbody).2.symm
  | PREDETERMINED_MUTATIONS =>
    unfold row_body at hbody
    simp only at hbody
    split at hbody <;> exact (Prod.mk.inj hbody).2.symm
  | _ =>
    unfold row_body at hbody
    simp only at hbody
    exact (Prod.mk.inj hbody).2.symm

theorem row_counts {s : ParameterSection} {good : Bool} {sub line : CppString}
    {n n2 : Counters} {st : RowState} (hbody : row_body s good sub line n = (.done st, n2))
    (hg : st.good = true) : s.count n2 = count_row n (s, line) := by
  by_cases hs : s = .DEMOGRAPHY_AND_STRUCTURE
  · subst hs
    rw [demography_row_counts hbody hg]
    rfl
  · rw [row_body_counters hs hbody]
    cases s <;> first | rfl | exact absurd rfl hs

theorem check_lines_accepted {current : Option ParameterSection} {good : Bool}
    {sub : CppString} {n n' : Counters} {lines : List CppString}
    (h : check_lines current good sub n lines = .accepted n') :
    final_checks ((file_rows current lines).foldl count_row n) = .accepted n' := by
  induction lines generalizing current good sub n with
  | nil =>
    cases current <;> (rw [check_lines] at h; simpa [file_rows] using h)
  | cons raw lines ih =>
    cases hhash : (sanitize raw).contains '#' with
    | true =>
      cases hsec : find_section (sanitize raw) with
      | none =>
        cases current <;>
          (rw [check_lines] at h; simp only [hhash, if_true, hsec] at h; cases h)
      | some s =>
        have h' : check_lines (some s) true sub n lines = .accepted n' := by
          cases current <;>
            (rw [check_lines] at h; simp only [hhash, if_true, hsec] at h; exact h)
        have := ih h'
        cases current <;> (rw [file_rows]; simp only [hhash, if_true, hsec]; exact this)
    | false =>
      cases current with
      | none =>
        rw [check_lines] at h
        simp only [hhash, Bool.false_eq_true, if_false] at h
        rw [file_rows]
        simp only [hhash, Bool.false_eq_true, if_false]
        exact ih h
      | some s =>
        rw [check_lines] at h
        simp only [hhash, Bool.false_eq_true, if_false] at h
        rw [file_rows]
        simp only [hhash, Bool.false_eq_true, if_false]
        by_cases hempty : sanitize raw = []
        · simp only [hempty, List.length_nil, if_true] at h
          simp only [hempty, if_true]
          exact ih h
        · have hlen : (sanitize raw).length ≠ 0 := fun h0 => hempty (List.length_eq_zero.1 h0)
          simp only [hlen, if_false] at h
          simp only [hempty, if_false, List.foldl_cons]
          cases hbody : row_body s good sub (sanitize raw) n with
          | mk r n2 =>
            rw [hbody] at h
            cases r with
            | hangs => cases h
            | out_of_fuel => cases h
            | done st =>
              simp only at h
              cases hgood : st.good with
              | false => simp [hgood] at h
              | true =>
                simp only [hgood, Bool.not_true, Bool.false_eq_true, if_false] at h
                rw [← row_counts hbody hgood]
                exact ih h

theorem foldl_count_row (rows : List (ParameterSection × CppString)) (n : Counters) :
    (rows.foldl count_row n).num_mutation_rates =
        n.num_mutation_rates + (rows.filter (fun r => r.1 = .MUTATION_RATE)).length ∧
    (rows.foldl count_row n).num_mutation_types =
        n.num_mutation_types + (rows.filter (fun r => r.1 = .MUTATION_TYPES)).length ∧
    (rows.foldl count_row n).num_genomic_element_types =
        n.num_genomic_element_types +
          (rows.filter (fun r => r.1 = .GENOMIC_ELEMENT_TYPES)).length ∧
    (rows.foldl count_row n).num_chromosome_organizations =
        n.num_chromosome_organizations +
          (rows.filter (fun r => r.1 = .CHROMOSOME_ORGANIZATION)).length ∧
    (rows.foldl count_row n).num_recombination_rates =
        n.num_recombination_rates + (rows.filter (fun r => r.1 = .RECOMBINATION_RATE)).length ∧
    (rows.foldl count_row n).num_generations =
        n.num_generations + (rows.filter (fun r => r.1 = .GENERATIONS)).length ∧
    (rows.foldl count_row n).num_subpopulations =
        n.num_subpopulations +
          ((rows.filter (fun r => decide (r.1 = .DEMOGRAPHY_AND_STRUCTURE) && is_P_row r.2)).length +
            (rows.filter (fun r => r.1 = .INITIALIZATION)).length) := by
  induction rows generalizing n with
  | nil => simp
  | cons r rows ih =>
    obtain ⟨s, line⟩ := r
    rw [List.foldl_cons]
    have := ih (count_row n (s, line))
    cases s <;> cases hP : is_P_row line <;>
      simp [count_row, ParameterSection.count, hP, List.filter_cons] at this ⊢ <;> omega

/-! ## Claim C9: required sections -/

theorem rows_length (f : InputFile) (s : ParameterSection) :
    (f.rows s).length = ((file_rows none f.lines).filter (fun r => r.1 = s)).length := by
  simp [InputFile.rows]

theorem creating_rows_length (f : InputFile) :
    f.creating_rows.length =
      ((file_rows none f.lines).filter
          (fun r => decide (r.1 = .DEMOGRAPHY_AND_STRUCTURE) && is_P_row r.2)).length +
        ((file_rows none f.lines).filter (fun r => r.1 = .INITIALIZATION)).length := by
  simp [InputFile.creating_rows, InputFile.rows, List.filter_map, List.filter_filter,
    Function.comp_def, Bool.and_comm]

theorem sample_file_accepted :
    CheckInputFile [] (some sample_file) = .accepted ⟨1, 1, 1, 1, 1, 1, 1⟩ := by
  rfl

theorem sample_file_no_seed :
    (∀ l ∈ sample_file.lines, has_substr "SEED".toList l = false) ∧
      has_substr "SEED".toList sample_file.last = false := by
  decide

/-- What C9 says, when every line that `GetInputLine` does not return empty is
counted as a row, a line of tabs included.  If `CheckInputFile` returns without
reporting an error, then the rows of the file (the non-empty sanitised lines
without `#` that stand below a section header, among the complete lines of the
file, which are the lines the function looks at) comprise exactly one
`#MUTATION RATE` row, at least one row of each of `#MUTATION TYPES`, `#GENOMIC
ELEMENT TYPES`, `#CHROMOSOME ORGANIZATION`, `#RECOMBINATION RATE` and
`#GENERATIONS`, and at least one row that creates a subpopulation (a row of
`#DEMOGRAPHY AND STRUCTURE` whose second token is `P`, or a row of
`#INITIALIZATION`); the counters the function ends with are these numbers of
rows.  And a file without a `#SEED` section can be accepted: `sample_file`
is. -/
theorem required_sections (p_input_file : CppString) (f : InputFile) (n : Counters)
    (h : CheckInputFile p_input_file (some f) = .accepted n) :
    (f.rows .MUTATION_RATE).length = 1 ∧
    1 ≤ (f.rows .MUTATION_TYPES).length ∧
    1 ≤ (f.rows .GENOMIC_ELEMENT_TYPES).length ∧
    1 ≤ (f.rows .CHROMOSOME_ORGANIZATION).length ∧
    1 ≤ (f.rows .RECOMBINATION_RATE).length ∧
    1 ≤ (f.rows .GENERATIONS).length ∧
    1 ≤ f.creating_rows.length ∧
    n = ⟨(f.rows .MUTATION_TYPES).length, (f.rows .MUTATION_RATE).length,
          (f.rows .GENOMIC_ELEMENT_TYPES).length, (f.rows .CHROMOSOME_ORGANIZATION).length,
          (f.rows .RECOMBINATION_RATE).length, (f.rows .GENERATIONS).length,
          f.creating_rows.length⟩ ∧
    (CheckInputFile [] (some sample_file) = .accepted ⟨1, 1, 1, 1, 1, 1, 1⟩ ∧
      (∀ l ∈ sample_file.lines, has_substr "SEED".toList l = false) ∧
      has_substr "SEED".toList sample_file.last = false) := by
  unfold CheckInputFile at h
  simp only at h
  obtain ⟨hn, h1, h2, h3, h4, h5, h6, h7⟩ := final_checks_accepted (check_lines_accepted h)
  obtain ⟨c1, c2, c3, c4, c5, c6, c7⟩ :=
    foldl_count_row (file_rows none f.lines) ⟨0, 0, 0, 0, 0, 0, 0⟩
  simp only [Nat.zero_add] at c1 c2 c3 c4 c5 c6 c7
  rw [← rows_length] at c1 c2 c3 c4 c5 c6
  rw [← creating_rows_length] at c7
  rw [c1] at h1
  rw [c2] at h2
  rw [c3] at h3
  rw [c4] at h4
  rw [c5] at h5
  rw [c6] at h6
  rw [c7] at h7
  refine ⟨h1, h2, h3, h4, h5, h6, h7, ?_, sample_file_accepted, sample_file_no_seed⟩
  rw [hn, ← c1, ← c2, ← c3, ← c4, ← c5, ← c6, ← c7]

theorem required_sections_example :
    CheckInputFile [] (some sample_file) = .accepted ⟨1, 1, 1, 1, 1, 1, 1⟩ ∧
    (sample_file.rows .MUTATION_RATE).length = 1 ∧
    1 ≤ (sample_file.rows .MUTATION_TYPES).length ∧
    1 ≤ (sample_file.rows .GENOMIC_ELEMENT_TYPES).length ∧
    1 ≤ (sample_file.rows .CHROMOSOME_ORGANIZATION).length ∧
    1 ≤ (sample_file.rows .RECOMBINATION_RATE).length ∧
    1 ≤ (sample_file.rows .GENERATIONS).length ∧
    1 ≤ sample_file.creating_rows.length :=
  have h := required_sections [] sample_file ⟨1, 1, 1, 1, 1, 1, 1⟩ sample_file_accepted
  ⟨sample_file_accepted, h.1, h.2.1, h.2.2.1, h.2.2.2.1, h.2.2.2.2.1, h.2.2.2.2.2.1,
    h.2.2.2.2.2.2.1⟩

/-- C9.  Required sections and a line of tabs.  The `#MUTATION RATE` section
of the complete parameter file `tab_rate_file` holds one line, a single tab,
which `GetInputLine` returns as it is; the section has no line with a token.
`CheckInputFile` returns without an error for the file and counts one mutation
rate: the extraction `iss >> sub` fails on the line and leaves in `sub` the
token `5` of the `#SEED` row above it, which passes the test of its
characters.  `Initialize` then reads the mutation rate from that token. -/
theorem tab_line_counted_as_mutation_rate :
    tab_rate_file.lines.take 5 =
      ["#SEED".toList, "5".toList, "#MUTATION RATE".toList, "\t".toList,
        "#MUTATION TYPES".toList] ∧
    sanitize "\t".toList = "\t".toList ∧
    tab_rate_file.rows .MUTATION_RATE = ["\t".toList] ∧
    (∀ row ∈ tab_rate_file.rows .MUTATION_RATE, has_token row = false) ∧
    CheckInputFile [] (some tab_rate_file) = .accepted ⟨1, 1, 1, 1, 1, 1, 1⟩ ∧
    (Initialize (one_file "f".toList tab_rate_file) (Simulation.empty 7) "f".toList
        none).result.map (fun r => r.sim.p_chromosome.overall_mutation_rate_)
      = some (atof "5".toList) := by
  refine ⟨by decide, by decide, by decide, by decide, by rfl, by decide⟩

/-! ## Claim C10 -/

/-- C10.  A `#MUTATION TYPES` row whose DFE token is not a permitted DFE
letter is rejected.  Let a line, once sanitised, contain no `#` and have a
third token with a character other than `f`, `g`, `e` (the letters the code
permits; the row `m1 0.2 x 0.0` is such a line).  Whenever `CheckInputFile`
reads it as a row of `#MUTATION TYPES`, whatever `good`, `sub` and the counters
are at that point, it reports `kInvalidMutationTypeError` for that line; so it
does, in particular, for every file in which the line is the first line after a
`#MUTATION TYPES` header that opens the file.  The message written names the
line and contains the required syntax `<mutation-type-id> <h> <DFE-type> [DFE
parameters]` and an example. -/
theorem invalid_dfe_row_rejected (good : Bool) (sub : CppString) (n : Counters)
    (raw : CppString) (lines : List CppString)
    (hhash : (sanitize raw).contains '#' = false)
    (hbad : ∃ c ∈ token_at 2 (sanitize raw), c ∉ "fge".toList) :
    check_lines (some .MUTATION_TYPES) good sub n (raw :: lines)
      = .input_error .kInvalidMutationTypeError (sanitize raw) ∧
    (∀ (p_input_file header last : CppString),
      (sanitize header).contains '#' = true →
      find_section (sanitize header) = some .MUTATION_TYPES →
      CheckInputFile p_input_file (some ⟨header :: raw :: lines, last⟩)
        = .input_error .kInvalidMutationTypeError (sanitize raw)) ∧
    InputError .kInvalidMutationTypeError (sanitize raw) =
      ["", "ERROR (parameter file): invalid mutation type: " ++ String.mk (sanitize raw), "",
        "Required syntax:", "", "#MUTATION TYPES",
        "<mutation-type-id> <h> <DFE-type> [DFE parameters]", "...", "",
        "Example:", "", "#MUTATION TYPES", "m1 0.2 g -0.05 0.2", "m2 0.0 f 0.0",
        "m3 0.5 e 0.01", ""] := by
  have hne : sanitize raw ≠ [] := token_at_hash_free hbad
  have hrow : ∀ (good : Bool) (sub : CppString) (n : Counters),
      check_lines (some .MUTATION_TYPES) good sub n (raw :: lines)
        = .input_error .kInvalidMutationTypeError (sanitize raw) := by
    intro good sub n
    obtain ⟨st, hbody, hgood⟩ := mutation_types_row_rejected good sub (sanitize raw) n hbad
    exact check_lines_row_rejected lines hhash hne ⟨st, n, hbody, hgood⟩
  refine ⟨hrow good sub n, ?_, rfl⟩
  intro p_input_file header last hh hsec
  unfold CheckInputFile
  simp only
  rw [check_lines_header _ hh hsec]
  exact hrow true [] _

theorem invalid_dfe_row_rejected_witness :
    invalid_dfe_file = ⟨["#MUTATION TYPES".toList, "m1 0.2 x 0.0".toList], []⟩ ∧
    CheckInputFile [] (some invalid_dfe_file)
      = .input_error .kInvalidMutationTypeError "m1 0.2 x 0.0".toList ∧
    "<mutation-type-id> <h> <DFE-type> [DFE parameters]" ∈
      InputError .kInvalidMutationTypeError "m1 0.2 x 0.0".toList ∧
    "m1 0.2 g -0.05 0.2" ∈ InputError .kInvalidMutationTypeError "m1 0.2 x 0.0".toList :=
  have h := invalid_dfe_row_rejected true [] ⟨0, 0, 0, 0, 0, 0, 0⟩ "m1 0.2 x 0.0".toList []
    (by decide) ⟨'x', by decide, by decide⟩
  ⟨by decide, h.2.1 [] "#MUTATION TYPES".toList [] (by decide) (by decide), by decide,
    by decide⟩

/-! ## Claim C8 -/

/-- C8.  The "eat substring" predicate.  For every stream state, current token
`t`, prefix, set of permitted characters `C` and EOF expectation `e`,
`EatSubstringWithPrefixAndCharactersAtEOF` returns true if and only if `t` is
not empty, the prefix is empty or `t` starts with it, every character of `t`
after the first `|prefix|` characters is in `C`, `e = kEOFExpected` implies
that the stream is at its end (`eof()`), and `e = kEOFNotExpected` implies that
it is not; `kAgnosticEOFExpectation` imposes nothing.
`EatSubstringWithCharactersAtEOF` is the same function with the empty prefix,
so it returns true if and only if `t` is not empty, all its characters are in
`C`, and the EOF expectation is met. -/
theorem eat_substring_predicate (ss : IStringStream) (t pfx C : CppString) (e : EOFExpected) :
    ((EatSubstringWithPrefixAndCharactersAtEOF ss t pfx C e).1 = true ↔
      t ≠ [] ∧ (pfx = [] ∨ pfx <+: t) ∧ (∀ c ∈ t.drop pfx.length, c ∈ C) ∧
      (e = .kEOFExpected → ss.eof = true) ∧ (e = .kEOFNotExpected → ss.eof = false)) ∧
    EatSubstringWithCharactersAtEOF ss t C e
      = EatSubstringWithPrefixAndCharactersAtEOF ss t [] C e ∧
    ((EatSubstringWithCharactersAtEOF ss t C e).1 = true ↔
      t ≠ [] ∧ (∀ c ∈ t, c ∈ C) ∧
      (e = .kEOFExpected → ss.eof = true) ∧ (e = .kEOFNotExpected → ss.eof = false)) := by
  refine ⟨eat_good_iff ss t pfx C e, rfl, ?_⟩
  have := eat_good_iff ss t [] C e
  simpa [EatSubstringWithCharactersAtEOF] using this

/-! ## The bound on the loop of a `#GENOMIC ELEMENT TYPES` row is never reached -/

theorem dropWhile_length_le {α : Type} (p : α → Bool) (l : List α) :
    (l.dropWhile p).length ≤ l.length := by
  induction l with
  | nil => simp
  | cons a l ih =>
    rw [List.dropWhile_cons]
    split
    · exact Nat.le_succ_of_le ih
    · exact Nat.le_refl _

theorem extract_settled (s : IStringStream) (sub : CppString) (hs : s.settled) :
    (s.extract sub).1.settled := by
  unfold IStringStream.extract
  by_cases hbad : (s.eofbit || s.failbit) = true
  · simp only [hbad, if_true]
    have heof : s.eofbit = true := by
      cases he : s.eofbit with
      | true => rfl
      | false =>
        have hf : s.failbit = true := by simpa [he] using hbad
        rw [hs.1 hf] at he
        cases he
    exact ⟨fun _ => heof, fun _ => heof⟩
  · simp only [hbad, Bool.false_eq_true, if_false]
    cases hd : s.buf.dropWhile isspace with
    | nil => exact ⟨fun _ => rfl, fun _ => rfl⟩
    | cons c rest =>
      show IStringStream.settled ⟨(c :: rest).dropWhile (fun x => !isspace x),
        ((c :: rest).dropWhile (fun x => !isspace x)).isEmpty, false⟩
      refine ⟨fun h => (by cases h), fun h => ?_⟩
      have h' : (c :: rest).dropWhile (fun x => !isspace x) = [] := h
      show ((c :: rest).dropWhile (fun x => !isspace x)).isEmpty = true
      rw [h']
      rfl

theorem extract_potential (s : IStringStream) (sub : CppString) (hs : s.settled)
    (heof : s.eofbit = false) : (s.extract sub).1.potential < s.potential := by
  have hfail : s.failbit = false := by
    cases hf : s.failbit with
    | false => rfl
    | true => rw [hs.1 hf] at heof; cases heof
  unfold IStringStream.extract
  simp only [heof, hfail, Bool.or_self, Bool.false_eq_true, if_false]
  cases hd : s.buf.dropWhile isspace with
  | nil => simp [IStringStream.potential, heof]
  | cons c rest =>
    have hc := dropWhile_isspace_head hd
    have h1 : ((c :: rest).dropWhile (fun x => !isspace x)).length ≤ rest.length := by
      rw [List.dropWhile_cons]
      simp only [hc, Bool.not_false, if_true]
      exact dropWhile_length_le _ _
    have h2 : (c :: rest).length ≤ s.buf.length := by
      rw [← hd]; exact dropWhile_length_le _ _
    simp only [List.length_cons] at h2
    simp only [IStringStream.potential, heof, Bool.false_eq_true, if_false]
    split <;> omega

theorem extract_potential_le (s : IStringStream) (sub : CppString) (hs : s.settled) :
    (s.extract sub).1.potential ≤ s.potential := by
  cases heof : s.eofbit with
  | false => exact Nat.le_of_lt (extract_potential s sub hs heof)
  | true =>
    simp [IStringStream.extract, heof, IStringStream.potential]

/-- The stream after a call of the "eat substring" function. -/
theorem eat_stream (ss : IStringStream) (t pfx C : CppString) (e : EOFExpected) :
    (EatSubstringWithPrefixAndCharactersAtEOF ss t pfx C e).2.1 =
      match e with
      | .kEOFNotExpected =>
        (ss.extract (if pfx.length > 0 then t.drop pfx.length else t)).1
      | .kAgnosticEOFExpectation =>
        if ss.eof then ss
        else (ss.extract (if pfx.length > 0 then t.drop pfx.length else t)).1
      | .kEOFExpected => ss := by
  cases e <;> simp only [EatSubstringWithPrefixAndCharactersAtEOF]
  split <;> rfl

theorem eat_prefixed_settled {st : RowState} (hs : st.iss.settled) (pfx chars : String)
    (e : EOFExpected) :
    (st.eat_prefixed pfx chars e).iss.settled ∧
      (st.eat_prefixed pfx chars e).iss.potential ≤ st.iss.potential := by
  unfold RowState.eat_prefixed
  cases hg : st.good with
  | false => exact ⟨hs, Nat.le_refl _⟩
  | true =>
    simp only [if_true]
    rw [eat_stream]
    cases e with
    | kEOFExpected => exact ⟨hs, Nat.le_refl _⟩
    | kEOFNotExpected => exact ⟨extract_settled _ _ hs, extract_potential_le _ _ hs⟩
    | kAgnosticEOFExpectation =>
      simp only
      split
      · exact ⟨hs, Nat.le_refl _⟩
      · exact ⟨extract_settled _ _ hs, extract_potential_le _ _ hs⟩

theorem eat_settled {st : RowState} (hs : st.iss.settled) (chars : String) (e : EOFExpected) :
    (st.eat chars e).iss.settled ∧ (st.eat chars e).iss.potential ≤ st.iss.potential :=
  eat_prefixed_settled hs "" chars e

/-- A call with `kEOFNotExpected` that is made on a stream not at its end
lowers the potential; one made on a stream at its end makes `good` false. -/
theorem eat_prefixed_not_expected {st : RowState} (hs : st.iss.settled) (hg : st.good = true)
    (pfx chars : String) :
    (st.iss.eofbit = true → (st.eat_prefixed pfx chars .kEOFNotExpected).good = false) ∧
    (st.iss.eofbit = false →
      (st.eat_prefixed pfx chars .kEOFNotExpected).iss.potential < st.iss.potential) := by
  constructor
  · intro heof
    by_contra hgood
    have hgood' : (st.eat_prefixed pfx chars .kEOFNotExpected).good = true := by simpa using hgood
    have := ((eat_prefixed_good_iff hg pfx chars .kEOFNotExpected).1 hgood').2.2.2.2 rfl
    rw [IStringStream.eof, heof] at this
    cases this
  · intro heof
    unfold RowState.eat_prefixed
    simp only [hg, if_true]
    rw [eat_stream]
    exact extract_potential _ _ hs heof

theorem loop_not_out_of_fuel (fuel : Nat) (st : RowState) (hs : st.iss.settled)
    (hfuel : st.iss.potential + 2 ≤ fuel) : mutation_fraction_loop fuel st ≠ .out_of_fuel := by
  induction fuel generalizing st with
  | zero => omega
  | succ fuel ih =>
    rw [mutation_fraction_loop]
    by_cases hsub : st.sub.length > 0
    · simp only [hsub, if_true]
      cases hg : st.good with
      | false => simp
      | true =>
        simp only [if_true]
        obtain ⟨h1, h2⟩ := eat_prefixed_not_expected hs hg "m" "1234567890"
        obtain ⟨hs1, hp1⟩ := eat_prefixed_settled hs "m" "1234567890" .kEOFNotExpected
        obtain ⟨hs2, hp2⟩ :=
          eat_settled hs1 "1234567890e." .kAgnosticEOFExpectation
        cases heof : st.iss.eofbit with
        | true =>
          have hbad := h1 heof
          rw [eat_of_not_good hbad]
          cases fuel with
          | zero => omega
          | succ fuel =>
            rw [mutation_fraction_loop]
            simp only [hbad, Bool.false_eq_true, if_false]
            split <;> simp
        | false =>
          have hlt := h2 heof
          exact ih _ hs2 (by omega)
    · simp only [hsub, if_false]
      simp

theorem start_settled (good : Bool) (sub line : CppString) :
    (RowState.start good sub line).iss.settled ∧
      (RowState.start good sub line).iss.potential ≤ line.length := by
  unfold RowState.start IStringStream.open IStringStream.extract
  simp only [Bool.or_self, Bool.false_eq_true, if_false]
  cases hd : line.dropWhile isspace with
  | nil => exact ⟨⟨fun _ => rfl, fun _ => rfl⟩, by simp [IStringStream.potential]⟩
  | cons c rest =>
    have hc := dropWhile_isspace_head hd
    have h1 : ((c :: rest).dropWhile (fun x => !isspace x)).length ≤ rest.length := by
      rw [List.dropWhile_cons]
      simp only [hc, Bool.not_false, if_true]
      exact dropWhile_length_le _ _
    have h2 : (c :: rest).length ≤ line.length := by
      rw [← hd]; exact dropWhile_length_le _ _
    simp only [List.length_cons] at h2
    show IStringStream.settled ⟨(c :: rest).dropWhile (fun x => !isspace x),
        ((c :: rest).dropWhile (fun x => !isspace x)).isEmpty, false⟩ ∧
      IStringStream.potential ⟨(c :: rest).dropWhile (fun x => !isspace x),
        ((c :: rest).dropWhile (fun x => !isspace x)).isEmpty, false⟩ ≤ line.length
    refine ⟨⟨fun h => (by cases h), fun h => ?_⟩, ?_⟩
    · have h' : (c :: rest).dropWhile (fun x => !isspace x) = [] := h
      show ((c :: rest).dropWhile (fun x => !isspace x)).isEmpty = true
      rw [h']
      rfl
    · simp only [IStringStream.potential]
      split <;> omega

/-- The body of a row never reaches the bound that the embedding puts on the
loop of `#GENOMIC ELEMENT TYPES`: it ends or it hangs. -/
theorem row_body_not_out_of_fuel (s : ParameterSection) (good : Bool) (sub line : CppString)
    (n : Counters) : (row_body s good sub line n).1 ≠ .out_of_fuel := by
  cases s with
  | GENOMIC_ELEMENT_TYPES =>
    unfold row_body
    simp only
    obtain ⟨hs0, hp0⟩ := start_settled good sub line
    obtain ⟨hs1, hp1⟩ := eat_prefixed_settled hs0 "g" "1234567890" .kEOFNotExpected
    exact loop_not_out_of_fuel _ _ hs1 (by omega)
  | _ =>
    unfold row_body
    simp only
    repeat' split
    all_goals simp

/-- The embedding of `CheckInputFile` never reports `out_of_fuel`: every run
accepts the file, reports an error, or hangs. -/
theorem check_lines_not_out_of_fuel (current : Option ParameterSection) (good : Bool)
    (sub : CppString) (n : Counters) (lines : List CppString) :
    check_lines current good sub n lines ≠ .out_of_fuel := by
  induction lines generalizing current good sub n with
  | nil =>
    cases current <;>
      (rw [check_lines]; unfold final_checks; repeat' split
       all_goals simp)
  | cons raw lines ih =>
    cases hhash : (sanitize raw).contains '#' with
    | true =>
      cases hsec : find_section (sanitize raw) with
      | none => cases current <;> (rw [check_lines]; simp only [hhash, if_true, hsec]; simp)
      | some s =>
        cases current <;> (rw [check_lines]; simp only [hhash, if_true, hsec]; exact ih _ _ _ _)
    | false =>
      cases current with
      | none =>
        rw [check_lines]
        simp only [hhash, Bool.false_eq_true, if_false]
        exact ih _ _ _ _
      | some s =>
        rw [check_lines]
        simp only [hhash, Bool.false_eq_true, if_false]
        split
        · exact ih _ _ _ _
        · have hfuel := row_body_not_out_of_fuel s good sub (sanitize raw) n
          cases hbody : row_body s good sub (sanitize raw) n with
          | mk r n2 =>
            rw [hbody] at hfuel
            cases r with
            | hangs => simp
            | out_of_fuel => exact absurd rfl hfuel
            | done st =>
              simp only
              split
              · simp
              · exact ih _ _ _ _

/-! ## Lemmas: rows, one at a time -/

theorem start_sub_irrelevant (good : Bool) (sub : CppString) {line : CppString}
    (h : token_at 0 line ≠ []) : RowState.start good sub line = RowState.start good [] line := by
  unfold RowState.start IStringStream.open
  rw [extract_token line sub h, extract_token line [] h]

theorem row_body_sub_irrelevant (s : ParameterSection) (good : Bool) (sub : CppString)
    {line : CppString} (n : Counters) (h : token_at 0 line ≠ []) :
    row_body s good sub line n = row_body s good [] line n := by
  unfold row_body
  rw [start_sub_irrelevant good sub h]

theorem row_accepted_sub_irrelevant (s : ParameterSection) (sub : CppString)
    {line : CppString} (h : token_at 0 line ≠ []) :
    row_accepted s sub line = row_accepted s [] line := by
  unfold row_accepted
  rw [row_body_sub_irrelevant s true sub _ h]

theorem loop_entry_sub_irrelevant (good : Bool) (sub : CppString) {line : CppString}
    (h : token_at 0 line ≠ []) : loop_entry good sub line = loop_entry good [] line := by
  unfold loop_entry
  rw [start_sub_irrelevant good sub h]

/-- Once `good` is false a pass through the loop changes nothing. -/
theorem pass_of_not_good {st : RowState} (h : st.good = false) :
    mutation_fraction_pass st = st := by
  unfold mutation_fraction_pass
  rw [eat_prefixed_of_not_good h, eat_of_not_good h]

theorem passes_of_not_good {st : RowState} (h : st.good = false) (j : Nat) :
    mutation_fraction_pass^[j] st = st := by
  induction j with
  | zero => rfl
  | succ j ih => rw [Function.iterate_succ_apply, pass_of_not_good h, ih]

/-- If some number of passes leads to a state in which `good` is false and
`sub` is not empty, and `sub` is not empty before that either, then `sub` is
not empty after any number of passes: the loop condition never fails. -/
theorem loop_condition_forever {st0 : RowState} (k : Nat)
    (hg : (mutation_fraction_pass^[k] st0).good = false)
    (hsub : ∀ i, i ≤ k → 0 < (mutation_fraction_pass^[i] st0).sub.length) (j : Nat) :
    0 < (mutation_fraction_pass^[j] st0).sub.length := by
  by_cases hj : j ≤ k
  · exact hsub j hj
  · obtain ⟨i, rfl⟩ : ∃ i, j = i + k := ⟨j - k, by omega⟩
    rw [Function.iterate_add_apply, passes_of_not_good hg]
    exact hsub k (Nat.le_refl k)

/-- The loop of the embedding is the iteration of the pass. -/
theorem loop_unfold (fuel : Nat) (st : RowState) :
    mutation_fraction_loop (fuel + 1) st =
      if st.sub.length > 0 then
        if st.good then mutation_fraction_loop fuel (mutation_fraction_pass st) else .hangs
      else .done st := rfl

/-! ## Lemmas: `GetInputLine` -/

theorem has_substr_iff (k l : CppString) : has_substr k l = true ↔ k <:+: l := by
  induction l with
  | nil =>
    cases k <;> simp [has_substr]
  | cons c rest ih =>
    rw [has_substr, Bool.or_eq_true, ih, List.infix_cons_iff]
    simp [ List.isPrefixOf_iff_prefix]

theorem erase_comment_initial (l : CppString) : erase_comment l <+: l := by
  induction l using erase_comment.induct with
  | case1 => simp [erase_comment]
  | case2 rest => simp [erase_comment]
  | case3 c rest hne ih =>
    rw [erase_comment]
    · exact (List.cons_prefix_cons).2 ⟨rfl, ih⟩
    · exact hne

theorem erase_comment_no_comment (l : CppString) :
    ¬ "//".toList <:+: erase_comment l := by
  induction l using erase_comment.induct with
  | case1 => simp [erase_comment]
  | case2 rest => simp [erase_comment]
  | case3 c rest hne ih =>
    rw [erase_comment]
    · intro h
      rcases List.infix_cons_iff.1 h with hp | hi
      · have hp' : ['/', '/'] <+: c :: erase_comment rest := hp
        obtain ⟨t, ht⟩ := hp'
        simp only [List.cons_append, List.nil_append, List.cons.injEq] at ht
        obtain ⟨hc, hr⟩ := ht
        have hpre := erase_comment_initial rest
        rw [← hr] at hpre
        obtain ⟨u, hu⟩ := hpre
        exact hne (t ++ u) hc.symm (by rw [← hu]; rfl)
      · exact ih hi
    · exact hne

theorem erase_spaces_within (l : CppString) : erase_spaces l <:+: l := by
  unfold erase_spaces
  have h1 : (((l.dropWhile (fun c => c = ' ')).reverse.dropWhile (fun c => c = ' ')).reverse)
      <+: l.dropWhile (fun c => c = ' ') := by
    have := List.dropWhile_suffix (fun c => decide (c = ' '))
      (l := (l.dropWhile (fun c => c = ' ')).reverse)
    have h := List.reverse_prefix.2 this
    rwa [List.reverse_reverse] at h
  exact h1.isInfix.trans (List.dropWhile_suffix _).isInfix

theorem sanitize_within (l : CppString) : sanitize l <:+: erase_comment l :=
  erase_spaces_within _

/-- The sanitised line contains no `//`. -/
theorem sanitize_no_comment (l : CppString) : has_substr "//".toList (sanitize l) = false := by
  cases h : has_substr "//".toList (sanitize l) with
  | false => rfl
  | true =>
    exact absurd (((has_substr_iff _ _).1 h).trans (sanitize_within l))
      (erase_comment_no_comment l)

theorem dropWhile_head_not {p : Char → Bool} {l : CppString} {c : Char}
    (h : (l.dropWhile p).head? = some c) : p c = false := by
  cases hd : l.dropWhile p with
  | nil => rw [hd] at h; cases h
  | cons d r =>
    rw [hd] at h
    simp only [List.head?_cons, Option.some.injEq] at h
    subst h
    have := List.head_dropWhile_not p l (by rw [hd]; simp)
    simpa [hd] using this

/-- The sanitised line does not end in a space. -/
theorem sanitize_last_not_space (l : CppString) : (sanitize l).getLast? ≠ some ' ' := by
  unfold sanitize erase_spaces
  rw [List.getLast?_reverse]
  intro h
  have := dropWhile_head_not h
  simp at this

theorem dropWhile_reverse_head (p : Char → Bool) (l : CppString) {c : Char}
    (hl : l.head? = some c) (hc : p c = false) :
    ((l.reverse.dropWhile p).reverse).head? = some c := by
  cases l with
  | nil => cases hl
  | cons d r =>
    simp only [List.head?_cons, Option.some.injEq] at hl
    subst hl
    have hpre : ((d :: r).reverse.dropWhile p).reverse <+: d :: r := by
      have h := List.reverse_prefix.2 (List.dropWhile_suffix p (l := (d :: r).reverse))
      rwa [List.reverse_reverse] at h
    cases hx : ((d :: r).reverse.dropWhile p).reverse with
    | nil =>
      have hnil : (d :: r).reverse.dropWhile p = [] := by
        have := congrArg List.reverse hx
        simpa using this
      have hall := List.dropWhile_eq_nil_iff.1 hnil
      have := hall d (by simp)
      rw [hc] at this
      cases this
    | cons e t =>
      rw [hx] at hpre
      obtain ⟨u, hu⟩ := hpre
      simp only [List.cons_append, List.cons.injEq] at hu
      rw [hu.1]
      rfl

/-- The sanitised line does not begin with a space. -/
theorem sanitize_head_not_space (l : CppString) : (sanitize l).head? ≠ some ' ' := by
  unfold sanitize erase_spaces
  intro h
  cases hd : (erase_comment l).dropWhile (fun c => decide (c = ' ')) with
  | nil => rw [hd] at h; simp at h
  | cons d r =>
    have hdn : (fun c => decide (c = ' ')) d = false :=
      dropWhile_head_not (l := erase_comment l) (by rw [hd]; rfl)
    have := dropWhile_reverse_head (fun c => decide (c = ' ')) (d :: r) rfl hdn
    rw [hd] at h
    rw [this] at h
    simp only [Option.some.injEq] at h
    subst h
    simp at hdn

/-! ## Lemmas: the row state along a line that ends with its last token -/

theorem skip_token_suffix (s : CppString) : skip_token s <:+ s :=
  (List.dropWhile_suffix _).trans (List.dropWhile_suffix _)

theorem rest_after_suffix (k : Nat) (s : CppString) : rest_after k s <:+ s := by
  induction k with
  | zero => exact List.suffix_refl s
  | succ k ih => exact (skip_token_suffix _).trans ih

theorem rest_nil_of_token_nil {line : CppString} (hend : ends_in_token line) {k : Nat}
    (ht : token_at k line = []) : rest_after k line = [] := by
  by_contra hne
  have hdw : (rest_after k line).dropWhile isspace = [] := by
    by_contra h
    exact (token_ne_nil_iff _).2 h (by rw [← token_at_eq]; exact ht)
  obtain ⟨p, hp⟩ := rest_after_suffix k line
  have hlast : line.getLast? = (rest_after k line).getLast? := by
    conv_lhs => rw [← hp]
    exact List.getLast?_append_of_ne_nil _ hne
  have hmem := List.getLast_mem hne
  have hsp := List.dropWhile_eq_nil_iff.1 hdw _ hmem
  have := hend ((rest_after k line).getLast hne)
    (by rw [hlast]; exact List.getLast?_eq_getLast _ hne)
  rw [this] at hsp
  cases hsp

theorem token_nil_of_rest_nil {line : CppString} {k : Nat} (h : rest_after k line = []) :
    token_at k line = [] := by
  simp [token_at, h]

theorem eof_iff_last {line : CppString} {k : Nat} {st : RowState} (hend : ends_in_token line)
    (hat : at_token line k st) : st.iss.eof = true ↔ token_at (k + 1) line = [] := by
  rw [hat.1]
  show (rest_after (k + 1) line).isEmpty = true ↔ _
  rw [List.isEmpty_iff]
  exact ⟨token_nil_of_rest_nil, rest_nil_of_token_nil hend⟩

theorem eof_false_iff {line : CppString} {k : Nat} {st : RowState} (hend : ends_in_token line)
    (hat : at_token line k st) : st.iss.eof = false ↔ token_at (k + 1) line ≠ [] := by
  have h := eof_iff_last hend hat
  cases he : st.iss.eof with
  | false =>
    rw [he] at h
    exact ⟨fun _ ht => (by cases h.2 ht), fun _ => rfl⟩
  | true =>
    rw [he] at h
    exact ⟨fun hf => (by cases hf), fun hne => absurd (h.1 rfl) hne⟩

theorem start_eof_of_no_token (good : Bool) (sub : CppString) {line : CppString}
    (h : token_at 0 line = []) : (RowState.start good sub line).iss.eof = true := by
  unfold RowState.start IStringStream.open
  rw [extract_no_token line sub h]
  rfl

/-- The value of `good` after a call that is made at a token. -/
theorem eat_prefixed_at_token {line : CppString} {k : Nat} {st : RowState}
    (hend : ends_in_token line) (hat : at_token line k st) (hg : st.good = true)
    (pfx chars : String) (e : EOFExpected) :
    (st.eat_prefixed pfx chars e).good = true ↔
      token_ok pfx chars (token_at k line) ∧
      (e = .kEOFExpected → token_at (k + 1) line = []) ∧
      (e = .kEOFNotExpected → token_at (k + 1) line ≠ []) := by
  rw [eat_prefixed_good_iff hg, hat.2, eof_iff_last hend hat, eof_false_iff hend hat]
  unfold token_ok
  tauto

theorem token_ok_word (chars : String) (t : CppString) :
    token_ok "" chars t ↔ is_word chars t := by
  unfold token_ok is_word
  simp

theorem token_ok_identifier (letter : Char) (t : CppString) :
    token_ok (String.singleton letter) "1234567890" t ↔ is_identifier letter t := by
  unfold token_ok is_identifier
  cases t with
  | nil => simp
  | cons c r =>
    have : (String.singleton letter).toList = [letter] := rfl
    rw [this]
    simp [List.cons_prefix_cons, eq_comm]

theorem eat_at_token {line : CppString} {k : Nat} {st : RowState}
    (hend : ends_in_token line) (hat : at_token line k st) (hg : st.good = true)
    (chars : String) (e : EOFExpected) :
    (st.eat chars e).good = true ↔
      is_word chars (token_at k line) ∧
      (e = .kEOFExpected → token_at (k + 1) line = []) ∧
      (e = .kEOFNotExpected → token_at (k + 1) line ≠ []) := by
  rw [eat_eq_eat_prefixed, eat_prefixed_at_token hend hat hg, token_ok_word]

/-! ## Claim C13: `GetInputLine` -/

/-- C13.  Line sanitising and tabs.  `GetInputLine` removes the comment and
then the spaces at both ends of the line, and nothing else: a tab at either end
of the line is kept.  The line made of a tab and `1e-8` comes out unchanged,
beginning with the tab; the line `1e-8`, tab, space, `// rate` comes out as
`1e-8` followed by the tab; and `CheckInputFile` rejects the complete parameter
file `trailing_tab_file`, whose `#MUTATION RATE` row is `1e-8` followed by a
tab, with `kInvalidMutationRateError` for that row. -/
theorem tabs_survive_sanitizing :
    sanitize "\t1e-8".toList = "\t1e-8".toList ∧
    (sanitize "\t1e-8".toList).head? = some '\t' ∧
    sanitize "1e-8\t // rate".toList = "1e-8\t".toList ∧
    (sanitize "1e-8\t // rate".toList).getLast? = some '\t' ∧
    trailing_tab_file.lines.take 2 = ["#MUTATION RATE".toList, "1e-8\t".toList] ∧
    CheckInputFile [] (some trailing_tab_file)
      = .input_error .kInvalidMutationRateError "1e-8\t".toList := by
  refine ⟨by decide, by decide, by decide, by decide, by decide, by rfl⟩

/-- What C13 says apart from tabs: the sanitised line contains no `//`, it
neither begins nor ends with a space, it is a run of consecutive characters of
the line as it stands before its first `//`, and that is a prefix of the raw
line. -/
theorem sanitize_spec (l : CppString) :
    has_substr "//".toList (sanitize l) = false ∧
    (sanitize l).head? ≠ some ' ' ∧ (sanitize l).getLast? ≠ some ' ' ∧
    sanitize l <:+: erase_comment l ∧ erase_comment l <+: l :=
  ⟨sanitize_no_comment l, sanitize_head_not_space l, sanitize_last_not_space l,
    sanitize_within l, erase_comment_initial l⟩

/-! ## Claim C12: the loop of a `#GENOMIC ELEMENT TYPES` row -/

/-- C12.  A malformed `#GENOMIC ELEMENT TYPES` row makes `CheckInputFile` loop.
Once `good` is false, a pass through the loop `while (sub.length() > 0)` makes
no call and changes nothing.  For each of the rows `x1 m1 1.0`, `g1 m1` and
`g1 m1 0.5 mx 0.5`, whatever `sub` holds when the row is read, `sub` is not
empty after any number of passes, so the loop never ends and the test
`if (!good)` that would report `kInvalidGenomicElementTypeError` is never
reached; the embedding gives `hangs` for the row, and for the file
`malformed_element_type_file`, whose only row is `x1 m1 1.0`. -/
theorem malformed_element_type_row_loops :
    (∀ st : RowState, st.good = false → mutation_fraction_pass st = st) ∧
    (∀ row ∈ ["x1 m1 1.0", "g1 m1", "g1 m1 0.5 mx 0.5"], ∀ (sub : CppString) (n : Counters),
      (∀ j, 0 < (mutation_fraction_pass^[j] (loop_entry true sub row.toList)).sub.length) ∧
      row_body .GENOMIC_ELEMENT_TYPES true sub row.toList n = (.hangs, n)) ∧
    malformed_element_type_file.lines = ["#GENOMIC ELEMENT TYPES".toList, "x1 m1 1.0".toList] ∧
    CheckInputFile [] (some malformed_element_type_file) = .hangs := by
  refine ⟨fun st h => pass_of_not_good h, ?_, by decide, by rfl⟩
  intro row hrow sub n
  simp only [List.mem_cons, List.mem_singleton, List.not_mem_nil, or_false] at hrow
  rcases hrow with rfl | rfl | rfl
  · have h0 : token_at 0 "x1 m1 1.0".toList ≠ [] := by decide
    rw [loop_entry_sub_irrelevant true sub h0, row_body_sub_irrelevant _ true sub n h0]
    refine ⟨loop_condition_forever 0 (by decide) ?_, by rfl⟩
    intro i hi
    interval_cases i
    decide
  · have h0 : token_at 0 "g1 m1".toList ≠ [] := by decide
    rw [loop_entry_sub_irrelevant true sub h0, row_body_sub_irrelevant _ true sub n h0]
    refine ⟨loop_condition_forever 1 (by decide) ?_, by rfl⟩
    intro i hi
    interval_cases i <;> decide
  · have h0 : token_at 0 "g1 m1 0.5 mx 0.5".toList ≠ [] := by decide
    rw [loop_entry_sub_irrelevant true sub h0, row_body_sub_irrelevant _ true sub n h0]
    refine ⟨loop_condition_forever 2 (by decide) ?_, by rfl⟩
    intro i hi
    interval_cases i <;> decide

/-! ## Claims C18 and C19: rows that no branch checks -/

/-- C18.  A `#DEMOGRAPHY AND STRUCTURE` row whose kind has several letters.
The row `1 PS anything at all` is accepted: its kind `PS` passes the test that
all its characters are among `PSMN`, none of the four branches `P`, `N`, `M`,
`S` is taken, and nothing else is tested, whatever `sub` holds when the row is
read.  `CheckInputFile` returns without an error for the complete parameter
file `multi_letter_kind_file`, which holds that row. -/
theorem multi_letter_kind_accepted :
    (∀ sub, row_accepted .DEMOGRAPHY_AND_STRUCTURE sub "1 PS anything at all".toList = true) ∧
    multi_letter_kind_file.lines.drop 12 =
      ["#DEMOGRAPHY AND STRUCTURE".toList, "1 P p1 100".toList,
        "1 PS anything at all".toList] ∧
    CheckInputFile [] (some multi_letter_kind_file) = .accepted ⟨1, 1, 1, 1, 1, 1, 1⟩ :=
  ⟨fun _ => rfl, by decide, by rfl⟩

/-- C19.  `#OUTPUT` rows of kind `F` and `T`.  The rows `2000 F x` and
`1 T notAnId` are accepted: after the kind, the branches for `F` and `T` are
empty, and the only test left is that the stream is at its end, which holds
when one more token follows the kind.  `CheckInputFile` returns without an
error for the complete parameter file `unchecked_output_file`, which holds both
rows. -/
theorem unchecked_output_rows_accepted :
    (∀ sub, row_accepted .OUTPUT sub "2000 F x".toList = true) ∧
    (∀ sub, row_accepted .OUTPUT sub "1 T notAnId".toList = true) ∧
    unchecked_output_file.lines.drop 14 =
      ["#OUTPUT".toList, "2000 F x".toList, "1 T notAnId".toList] ∧
    CheckInputFile [] (some unchecked_output_file) = .accepted ⟨1, 1, 1, 1, 1, 1, 1⟩ :=
  ⟨fun _ => rfl, fun _ => rfl, by decide, by rfl⟩

/-! ## Claim C20: the documented examples -/

/-- C20.  The documented examples are valid input.  The example rows that
`InputError` prints in the usage block of a section are the ones listed here,
and each of them is accepted by the body that `CheckInputFile` runs for a row
of that section, whatever `sub` holds when the row is read. -/
theorem documented_examples_accepted :
    (example_rows .kInvalidMutationRateError = ["1.5e-8"] ∧
      example_rows .kInvalidMutationTypeError
        = ["m1 0.2 g -0.05 0.2", "m2 0.0 f 0.0", "m3 0.5 e 0.01"] ∧
      example_rows .kInvalidGenomicElementTypeError = ["g1 m3 0.8 m2 0.01 m1 0.19"] ∧
      example_rows .kInvalidChromosomeOrganizationError = ["g1 1000 1999"] ∧
      example_rows .kInvalidRecombinationRateError = ["10000 1e-8", "20000 4.5e-8"] ∧
      example_rows .kInvalidGenerationsError = ["10000"] ∧
      example_rows .kInvalidDemographyAndStructureError
        = ["1 P p1 1000", "1 S p1 0.05", "1000 P p2 100 p1", "1000 S p2 0.05",
            "2000 N p1 1e4", "2000 M p2 p1 0.01"] ∧
      example_rows .kInvalidOutputError
        = ["2000 A outfile", "1000 R p1 10", "1000 R p1 10 MS", "2000 F", "1 T m3"] ∧
      example_rows .kInvalidInitializationError = ["outfile"] ∧
      example_rows .kInvalidSeedError = ["141235"] ∧
      example_rows .kInvalidPredeterminedMutationsError = ["5000 m7 45000 p1 0 1"] ∧
      example_rows .kInvalidGeneConversionError = ["0.5 20"]) ∧
    ∀ (s : ParameterSection), ∀ row ∈ example_rows s.error, ∀ sub : CppString,
      row_accepted s sub row.toList = true := by
  refine ⟨⟨rfl, rfl, rfl, rfl, rfl, rfl, rfl, rfl, rfl, rfl, rfl, rfl⟩, ?_⟩
  intro s row hrow sub
  have key : token_at 0 row.toList ≠ [] ∧ row_accepted s [] row.toList = true := by
    cases s
    all_goals
      simp only [ParameterSection.error] at hrow
      first
        | rw [show example_rows .kInvalidMutationRateError = ["1.5e-8"] from rfl] at hrow
        | rw [show example_rows .kInvalidMutationTypeError
            = ["m1 0.2 g -0.05 0.2", "m2 0.0 f 0.0", "m3 0.5 e 0.01"] from rfl] at hrow
        | rw [show example_rows .kInvalidGenomicElementTypeError
            = ["g1 m3 0.8 m2 0.01 m1 0.19"] from rfl] at hrow
        | rw [show example_rows .kInvalidChromosomeOrganizationError
            = ["g1 1000 1999"] from rfl] at hrow
        | rw [show example_rows .kInvalidRecombinationRateError
            = ["10000 1e-8", "20000 4.5e-8"] from rfl] at hrow
        | rw [show example_rows .kInvalidGenerationsError = ["10000"] from rfl] at hrow
        | rw [show example_rows .kInvalidDemographyAndStructureError
            = ["1 P p1 1000", "1 S p1 0.05", "1000 P p2 100 p1", "1000 S p2 0.05",
                "2000 N p1 1e4", "2000 M p2 p1 0.01"] from rfl] at hrow
        | rw [show example_rows .kInvalidOutputError
            = ["2000 A outfile", "1000 R p1 10", "1000 R p1 10 MS", "2000 F", "1 T m3"]
            from rfl] at hrow
        | rw [show example_rows .kInvalidInitializationError = ["outfile"] from rfl] at hrow
        | rw [show example_rows .kInvalidSeedError = ["141235"] from rfl] at hrow
        | rw [show example_rows .kInvalidPredeterminedMutationsError
            = ["5000 m7 45000 p1 0 1"] from rfl] at hrow
        | rw [show example_rows .kInvalidGeneConversionError = ["0.5 20"] from rfl] at hrow
      simp only [List.mem_cons, List.mem_singleton, List.not_mem_nil, or_false] at hrow
      rcases hrow with rfl | rfl | rfl | rfl | rfl | rfl <;> exact ⟨by decide, by decide⟩
  rw [row_accepted_sub_irrelevant s sub key.1]
  exact key.2

/-! ## Lemmas: the grammar of a `#MUTATION TYPES` row -/

/-- The value of `good` at the end of a `#MUTATION TYPES` row. -/
theorem row_accepted_mutation_types (sub line : CppString) :
    row_accepted .MUTATION_TYPES sub line =
      if (((RowState.start true sub line).eat_prefixed "m" "1234567890" .kEOFNotExpected).eat
            "1234567890.-" .kEOFNotExpected).sub = "f".toList ∨
          (((RowState.start true sub line).eat_prefixed "m" "1234567890" .kEOFNotExpected).eat
            "1234567890.-" .kEOFNotExpected).sub = "e".toList then
        (((((RowState.start true sub line).eat_prefixed "m" "1234567890" .kEOFNotExpected).eat
            "1234567890.-" .kEOFNotExpected).eat "fge" .kEOFNotExpected).eat
            "1234567890.-" .kEOFExpected).good
      else if (((RowState.start true sub line).eat_prefixed "m" "1234567890"
            .kEOFNotExpected).eat "1234567890.-" .kEOFNotExpected).sub = "g".toList then
        ((((((RowState.start true sub line).eat_prefixed "m" "1234567890" .kEOFNotExpected).eat
            "1234567890.-" .kEOFNotExpected).eat "fge" .kEOFNotExpected).eat
            "1234567890.-" .kEOFNotExpected).eat "1234567890.-" .kEOFExpected).good
      else
        ((((RowState.start true sub line).eat_prefixed "m" "1234567890" .kEOFNotExpected).eat
            "1234567890.-" .kEOFNotExpected).eat "fge" .kEOFNotExpected).good := by
  unfold row_accepted row_body
  simp only
  split_ifs <;> rfl

theorem single_dfe_letter {t : CppString} (hw : is_word "fge" t) (hlen : t.length ≤ 1) :
    t = "f".toList ∨ t = "g".toList ∨ t = "e".toList := by
  obtain ⟨hne, hall⟩ := hw
  cases t with
  | nil => exact absurd rfl hne
  | cons c r =>
    cases r with
    | cons d r' => simp at hlen
    | nil =>
      have := hall c (by simp)
      simp only [String.toList, List.mem_cons, List.mem_singleton, List.not_mem_nil,
        or_false] at this
      rcases this with rfl | rfl | rfl
      · exact Or.inl rfl
      · exact Or.inr (Or.inl rfl)
      · exact Or.inr (Or.inr rfl)


theorem mutation_types_accepted_imp_dfe (sub line : CppString)
    (h : row_accepted .MUTATION_TYPES sub line = true) :
    ((((RowState.start true sub line).eat_prefixed "m" "1234567890" .kEOFNotExpected).eat
        "1234567890.-" .kEOFNotExpected).eat "fge" .kEOFNotExpected).good = true := by
  rw [row_accepted_mutation_types] at h
  split_ifs at h
  · exact eat_good_imp h
  · exact eat_good_imp (eat_good_imp h)
  · exact h

theorem mutation_types_accepted_iff {line : CppString} (sub : CppString)
    (hend : ends_in_token line) (hlen : (token_at 2 line).length ≤ 1) :
    row_accepted .MUTATION_TYPES sub line = true ↔ mutation_type_form line := by
  constructor
  · intro hacc
    have hs3 := mutation_types_accepted_imp_dfe sub line hacc
    have hs2 := eat_good_imp hs3
    have hs1 := eat_good_imp hs2
    have h0 : token_at 0 line ≠ [] := by
      intro h0
      have hst : (RowState.start true sub line).good = true := rfl
      have he := ((eat_prefixed_good_iff hst "m" "1234567890" .kEOFNotExpected).1
        hs1).2.2.2.2 rfl
      rw [start_eof_of_no_token true sub h0] at he
      cases he
    have a0 := start_at_token true sub h0
    have c1 := (eat_prefixed_at_token hend a0 rfl "m" "1234567890" .kEOFNotExpected).1 hs1
    have a1 := eat_prefixed_advance a0 rfl (c1.2.2 rfl) "m" "1234567890"
    have c2 := (eat_at_token hend a1 hs1 "1234567890.-" .kEOFNotExpected).1 hs2
    have a2 := eat_advance a1 hs1 (c2.2.2 rfl) "1234567890.-"
    have c3 := (eat_at_token hend a2 hs2 "fge" .kEOFNotExpected).1 hs3
    have a3 := eat_advance a2 hs2 (c3.2.2 rfl) "fge"
    refine ⟨(token_ok_identifier 'm' _).1 c1.1, c2.1, ?_⟩
    rw [row_accepted_mutation_types, a2.2] at hacc
    rcases single_dfe_letter c3.1 hlen with hf | hg | he
    · rw [if_pos (Or.inl hf)] at hacc
      have c4 := (eat_at_token hend a3 hs3 "1234567890.-" .kEOFExpected).1 hacc
      exact Or.inl ⟨Or.inl hf, c4.1, c4.2.1 rfl⟩
    · rw [if_neg (by rw [hg]; decide), if_pos hg] at hacc
      have hs4 := eat_good_imp hacc
      have c4 := (eat_at_token hend a3 hs3 "1234567890.-" .kEOFNotExpected).1 hs4
      have a4 := eat_advance a3 hs3 (c4.2.2 rfl) "1234567890.-"
      have c5 := (eat_at_token hend a4 hs4 "1234567890.-" .kEOFExpected).1 hacc
      exact Or.inr ⟨hg, c4.1, c5.1, c5.2.1 rfl⟩
    · rw [if_pos (Or.inr he)] at hacc
      have c4 := (eat_at_token hend a3 hs3 "1234567890.-" .kEOFExpected).1 hacc
      exact Or.inl ⟨Or.inr he, c4.1, c4.2.1 rfl⟩
  · rintro ⟨hid, hh, hrest⟩
    have h0 : token_at 0 line ≠ [] := by
      intro h0
      rw [h0] at hid
      exact absurd hid.1 (by simp)
    have h3 : token_at 3 line ≠ [] := by
      rcases hrest with ⟨_, hw, _⟩ | ⟨_, hw, _⟩ <;> exact hw.1
    have h2 : token_at 2 line ≠ [] := token_pred_ne_nil h3
    have hdfe : is_word "fge" (token_at 2 line) := by
      rcases hrest with ⟨hf | he, _⟩ | ⟨hg, _⟩
      · rw [hf]; decide
      · rw [he]; decide
      · rw [hg]; decide
    have a0 := start_at_token true sub h0
    have hs1 := (eat_prefixed_at_token hend a0 rfl "m" "1234567890" .kEOFNotExpected).2
      ⟨(token_ok_identifier 'm' _).2 hid, fun h => (by cases h), fun _ => hh.1⟩
    have a1 := eat_prefixed_advance a0 rfl hh.1 "m" "1234567890"
    have hs2 := (eat_at_token hend a1 hs1 "1234567890.-" .kEOFNotExpected).2
      ⟨hh, fun h => (by cases h), fun _ => h2⟩
    have a2 := eat_advance a1 hs1 h2 "1234567890.-"
    have hs3 := (eat_at_token hend a2 hs2 "fge" .kEOFNotExpected).2
      ⟨hdfe, fun h => (by cases h), fun _ => h3⟩
    have a3 := eat_advance a2 hs2 h3 "fge"
    rw [row_accepted_mutation_types, a2.2]
    rcases hrest with ⟨hfe, hw, h4⟩ | ⟨hg, hw3, hw4, h5⟩
    · rw [if_pos hfe]
      exact (eat_at_token hend a3 hs3 "1234567890.-" .kEOFExpected).2
        ⟨hw, fun _ => h4, fun h => (by cases h)⟩
    · rw [if_neg (by rw [hg]; decide), if_pos hg]
      have hs4 := (eat_at_token hend a3 hs3 "1234567890.-" .kEOFNotExpected).2
        ⟨hw3, fun h => (by cases h), fun _ => hw4.1⟩
      have a4 := eat_advance a3 hs3 hw4.1 "1234567890.-"
      exact (eat_at_token hend a4 hs4 "1234567890.-" .kEOFExpected).2
        ⟨hw4, fun _ => h5, fun h => (by cases h)⟩



theorem loop_done_good {fuel : Nat} {st st' : RowState}
    (h : mutation_fraction_loop fuel st = .done st') (hg : st'.good = true) :
    st.good = true := by
  cases fuel with
  | zero => cases h
  | succ fuel =>
    rw [loop_unfold] at h
    split_ifs at h with h1 h2
    · exact h2
    · simp only [RowEnd.done.injEq] at h
      rw [h]; exact hg

/-- In an accepted row whose first call eats an identifier, the first token of
the row is that identifier. -/
theorem first_identifier {good : Bool} {sub line : CppString} {letter : String}
    (h : ((RowState.start good sub line).eat_prefixed letter "1234567890"
      .kEOFNotExpected).good = true) :
    token_ok letter "1234567890" (token_at 0 line) := by
  have hg := eat_prefixed_good_imp h
  have c := (eat_prefixed_good_iff hg letter "1234567890" .kEOFNotExpected).1 h
  have h0 : token_at 0 line ≠ [] := by
    intro h0
    have he := c.2.2.2.2 rfl
    rw [start_eof_of_no_token good sub h0] at he
    cases he
  have a0 := start_at_token good sub h0
  rw [a0.2] at c
  exact ⟨c.1, c.2.1, c.2.2.1⟩

theorem mutation_types_first_token {sub line : CppString}
    (h : row_accepted .MUTATION_TYPES sub line = true) :
    is_identifier 'm' (token_at 0 line) :=
  (token_ok_identifier 'm' _).1
    (first_identifier (eat_good_imp (eat_good_imp (mutation_types_accepted_imp_dfe sub line h))))

theorem genomic_element_types_first_token {sub line : CppString}
    (h : row_accepted .GENOMIC_ELEMENT_TYPES sub line = true) :
    is_identifier 'g' (token_at 0 line) := by
  unfold row_accepted row_body at h
  simp only at h
  split at h
  · rename_i st heq
    exact (token_ok_identifier 'g' _).1 (first_identifier (loop_done_good heq h))
  · cases h

theorem chromosome_organization_first_token {sub line : CppString}
    (h : row_accepted .CHROMOSOME_ORGANIZATION sub line = true) :
    is_identifier 'g' (token_at 0 line) := by
  unfold row_accepted row_body at h
  simp only at h
  exact (token_ok_identifier 'g' _).1 (first_identifier (eat_good_imp (eat_good_imp h)))

theorem mutation_types_bad_letter {sub line : CppString}
    (h : ∃ c ∈ token_at 2 line, c ∉ "fge".toList) :
    row_accepted .MUTATION_TYPES sub line = false := by
  have hbad := dfe_eat_fails true sub h
  rw [row_accepted_mutation_types]
  split_ifs
  · rw [eat_of_not_good hbad]; exact hbad
  · rw [eat_of_not_good hbad, eat_of_not_good hbad]; exact hbad
  · exact hbad

/-- The value of `good` after a call that eats an identifier. -/
theorem identifier_check {st : RowState} (hg : st.good = true) (letter : Char)
    (e : EOFExpected) :
    (st.eat_prefixed (String.singleton letter) "1234567890" e).good = true ↔
      is_identifier letter st.sub ∧ (e = .kEOFExpected → st.iss.eof = true) ∧
        (e = .kEOFNotExpected → st.iss.eof = false) := by
  rw [eat_prefixed_good_iff hg, ← token_ok_identifier]
  unfold token_ok
  tauto

/-! ## Claim C11: the grammar of a `#MUTATION TYPES` row -/

/-- C11, as the code has it.  The rows `m1 0.5 n 0.0 1.0` and
`m2 0.5 w 1.0 2.0` are rejected, whatever `sub` holds when they are read, and
`CheckInputFile` reports `kInvalidMutationTypeError` for the first of them in
the complete parameter file `normal_dfe_file`. -/
theorem normal_dfe_row_rejected :
    (∀ sub, row_accepted .MUTATION_TYPES sub "m1 0.5 n 0.0 1.0".toList = false) ∧
    (∀ sub, row_accepted .MUTATION_TYPES sub "m2 0.5 w 1.0 2.0".toList = false) ∧
    normal_dfe_file.lines.take 5 =
      ["#MUTATION RATE".toList, "1e-8".toList, "#MUTATION TYPES".toList,
        "m1 0.5 n 0.0 1.0".toList, "m2 0.5 w 1.0 2.0".toList] ∧
    CheckInputFile [] (some normal_dfe_file)
      = .input_error .kInvalidMutationTypeError "m1 0.5 n 0.0 1.0".toList :=
  ⟨fun _ => rfl, fun _ => rfl, by decide, by rfl⟩

/-- C11 (amended).  The grammar of a `#MUTATION TYPES` row, with the DFE
letters of the code.  Take a row that ends with its last token (no tab after it) and whose
third token, if any, is a single character.  Whatever `sub` holds when the row
is read, the row is accepted if and only if it has the form
`m<id> <h> <dfe> <params>` in which `<id>` is a run of digits, `<h>` and the
parameters are words over `1234567890.-`, and `<dfe>` is `f` or `e` with
exactly one parameter or `g` with exactly two; so a row with `f`, `e` or `g`
and another number of parameters is rejected.  And every row whose third token
has a character other than `f`, `g`, `e`, such as `n` or `w`, is rejected. -/
theorem mutation_type_row_grammar (line sub : CppString) :
    (ends_in_token line → (token_at 2 line).length ≤ 1 →
      (row_accepted .MUTATION_TYPES sub line = true ↔ mutation_type_form line)) ∧
    ((∃ c ∈ token_at 2 line, c ∉ "fge".toList) →
      row_accepted .MUTATION_TYPES sub line = false) :=
  ⟨fun hend hlen => mutation_types_accepted_iff sub hend hlen, mutation_types_bad_letter⟩

theorem mutation_type_row_grammar_witness :
    (ends_in_token "m1 0.2 g -0.05 0.2".toList ∧
      (token_at 2 "m1 0.2 g -0.05 0.2".toList).length ≤ 1 ∧
      mutation_type_form "m1 0.2 g -0.05 0.2".toList ∧
      row_accepted .MUTATION_TYPES [] "m1 0.2 g -0.05 0.2".toList = true) ∧
    (ends_in_token "m2 0.0 f 0.0 1.0".toList ∧
      (token_at 2 "m2 0.0 f 0.0 1.0".toList).length ≤ 1 ∧
      ¬ mutation_type_form "m2 0.0 f 0.0 1.0".toList ∧
      ¬ row_accepted .MUTATION_TYPES [] "m2 0.0 f 0.0 1.0".toList = true) ∧
    ((∃ c ∈ token_at 2 "m1 0.5 n 0.0 1.0".toList, c ∉ "fge".toList) ∧
      row_accepted .MUTATION_TYPES [] "m1 0.5 n 0.0 1.0".toList = false) :=
  ⟨⟨by decide, by decide, by decide,
      ((mutation_type_row_grammar "m1 0.2 g -0.05 0.2".toList []).1 (by decide)
        (by decide)).2 (by decide)⟩,
    ⟨by decide, by decide, by decide,
      fun h => absurd (((mutation_type_row_grammar "m2 0.0 f 0.0 1.0".toList []).1 (by decide)
        (by decide)).1 h) (by decide)⟩,
    ⟨⟨'n', by decide, by decide⟩,
      (mutation_type_row_grammar "m1 0.5 n 0.0 1.0".toList []).2
        ⟨'n', by decide, by decide⟩⟩⟩

/-- The rows of `#MUTATION TYPES` that the grammar of C11 leaves out.  The row
`m1 0.5 g 0.5` followed by a tab, with one parameter for `g`, is accepted: the
tab keeps the stream from its end after the last token, the next extraction
fails, and the token is tested a second time.  The row `m1 0.5 ff 0.0`, whose
DFE token passes the test of its characters and takes no branch, is accepted
too. -/
theorem mutation_type_rows_left_out :
    (∀ sub, row_accepted .MUTATION_TYPES sub "m1 0.5 g 0.5\t".toList = true) ∧
    ¬ ends_in_token "m1 0.5 g 0.5\t".toList ∧
    ¬ mutation_type_form "m1 0.5 g 0.5\t".toList ∧
    (∀ sub, row_accepted .MUTATION_TYPES sub "m1 0.5 ff 0.0".toList = true) ∧
    (token_at 2 "m1 0.5 ff 0.0".toList).length = 2 ∧
    ¬ mutation_type_form "m1 0.5 ff 0.0".toList := by
  refine ⟨fun sub => ?_, by decide, by decide, fun sub => ?_, by decide, by decide⟩
  · rw [row_accepted_sub_irrelevant _ sub (by decide)]
    decide
  · rw [row_accepted_sub_irrelevant _ sub (by decide)]
    decide

/-! ## Claim C17: identifiers -/

/-- C17, as the code has it.  The rows `m 0.5 f 0.0` of `#MUTATION TYPES` and
`g 1 100` of `#CHROMOSOME ORGANIZATION`, whose identifier is the bare prefix
letter, are accepted, and so are `g m 1.0` and `1 P p 100`: `CheckInputFile`
returns without an error for the complete parameter file
`bare_identifier_file`, which holds these four rows. -/
theorem bare_identifier_accepted :
    (∀ sub, row_accepted .MUTATION_TYPES sub "m 0.5 f 0.0".toList = true) ∧
    (∀ sub, row_accepted .CHROMOSOME_ORGANIZATION sub "g 1 100".toList = true) ∧
    bare_identifier_file.lines =
      ["#MUTATION RATE".toList, "1e-8".toList, "#MUTATION TYPES".toList, "m 0.5 f 0.0".toList,
        "#GENOMIC ELEMENT TYPES".toList, "g m 1.0".toList,
        "#CHROMOSOME ORGANIZATION".toList, "g 1 100".toList,
        "#RECOMBINATION RATE".toList, "1000 1e-8".toList, "#GENERATIONS".toList, "10".toList,
        "#DEMOGRAPHY AND STRUCTURE".toList, "1 P p 100".toList] ∧
    CheckInputFile [] (some bare_identifier_file) = .accepted ⟨1, 1, 1, 1, 1, 1, 1⟩ :=
  ⟨fun _ => rfl, fun _ => rfl, by decide, by rfl⟩

/-- C17.  Identifier tokens.  Every test of an identifier `m<id>`, `g<id>` or
`p<id>` in `CheckInputFile` is a call that eats the prefix letter and then
characters among `1234567890`; when the call is made it returns true if and
only if the token is the letter followed by digits only, of which there may be
none, and the expectation about the end of the line is met.  Accordingly the
first token of every accepted row of `#MUTATION TYPES` is `m` followed by
digits only, the first token of every accepted row of `#GENOMIC ELEMENT TYPES`
and of `#CHROMOSOME ORGANIZATION` is `g` followed by digits only, and the bare
letters `m`, `g`, `p` pass the test. -/
theorem identifier_tokens (st : RowState) (letter : Char) (e : EOFExpected)
    (sub line : CppString) :
    (st.good = true →
      ((st.eat_prefixed (String.singleton letter) "1234567890" e).good = true ↔
        is_identifier letter st.sub ∧ (e = .kEOFExpected → st.iss.eof = true) ∧
          (e = .kEOFNotExpected → st.iss.eof = false))) ∧
    (row_accepted .MUTATION_TYPES sub line = true → is_identifier 'm' (token_at 0 line)) ∧
    (row_accepted .GENOMIC_ELEMENT_TYPES sub line = true →
      is_identifier 'g' (token_at 0 line)) ∧
    (row_accepted .CHROMOSOME_ORGANIZATION sub line = true →
      is_identifier 'g' (token_at 0 line)) ∧
    is_identifier letter [letter] :=
  ⟨fun hg => identifier_check hg letter e, mutation_types_first_token,
    genomic_element_types_first_token, chromosome_organization_first_token,
    ⟨rfl, fun c hc => by cases hc⟩⟩

theorem identifier_tokens_witness :
    row_accepted .MUTATION_TYPES [] "m7 0.5 f 0.0".toList = true ∧
    is_identifier 'm' (token_at 0 "m7 0.5 f 0.0".toList) ∧
    row_accepted .CHROMOSOME_ORGANIZATION [] "g 1 100".toList = true ∧
    is_identifier 'g' (token_at 0 "g 1 100".toList) ∧
    token_at 0 "g 1 100".toList = ['g'] :=
  ⟨by decide,
    (identifier_tokens default 'm' .kEOFExpected [] "m7 0.5 f 0.0".toList).2.1 (by decide),
    by decide,
    (identifier_tokens default 'g' .kEOFExpected [] "g 1 100".toList).2.2.2.1 (by decide),
    by decide⟩

/-! ## Rows and files: what `row_accepted` means for `CheckInputFile` -/

/-- How the body of a row ends does not depend on the counters. -/
theorem row_body_end_counters (s : ParameterSection) (good : Bool) (sub line : CppString)
    (n n' : Counters) : (row_body s good sub line n).1 = (row_body s good sub line n').1 := by
  cases s <;> (unfold row_body; simp only) <;> (split_ifs <;> rfl)

/-- A row that is read with `good` true and is not accepted, and whose body
ends, makes `CheckInputFile` report the error of its section for that row. -/
theorem check_lines_row_not_accepted {s : ParameterSection} {sub : CppString} {n : Counters}
    {raw : CppString} (lines : List CppString)
    (hhash : (sanitize raw).contains '#' = false) (hne : sanitize raw ≠ [])
    (hdone : ∃ st, (row_body s true sub (sanitize raw) n).1 = .done st)
    (hrej : row_accepted s sub (sanitize raw) = false) :
    check_lines (some s) true sub n (raw :: lines) = .input_error s.error (sanitize raw) := by
  obtain ⟨st, hst⟩ := hdone
  refine check_lines_row_rejected lines hhash hne ⟨st, (row_body s true sub (sanitize raw) n).2,
    Prod.ext hst rfl, ?_⟩
  unfold row_accepted at hrej
  rw [row_body_end_counters s true sub (sanitize raw) _ n, hst] at hrej
  exact hrej

/-- A row that is read with `good` true and is accepted is counted, and
`CheckInputFile` goes on to the next line. -/
theorem check_lines_row_accepted {s : ParameterSection} {sub : CppString} {n : Counters}
    {raw : CppString} (lines : List CppString)
    (hhash : (sanitize raw).contains '#' = false) (hne : sanitize raw ≠ [])
    (hacc : row_accepted s sub (sanitize raw) = true) :
    ∃ st n', row_body s true sub (sanitize raw) n = (.done st, n') ∧ st.good = true ∧
      check_lines (some s) true sub n (raw :: lines) =
        check_lines (some s) true st.sub (s.count n') lines := by
  unfold row_accepted at hacc
  rw [row_body_end_counters s true sub (sanitize raw) _ n] at hacc
  cases hbody : row_body s true sub (sanitize raw) n with
  | mk r n' =>
    rw [hbody] at hacc
    cases r with
    | hangs => cases hacc
    | out_of_fuel => cases hacc
    | done st =>
      have hg : st.good = true := hacc
      refine ⟨st, n', rfl, hg, ?_⟩
      have hlen : (sanitize raw).length ≠ 0 := fun h0 => hne (List.length_eq_zero.1 h0)
      rw [check_lines]
      simp only [hhash, Bool.false_eq_true, if_false, hlen, hbody, hg, Bool.not_true]


/-! ## Lemmas: the C library on integer tokens -/

theorem isdigit_iff (c : Char) : isdigit c = true ↔ c ∈ "1234567890".toList := by
  unfold isdigit
  simp only [decide_eq_true_eq, String.toList, List.mem_cons, List.mem_singleton,
    List.not_mem_nil, or_false]
  tauto

theorem isdigit_cases {c : Char} (h : isdigit c = true) :
    c = '0' ∨ c = '1' ∨ c = '2' ∨ c = '3' ∨ c = '4' ∨ c = '5' ∨ c = '6' ∨ c = '7' ∨
      c = '8' ∨ c = '9' := by
  unfold isdigit at h
  simpa [String.toList] using h

theorem isdigit_props {c : Char} (h : isdigit c = true) :
    isspace c = false ∧ c ≠ '\x00' ∧ c ≠ '-' ∧ c ≠ '+' ∧ c ≠ '.' ∧ is_letter 'e' c = false ∧
      is_letter 'x' c = false ∧ is_letter 'i' c = false ∧ is_letter 'n' c = false := by
  rcases isdigit_cases h with rfl | rfl | rfl | rfl | rfl | rfl | rfl | rfl | rfl | rfl <;>
    decide

theorem all_digits_of_word {t : CppString} (h : is_word "1234567890" t) :
    ∀ c ∈ t, isdigit c = true := fun c hc => (isdigit_iff c).2 (h.2 c hc)

theorem takeWhile_all {p : Char → Bool} {t : CppString} (h : ∀ c ∈ t, p c = true) :
    t.takeWhile p = t := List.takeWhile_eq_self_iff.2 h

theorem dropWhile_all {p : Char → Bool} {t : CppString} (h : ∀ c ∈ t, p c = true) :
    t.dropWhile p = [] := List.dropWhile_eq_nil_iff.2 h

theorem c_str_of_digits {t : CppString} (h : ∀ c ∈ t, isdigit c = true) : c_str t = t := by
  unfold c_str
  apply takeWhile_all
  intro c hc
  simpa using (isdigit_props (h c hc)).2.1

theorem dropWhile_isspace_digit {c : Char} (r : CppString) (h : isdigit c = true) :
    (c :: r).dropWhile isspace = c :: r := by
  rw [List.dropWhile_cons, (isdigit_props h).1]
  rfl

theorem eat_sign_digit {c : Char} (r : CppString) (h : isdigit c = true) :
    eat_sign (c :: r) = (false, c :: r) := by
  rcases isdigit_cases h with rfl | rfl | rfl | rfl | rfl | rfl | rfl | rfl | rfl | rfl <;> rfl

theorem not_decimal_digit {c : Char} (r : CppString) (h : isdigit c = true)
    (hr : ∀ d ∈ r.head?, isdigit d = true ∨ is_letter 'e' d = true) :
    not_decimal (c :: r) = false := by
  cases r with
  | nil => rcases isdigit_cases h with rfl | rfl | rfl | rfl | rfl | rfl | rfl | rfl | rfl | rfl <;> rfl
  | cons d r' =>
    have hd := hr d (by simp)
    have hx : is_letter 'x' d = false := by
      rcases hd with hd | hd
      · exact (isdigit_props hd).2.2.2.2.2.2.1
      · unfold is_letter at hd ⊢
        simp only [Bool.or_eq_true, decide_eq_true_eq] at hd
        rcases hd with rfl | rfl <;> decide
    have hi := (isdigit_props h).2.2.2.2.2.2.2.1
    have hn := (isdigit_props h).2.2.2.2.2.2.2.2
    cases r' with
    | nil =>
      rcases isdigit_cases h with rfl | rfl | rfl | rfl | rfl | rfl | rfl | rfl | rfl | rfl <;>
        simp [not_decimal, hx]
    | cons e r'' =>
      have hx' : ¬ d = 'x' ∧ ¬ d = 'X' := by
        have hu : 'x'.toUpper = 'X' := by decide
        simpa [is_letter, hu] using hx
      rcases isdigit_cases h with rfl | rfl | rfl | rfl | rfl | rfl | rfl | rfl | rfl | rfl <;>
        simp [not_decimal, hx, hx', is_letter]


theorem takeWhile_ne_nil_head {p : Char → Bool} {t : CppString} (h : t.takeWhile p ≠ []) :
    ∃ c r, t = c :: r ∧ p c = true := by
  cases t with
  | nil => exact absurd rfl h
  | cons c r =>
    refine ⟨c, r, rfl, ?_⟩
    by_contra hc
    apply h
    simp [List.takeWhile_cons, hc]

/-- The shape of a token that denotes a number. -/
theorem token_value_cases {t : CppString} {v : Nat} (h : token_value t = some v) :
    (t ≠ [] ∧ (∀ c ∈ t, isdigit c = true) ∧ v = digits_value t) ∨
    (∃ ds es, t = ds ++ 'e' :: es ∧ ds ≠ [] ∧ es ≠ [] ∧ (∀ c ∈ ds, isdigit c = true) ∧
      (∀ c ∈ es, isdigit c = true) ∧ v = digits_value ds * 10 ^ digits_value es) := by
  unfold token_value at h
  split at h
  · rename_i hd
    split at h
    · cases h
    · rename_i hne
      simp only [Option.some.injEq] at h
      exact Or.inl ⟨hne, List.dropWhile_eq_nil_iff.1 hd, h.symm⟩
  · rename_i c es hd
    split at h
    · rename_i hc
      simp only [Option.some.injEq] at h
      obtain ⟨rfl, hds, hes, hall⟩ := hc
      refine Or.inr ⟨t.takeWhile isdigit, es, ?_, hds, hes, ?_, ?_, h.symm⟩
      · rw [← hd]; exact (List.takeWhile_append_dropWhile _ _).symm
      · intro c hc; exact List.mem_takeWhile_imp hc
      · simpa using hall
    · cases h

theorem takeWhile_append_stop {p : Char → Bool} {ds : CppString} {c : Char} (es : CppString)
    (hds : ∀ d ∈ ds, p d = true) (hc : p c = false) :
    (ds ++ c :: es).takeWhile p = ds ∧ (ds ++ c :: es).dropWhile p = c :: es := by
  induction ds with
  | nil => simp [List.takeWhile_cons, List.dropWhile_cons, hc]
  | cons d ds ih =>
    have hd := hds d (by simp)
    have := ih (fun x hx => hds x (by simp [hx]))
    simp [List.takeWhile_cons, List.dropWhile_cons, hd, this]

theorem atof_integer_token {t : CppString} {v : Nat} (h : token_value t = some v) :
    ∃ m e : Nat, atof t = .decimal false m (e : Int) ∧ v = m * 10 ^ e := by
  rcases token_value_cases h with ⟨hne, hall, hv⟩ | ⟨ds, es, ht, hds, hes, hdall, heall, hv⟩
  · cases t with
    | nil => exact absurd rfl hne
    | cons c r =>
      have hc := hall c (by simp)
      refine ⟨digits_value (c :: r), 0, ?_, by simpa using hv⟩
      unfold atof
      rw [c_str_of_digits hall, dropWhile_isspace_digit r hc, eat_sign_digit r hc]
      simp only
      rw [not_decimal_digit r hc (by
        intro d hd
        cases r with
        | nil => simp at hd
        | cons d' r' =>
          simp only [List.head?_cons, Option.mem_def, Option.some.injEq] at hd
          subst hd
          exact Or.inl (hall _ (by simp)))]
      rw [takeWhile_all hall, dropWhile_all hall]
      simp [fraction_part, exponent_part]
  · subst ht
    cases ds with
    | nil => exact absurd rfl hds
    | cons c r =>
      have hc := hdall c (by simp)
      have he : isdigit 'e' = false := by decide
      obtain ⟨htw, hdw⟩ := takeWhile_append_stop es hdall he
      refine ⟨digits_value (c :: r), digits_value es, ?_, hv⟩
      have hcs : c_str (c :: r ++ 'e' :: es) = c :: r ++ 'e' :: es := by
        unfold c_str
        apply takeWhile_all
        intro x hx
        rw [List.mem_append] at hx
        rcases hx with hx | hx
        · simpa using (isdigit_props (hdall x hx)).2.1
        rw [List.mem_cons] at hx
        rcases hx with rfl | hx
        · decide
        · simpa using (isdigit_props (heall x hx)).2.1
      unfold atof
      rw [hcs]
      have hcons : c :: r ++ 'e' :: es = c :: (r ++ 'e' :: es) := rfl
      rw [hcons, dropWhile_isspace_digit _ hc, eat_sign_digit _ hc]
      simp only
      rw [not_decimal_digit _ hc (by
        intro d hd
        cases r with
        | nil =>
          simp only [List.nil_append, List.head?_cons, Option.mem_def, Option.some.injEq] at hd
          subst hd
          exact Or.inr (by decide)
        | cons d' r' =>
          simp only [List.cons_append, List.head?_cons, Option.mem_def,
            Option.some.injEq] at hd
          subst hd
          exact Or.inl (hdall _ (by simp)))]
      rw [← hcons, htw, hdw]
      cases es with
      | nil => exact absurd rfl hes
      | cons x xs =>
        have hx := heall x (by simp)
        have h1 : fraction_part ('e' :: x :: xs) = ([], 'e' :: x :: xs) := rfl
        have h2 : exponent_part ('e' :: x :: xs) = (digits_value (x :: xs) : Int) := by
          have hl : is_letter 'e' 'e' = true := by decide
          rw [exponent_part, if_pos hl, eat_sign_digit xs hx]
          simp only
          rw [takeWhile_all heall]
          simp
        rw [h1]
        simp only
        rw [h2]
        simp

theorem static_cast_int_atof {t : CppString} {v : Nat} (h : is_integer_token t v) :
    static_cast_int (atof t) = some (v : Int) := by
  obtain ⟨m, e, hat, hv⟩ := atof_integer_token h.1
  have hlt := h.2
  rw [hat]
  unfold static_cast_int
  simp only [Int.natCast_nonneg, if_true, Int.toNat_ofNat, Bool.false_eq_true, if_false]
  rw [← hv]
  have h1 : (-2147483648 : Int) ≤ (v : Int) := by omega
  have h2 : (v : Int) < 2147483648 := by omega
  simp [h1, h2]


theorem atoi_all_digits {t : CppString} (hall : ∀ c ∈ t, isdigit c = true)
    (hlt : digits_value t < 2147483648) : atoi t = some (digits_value t : Int) := by
  unfold atoi
  rw [c_str_of_digits hall]
  have h1 : eat_sign (t.dropWhile isspace) = (false, t) := by
    cases t with
    | nil => rfl
    | cons c r =>
      have hc := hall c (by simp)
      rw [dropWhile_isspace_digit r hc, eat_sign_digit r hc]
  rw [h1]
  simp only [Bool.false_eq_true, if_false]
  rw [takeWhile_all hall]
  have h2 : (-2147483648 : Int) ≤ (digits_value t : Int) := by omega
  have h3 : (digits_value t : Int) < 2147483648 := by omega
  simp [h2, h3]

theorem atoi_digits_token {t : CppString} {v : Nat} (h : is_digits_token t v) :
    atoi t = some (v : Int) := by
  obtain ⟨hw, hv, hlt⟩ := h
  rw [← hv] at hlt ⊢
  exact atoi_all_digits (all_digits_of_word hw) hlt

theorem int_pred_nat (v : Nat) : int_pred (v : Int) = some ((v : Int) - 1) := by
  unfold int_pred
  have : (-2147483648 : Int) ≤ (v : Int) - 1 := by omega
  simp [this]

theorem integer_token_ne_nil {t : CppString} {v : Nat} (h : is_integer_token t v) : t ≠ [] := by
  intro h0
  rw [h0] at h
  exact absurd h.1 (by simp [token_value])

/-! ## Lemmas: the stream of a row of `Initialize` -/

theorem open_eq_stream_at {line : CppString} (h : token_at 0 line ≠ []) :
    IStringStream.open line = stream_at line 0 := by
  unfold IStringStream.open stream_at
  have hne : line ≠ [] := by
    intro h0
    apply h
    simp [token_at, rest_after, h0]
  cases line with
  | nil => exact absurd rfl hne
  | cons c r => rfl

theorem extract_stream_at {line : CppString} {k : Nat} (h : token_at k line ≠ [])
    (sub : CppString) :
    (stream_at line k).extract sub = (stream_at line (k + 1), token_at k line) := by
  unfold stream_at
  have hrest : rest_after k line ≠ [] := rest_ne_nil_of_token h
  have hempty : (rest_after k line).isEmpty = false := by
    cases hr : rest_after k line with
    | nil => exact absurd hr hrest
    | cons _ _ => rfl
  rw [hempty]
  exact extract_token _ sub (by rw [← token_at_eq]; exact h)

theorem extract_stream_at_end {line : CppString} {k : Nat} (h : token_at k line = [])
    (sub : CppString) :
    ((stream_at line k).extract sub).1.failbit = true ∧
      ((stream_at line k).extract sub).2 = sub := by
  unfold stream_at
  cases hr : rest_after k line with
  | nil => exact ⟨rfl, rfl⟩
  | cons c r =>
    have h0 : token_at 0 (c :: r) = [] := by rw [← hr, ← token_at_eq]; exact h
    have := extract_no_token (c :: r) sub h0
    show ((⟨c :: r, false, false⟩ : IStringStream).extract sub).1.failbit = true ∧
      ((⟨c :: r, false, false⟩ : IStringStream).extract sub).2 = sub
    rw [this]
    exact ⟨rfl, rfl⟩

theorem open_extract {line : CppString} (h : token_at 0 line ≠ []) (sub : CppString) :
    (IStringStream.open line).extract sub = (stream_at line 1, token_at 0 line) := by
  rw [open_eq_stream_at h, extract_stream_at h]

theorem stream_at_failbit (line : CppString) (k : Nat) : (stream_at line k).failbit = false := rfl

/-- A `#CHROMOSOME ORGANIZATION` row `g<id> <s> <e>`. -/
theorem chromosome_organization_row (files : CppString → Option InputFile) (sim : Simulation)
    (sub line : CppString) (id : Int) (s e : Nat) (ptr : GenomicElementType)
    (h0 : token_at 0 line ≠ []) (hid : atoi ((token_at 0 line).drop 1) = some id)
    (hs : is_integer_token (token_at 1 line) s) (he : is_integer_token (token_at 2 line) e)
    (hptr : map_find sim.p_chromosome.genomic_element_types_ id = some ptr) :
    initialize_row files .CHROMOSOME_ORGANIZATION sim sub line =
      .ok ({ sim with
        p_chromosome := { sim.p_chromosome with
          elements := sim.p_chromosome.elements ++ [⟨ptr, (s : Int) - 1, (e : Int) - 1⟩] } },
        token_at 2 line) := by
  have h1 := integer_token_ne_nil hs
  have h2 := integer_token_ne_nil he
  unfold initialize_row
  simp only [open_extract h0, extract_stream_at h1, extract_stream_at h2, hid,
    static_cast_int_atof hs, static_cast_int_atof he, Option.bind, int_pred_nat,
    Outcome.ofInt, bind, Outcome.bind, hptr, pure]


/-- A `#RECOMBINATION RATE` row `<end> <rate>`. -/
theorem recombination_rate_row (files : CppString → Option InputFile) (sim : Simulation)
    (sub line : CppString) (p : Nat)
    (hp : is_integer_token (token_at 0 line) p) (h1 : token_at 1 line ≠ []) :
    initialize_row files .RECOMBINATION_RATE sim sub line =
      .ok ({ sim with
        p_chromosome := { sim.p_chromosome with
          recombination_end_positions_ :=
            sim.p_chromosome.recombination_end_positions_ ++ [(p : Int) - 1],
          recombination_rates_ :=
            sim.p_chromosome.recombination_rates_ ++ [atof (token_at 1 line)] } },
        token_at 1 line) := by
  have h0 := integer_token_ne_nil hp
  unfold initialize_row
  simp only [open_extract h0, extract_stream_at h1, static_cast_int_atof hp, Option.bind,
    int_pred_nat, Outcome.ofInt, bind, Outcome.bind, pure]

/-- A `#GENERATIONS` row `<duration>`. -/
theorem generations_row_one (files : CppString → Option InputFile) (sim : Simulation)
    (sub line : CppString) (d : Nat)
    (hd : is_integer_token (token_at 0 line) d) (h1 : token_at 1 line = []) :
    initialize_row files .GENERATIONS sim sub line =
      .ok ({ sim with p_time_duration := d, p_time_start := 1 }, token_at 0 line) := by
  have h0 := integer_token_ne_nil hd
  obtain ⟨hf, hsub⟩ := extract_stream_at_end h1 (token_at 0 line)
  unfold initialize_row
  simp only [open_extract h0, static_cast_int_atof hd, Outcome.ofInt, bind, Outcome.bind, pure,
    hf, hsub, Bool.not_true, Bool.false_eq_true, if_false]

/-- A `#GENERATIONS` row `<duration> <start>`. -/
theorem generations_row_two (files : CppString → Option InputFile) (sim : Simulation)
    (sub line : CppString) (d s : Nat)
    (hd : is_integer_token (token_at 0 line) d) (hs : is_integer_token (token_at 1 line) s) :
    initialize_row files .GENERATIONS sim sub line =
      .ok ({ sim with p_time_duration := d, p_time_start := s }, token_at 1 line) := by
  have h0 := integer_token_ne_nil hd
  have h1 := integer_token_ne_nil hs
  unfold initialize_row
  simp only [open_extract h0, extract_stream_at h1, static_cast_int_atof hd,
    static_cast_int_atof hs, Outcome.ofInt, bind, Outcome.bind, pure, stream_at_failbit,
    Bool.not_false, if_true]

/-- A row `<id> m<type> <position> <s> <h> p<subpop> <generation>` of the section
`Mutations` of a dump. -/
theorem dump_mutation_row (c : Chromosome) (M : List (Int × Mutation)) (sub line : CppString)
    (id t i g : Int) (x : Nat) (ptr : MutationType)
    (hid : atoi (token_at 0 line) = some id) (ht : atoi ((token_at 1 line).drop 1) = some t)
    (hx : is_digits_token (token_at 2 line) x)
    (hi : atoi ((token_at 5 line).drop 1) = some i) (hg : atoi (token_at 6 line) = some g)
    (h6 : token_at 6 line ≠ []) (hptr : map_find c.mutation_types_ t = some ptr) :
    mutation_row c M sub line =
      .ok (map_insert M id ⟨ptr, (x : Int) - 1, atof (token_at 3 line), i, g⟩,
        token_at 6 line) := by
  have h5 := token_pred_ne_nil h6
  have h4 := token_pred_ne_nil h5
  have h3 := token_pred_ne_nil h4
  have h2 := token_pred_ne_nil h3
  have h1 := token_pred_ne_nil h2
  have h0 := token_pred_ne_nil h1
  unfold mutation_row
  simp only [open_extract h0, extract_stream_at h1, extract_stream_at h2, extract_stream_at h3,
    extract_stream_at h4, extract_stream_at h5, extract_stream_at h6, hid, ht, hi, hg,
    atoi_digits_token hx, int_pred_nat, Outcome.ofInt, bind, Outcome.bind, pure, hptr]


theorem extract_ok_not_eof {s : IStringStream} {sub : CppString}
    (h : (s.extract sub).1.failbit = false) : s.eofbit = false := by
  unfold IStringStream.extract at h
  cases he : s.eofbit with
  | false => rfl
  | true => simp [he] at h

theorem stream_at_settled (line : CppString) (k : Nat) : (stream_at line k).settled := by
  unfold stream_at IStringStream.settled
  refine ⟨fun h => (by cases h), fun h => ?_⟩
  have h' : rest_after k line = [] := h
  show (rest_after k line).isEmpty = true
  rw [h']; rfl

theorem rest_after_suffix_succ (line : CppString) (j k : Nat) :
    rest_after (j + k) line <:+ rest_after j line := by
  induction k with
  | zero => exact List.suffix_refl _
  | succ k ih => exact (skip_token_suffix _).trans ih

theorem stream_at_potential {line : CppString} (h0 : token_at 0 line ≠ []) (k : Nat) :
    (stream_at line (k + 1)).potential ≤ line.length := by
  have h1 := (start_settled true [] line).2
  have hst : (RowState.start true [] line).iss = stream_at line 1 := by
    unfold RowState.start
    rw [open_extract h0]
  rw [hst] at h1
  have hsuf : rest_after (k + 1) line <:+ rest_after 1 line := by
    have := rest_after_suffix_succ line 1 k
    rwa [Nat.add_comm 1 k] at this
  have hlen := hsuf.length_le
  unfold stream_at IStringStream.potential at h1 ⊢
  simp only at h1 ⊢
  cases hk : rest_after (k + 1) line with
  | nil => simp
  | cons c r =>
    rw [hk] at hlen
    cases h1' : rest_after 1 line with
    | nil => rw [h1'] at hlen; simp at hlen
    | cons d r' =>
      rw [h1'] at h1 hlen
      simp only [List.isEmpty_cons, Bool.false_eq_true, if_false, List.length_cons] at h1 hlen ⊢
      omega

/-- The loop that ends a `#PREDETERMINED MUTATIONS` row runs to its end, and the
partial sweeps it adds carry the mutation type and the position of the row. -/
theorem partial_sweep_loop_some (ptr : MutationType) (pos : Int) (fuel : Nat)
    (iss : IStringStream) (sub : CppString) (sweeps : List PartialSweep)
    (hs : iss.settled) (hfuel : iss.potential < fuel) :
    ∃ added sub', partial_sweep_loop ptr pos fuel iss sub sweeps = some (sweeps ++ added, sub') ∧
      ∀ s ∈ added, s.mutation_type_ptr_ = ptr ∧ s.position_ = pos := by
  induction fuel generalizing iss sub sweeps with
  | zero => omega
  | succ fuel ih =>
    rw [partial_sweep_loop]
    simp only
    cases hf : (iss.extract sub).1.failbit with
    | true =>
      exact ⟨[], (iss.extract sub).2, by simp, fun s hs => by cases hs⟩
    | false =>
      have heof := extract_ok_not_eof hf
      have hs1 := extract_settled iss sub hs
      have hp1 := extract_potential iss sub hs heof
      simp only [Bool.false_eq_true, if_false]
      split
      · have hs2 := extract_settled _ (iss.extract sub).2 hs1
        have hp2 := extract_potential_le _ (iss.extract sub).2 hs1
        obtain ⟨added, sub', hloop, hall⟩ := ih ((iss.extract sub).1.extract (iss.extract sub).2).1
          ((iss.extract sub).1.extract (iss.extract sub).2).2
          (sweeps ++ [⟨ptr, pos, atof ((iss.extract sub).1.extract (iss.extract sub).2).2⟩])
          hs2 (by omega)
        refine ⟨(⟨ptr, pos, atof ((iss.extract sub).1.extract (iss.extract sub).2).2⟩ :
          PartialSweep) :: added, sub', ?_, ?_⟩
        · rw [hloop]; simp
        · intro s hs
          rcases List.mem_cons.1 hs with rfl | hs
          · exact ⟨rfl, rfl⟩
          · exact hall s hs
      · exact ih _ _ sweeps hs1 (by omega)

/-- A `#PREDETERMINED MUTATIONS` row
`<t> m<id> <position> p<subpop> <nAA> <nAa> [P <target>]`. -/
theorem predetermined_mutations_row (files : CppString → Option InputFile) (sim : Simulation)
    (sub line : CppString) (g x a b : Nat) (t sp : Int) (ptr : MutationType)
    (hg : is_integer_token (token_at 0 line) g)
    (ht : atoi ((token_at 1 line).drop 1) = some t)
    (hx : is_integer_token (token_at 2 line) x)
    (hsp : atoi ((token_at 3 line).drop 1) = some sp)
    (ha : is_integer_token (token_at 4 line) a) (hb : is_integer_token (token_at 5 line) b)
    (hptr : map_find sim.p_chromosome.mutation_types_ t = some ptr) :
    ∃ added sub', initialize_row files .PREDETERMINED_MUTATIONS sim sub line =
      .ok ({ sim with
        p_introduced_mutations :=
          multimap_insert sim.p_introduced_mutations g ⟨ptr, (x : Int) - 1, sp, g, a, b⟩,
        p_partial_sweeps := sim.p_partial_sweeps ++ added }, sub') ∧
      ∀ s ∈ added, s.mutation_type_ptr_ = ptr ∧ s.position_ = (x : Int) - 1 := by
  have h5 := integer_token_ne_nil hb
  have h4 := token_pred_ne_nil h5
  have h3 := token_pred_ne_nil h4
  have h2 := token_pred_ne_nil h3
  have h1 := token_pred_ne_nil h2
  have h0 := token_pred_ne_nil h1
  obtain ⟨added, sub', hloop, hall⟩ := partial_sweep_loop_some ptr ((x : Int) - 1)
    (line.length + 1) (stream_at line 6) (token_at 5 line) [] (stream_at_settled line 6)
    (Nat.lt_succ_of_le (stream_at_potential h0 5))
  refine ⟨added, sub', ?_, hall⟩
  unfold initialize_row
  simp only [open_extract h0, extract_stream_at h1, extract_stream_at h2, extract_stream_at h3,
    extract_stream_at h4, extract_stream_at h5, static_cast_int_atof hg,
    static_cast_int_atof hx, static_cast_int_atof ha, static_cast_int_atof hb, ht, hsp,
    Option.bind, int_pred_nat, Outcome.ofInt, bind, Outcome.bind, pure, hptr, hloop,
    List.nil_append]


/-! ## Claim C14: positions are stored 0-based -/

/-- C14.  File positions are 1-based and stored 0-based.  An integer token is a
token that denotes a number that is an `int`: digits, or digits, `e`, digits
(digits only in a dump, which is read with `atoi`).
* A `#CHROMOSOME ORGANIZATION` row `g<id> <s> <e>` with integer tokens `s` and
  `e`, whose genomic element type is defined, makes `Initialize` append the
  genomic element of that type with start position `s - 1` and end position
  `e - 1`.
* A `#RECOMBINATION RATE` row with integer end position `p` and a rate makes it
  append `p - 1` to `recombination_end_positions_`.
* A `#PREDETERMINED MUTATIONS` row with position `x`, integer tokens and a
  defined mutation type makes it store an introduced mutation with position
  `x - 1`, and every partial sweep it adds has position `x - 1`.
* A row of the section `Mutations` of a population dump with position `x`
  enters, in the map of the mutations read, a mutation with position `x - 1`.
In each case the row runs to its end, with the result stated. -/
theorem positions_stored_zero_based (files : CppString → Option InputFile) (sim : Simulation)
    (c : Chromosome) (M : List (Int × Mutation)) (sub line : CppString) :
    (∀ (id : Int) (s e : Nat) (ptr : GenomicElementType),
      token_at 0 line ≠ [] → atoi ((token_at 0 line).drop 1) = some id →
      is_integer_token (token_at 1 line) s → is_integer_token (token_at 2 line) e →
      map_find sim.p_chromosome.genomic_element_types_ id = some ptr →
      initialize_row files .CHROMOSOME_ORGANIZATION sim sub line =
        .ok ({ sim with
          p_chromosome := { sim.p_chromosome with
            elements := sim.p_chromosome.elements ++ [⟨ptr, (s : Int) - 1, (e : Int) - 1⟩] } },
          token_at 2 line)) ∧
    (∀ p : Nat, is_integer_token (token_at 0 line) p → token_at 1 line ≠ [] →
      initialize_row files .RECOMBINATION_RATE sim sub line =
        .ok ({ sim with
          p_chromosome := { sim.p_chromosome with
            recombination_end_positions_ :=
              sim.p_chromosome.recombination_end_positions_ ++ [(p : Int) - 1],
            recombination_rates_ :=
              sim.p_chromosome.recombination_rates_ ++ [atof (token_at 1 line)] } },
          token_at 1 line)) ∧
    (∀ (g x a b : Nat) (t sp : Int) (ptr : MutationType),
      is_integer_token (token_at 0 line) g → atoi ((token_at 1 line).drop 1) = some t →
      is_integer_token (token_at 2 line) x → atoi ((token_at 3 line).drop 1) = some sp →
      is_integer_token (token_at 4 line) a → is_integer_token (token_at 5 line) b →
      map_find sim.p_chromosome.mutation_types_ t = some ptr →
      ∃ added sub', initialize_row files .PREDETERMINED_MUTATIONS sim sub line =
        .ok ({ sim with
          p_introduced_mutations :=
            multimap_insert sim.p_introduced_mutations g ⟨ptr, (x : Int) - 1, sp, g, a, b⟩,
          p_partial_sweeps := sim.p_partial_sweeps ++ added }, sub') ∧
        ∀ s ∈ added, s.mutation_type_ptr_ = ptr ∧ s.position_ = (x : Int) - 1) ∧
    (∀ (id t i g : Int) (x : Nat) (ptr : MutationType),
      atoi (token_at 0 line) = some id → atoi ((token_at 1 line).drop 1) = some t →
      is_digits_token (token_at 2 line) x → atoi ((token_at 5 line).drop 1) = some i →
      atoi (token_at 6 line) = some g → token_at 6 line ≠ [] →
      map_find c.mutation_types_ t = some ptr →
      mutation_row c M sub line =
        .ok (map_insert M id ⟨ptr, (x : Int) - 1, atof (token_at 3 line), i, g⟩,
          token_at 6 line)) :=
  ⟨fun id s e ptr h0 hid hs he hptr =>
      chromosome_organization_row files sim sub line id s e ptr h0 hid hs he hptr,
    fun p hp h1 => recombination_rate_row files sim sub line p hp h1,
    fun g x a b t sp ptr hg ht hx hsp ha hb hptr =>
      predetermined_mutations_row files sim sub line g x a b t sp ptr hg ht hx hsp ha hb hptr,
    fun id t i g x ptr hid ht hx hi hg h6 hptr =>
      dump_mutation_row c M sub line id t i g x ptr hid ht hx hi hg h6 hptr⟩

theorem positions_stored_zero_based_witness :
    ((initialize_row (fun _ => none) .CHROMOSOME_ORGANIZATION example_simulation []
        "g1 1000 1999".toList).result.map (fun r => r.1.p_chromosome.elements)
      = some [⟨⟨1, [], []⟩, 999, 1998⟩]) ∧
    ((initialize_row (fun _ => none) .RECOMBINATION_RATE example_simulation []
        "10000 1e-8".toList).result.map
          (fun r => r.1.p_chromosome.recombination_end_positions_)
      = some [9999]) ∧
    (∃ added sub', initialize_row (fun _ => none) .PREDETERMINED_MUTATIONS example_simulation []
        "5000 m7 45000 p1 0 1".toList =
      .ok ({ example_simulation with
        p_introduced_mutations := [(5000,
          ⟨⟨7, .decimal false 5 (-1), 'f', [.decimal false 0 0]⟩, 44999, 1, 5000, 0, 1⟩)],
        p_partial_sweeps := [] ++ added }, sub') ∧
      ∀ s ∈ added, s.mutation_type_ptr_ = ⟨7, .decimal false 5 (-1), 'f', [.decimal false 0 0]⟩ ∧
        s.position_ = 44999) ∧
    ((mutation_row example_simulation.p_chromosome [] []
        "3 m1 500 0.01 0.5 p1 20".toList).result.map (fun r => r.1)
      = some [(3, ⟨⟨1, .decimal false 5 (-1), 'f', [.decimal false 0 0]⟩, 499,
          .decimal false 1 (-2), 1, 20⟩)]) :=
  ⟨by
      rw [(positions_stored_zero_based (fun _ => none) example_simulation
        example_simulation.p_chromosome [] [] "g1 1000 1999".toList).1 1 1000 1999 ⟨1, [], []⟩
        (by decide) (by decide) (by decide) (by decide) (by decide)]
      rfl,
    by
      rw [(positions_stored_zero_based (fun _ => none) example_simulation
        example_simulation.p_chromosome [] [] "10000 1e-8".toList).2.1 10000 (by decide)
        (by decide)]
      rfl,
    (positions_stored_zero_based (fun _ => none) example_simulation
      example_simulation.p_chromosome [] [] "5000 m7 45000 p1 0 1".toList).2.2.1
      5000 45000 0 1 7 1 ⟨7, .decimal false 5 (-1), 'f', [.decimal false 0 0]⟩
      (by decide) (by decide) (by decide) (by decide) (by decide) (by decide) (by decide),
    by
      rw [(positions_stored_zero_based (fun _ => none) example_simulation
        example_simulation.p_chromosome [] [] "3 m1 500 0.01 0.5 p1 20".toList).2.2.2
        3 1 1 20 500 ⟨1, .decimal false 5 (-1), 'f', [.decimal false 0 0]⟩
        (by decide) (by decide) (by decide) (by decide) (by decide) (by decide) (by decide)]
      rfl⟩

/-! ## Claim C16: `#GENERATIONS` -/

/-- C16, as the code has it.  The `#GENERATIONS` row `99999999999` is accepted,
its token denotes the number 99999999999, and no run of the row in `Initialize`
sets the time duration to that number, which is no `int`: the conversion
`static_cast<int>` of the value is undefined.  The rows `e` and `1e` are
accepted too; their tokens denote no number, and `Initialize` sets the time
duration to 0 and to 1. -/
theorem generations_row_without_value :
    ((∀ sub, row_accepted .GENERATIONS sub "99999999999".toList = true) ∧
      token_value (token_at 0 "99999999999".toList) = some 99999999999 ∧
      initialize_row (fun _ => none) .GENERATIONS example_simulation []
        "99999999999".toList = .undefined ∧
      ¬ ∃ r, initialize_row (fun _ => none) .GENERATIONS example_simulation []
          "99999999999".toList = .ok r ∧ r.1.p_time_duration = 99999999999) ∧
    ((∀ sub, row_accepted .GENERATIONS sub "e".toList = true) ∧
      token_value (token_at 0 "e".toList) = none ∧
      (initialize_row (fun _ => none) .GENERATIONS example_simulation []
        "e".toList).result.map (fun r => (r.1.p_time_duration, r.1.p_time_start))
        = some (0, 1)) ∧
    ((∀ sub, row_accepted .GENERATIONS sub "1e".toList = true) ∧
      token_value (token_at 0 "1e".toList) = none ∧
      (initialize_row (fun _ => none) .GENERATIONS example_simulation []
        "1e".toList).result.map (fun r => (r.1.p_time_duration, r.1.p_time_start))
        = some (1, 1)) := by
  have h1 : initialize_row (fun _ => none) .GENERATIONS example_simulation []
      "99999999999".toList = .undefined := by decide
  refine ⟨⟨fun sub => ?_, by decide, h1, ?_⟩, ⟨fun sub => ?_, by decide, by decide⟩,
    ⟨fun sub => ?_, by decide, by decide⟩⟩
  · rw [row_accepted_sub_irrelevant _ sub (by decide)]
    decide
  · rintro ⟨r, hr, -⟩
    rw [h1] at hr
    cases hr
  · rw [row_accepted_sub_irrelevant _ sub (by decide)]
    decide
  · rw [row_accepted_sub_irrelevant _ sub (by decide)]
    decide

/-- C16 (amended).  A `#GENERATIONS` row `<duration> [<start>]`.  For a row
whose first token is an integer token that denotes `d` (digits, or digits, `e`,
digits, with a value that is an `int`), `Initialize` sets the time duration to
`d`; it sets the start time to 1 when the row has no second token, and to `s`
when the second token is an integer token that denotes `s`.  In both cases the
row runs to its end and changes nothing else. -/
theorem generations_row (files : CppString → Option InputFile) (sim : Simulation)
    (sub line : CppString) :
    (∀ d : Nat, is_integer_token (token_at 0 line) d → token_at 1 line = [] →
      initialize_row files .GENERATIONS sim sub line =
        .ok ({ sim with p_time_duration := d, p_time_start := 1 }, token_at 0 line)) ∧
    (∀ d s : Nat, is_integer_token (token_at 0 line) d → is_integer_token (token_at 1 line) s →
      initialize_row files .GENERATIONS sim sub line =
        .ok ({ sim with p_time_duration := d, p_time_start := s }, token_at 1 line)) :=
  ⟨fun d hd h1 => generations_row_one files sim sub line d hd h1,
    fun d s hd hs => generations_row_two files sim sub line d s hd hs⟩

theorem generations_row_witness :
    (row_accepted .GENERATIONS [] "10000".toList = true ∧
      initialize_row (fun _ => none) .GENERATIONS example_simulation [] "10000".toList =
        .ok ({ example_simulation with p_time_duration := 10000, p_time_start := 1 },
          "10000".toList)) ∧
    (row_accepted .GENERATIONS [] "1e3 500".toList = true ∧
      initialize_row (fun _ => none) .GENERATIONS example_simulation [] "1e3 500".toList =
        .ok ({ example_simulation with p_time_duration := 1000, p_time_start := 500 },
          "500".toList)) :=
  ⟨⟨by decide,
      (generations_row (fun _ => none) example_simulation [] "10000".toList).1 10000
        (by decide) (by decide)⟩,
    ⟨by decide,
      (generations_row (fun _ => none) example_simulation [] "1e3 500".toList).2 1000 500
        (by decide) (by decide)⟩⟩

/-! ## Lemmas: the recombination end positions -/

theorem bind_eq_ok {α β : Type} {r : Outcome α} {f : α → Outcome β} {b : β}
    (h : Outcome.bind r f = .ok b) : ∃ a, r = .ok a ∧ f a = .ok b := by
  cases r with
  | ok a => exact ⟨a, rfl, h⟩
  | exits m => cases h
  | throws => cases h
  | undefined => cases h
  | hangs => cases h
  | out_of_fuel => cases h

theorem ofInt_eq_ok {v : Option Int} {i : Int} (h : Outcome.ofInt v = .ok i) : v = some i := by
  cases v with
  | none => cases h
  | some j =>
    simp only [Outcome.ofInt, Outcome.ok.injEq] at h
    rw [h]

/-- A row of a section other than `#RECOMBINATION RATE` leaves the recombination
end positions as they are. -/
theorem initialize_row_other {files : CppString → Option InputFile} {s : ParameterSection}
    {sim sim' : Simulation} {sub sub' line : CppString} (hs : s ≠ .RECOMBINATION_RATE)
    (h : initialize_row files s sim sub line = .ok (sim', sub')) :
    sim'.p_chromosome.recombination_end_positions_ =
      sim.p_chromosome.recombination_end_positions_ := by
  cases s with
  | RECOMBINATION_RATE => exact absurd rfl hs
  | MUTATION_RATE =>
    simp only [initialize_row, Outcome.ok.injEq, Prod.mk.injEq] at h
    rw [← h.1]
  | GENE_CONVERSION =>
    simp only [initialize_row, Outcome.ok.injEq, Prod.mk.injEq] at h
    rw [← h.1]
  | MUTATION_TYPES =>
    simp only [initialize_row, bind, pure] at h
    obtain ⟨id, _, h⟩ := bind_eq_ok h
    split at h
    · cases h
    · split at h
      · cases h
      · split at h
        · cases h
        · simp only [Outcome.ok.injEq, Prod.mk.injEq] at h
          rw [← h.1]
  | GENOMIC_ELEMENT_TYPES =>
    simp only [initialize_row, bind, pure] at h
    obtain ⟨id, _, h⟩ := bind_eq_ok h
    obtain ⟨t, _, h⟩ := bind_eq_ok h
    split at h
    · cases h
    · simp only [Outcome.ok.injEq, Prod.mk.injEq] at h
      rw [← h.1]
  | CHROMOSOME_ORGANIZATION =>
    simp only [initialize_row, bind, pure] at h
    obtain ⟨id, _, h⟩ := bind_eq_ok h
    obtain ⟨a, _, h⟩ := bind_eq_ok h
    obtain ⟨b, _, h⟩ := bind_eq_ok h
    split at h
    · cases h
    · simp only [Outcome.ok.injEq, Prod.mk.injEq] at h
      rw [← h.1]
  | GENERATIONS =>
    simp only [initialize_row, bind, pure] at h
    obtain ⟨d, _, h⟩ := bind_eq_ok h
    split at h
    · obtain ⟨a, _, h⟩ := bind_eq_ok h
      simp only [Outcome.ok.injEq, Prod.mk.injEq] at h
      rw [← h.1]
    · simp only [Outcome.ok.injEq, Prod.mk.injEq] at h
      rw [← h.1]
  | DEMOGRAPHY_AND_STRUCTURE =>
    simp only [initialize_row, bind, pure] at h
    obtain ⟨d, _, h⟩ := bind_eq_ok h
    split at h
    · cases h
    · split at h
      · cases h
      · simp only [Outcome.ok.injEq, Prod.mk.injEq] at h
        rw [← h.1]
  | OUTPUT =>
    simp only [initialize_row, bind, pure] at h
    obtain ⟨d, _, h⟩ := bind_eq_ok h
    split at h
    · cases h
    · split at h
      · cases h
      · simp only [Outcome.ok.injEq, Prod.mk.injEq] at h
        rw [← h.1]
  | PREDETERMINED_MUTATIONS =>
    simp only [initialize_row, bind, pure] at h
    obtain ⟨a1, _, h⟩ := bind_eq_ok h
    obtain ⟨a2, _, h⟩ := bind_eq_ok h
    obtain ⟨a3, _, h⟩ := bind_eq_ok h
    obtain ⟨a4, _, h⟩ := bind_eq_ok h
    obtain ⟨a5, _, h⟩ := bind_eq_ok h
    obtain ⟨a6, _, h⟩ := bind_eq_ok h
    split at h
    · cases h
    · split at h
      · cases h
      · simp only [Outcome.ok.injEq, Prod.mk.injEq] at h
        rw [← h.1]
  | SEED =>
    simp only [initialize_row, bind, pure] at h
    obtain ⟨a1, _, h⟩ := bind_eq_ok h
    simp only [Outcome.ok.injEq, Prod.mk.injEq] at h
    rw [← h.1]
  | INITIALIZATION =>
    simp only [initialize_row, bind, pure] at h
    obtain ⟨a1, _, h⟩ := bind_eq_ok h
    simp only [Outcome.ok.injEq, Prod.mk.injEq] at h
    rw [← h.1]

/-- A `#RECOMBINATION RATE` row that has a first token appends the end position
read from that token. -/
theorem initialize_row_recombination {files : CppString → Option InputFile}
    {sim sim' : Simulation} {sub sub' line : CppString} (h0 : token_at 0 line ≠ [])
    (h : initialize_row files .RECOMBINATION_RATE sim sub line = .ok (sim', sub')) :
    ∃ p, end_position_of line = some p ∧
      sim'.p_chromosome.recombination_end_positions_ =
        sim.p_chromosome.recombination_end_positions_ ++ [p] := by
  simp only [initialize_row, bind, pure, open_extract h0] at h
  obtain ⟨p, hp, h⟩ := bind_eq_ok h
  simp only [Outcome.ok.injEq, Prod.mk.injEq] at h
  refine ⟨p, ofInt_eq_ok hp, ?_⟩
  rw [← h.1]

theorem record_row_chromosome (s : ParameterSection) (sim : Simulation) (line : CppString) :
    (record_row s sim line).p_chromosome = sim.p_chromosome := by
  cases s <;> rfl


/-- An accepted `#RECOMBINATION RATE` row has a first token. -/
theorem recombination_row_has_token {good : Bool} {sub line : CppString} {n n2 : Counters}
    {st : RowState}
    (hbody : row_body .RECOMBINATION_RATE good sub line n = (.done st, n2))
    (hg : st.good = true) : token_at 0 line ≠ [] := by
  unfold row_body at hbody
  simp only [Prod.mk.injEq, RowEnd.done.injEq] at hbody
  rw [← hbody.1] at hg
  have hg1 := eat_good_imp hg
  have hg0 := eat_good_imp hg1
  have c := (eat_good_iff' hg0 "1234567890e" .kEOFNotExpected).1 hg1
  intro h0
  have he := c.2.2.2 rfl
  rw [start_eof_of_no_token good sub h0] at he
  cases he

theorem check_lines_recombination_rows {current : Option ParameterSection} {good : Bool}
    {sub : CppString} {n n' : Counters} {lines : List CppString}
    (h : check_lines current good sub n lines = .accepted n') :
    ∀ r ∈ file_rows current lines, r.1 = .RECOMBINATION_RATE → token_at 0 r.2 ≠ [] := by
  induction lines generalizing current good sub n with
  | nil =>
    intro r hr
    cases current <;> simp [file_rows] at hr
  | cons raw lines ih =>
    cases hhash : (sanitize raw).contains '#' with
    | true =>
      cases hsec : find_section (sanitize raw) with
      | none =>
        cases current <;>
          (rw [check_lines] at h; simp only [hhash, if_true, hsec] at h; cases h)
      | some s =>
        have h' : check_lines (some s) true sub n lines = .accepted n' := by
          cases current <;>
            (rw [check_lines] at h; simp only [hhash, if_true, hsec] at h; exact h)
        have := ih h'
        cases current <;> (rw [file_rows]; simp only [hhash, if_true, hsec]; exact this)
    | false =>
      cases current with
      | none =>
        rw [check_lines] at h
        simp only [hhash, Bool.false_eq_true, if_false] at h
        rw [file_rows]
        simp only [hhash, Bool.false_eq_true, if_false]
        exact ih h
      | some s =>
        rw [check_lines] at h
        simp only [hhash, Bool.false_eq_true, if_false] at h
        rw [file_rows]
        simp only [hhash, Bool.false_eq_true, if_false]
        by_cases hempty : sanitize raw = []
        · simp only [hempty, List.length_nil, if_true] at h
          simp only [hempty, if_true]
          exact ih h
        · have hlen : (sanitize raw).length ≠ 0 := fun h0 => hempty (List.length_eq_zero.1 h0)
          simp only [hlen, if_false] at h
          simp only [hempty, if_false]
          cases hbody : row_body s good sub (sanitize raw) n with
          | mk r n2 =>
            rw [hbody] at h
            cases r with
            | hangs => cases h
            | out_of_fuel => cases h
            | done st =>
              simp only at h
              cases hgood : st.good with
              | false => simp [hgood] at h
              | true =>
                simp only [hgood, Bool.not_true, Bool.false_eq_true, if_false] at h
                intro r hr
                rcases List.mem_cons.1 hr with rfl | hr
                · intro hs
                  have hs' : s = .RECOMBINATION_RATE := hs
                  subst hs'
                  exact recombination_row_has_token hbody hgood
                · exact ih h r hr

/-- The recombination end positions after the main loop of `Initialize`: those
before it, and one for each `#RECOMBINATION RATE` row, in the order of the
rows. -/
theorem initialize_lines_recombination {files : CppString → Option InputFile}
    {current : Option ParameterSection} {sub sub' : CppString} {sim sim' : Simulation}
    {lines : List CppString}
    (htok : ∀ r ∈ file_rows current lines, r.1 = .RECOMBINATION_RATE → token_at 0 r.2 ≠ [])
    (h : initialize_lines files current sub sim lines = .ok (sim', sub')) :
    sim'.p_chromosome.recombination_end_positions_.map some =
      sim.p_chromosome.recombination_end_positions_.map some ++
        (((file_rows current lines).filter (fun r => r.1 = .RECOMBINATION_RATE)).map
          (fun r => end_position_of r.2)) := by
  induction lines generalizing current sub sim with
  | nil =>
    cases current <;>
      (rw [initialize_lines] at h
       simp only [Outcome.ok.injEq, Prod.mk.injEq] at h
       rw [← h.1]
       simp [file_rows])
  | cons raw lines ih =>
    cases hhash : (sanitize raw).contains '#' with
    | true =>
      cases hsec : find_section (sanitize raw) with
      | none =>
        cases current <;>
          (rw [initialize_lines] at h; simp only [hhash, if_true, hsec] at h; cases h)
      | some s =>
        have hrows : file_rows current (raw :: lines) = file_rows (some s) lines := by
          cases current <;> (rw [file_rows]; simp only [hhash, if_true, hsec])
        rw [hrows] at htok ⊢
        have h' : initialize_lines files (some s) sub
            { sim with p_parameters := sim.p_parameters ++ s.header } lines = .ok (sim', sub') := by
          cases current <;>
            (rw [initialize_lines] at h; simp only [hhash, if_true, hsec] at h; exact h)
        have := ih htok h'
        exact this
    | false =>
      cases current with
      | none =>
        rw [initialize_lines] at h
        simp only [hhash, Bool.false_eq_true, if_false] at h
        rw [file_rows] at htok ⊢
        simp only [hhash, Bool.false_eq_true, if_false] at htok ⊢
        exact ih htok h
      | some s =>
        rw [initialize_lines] at h
        simp only [hhash, Bool.false_eq_true, if_false] at h
        rw [file_rows] at htok ⊢
        simp only [hhash, Bool.false_eq_true, if_false] at htok ⊢
        by_cases hempty : sanitize raw = []
        · simp only [hempty, List.length_nil, if_true] at h
          simp only [hempty, if_true] at htok ⊢
          exact ih htok h
        · have hlen : (sanitize raw).length ≠ 0 := fun h0 => hempty (List.length_eq_zero.1 h0)
          simp only [hlen, if_false] at h
          simp only [hempty, if_false] at htok ⊢
          obtain ⟨a, hrow, hrest⟩ := bind_eq_ok h
          obtain ⟨sim1, sub1⟩ := a
          have htok' : ∀ r ∈ file_rows (some s) lines, r.1 = .RECOMBINATION_RATE →
              token_at 0 r.2 ≠ [] := fun r hr => htok r (List.mem_cons_of_mem _ hr)
          have hih := ih htok' hrest
          rw [hih]
          by_cases hs : s = .RECOMBINATION_RATE
          · subst hs
            have h0 := htok (.RECOMBINATION_RATE, sanitize raw) (List.mem_cons_self _ _) rfl
            obtain ⟨p, hp, hpos⟩ := initialize_row_recombination h0 hrow
            rw [hpos, record_row_chromosome]
            simp [List.filter_cons, hp]
          · rw [initialize_row_other hs hrow, record_row_chromosome]
            simp [List.filter_cons, hs]


/-! ## Claim C15: the recombination end positions -/

/-- C15, as the code has it.  `CheckInputFile` accepts the complete parameter
file `decreasing_recombination_file`, whose `#RECOMBINATION RATE` rows are
`2000 1e-8` and `1000 1e-8` in this order, and `Initialize` materialises it
with the end positions 1999 and 999, which are not in increasing order. -/
theorem decreasing_recombination_accepted :
    decreasing_recombination_file.rows .RECOMBINATION_RATE
      = ["2000 1e-8".toList, "1000 1e-8".toList] ∧
    CheckInputFile "in".toList (some decreasing_recombination_file)
      = .accepted ⟨1, 1, 1, 1, 2, 1, 1⟩ ∧
    ∃ r, Initialize (one_file "in".toList decreasing_recombination_file) (Simulation.empty 0)
        "in".toList none = .ok r ∧
      r.sim.p_chromosome.recombination_end_positions_ = [1999, 999] ∧
      ¬ List.Pairwise (fun a b => a < b) r.sim.p_chromosome.recombination_end_positions_ :=
  ⟨by decide, by rfl,
    (Initialize (one_file "in".toList decreasing_recombination_file) (Simulation.empty 0)
      "in".toList none).get, by rfl, by rfl,
    fun h => absurd (List.rel_of_pairwise_cons h (List.mem_cons_self _ _)) (by decide)⟩

/-- C15.  The recombination end positions are those of the rows, in file order.
For every parameter file that `CheckInputFile` accepts and `Initialize`
materialises, the list `recombination_end_positions_` of the chromosome holds
afterwards what it held before, followed by one end position for every
`#RECOMBINATION RATE` row of the file, in the order of the rows: the position
that the code reads from the first token of the row, less one, which is `p - 1`
when that token is an integer token that denotes `p`.  No order is imposed on
the positions. -/
theorem recombination_end_positions_in_file_order (files : CppString → Option InputFile)
    (sim : Simulation) (p_input_file : CppString) (f : InputFile) (p_override_seed : Option Int)
    (n : Counters) (r : Initialized)
    (hfile : files p_input_file = some f)
    (hcheck : CheckInputFile p_input_file (some f) = .accepted n)
    (hinit : Initialize files sim p_input_file p_override_seed = .ok r) :
    r.sim.p_chromosome.recombination_end_positions_.map some =
      sim.p_chromosome.recombination_end_positions_.map some ++
        (f.rows .RECOMBINATION_RATE).map end_position_of ∧
    (∀ row ∈ f.rows .RECOMBINATION_RATE, ∀ p : Nat,
      is_integer_token (token_at 0 row) p → end_position_of row = some ((p : Int) - 1)) := by
  constructor
  · unfold CheckInputFile at hcheck
    simp only at hcheck
    have htok := check_lines_recombination_rows hcheck
    unfold Initialize at hinit
    rw [hfile] at hinit
    simp only at hinit
    obtain ⟨a, hlines, hr⟩ := bind_eq_ok hinit
    obtain ⟨sim1, sub1⟩ := a
    have hpos := initialize_lines_recombination htok hlines
    simp only [Outcome.ok.injEq] at hr
    rw [← hr]
    simp only [InitializeDraws]
    rw [hpos]
    simp [InputFile.rows, List.map_map, Function.comp_def]
  · intro row _ p hp
    unfold end_position_of
    rw [static_cast_int_atof hp]
    exact int_pred_nat p

theorem recombination_end_positions_in_file_order_witness :
    (sample_file.rows .RECOMBINATION_RATE = ["1000 1e-8".toList]) ∧
    ((Initialize (one_file "in".toList sample_file) (Simulation.empty 0) "in".toList
        none).get.sim.p_chromosome.recombination_end_positions_.map some =
      [] ++ (sample_file.rows .RECOMBINATION_RATE).map end_position_of) ∧
    end_position_of "1000 1e-8".toList = some 999 :=
  have h := recombination_end_positions_in_file_order (one_file "in".toList sample_file)
    (Simulation.empty 0) "in".toList sample_file none ⟨1, 1, 1, 1, 1, 1, 1⟩
    (Initialize (one_file "in".toList sample_file) (Simulation.empty 0) "in".toList none).get
    (by rfl) (by rfl) (by rfl)
  ⟨by decide, h.1, h.2 "1000 1e-8".toList (by decide) 1000 (by decide)⟩

/-! ## The bounds on the loops of `Initialize` are never reached -/

theorem first_extract_settled (sub line : CppString) :
    ((IStringStream.open line).extract sub).1.settled ∧
      ((IStringStream.open line).extract sub).1.potential ≤ line.length :=
  start_settled true sub line

theorem read_tokens_some (fuel : Nat) (iss : IStringStream) (sub : CppString)
    (hs : iss.settled) (hfuel : iss.potential < fuel) :
    ∃ t, read_tokens fuel iss sub = some t := by
  induction fuel generalizing iss sub with
  | zero => omega
  | succ fuel ih =>
    rw [read_tokens]
    cases hf : (iss.extract sub).1.failbit with
    | true => exact ⟨_, rfl⟩
    | false =>
      have heof := extract_ok_not_eof hf
      have hs1 := extract_settled iss sub hs
      have hp1 := extract_potential iss sub hs heof
      obtain ⟨t, ht⟩ := ih (iss.extract sub).1 (iss.extract sub).2 hs1 (by omega)
      simp only [Bool.false_eq_true, if_false, ht, Option.map_some']
      exact ⟨_, rfl⟩

theorem element_type_loop_fuel (c : Chromosome) (fuel : Nat) (iss : IStringStream)
    (sub : CppString) (types : List MutationType) (fractions : List Double)
    (hs : iss.settled) (hfuel : iss.potential < fuel) :
    element_type_loop c fuel iss sub types fractions ≠ .out_of_fuel := by
  induction fuel generalizing iss sub types fractions with
  | zero => omega
  | succ fuel ih =>
    rw [element_type_loop]
    cases hf : (iss.extract sub).1.failbit with
    | true => simp
    | false =>
      have heof := extract_ok_not_eof hf
      have hs1 := extract_settled iss sub hs
      have hp1 := extract_potential iss sub hs heof
      simp only [Bool.false_eq_true, if_false]
      split
      · simp
      · split
        · simp
        · have hs2 := extract_settled (iss.extract sub).1 ((iss.extract sub).2.drop 1) hs1
          have hp2 := extract_potential_le (iss.extract sub).1 ((iss.extract sub).2.drop 1) hs1
          exact ih _ _ _ _ hs2 (by omega)

theorem genome_loop_fuel (M : List (Int × Mutation)) (p i : Int) (fuel : Nat)
    (pop : Population) (iss : IStringStream) (sub : CppString)
    (hs : iss.settled) (hfuel : iss.potential < fuel) :
    genome_loop M p i fuel pop iss sub ≠ .out_of_fuel := by
  induction fuel generalizing pop iss sub with
  | zero => omega
  | succ fuel ih =>
    rw [genome_loop]
    cases hf : (iss.extract sub).1.failbit with
    | true => simp
    | false =>
      have heof := extract_ok_not_eof hf
      have hs1 := extract_settled iss sub hs
      have hp1 := extract_potential iss sub hs heof
      simp only [Bool.false_eq_true, if_false]
      split
      · simp
      · split
        · simp
        · split
          · simp
          · split
            · simp
            · exact ih _ _ _ hs1 (by omega)

theorem bind_ne_out_of_fuel {α β : Type} {r : Outcome α} {f : α → Outcome β}
    (hr : r ≠ .out_of_fuel) (hf : ∀ a, f a ≠ .out_of_fuel) :
    Outcome.bind r f ≠ .out_of_fuel := by
  cases r with
  | ok a => exact hf a
  | exits m => simp [Outcome.bind]
  | throws => simp [Outcome.bind]
  | undefined => simp [Outcome.bind]
  | hangs => simp [Outcome.bind]
  | out_of_fuel => exact absurd rfl hr

theorem ofInt_ne_out_of_fuel (v : Option Int) : Outcome.ofInt v ≠ .out_of_fuel := by
  cases v <;> simp [Outcome.ofInt]


theorem genome_row_fuel (pop : Population) (M : List (Int × Mutation)) (sub line : CppString) :
    genome_row pop M sub line ≠ .out_of_fuel := by
  obtain ⟨hs, hp⟩ := first_extract_settled sub line
  unfold genome_row
  simp only [bind, pure]
  refine bind_ne_out_of_fuel (ofInt_ne_out_of_fuel _) (fun count => ?_)
  refine bind_ne_out_of_fuel (ofInt_ne_out_of_fuel _) (fun p => ?_)
  refine bind_ne_out_of_fuel (ofInt_ne_out_of_fuel _) (fun i => ?_)
  exact genome_loop_fuel M p i _ pop _ _ hs (Nat.lt_succ_of_le hp)

theorem mutation_row_fuel (c : Chromosome) (M : List (Int × Mutation)) (sub line : CppString) :
    mutation_row c M sub line ≠ .out_of_fuel := by
  unfold mutation_row
  simp only [bind, pure]
  refine bind_ne_out_of_fuel (ofInt_ne_out_of_fuel _) (fun _ => ?_)
  refine bind_ne_out_of_fuel (ofInt_ne_out_of_fuel _) (fun _ => ?_)
  refine bind_ne_out_of_fuel (ofInt_ne_out_of_fuel _) (fun _ => ?_)
  refine bind_ne_out_of_fuel (ofInt_ne_out_of_fuel _) (fun _ => ?_)
  refine bind_ne_out_of_fuel (ofInt_ne_out_of_fuel _) (fun _ => ?_)
  refine bind_ne_out_of_fuel (ofInt_ne_out_of_fuel _) (fun _ => ?_)
  split <;> simp

theorem subpopulation_row_fuel (pop : Population) (sub line : CppString) :
    subpopulation_row pop sub line ≠ .out_of_fuel := by
  unfold subpopulation_row
  simp only [bind, pure]
  refine bind_ne_out_of_fuel (ofInt_ne_out_of_fuel _) (fun _ => ?_)
  refine bind_ne_out_of_fuel (ofInt_ne_out_of_fuel _) (fun _ => ?_)
  simp

theorem load_genomes_fuel (M : List (Int × Mutation)) (pop : Population) (sub : CppString)
    (lines : List CppString) : load_genomes M pop sub lines ≠ .out_of_fuel := by
  induction lines generalizing pop sub with
  | nil => simp [load_genomes]
  | cons raw lines ih =>
    rw [load_genomes]
    exact bind_ne_out_of_fuel (genome_row_fuel _ _ _ _) (fun r => ih _ _)

theorem load_mutations_fuel (c : Chromosome) (pop : Population) (M : List (Int × Mutation))
    (sub : CppString) (lines : List CppString) :
    load_mutations c pop M sub lines ≠ .out_of_fuel := by
  induction lines generalizing M sub with
  | nil => simp [load_mutations]
  | cons raw lines ih =>
    rw [load_mutations]
    split
    · exact load_genomes_fuel _ _ _ _
    · exact bind_ne_out_of_fuel (mutation_row_fuel _ _ _ _) (fun r => ih _ _)

theorem load_subpopulations_fuel (c : Chromosome) (pop : Population) (sub : CppString)
    (lines : List CppString) : load_subpopulations c pop sub lines ≠ .out_of_fuel := by
  induction lines generalizing pop sub with
  | nil => simp [load_subpopulations]
  | cons raw lines ih =>
    rw [load_subpopulations]
    split
    · exact load_mutations_fuel _ _ _ _ _
    · exact bind_ne_out_of_fuel (subpopulation_row_fuel _ _ _) (fun r => ih _ _)

theorem seek_populations_fuel (c : Chromosome) (pop : Population) (lines : List CppString) :
    seek_populations c pop lines ≠ .out_of_fuel := by
  induction lines with
  | nil => simp [seek_populations]
  | cons raw lines ih =>
    rw [seek_populations]
    split
    · exact load_subpopulations_fuel _ _ _ _
    · exact ih

theorem InitializePopulationFromFile_fuel (files : CppString → Option InputFile)
    (p_population : Population) (p_file : CppString) (p_chromosome : Chromosome) :
    InitializePopulationFromFile files p_population p_file p_chromosome ≠ .out_of_fuel := by
  unfold InitializePopulationFromFile
  split
  · simp
  · exact bind_ne_out_of_fuel (seek_populations_fuel _ _ _) (fun r => by simp)

theorem extract_reach (line : CppString) (iss : IStringStream) (sub : CppString)
    (h : iss.settled ∧ iss.potential ≤ line.length) :
    (iss.extract sub).1.settled ∧ (iss.extract sub).1.potential ≤ line.length :=
  ⟨extract_settled iss sub h.1, Nat.le_trans (extract_potential_le iss sub h.1) h.2⟩

theorem sweep_match_fuel {β : Type} (ptr : MutationType) (pos : Int) (line : CppString)
    (iss : IStringStream) (sub : CppString) (f : List PartialSweep × CppString → Outcome β)
    (h : iss.settled ∧ iss.potential ≤ line.length) (hf : ∀ t, f t ≠ .out_of_fuel) :
    (match partial_sweep_loop ptr pos (line.length + 1) iss sub [] with
      | none => Outcome.out_of_fuel
      | some t => f t) ≠ .out_of_fuel := by
  obtain ⟨added, sub', hloop, _⟩ := partial_sweep_loop_some ptr pos (line.length + 1) iss sub []
    h.1 (Nat.lt_succ_of_le h.2)
  rw [hloop]
  exact hf _

theorem initialize_row_fuel (files : CppString → Option InputFile) (s : ParameterSection)
    (sim : Simulation) (sub line : CppString) :
    initialize_row files s sim sub line ≠ .out_of_fuel := by
  obtain ⟨hs0, hp0⟩ := first_extract_settled sub line
  cases s with
  | MUTATION_RATE => simp [initialize_row]
  | GENE_CONVERSION => simp [initialize_row]
  | MUTATION_TYPES =>
    simp only [initialize_row, bind, pure]
    refine bind_ne_out_of_fuel (ofInt_ne_out_of_fuel _) (fun _ => ?_)
    split
    · simp
    · split
      · simp
      · have hs1 := extract_settled _ (((IStringStream.open line).extract sub).2.drop 1) hs0
        have hp1 := extract_potential_le _ (((IStringStream.open line).extract sub).2.drop 1) hs0
        have hs2 := extract_settled _ ((((IStringStream.open line).extract sub).1.extract
          (((IStringStream.open line).extract sub).2.drop 1)).2) hs1
        have hp2 := extract_potential_le _ ((((IStringStream.open line).extract sub).1.extract
          (((IStringStream.open line).extract sub).2.drop 1)).2) hs1
        obtain ⟨t, ht⟩ := read_tokens_some (line.length + 1) _
          (((((IStringStream.open line).extract sub).1.extract
            (((IStringStream.open line).extract sub).2.drop 1)).1.extract
              ((((IStringStream.open line).extract sub).1.extract
                (((IStringStream.open line).extract sub).2.drop 1)).2)).2) hs2 (by omega)
        rw [ht]
        simp
  | GENOMIC_ELEMENT_TYPES =>
    simp only [initialize_row, bind, pure]
    refine bind_ne_out_of_fuel (ofInt_ne_out_of_fuel _) (fun _ => ?_)
    refine bind_ne_out_of_fuel
      (element_type_loop_fuel _ _ _ _ _ _ hs0 (Nat.lt_succ_of_le hp0)) (fun _ => ?_)
    split <;> simp
  | CHROMOSOME_ORGANIZATION =>
    simp only [initialize_row, bind, pure]
    refine bind_ne_out_of_fuel (ofInt_ne_out_of_fuel _) (fun _ => ?_)
    refine bind_ne_out_of_fuel (ofInt_ne_out_of_fuel _) (fun _ => ?_)
    refine bind_ne_out_of_fuel (ofInt_ne_out_of_fuel _) (fun _ => ?_)
    split <;> simp
  | RECOMBINATION_RATE =>
    simp only [initialize_row, bind, pure]
    refine bind_ne_out_of_fuel (ofInt_ne_out_of_fuel _) (fun _ => ?_)
    simp
  | GENERATIONS =>
    simp only [initialize_row, bind, pure]
    refine bind_ne_out_of_fuel (ofInt_ne_out_of_fuel _) (fun _ => ?_)
    split
    · refine bind_ne_out_of_fuel (ofInt_ne_out_of_fuel _) (fun _ => ?_)
      simp
    · simp
  | DEMOGRAPHY_AND_STRUCTURE =>
    simp only [initialize_row, bind, pure]
    refine bind_ne_out_of_fuel (ofInt_ne_out_of_fuel _) (fun _ => ?_)
    split
    · simp
    · have hs1 := extract_settled _ (((IStringStream.open line).extract sub).2) hs0
      have hp1 := extract_potential_le _ (((IStringStream.open line).extract sub).2) hs0
      obtain ⟨t, ht⟩ := read_tokens_some (line.length + 1) _
        ((((IStringStream.open line).extract sub).1.extract
          (((IStringStream.open line).extract sub).2)).2) hs1 (by omega)
      rw [ht]
      simp
  | OUTPUT =>
    simp only [initialize_row, bind, pure]
    refine bind_ne_out_of_fuel (ofInt_ne_out_of_fuel _) (fun _ => ?_)
    split
    · simp
    · have hs1 := extract_settled _ (((IStringStream.open line).extract sub).2) hs0
      have hp1 := extract_potential_le _ (((IStringStream.open line).extract sub).2) hs0
      obtain ⟨t, ht⟩ := read_tokens_some (line.length + 1) _
        ((((IStringStream.open line).extract sub).1.extract
          (((IStringStream.open line).extract sub).2)).2) hs1 (by omega)
      rw [ht]
      simp
  | PREDETERMINED_MUTATIONS =>
    simp only [initialize_row, bind, pure]
    refine bind_ne_out_of_fuel (ofInt_ne_out_of_fuel _) (fun _ => ?_)
    refine bind_ne_out_of_fuel (ofInt_ne_out_of_fuel _) (fun _ => ?_)
    refine bind_ne_out_of_fuel (ofInt_ne_out_of_fuel _) (fun _ => ?_)
    refine bind_ne_out_of_fuel (ofInt_ne_out_of_fuel _) (fun _ => ?_)
    refine bind_ne_out_of_fuel (ofInt_ne_out_of_fuel _) (fun _ => ?_)
    refine bind_ne_out_of_fuel (ofInt_ne_out_of_fuel _) (fun _ => ?_)
    split
    · simp
    · refine sweep_match_fuel _ _ line _ _ _ ?_ (fun t => by simp)
      iterate 5 apply extract_reach
      exact first_extract_settled sub line
  | SEED =>
    simp only [initialize_row, bind, pure]
    refine bind_ne_out_of_fuel (ofInt_ne_out_of_fuel _) (fun _ => ?_)
    simp
  | INITIALIZATION =>
    simp only [initialize_row, bind, pure]
    refine bind_ne_out_of_fuel (InitializePopulationFromFile_fuel _ _ _ _) (fun _ => ?_)
    simp



theorem initialize_lines_fuel (files : CppString → Option InputFile)
    (current : Option ParameterSection) (sub : CppString) (sim : Simulation)
    (lines : List CppString) : initialize_lines files current sub sim lines ≠ .out_of_fuel := by
  induction lines generalizing current sub sim with
  | nil => cases current <;> simp [initialize_lines]
  | cons raw lines ih =>
    cases current with
    | none =>
      rw [initialize_lines]
      split
      · split
        · exact ih _ _ _
        · simp
      · exact ih _ _ _
    | some s =>
      rw [initialize_lines]
      split
      · split
        · exact ih _ _ _
        · simp
      · split
        · exact ih _ _ _
        · exact bind_ne_out_of_fuel (initialize_row_fuel _ _ _ _ _) (fun r => ih _ _ _)

/-- The bounds that the embedding puts on the loops over the tokens of a line
are never reached by `Initialize`. -/
theorem Initialize_fuel (files : CppString → Option InputFile) (sim : Simulation)
    (p_input_file : CppString) (p_override_seed : Option Int) :
    Initialize files sim p_input_file p_override_seed ≠ .out_of_fuel := by
  unfold Initialize
  split
  · simp
  · exact bind_ne_out_of_fuel (initialize_lines_fuel _ _ _ _ _) (fun r => by simp)


/-! ## Unknown sections -/

/-- No keyword of a section occurs in a line exactly when the chain of tests
finds no section. -/
theorem find_section_none_iff (line : CppString) :
    find_section line = none ↔ ∀ s : ParameterSection, has_substr s.keyword line = false := by
  unfold find_section
  rw [List.find?_eq_none]
  constructor
  · intro h s
    have := h s (by cases s <;> simp)
    simpa using this
  · intro h s _
    simp [h s]

/-- Reading some complete lines either ends the run, in the same way whatever
follows them, or leaves `CheckInputFile` at the head of what follows them. -/
theorem check_lines_append (pre : List CppString) (current : Option ParameterSection)
    (good : Bool) (sub : CppString) (n : Counters) :
    (∃ current' good' sub' n', ∀ rest,
        check_lines current good sub n (pre ++ rest) = check_lines current' good' sub' n' rest) ∨
      (∃ res, (∀ k, res ≠ .accepted k) ∧
        ∀ rest, check_lines current good sub n (pre ++ rest) = res) := by
  induction pre generalizing current good sub n with
  | nil => exact Or.inl ⟨current, good, sub, n, fun _ => rfl⟩
  | cons raw pre ih =>
    cases hhash : (sanitize raw).contains '#' with
    | true =>
      cases hsec : find_section (sanitize raw) with
      | none =>
        refine Or.inr ⟨.input_error .kUnknownParameterError (sanitize raw),
          fun k h => (by cases h), fun rest => ?_⟩
        cases current <;>
          (rw [List.cons_append, check_lines]; simp only [hhash, if_true, hsec])
      | some s =>
        have hstep : ∀ rest, check_lines current good sub n (raw :: pre ++ rest) =
            check_lines (some s) true sub n (pre ++ rest) := by
          intro rest
          cases current <;>
            (rw [List.cons_append, check_lines]; simp only [hhash, if_true, hsec])
        rcases ih (some s) true sub n with ⟨c, g, s', n', h⟩ | ⟨res, hres, h⟩
        · exact Or.inl ⟨c, g, s', n', fun rest => (hstep rest).trans (h rest)⟩
        · exact Or.inr ⟨res, hres, fun rest => (hstep rest).trans (h rest)⟩
    | false =>
      cases current with
      | none =>
        have hstep : ∀ rest, check_lines none good sub n (raw :: pre ++ rest) =
            check_lines none good sub n (pre ++ rest) := by
          intro rest
          rw [List.cons_append, check_lines]
          simp only [hhash, Bool.false_eq_true, if_false]
        rcases ih none good sub n with ⟨c, g, s', n', h⟩ | ⟨res, hres, h⟩
        · exact Or.inl ⟨c, g, s', n', fun rest => (hstep rest).trans (h rest)⟩
        · exact Or.inr ⟨res, hres, fun rest => (hstep rest).trans (h rest)⟩
      | some s =>
        by_cases hempty : (sanitize raw).length = 0
        · have hstep : ∀ rest, check_lines (some s) good sub n (raw :: pre ++ rest) =
              check_lines (some s) good sub n (pre ++ rest) := by
            intro rest
            rw [List.cons_append, check_lines]
            simp only [hhash, Bool.false_eq_true, if_false, hempty, if_true]
          rcases ih (some s) good sub n with ⟨c, g, s', n', h⟩ | ⟨res, hres, h⟩
          · exact Or.inl ⟨c, g, s', n', fun rest => (hstep rest).trans (h rest)⟩
          · exact Or.inr ⟨res, hres, fun rest => (hstep rest).trans (h rest)⟩
        · cases hbody : row_body s good sub (sanitize raw) n with
          | mk r n2 =>
            cases r with
            | hangs =>
              refine Or.inr ⟨.hangs, fun k h => (by cases h), fun rest => ?_⟩
              rw [List.cons_append, check_lines]
              simp only [hhash, Bool.false_eq_true, if_false, hempty, hbody]
            | out_of_fuel =>
              refine Or.inr ⟨.out_of_fuel, fun k h => (by cases h), fun rest => ?_⟩
              rw [List.cons_append, check_lines]
              simp only [hhash, Bool.false_eq_true, if_false, hempty, hbody]
            | done st =>
              cases hgood : st.good with
              | false =>
                refine Or.inr ⟨.input_error s.error (sanitize raw), fun k h => (by cases h),
                  fun rest => ?_⟩
                rw [List.cons_append, check_lines]
                simp only [hhash, Bool.false_eq_true, if_false, hempty, hbody, hgood,
                  Bool.not_false, if_true]
              | true =>
                have hstep : ∀ rest, check_lines (some s) good sub n (raw :: pre ++ rest) =
                    check_lines (some s) true st.sub (s.count n2) (pre ++ rest) := by
                  intro rest
                  rw [List.cons_append, check_lines]
                  simp only [hhash, Bool.false_eq_true, if_false, hempty, hbody, hgood,
                    Bool.not_true]
                rcases ih (some s) true st.sub (s.count n2) with ⟨c, g, s', n', h⟩ | ⟨res, hres, h⟩
                · exact Or.inl ⟨c, g, s', n', fun rest => (hstep rest).trans (h rest)⟩
                · exact Or.inr ⟨res, hres, fun rest => (hstep rest).trans (h rest)⟩

/-- A line that contains `#` and no keyword ends the run with the error for an
unknown parameter, wherever the loop stands. -/
theorem check_lines_unknown (current : Option ParameterSection) (good : Bool) (sub : CppString)
    (n : Counters) (raw : CppString) (lines : List CppString)
    (hhash : (sanitize raw).contains '#' = true) (hsec : find_section (sanitize raw) = none) :
    check_lines current good sub n (raw :: lines) =
      .input_error .kUnknownParameterError (sanitize raw) := by
  cases current <;> (rw [check_lines]; simp only [hhash, if_true, hsec])

/-- C21. Unknown sections are rejected.  Let a complete line of a parameter file,
as `GetInputLine` leaves it, contain `#` and none of the twelve section
keywords.  Then the run of `CheckInputFile` either ends in the lines before it
(with an error or without ending, in the same way whatever follows those
lines), or it reaches the line and reports the error for an unknown parameter
with that line; the message written names the line. -/
theorem unknown_section_rejected (p_input_file : CppString) (pre post : List CppString)
    (raw last : CppString) (hhash : (sanitize raw).contains '#' = true)
    (hkey : ∀ s : ParameterSection, has_substr s.keyword (sanitize raw) = false) :
    (CheckInputFile p_input_file (some ⟨pre ++ raw :: post, last⟩) =
        .input_error .kUnknownParameterError (sanitize raw) ∨
      ∃ res, (∀ k, res ≠ .accepted k) ∧
        ∀ rest last', CheckInputFile p_input_file (some ⟨pre ++ rest, last'⟩) = res) ∧
    (∀ current good sub n,
      check_lines current good sub n (raw :: post) =
        .input_error .kUnknownParameterError (sanitize raw)) ∧
    InputError .kUnknownParameterError (sanitize raw) =
      ["", "ERROR (parameter file): unknown parameter: " ++ String.mk (sanitize raw), ""] := by
  have hsec := (find_section_none_iff _).2 hkey
  refine ⟨?_, fun current good sub n => check_lines_unknown current good sub n raw post hhash hsec,
    rfl⟩
  rcases check_lines_append pre none true [] ⟨0, 0, 0, 0, 0, 0, 0⟩ with
    ⟨c, g, s', n', h⟩ | ⟨res, hres, h⟩
  · left
    show check_lines none true [] ⟨0, 0, 0, 0, 0, 0, 0⟩ (pre ++ raw :: post) = _
    rw [h, check_lines_unknown c g s' n' raw post hhash hsec]
  · right
    exact ⟨res, hres, fun rest last' => h rest⟩

theorem unknown_section_rejected_witness :
    CheckInputFile "f".toList (some ⟨["#MUTATION RATE".toList, "1e-8".toList,
        "#MUTATION  TYPES".toList, "m1 0.5 f 0.0".toList], []⟩) =
      .input_error .kUnknownParameterError "#MUTATION  TYPES".toList := by
  have h := (unknown_section_rejected "f".toList ["#MUTATION RATE".toList, "1e-8".toList]
    ["m1 0.5 f 0.0".toList] "#MUTATION  TYPES".toList [] (by decide)
    ((find_section_none_iff _).1 (by decide))).1
  rcases h with h | ⟨res, _, h⟩
  · exact h
  · have h1 := h [] []
    have h2 := h ["#X".toList] []
    have e1 : CheckInputFile "f".toList
        (some ⟨["#MUTATION RATE".toList, "1e-8".toList] ++ [], []⟩) =
        .input_error .kInvalidMutationTypeError [] := by decide
    have e2 : CheckInputFile "f".toList
        (some ⟨["#MUTATION RATE".toList, "1e-8".toList] ++ ["#X".toList], []⟩) =
        .input_error .kUnknownParameterError "#X".toList := by decide
    rw [e1] at h1
    rw [e2, ← h1] at h2
    exact absurd h2 (by decide)

/-! ## Lemmas: the rows of an accepted file -/

/-- In a file that `CheckInputFile` accepts, the body of every row ends with
`good` set. -/
theorem check_lines_rows_good {current : Option ParameterSection} {good : Bool}
    {sub : CppString} {n n' : Counters} {lines : List CppString}
    (h : check_lines current good sub n lines = .accepted n') :
    ∀ r ∈ file_rows current lines, ∃ good0 sub0 n0 st n2,
      row_body r.1 good0 sub0 r.2 n0 = (.done st, n2) ∧ st.good = true := by
  induction lines generalizing current good sub n with
  | nil =>
    intro r hr
    cases current <;> simp [file_rows] at hr
  | cons raw lines ih =>
    cases hhash : (sanitize raw).contains '#' with
    | true =>
      cases hsec : find_section (sanitize raw) with
      | none =>
        cases current <;>
          (rw [check_lines] at h; simp only [hhash, if_true, hsec] at h; cases h)
      | some s =>
        have h' : check_lines (some s) true sub n lines = .accepted n' := by
          cases current <;>
            (rw [check_lines] at h; simp only [hhash, if_true, hsec] at h; exact h)
        have := ih h'
        cases current <;> (rw [file_rows]; simp only [hhash, if_true, hsec]; exact this)
    | false =>
      cases current with
      | none =>
        rw [check_lines] at h
        simp only [hhash, Bool.false_eq_true, if_false] at h
        rw [file_rows]
        simp only [hhash, Bool.false_eq_true, if_false]
        exact ih h
      | some s =>
        rw [check_lines] at h
        simp only [hhash, Bool.false_eq_true, if_false] at h
        rw [file_rows]
        simp only [hhash, Bool.false_eq_true, if_false]
        by_cases hempty : sanitize raw = []
        · simp only [hempty, List.length_nil, if_true] at h
          simp only [hempty, if_true]
          exact ih h
        · have hlen : (sanitize raw).length ≠ 0 := fun h0 => hempty (List.length_eq_zero.1 h0)
          simp only [hlen, if_false] at h
          simp only [hempty, if_false]
          cases hbody : row_body s good sub (sanitize raw) n with
          | mk r n2 =>
            rw [hbody] at h
            cases r with
            | hangs => cases h
            | out_of_fuel => cases h
            | done st =>
              simp only at h
              cases hgood : st.good with
              | false => simp [hgood] at h
              | true =>
                simp only [hgood, Bool.not_true, Bool.false_eq_true, if_false] at h
                intro r hr
                rcases List.mem_cons.1 hr with rfl | hr
                · exact ⟨good, sub, n, st, n2, hbody, hgood⟩
                · exact ih h r hr

/-- A row whose first test expects more to follow has a first token. -/
theorem start_eat_prefixed_token {good : Bool} {sub line : CppString} (pfx : String)
    {chars : String}
    (hg : ((RowState.start good sub line).eat_prefixed pfx chars .kEOFNotExpected).good = true) :
    token_at 0 line ≠ [] := by
  have hg0 := eat_prefixed_good_imp hg
  have c := (eat_prefixed_good_iff hg0 pfx chars .kEOFNotExpected).1 hg
  intro h0
  have he := c.2.2.2.2 rfl
  rw [start_eof_of_no_token good sub h0] at he
  cases he

theorem start_eat_token {good : Bool} {sub line : CppString} {chars : String}
    (hg : ((RowState.start good sub line).eat chars .kEOFNotExpected).good = true) :
    token_at 0 line ≠ [] :=
  start_eat_prefixed_token "" hg

/-- A test that expects more to follow, made at the last token of the line,
leaves the stream at its end. -/
theorem eat_prefixed_at_last {line : CppString} {k : Nat} {st : RowState}
    (hat : at_token line k st) (hg : st.good = true) (heof : st.iss.eof = false)
    (hnext : token_at (k + 1) line = []) (pfx chars : String) :
    (st.eat_prefixed pfx chars .kEOFNotExpected).iss.eof = true ∧
      (st.eat_prefixed pfx chars .kEOFNotExpected).sub = st.sub.drop pfx.toList.length := by
  have hiss := hat.1
  have hempty : (rest_after (k + 1) line).isEmpty = false := by
    have := heof
    rw [hiss] at this
    exact this
  rw [hempty] at hiss
  unfold RowState.eat_prefixed EatSubstringWithPrefixAndCharactersAtEOF
  simp only [hg, if_true, hiss]
  rw [extract_no_token _ _ (by rw [← token_at_eq]; exact hnext)]
  refine ⟨rfl, ?_⟩
  by_cases hp : pfx.toList.length = 0
  · have hp' : pfx.length = 0 := hp
    simp [hp']
  · have hp' : 0 < pfx.length := Nat.pos_of_ne_zero hp
    simp [hp']

/-- Two tests in a row that expect more to follow: the line has a token after
the one at which the first test is made. -/
theorem eat_prefixed_twice_token {line : CppString} {k : Nat} {st : RowState}
    (hat : at_token line k st) (pfx pfx2 : String) {chars chars2 : String}
    (hg : ((st.eat_prefixed pfx chars .kEOFNotExpected).eat_prefixed pfx2 chars2
      .kEOFNotExpected).good = true) :
    token_at (k + 1) line ≠ [] := by
  have hg1 := eat_prefixed_good_imp hg
  have hg0 := eat_prefixed_good_imp hg1
  have c1 := (eat_prefixed_good_iff hg0 pfx chars .kEOFNotExpected).1 hg1
  have c2 := (eat_prefixed_good_iff hg1 pfx2 chars2 .kEOFNotExpected).1 hg
  intro hnext
  have := (eat_prefixed_at_last hat hg0 (c1.2.2.2.2 rfl) hnext pfx chars).1
  rw [c2.2.2.2.2 rfl] at this
  cases this

theorem good_of_cleared {c : Prop} [Decidable c] {x : RowState}
    (h : (if c then ({ good := false, iss := x.iss, sub := x.sub } : RowState) else x).good
      = true) : x.good = true := by
  split at h
  · cases h
  · exact h

theorem output_row_second_test {good : Bool} {sub line : CppString} {n n2 : Counters}
    {st : RowState} (hbody : row_body .OUTPUT good sub line n = (.done st, n2))
    (hg : st.good = true) :
    (((RowState.start good sub line).eat "1234567890e" .kEOFNotExpected).eat "ARFT"
      .kAgnosticEOFExpectation).good = true := by
  unfold row_body at hbody
  simp only [Prod.mk.injEq, RowEnd.done.injEq] at hbody
  rw [← hbody.1] at hg
  have hg3 := good_of_cleared hg
  by_cases hA : ((RowState.start good sub line).eat "1234567890e" .kEOFNotExpected).sub
      = "A".toList
  · rw [if_pos hA] at hg3
    exact hg3
  · rw [if_neg hA] at hg3
    by_cases hR : ((RowState.start good sub line).eat "1234567890e" .kEOFNotExpected).sub
        = "R".toList
    · rw [if_pos hR] at hg3
      exact eat_prefixed_good_imp (eat_good_imp (good_of_cleared hg3))
    · rw [if_neg hR] at hg3
      exact hg3

/-- An accepted row of one of the sections whose rows begin with a test that
expects more to follow has a first token. -/
theorem accepted_row_first_token {s : ParameterSection} {good : Bool} {sub line : CppString}
    {n n2 : Counters} {st : RowState}
    (hs : s = .MUTATION_TYPES ∨ s = .GENOMIC_ELEMENT_TYPES ∨ s = .CHROMOSOME_ORGANIZATION ∨
      s = .DEMOGRAPHY_AND_STRUCTURE ∨ s = .OUTPUT ∨ s = .PREDETERMINED_MUTATIONS)
    (hbody : row_body s good sub line n = (.done st, n2)) (hg : st.good = true) :
    token_at 0 line ≠ [] := by
  rcases hs with rfl | rfl | rfl | rfl | rfl | rfl
  · unfold row_body at hbody
    simp only at hbody
    split at hbody
    · simp only [Prod.mk.injEq, RowEnd.done.injEq] at hbody
      rw [← hbody.1] at hg
      exact start_eat_prefixed_token _ (eat_good_imp (eat_good_imp (eat_good_imp hg)))
    · split at hbody
      · simp only [Prod.mk.injEq, RowEnd.done.injEq] at hbody
        rw [← hbody.1] at hg
        exact start_eat_prefixed_token _
          (eat_good_imp (eat_good_imp (eat_good_imp (eat_good_imp hg))))
      · simp only [Prod.mk.injEq, RowEnd.done.injEq] at hbody
        rw [← hbody.1] at hg
        exact start_eat_prefixed_token _ (eat_good_imp (eat_good_imp hg))
  · unfold row_body at hbody
    simp only [Prod.mk.injEq] at hbody
    have h1 := hbody.1
    rw [mutation_fraction_loop] at h1
    split at h1
    · split at h1
      · rename_i hgood
        exact start_eat_prefixed_token _ hgood
      · cases h1
    · simp only [RowEnd.done.injEq] at h1
      rw [← h1] at hg
      exact start_eat_prefixed_token _ hg
  · unfold row_body at hbody
    simp only [Prod.mk.injEq, RowEnd.done.injEq] at hbody
    rw [← hbody.1] at hg
    exact start_eat_prefixed_token _ (eat_good_imp (eat_good_imp hg))
  · unfold row_body at hbody
    simp only at hbody
    split at hbody
    · simp only [Prod.mk.injEq, RowEnd.done.injEq] at hbody
      rw [← hbody.1] at hg
      split at hg
      · exact start_eat_token
          (eat_good_imp (eat_prefixed_good_imp (eat_good_imp (eat_prefixed_good_imp hg))))
      · exact start_eat_token (eat_good_imp (eat_prefixed_good_imp (eat_good_imp hg)))
    · split at hbody
      · simp only [Prod.mk.injEq, RowEnd.done.injEq] at hbody
        rw [← hbody.1] at hg
        exact start_eat_token (eat_good_imp (eat_prefixed_good_imp (eat_good_imp hg)))
      · split at hbody
        · simp only [Prod.mk.injEq, RowEnd.done.injEq] at hbody
          rw [← hbody.1] at hg
          exact start_eat_token
            (eat_good_imp (eat_prefixed_good_imp (eat_prefixed_good_imp (eat_good_imp hg))))
        · split at hbody
          · simp only [Prod.mk.injEq, RowEnd.done.injEq] at hbody
            rw [← hbody.1] at hg
            exact start_eat_token (eat_good_imp (eat_prefixed_good_imp (eat_good_imp hg)))
          · simp only [Prod.mk.injEq, RowEnd.done.injEq] at hbody
            rw [← hbody.1] at hg
            exact start_eat_token (eat_good_imp hg)
  · exact start_eat_token (eat_good_imp (output_row_second_test hbody hg))
  · unfold row_body at hbody
    simp only at hbody
    split at hbody
    · simp only [Prod.mk.injEq, RowEnd.done.injEq] at hbody
      rw [← hbody.1] at hg
      exact start_eat_token (eat_prefixed_good_imp (eat_good_imp (eat_prefixed_good_imp
        (eat_good_imp (eat_good_imp (eat_prefixed_good_imp (eat_good_imp hg)))))))
    · simp only [Prod.mk.injEq, RowEnd.done.injEq] at hbody
      rw [← hbody.1] at hg
      exact start_eat_token (eat_prefixed_good_imp (eat_good_imp (eat_prefixed_good_imp
        (eat_good_imp (eat_good_imp hg)))))

/-- An accepted `#DEMOGRAPHY AND STRUCTURE` row has a second token. -/
theorem demography_row_second_token {good : Bool} {sub line : CppString} {n n2 : Counters}
    {st : RowState}
    (hbody : row_body .DEMOGRAPHY_AND_STRUCTURE good sub line n = (.done st, n2))
    (hg : st.good = true) : token_at 1 line ≠ [] := by
  have h0 := accepted_row_first_token (Or.inr (Or.inr (Or.inr (Or.inl rfl)))) hbody hg
  unfold row_body at hbody
  simp only at hbody
  have key : (((RowState.start good sub line).eat "1234567890e" .kEOFNotExpected).eat "PSMN"
      .kEOFNotExpected).good = true := by
    split at hbody
    · simp only [Prod.mk.injEq, RowEnd.done.injEq] at hbody
      rw [← hbody.1] at hg
      split at hg
      · exact eat_prefixed_good_imp (eat_good_imp (eat_prefixed_good_imp hg))
      · exact eat_prefixed_good_imp (eat_good_imp hg)
    · split at hbody
      · simp only [Prod.mk.injEq, RowEnd.done.injEq] at hbody
        rw [← hbody.1] at hg
        exact eat_prefixed_good_imp (eat_good_imp hg)
      · split at hbody
        · simp only [Prod.mk.injEq, RowEnd.done.injEq] at hbody
          rw [← hbody.1] at hg
          exact eat_prefixed_good_imp (eat_prefixed_good_imp (eat_good_imp hg))
        · split at hbody
          · simp only [Prod.mk.injEq, RowEnd.done.injEq] at hbody
            rw [← hbody.1] at hg
            exact eat_prefixed_good_imp (eat_good_imp hg)
          · simp only [Prod.mk.injEq, RowEnd.done.injEq] at hbody
            rw [← hbody.1] at hg
            exact hg
  exact eat_prefixed_twice_token (start_at_token good sub h0) "" "" key

/-- An accepted `#OUTPUT` row has a second token. -/
theorem output_row_second_token {good : Bool} {sub line : CppString} {n n2 : Counters}
    {st : RowState} (hbody : row_body .OUTPUT good sub line n = (.done st, n2))
    (hg : st.good = true) : token_at 1 line ≠ [] := by
  have h0 := accepted_row_first_token
    (Or.inr (Or.inr (Or.inr (Or.inr (Or.inl rfl))))) hbody hg
  have key := output_row_second_test hbody hg
  have hg1 := eat_good_imp key
  have hg0 := eat_good_imp hg1
  have c1 := (eat_good_iff' hg0 "1234567890e" .kEOFNotExpected).1 hg1
  have c2 := (eat_good_iff' hg1 "ARFT" .kAgnosticEOFExpectation).1 key
  have a0 := start_at_token good sub h0
  intro hnext
  have hsub := (eat_prefixed_at_last a0 hg0 (c1.2.2.2 rfl) hnext "" "1234567890e").2
  rw [← eat_eq_eat_prefixed] at hsub
  have hsub' : ((RowState.start good sub line).eat "1234567890e" .kEOFNotExpected).sub =
      (RowState.start good sub line).sub := by
    rw [hsub]
    rfl
  rw [hsub'] at c2
  cases hs : (RowState.start good sub line).sub with
  | nil => exact c1.1 hs
  | cons c r =>
    have m1 := c1.2.1 c (by rw [hs]; exact List.mem_cons_self _ _)
    have m2 := c2.2.1 c (by rw [hs]; exact List.mem_cons_self _ _)
    have hd : ∀ x : Char, x ∈ "1234567890e".toList → x ∉ "ARFT".toList := by decide
    exact hd c m1 m2

/-! ## The seed -/

/-- What a row of `Initialize` leaves untouched. -/
theorem initialize_row_frame {files : CppString → Option InputFile} {s : ParameterSection}
    {sim sim' : Simulation} {sub sub' line : CppString}
    (h : initialize_row files s sim sub line = .ok (sim', sub')) :
    sim'.p_parameters = sim.p_parameters ∧
      (s ≠ .SEED → sim'.seed = sim.seed) ∧
      (s ≠ .DEMOGRAPHY_AND_STRUCTURE → sim'.p_events = sim.p_events) ∧
      (s ≠ .OUTPUT → sim'.p_outputs = sim.p_outputs) ∧
      (s ≠ .MUTATION_TYPES →
        sim'.p_chromosome.mutation_types_ = sim.p_chromosome.mutation_types_) ∧
      (s ≠ .GENOMIC_ELEMENT_TYPES →
        sim'.p_chromosome.genomic_element_types_ = sim.p_chromosome.genomic_element_types_) := by
  cases s with
  | RECOMBINATION_RATE =>
    simp only [initialize_row, bind, pure] at h
    obtain ⟨p, _, h⟩ := bind_eq_ok h
    simp only [Outcome.ok.injEq, Prod.mk.injEq] at h
    rw [← h.1]
    exact ⟨rfl, fun _ => rfl, fun _ => rfl, fun _ => rfl, fun _ => rfl, fun _ => rfl⟩
  | MUTATION_RATE =>
    simp only [initialize_row, Outcome.ok.injEq, Prod.mk.injEq] at h
    rw [← h.1]
    exact ⟨rfl, fun _ => rfl, fun _ => rfl, fun _ => rfl, fun _ => rfl, fun _ => rfl⟩
  | GENE_CONVERSION =>
    simp only [initialize_row, Outcome.ok.injEq, Prod.mk.injEq] at h
    rw [← h.1]
    exact ⟨rfl, fun _ => rfl, fun _ => rfl, fun _ => rfl, fun _ => rfl, fun _ => rfl⟩
  | MUTATION_TYPES =>
    simp only [initialize_row, bind, pure] at h
    obtain ⟨id, _, h⟩ := bind_eq_ok h
    split at h
    · cases h
    · split at h
      · cases h
      · split at h
        · cases h
        · simp only [Outcome.ok.injEq, Prod.mk.injEq] at h
          rw [← h.1]
          exact ⟨rfl, fun _ => rfl, fun _ => rfl, fun _ => rfl, fun hs => absurd rfl hs, fun _ => rfl⟩
  | GENOMIC_ELEMENT_TYPES =>
    simp only [initialize_row, bind, pure] at h
    obtain ⟨id, _, h⟩ := bind_eq_ok h
    obtain ⟨t, _, h⟩ := bind_eq_ok h
    split at h
    · cases h
    · simp only [Outcome.ok.injEq, Prod.mk.injEq] at h
      rw [← h.1]
      exact ⟨rfl, fun _ => rfl, fun _ => rfl, fun _ => rfl, fun _ => rfl, fun hs => absurd rfl hs⟩
  | CHROMOSOME_ORGANIZATION =>
    simp only [initialize_row, bind, pure] at h
    obtain ⟨id, _, h⟩ := bind_eq_ok h
    obtain ⟨a, _, h⟩ := bind_eq_ok h
    obtain ⟨b, _, h⟩ := bind_eq_ok h
    split at h
    · cases h
    · simp only [Outcome.ok.injEq, Prod.mk.injEq] at h
      rw [← h.1]
      exact ⟨rfl, fun _ => rfl, fun _ => rfl, fun _ => rfl, fun _ => rfl, fun _ => rfl⟩
  | GENERATIONS =>
    simp only [initialize_row, bind, pure] at h
    obtain ⟨d, _, h⟩ := bind_eq_ok h
    split at h
    · obtain ⟨a, _, h⟩ := bind_eq_ok h
      simp only [Outcome.ok.injEq, Prod.mk.injEq] at h
      rw [← h.1]
      exact ⟨rfl, fun _ => rfl, fun _ => rfl, fun _ => rfl, fun _ => rfl, fun _ => rfl⟩
    · simp only [Outcome.ok.injEq, Prod.mk.injEq] at h
      rw [← h.1]
      exact ⟨rfl, fun _ => rfl, fun _ => rfl, fun _ => rfl, fun _ => rfl, fun _ => rfl⟩
  | DEMOGRAPHY_AND_STRUCTURE =>
    simp only [initialize_row, bind, pure] at h
    obtain ⟨d, _, h⟩ := bind_eq_ok h
    split at h
    · cases h
    · split at h
      · cases h
      · simp only [Outcome.ok.injEq, Prod.mk.injEq] at h
        rw [← h.1]
        exact ⟨rfl, fun _ => rfl, fun hs => absurd rfl hs, fun _ => rfl, fun _ => rfl, fun _ => rfl⟩
  | OUTPUT =>
    simp only [initialize_row, bind, pure] at h
    obtain ⟨d, _, h⟩ := bind_eq_ok h
    split at h
    · cases h
    · split at h
      · cases h
      · simp only [Outcome.ok.injEq, Prod.mk.injEq] at h
        rw [← h.1]
        exact ⟨rfl, fun _ => rfl, fun _ => rfl, fun hs => absurd rfl hs, fun _ => rfl, fun _ => rfl⟩
  | PREDETERMINED_MUTATIONS =>
    simp only [initialize_row, bind, pure] at h
    obtain ⟨a1, _, h⟩ := bind_eq_ok h
    obtain ⟨a2, _, h⟩ := bind_eq_ok h
    obtain ⟨a3, _, h⟩ := bind_eq_ok h
    obtain ⟨a4, _, h⟩ := bind_eq_ok h
    obtain ⟨a5, _, h⟩ := bind_eq_ok h
    obtain ⟨a6, _, h⟩ := bind_eq_ok h
    split at h
    · cases h
    · split at h
      · cases h
      · simp only [Outcome.ok.injEq, Prod.mk.injEq] at h
        rw [← h.1]
        exact ⟨rfl, fun _ => rfl, fun _ => rfl, fun _ => rfl, fun _ => rfl, fun _ => rfl⟩
  | SEED =>
    simp only [initialize_row, bind, pure] at h
    obtain ⟨a1, _, h⟩ := bind_eq_ok h
    simp only [Outcome.ok.injEq, Prod.mk.injEq] at h
    rw [← h.1]
    exact ⟨rfl, fun hs => absurd rfl hs, fun _ => rfl, fun _ => rfl, fun _ => rfl, fun _ => rfl⟩
  | INITIALIZATION =>
    simp only [initialize_row, bind, pure] at h
    obtain ⟨a1, _, h⟩ := bind_eq_ok h
    simp only [Outcome.ok.injEq, Prod.mk.injEq] at h
    rw [← h.1]
    exact ⟨rfl, fun _ => rfl, fun _ => rfl, fun _ => rfl, fun _ => rfl, fun _ => rfl⟩

/-- A `#SEED` row that has a first token sets the seed to what `atoi` reads from
that token. -/
theorem initialize_row_seed {files : CppString → Option InputFile}
    {sim sim' : Simulation} {sub sub' line : CppString} (h0 : token_at 0 line ≠ [])
    (h : initialize_row files .SEED sim sub line = .ok (sim', sub')) :
    atoi (token_at 0 line) = some sim'.seed := by
  simp only [initialize_row, bind, pure, open_extract h0] at h
  obtain ⟨p, hp, h⟩ := bind_eq_ok h
  simp only [Outcome.ok.injEq, Prod.mk.injEq] at h
  rw [← h.1]
  exact ofInt_eq_ok hp

theorem record_row_parameters (s : ParameterSection) (sim : Simulation) (line : CppString) :
    (record_row s sim line).p_parameters =
      sim.p_parameters ++ (if s = .SEED then [] else [line]) := by
  cases s <;> simp [record_row]

theorem record_row_seed (s : ParameterSection) (sim : Simulation) (line : CppString) :
    (record_row s sim line).seed = sim.seed := by
  cases s <;> rfl

theorem header_eq (s : ParameterSection) :
    s.header = if s = .SEED then [] else [('#' :: s.keyword)] := by
  cases s <;> rfl

/-- The seed that the rows seen so far ask for. -/
theorem getLast_seed_cons (r : ParameterSection × CppString)
    (rows : List (ParameterSection × CppString)) (init : Option Int) :
    (match (((r :: rows).filter (fun r => r.1 = .SEED)).map (fun r => r.2)).getLast? with
      | none => init
      | some row => atoi (token_at 0 row)) =
    (match ((rows.filter (fun r => r.1 = .SEED)).map (fun r => r.2)).getLast? with
      | none => if r.1 = .SEED then atoi (token_at 0 r.2) else init
      | some row => atoi (token_at 0 row)) := by
  by_cases hs : r.1 = .SEED
  · simp only [List.filter_cons, hs, decide_True, if_true, List.map_cons]
    cases hl : ((rows.filter (fun r => r.1 = .SEED)).map (fun r => r.2)) with
    | nil => simp
    | cons a t =>
      simp only [List.getLast?_cons_cons]
      rw [List.getLast?_eq_getLast _ (List.cons_ne_nil a t)]
  · simp only [List.filter_cons, hs, decide_False, if_false, Bool.false_eq_true]

/-- The seed and the recorded parameters after the main loop of `Initialize`. -/
theorem initialize_lines_seed {files : CppString → Option InputFile}
    {current : Option ParameterSection} {sub sub' : CppString} {sim sim' : Simulation}
    {lines : List CppString}
    (htok : ∀ r ∈ file_rows current lines, r.1 = .SEED → token_at 0 r.2 ≠ [])
    (h : initialize_lines files current sub sim lines = .ok (sim', sub')) :
    (match (((file_rows current lines).filter (fun r => r.1 = .SEED)).map
        (fun r => r.2)).getLast? with
      | none => some sim.seed
      | some row => atoi (token_at 0 row)) = some sim'.seed ∧
    sim'.p_parameters = sim.p_parameters ++ recorded_lines current lines := by
  induction lines generalizing current sub sim with
  | nil =>
    cases current <;>
      (rw [initialize_lines] at h
       simp only [Outcome.ok.injEq, Prod.mk.injEq] at h
       rw [← h.1]
       simp [file_rows, recorded_lines])
  | cons raw lines ih =>
    cases hhash : (sanitize raw).contains '#' with
    | true =>
      cases hsec : find_section (sanitize raw) with
      | none =>
        cases current <;>
          (rw [initialize_lines] at h; simp only [hhash, if_true, hsec] at h; cases h)
      | some s =>
        have hrows : file_rows current (raw :: lines) = file_rows (some s) lines := by
          cases current <;> (rw [file_rows]; simp only [hhash, if_true, hsec])
        have hrec : recorded_lines current (raw :: lines) =
            (if s = .SEED then [] else [('#' :: s.keyword)]) ++ recorded_lines (some s) lines := by
          cases current <;> (rw [recorded_lines]; simp only [hhash, if_true, hsec])
        rw [hrows] at htok ⊢
        have h' : initialize_lines files (some s) sub
            { sim with p_parameters := sim.p_parameters ++ s.header } lines = .ok (sim', sub') := by
          cases current <;>
            (rw [initialize_lines] at h; simp only [hhash, if_true, hsec] at h; exact h)
        have := ih htok h'
        refine ⟨this.1, ?_⟩
        rw [this.2, hrec, header_eq, List.append_assoc]
    | false =>
      cases current with
      | none =>
        rw [initialize_lines] at h
        simp only [hhash, Bool.false_eq_true, if_false] at h
        rw [file_rows] at htok ⊢
        rw [recorded_lines]
        simp only [hhash, Bool.false_eq_true, if_false] at htok ⊢
        exact ih htok h
      | some s =>
        rw [initialize_lines] at h
        simp only [hhash, Bool.false_eq_true, if_false] at h
        rw [file_rows] at htok ⊢
        rw [recorded_lines]
        simp only [hhash, Bool.false_eq_true, if_false] at htok ⊢
        by_cases hempty : sanitize raw = []
        · simp only [hempty, List.length_nil, if_true] at h
          simp only [hempty, if_true] at htok ⊢
          exact ih htok h
        · have hlen : (sanitize raw).length ≠ 0 := fun h0 => hempty (List.length_eq_zero.1 h0)
          simp only [hlen, if_false] at h
          simp only [hempty, if_false] at htok ⊢
          obtain ⟨a, hrow, hrest⟩ := bind_eq_ok h
          obtain ⟨sim1, sub1⟩ := a
          have htok' : ∀ r ∈ file_rows (some s) lines, r.1 = .SEED →
              token_at 0 r.2 ≠ [] := fun r hr => htok r (List.mem_cons_of_mem _ hr)
          have hih := ih htok' hrest
          have hframe := initialize_row_frame hrow
          refine ⟨?_, ?_⟩
          · rw [getLast_seed_cons, ← hih.1]
            by_cases hs : s = .SEED
            · subst hs
              have h0 := htok (.SEED, sanitize raw) (List.mem_cons_self _ _) rfl
              rw [if_pos rfl, initialize_row_seed h0 hrow]
            · rw [if_neg hs, hframe.2.1 hs, record_row_seed]
          · rw [hih.2, hframe.1, record_row_parameters, List.append_assoc]

/-- What C24 says, for the files whose `#SEED` rows each have a token.  When
`Initialize` completes on such a file, the seed it passes to the random number
generator is the override seed when one is given; without one it is the value
that `atoi` reads from the last `#SEED` row of the file, and the generated seed
when the file has no such row.  The recorded parameters are those recorded
before, the headers and rows of the sections other than `#SEED`, and at the end
`#SEED` and the decimal text of that seed. -/
theorem seed_selection (files : CppString → Option InputFile) (sim : Simulation)
    (p_input_file : CppString) (p_override_seed : Option Int) (f : InputFile) (r : Initialized)
    (hfile : files p_input_file = some f)
    (htok : ∀ row ∈ f.rows .SEED, token_at 0 row ≠ [])
    (h : Initialize files sim p_input_file p_override_seed = .ok r) :
    (∀ s, p_override_seed = some s → r.rng_seed = s) ∧
      (p_override_seed = none → file_seed sim.seed f = some r.rng_seed) ∧
      r.sim.p_parameters =
        sim.p_parameters ++ recorded_lines none f.lines ++
          ["#SEED".toList, int_text r.rng_seed] ∧
      r.sim.seed = r.rng_seed := by
  unfold Initialize at h
  rw [hfile] at h
  obtain ⟨a, hlines, h⟩ := bind_eq_ok h
  obtain ⟨sim1, sub1⟩ := a
  have htok' : ∀ r ∈ file_rows none f.lines, r.1 = .SEED → token_at 0 r.2 ≠ [] := by
    intro r hr hs
    apply htok
    unfold InputFile.rows
    exact List.mem_map.2 ⟨r, List.mem_filter.2 ⟨hr, by simp [hs]⟩, rfl⟩
  have hm := initialize_lines_seed htok' hlines
  simp only [Outcome.ok.injEq] at h
  rw [← h]
  cases p_override_seed with
  | some s =>
    refine ⟨fun s' hs' => ?_, fun hn => (by cases hn), ?_, rfl⟩
    · cases hs'
      rfl
    · simp only
      rw [hm.2]
  | none =>
    refine ⟨fun s' hs' => (by cases hs'), fun _ => ?_, ?_, rfl⟩
    · exact hm.1
    · simp only
      rw [hm.2]

theorem seed_selection_example :
    file_seed 7 two_seeds_file = some 42 ∧
      (Initialize (one_file "f".toList two_seeds_file) (Simulation.empty 7) "f".toList
        none).get.sim.p_parameters =
      ["#MUTATION RATE", "1e-8", "#GENERATIONS", "10", "#SEED", "42"].map String.toList := by
  have hrun : Initialize (one_file "f".toList two_seeds_file) (Simulation.empty 7) "f".toList
      none = .ok (Initialize (one_file "f".toList two_seeds_file) (Simulation.empty 7)
        "f".toList none).get := by decide
  have h := seed_selection (one_file "f".toList two_seeds_file) (Simulation.empty 7)
    "f".toList none two_seeds_file _ (by decide) (by decide) hrun
  refine ⟨by decide, ?_⟩
  rw [h.2.2.1]
  decide

/-- C24.  Seed selection and a line of tabs.  The `#SEED` section of the
complete parameter file `tab_seed_file` holds one line, a single tab, below the
`#CHROMOSOME ORGANIZATION` row `g1 1 1000`; the section has no line with a
token, and `CheckInputFile` accepts the file.  With no override seed and the
generated seed 7, `Initialize` completes and seeds the generator with 1000, the
end position of the genomic element: the extraction `iss >> sub` fails on the
line of tabs and `atoi` reads what `sub` still holds.  The recorded parameters
end with `#SEED` and `1000`. -/
theorem tab_seed_row_reads_stale_token :
    (tab_seed_file.lines.drop 6).take 4 =
      ["#CHROMOSOME ORGANIZATION".toList, "g1 1 1000".toList, "#SEED".toList,
        "\t".toList] ∧
    tab_seed_file.rows .SEED = ["\t".toList] ∧
    (∀ row ∈ tab_seed_file.rows .SEED, has_token row = false) ∧
    CheckInputFile [] (some tab_seed_file) = .accepted ⟨1, 1, 1, 1, 1, 1, 1⟩ ∧
    (Initialize (one_file "f".toList tab_seed_file) (Simulation.empty 7) "f".toList
        none).result.map (fun r => r.rng_seed) = some 1000 ∧
    (Initialize (one_file "f".toList tab_seed_file) (Simulation.empty 7) "f".toList
        none).result.map (fun r => r.sim.p_parameters.drop 14)
      = some ["#SEED".toList, "1000".toList] := by
  refine ⟨by decide, by decide, by decide, by rfl, by decide, by decide⟩

/-! ## Events -/

theorem multimap_insert_sorted {α : Type} (m : List (Int × α)) (k : Int) (v : α)
    (h : m.Pairwise (fun a b => a.1 ≤ b.1)) :
    (multimap_insert m k v).Pairwise (fun a b => a.1 ≤ b.1) := by
  induction m with
  | nil => simp [multimap_insert]
  | cons e rest ih =>
    obtain ⟨k', v'⟩ := e
    rw [multimap_insert]
    have hrest := (List.pairwise_cons.1 h).2
    have hhead := (List.pairwise_cons.1 h).1
    split
    · rename_i hle
      refine List.pairwise_cons.2 ⟨?_, ih hrest⟩
      intro b hb
      have hmem : ∀ b ∈ multimap_insert rest k v, b = (k, v) ∨ b ∈ rest := by
        intro b
        generalize rest = l
        induction l with
        | nil => simp [multimap_insert]
        | cons e l ihl =>
          rw [multimap_insert]
          split
          · intro hb
            rcases List.mem_cons.1 hb with rfl | hb
            · exact Or.inr (List.mem_cons_self _ _)
            · rcases ihl hb with h1 | h1
              · exact Or.inl h1
              · exact Or.inr (List.mem_cons_of_mem _ h1)
          · intro hb
            rcases List.mem_cons.1 hb with rfl | hb
            · exact Or.inl rfl
            · exact Or.inr hb
      rcases hmem b hb with rfl | hb
      · exact hle
      · exact hhead b hb
    · rename_i hlt
      have hlt' : k < k' := by simpa using hlt
      refine List.pairwise_cons.2 ⟨?_, h⟩
      intro b hb
      rcases List.mem_cons.1 hb with rfl | hb
      · exact le_of_lt hlt'
      · exact le_trans (le_of_lt hlt') (hhead b hb)

/-- The entries under a key after an insertion into a multimap: those before,
and after them the new entry when it has that key. -/
theorem multimap_insert_filter {α : Type} (m : List (Int × α)) (k : Int) (v : α) (t : Int)
    (h : m.Pairwise (fun a b => a.1 ≤ b.1)) :
    (multimap_insert m k v).filter (fun e => e.1 = t) =
      m.filter (fun e => e.1 = t) ++ (if k = t then [(k, v)] else []) := by
  induction m with
  | nil =>
    by_cases hk : k = t <;> simp [multimap_insert, hk]
  | cons e rest ih =>
    obtain ⟨k', v'⟩ := e
    rw [multimap_insert]
    have hrest := (List.pairwise_cons.1 h).2
    have hhead := (List.pairwise_cons.1 h).1
    split
    · rw [List.filter_cons, List.filter_cons, ih hrest]
      split <;> simp
    · rename_i hlt
      have hlt' : k < k' := by simpa using hlt
      by_cases hk : k = t
      · have hnone : ((k', v') :: rest).filter (fun e => e.1 = t) = [] := by
          rw [List.filter_eq_nil_iff]
          intro b hb
          have hb' : k' ≤ b.1 := by
            rcases List.mem_cons.1 hb with rfl | hb
            · exact le_refl _
            · exact hhead b hb
          simp only [decide_eq_true_eq]
          omega
        rw [List.filter_cons, hnone]
        simp [hk]
      · rw [List.filter_cons]
        simp [hk]

/-- The tokens that the loop `while (iss >> sub)` reads from token `k` on. -/
theorem read_tokens_stream_at (fuel : Nat) (line : CppString) (k : Nat) (sub : CppString)
    {t : List CppString × IStringStream × CppString}
    (h : read_tokens fuel (stream_at line k) sub = some t) :
    t.1 = tokens_from fuel k line := by
  induction fuel generalizing k sub t with
  | zero => cases h
  | succ fuel ih =>
    rw [read_tokens] at h
    rw [tokens_from]
    by_cases hk : token_at k line = []
    · have hx := extract_stream_at_end hk sub
      simp only [hx.1, if_true, Option.some.injEq] at h
      rw [← h, if_pos hk]
    · have hx := extract_stream_at hk sub
      simp only [hx, stream_at_failbit, Bool.false_eq_true, if_false] at h
      rw [if_neg hk]
      cases hr : read_tokens fuel (stream_at line (k + 1)) (token_at k line) with
      | none => rw [hr] at h; cases h
      | some t' =>
        rw [hr] at h
        simp only [Option.map_some', Option.some.injEq] at h
        rw [← h, ih (k + 1) (token_at k line) hr]

/-- A `#DEMOGRAPHY AND STRUCTURE` row with two tokens enters its event. -/
theorem initialize_row_event {files : CppString → Option InputFile}
    {sim sim' : Simulation} {sub sub' line : CppString} (h1 : token_at 1 line ≠ [])
    (h : initialize_row files .DEMOGRAPHY_AND_STRUCTURE sim sub line = .ok (sim', sub')) :
    ∃ e, event_of_row line = some e ∧
      sim'.p_events = multimap_insert sim.p_events e.1 e.2 := by
  have h0 : token_at 0 line ≠ [] := token_pred_ne_nil h1
  simp only [initialize_row, bind, pure, open_extract h0, extract_stream_at h1] at h
  obtain ⟨t, ht, h⟩ := bind_eq_ok h
  have ht' := ofInt_eq_ok ht
  cases hk : token_at 1 line with
  | nil => exact absurd hk h1
  | cons kind rest =>
    rw [hk] at h
    simp only at h
    cases hr : read_tokens (line.length + 1) (stream_at line 2) (kind :: rest) with
    | none => rw [hr] at h; cases h
    | some toks =>
      rw [hr] at h
      simp only [Outcome.ok.injEq, Prod.mk.injEq] at h
      refine ⟨(t, ⟨kind, (row_parameters line).map c_str⟩), ?_, ?_⟩
      · unfold event_of_row
        rw [ht', hk]
      · rw [← h.1, read_tokens_stream_at _ _ _ _ hr]
        rfl

/-- An `#OUTPUT` row with two tokens enters its event. -/
theorem initialize_row_output {files : CppString → Option InputFile}
    {sim sim' : Simulation} {sub sub' line : CppString} (h1 : token_at 1 line ≠ [])
    (h : initialize_row files .OUTPUT sim sub line = .ok (sim', sub')) :
    ∃ e, event_of_row line = some e ∧
      sim'.p_outputs = multimap_insert sim.p_outputs e.1 e.2 := by
  have h0 : token_at 0 line ≠ [] := token_pred_ne_nil h1
  simp only [initialize_row, bind, pure, open_extract h0, extract_stream_at h1] at h
  obtain ⟨t, ht, h⟩ := bind_eq_ok h
  have ht' := ofInt_eq_ok ht
  cases hk : token_at 1 line with
  | nil => exact absurd hk h1
  | cons kind rest =>
    rw [hk] at h
    simp only at h
    cases hr : read_tokens (line.length + 1) (stream_at line 2) (kind :: rest) with
    | none => rw [hr] at h; cases h
    | some toks =>
      rw [hr] at h
      simp only [Outcome.ok.injEq, Prod.mk.injEq] at h
      refine ⟨(t, ⟨kind, (row_parameters line).map c_str⟩), ?_, ?_⟩
      · unfold event_of_row
        rw [ht', hk]
      · rw [← h.1, read_tokens_stream_at _ _ _ _ hr]
        rfl

theorem record_row_events (s : ParameterSection) (sim : Simulation) (line : CppString) :
    (record_row s sim line).p_events = sim.p_events ∧
      (record_row s sim line).p_outputs = sim.p_outputs := by
  cases s <;> exact ⟨rfl, rfl⟩

/-- The events (or the outputs, according to `proj` and `s0`) after the main
loop of `Initialize`: they are in the order of their times, every row of the
section stands for an event, and under each time the events entered before are
followed by those of the rows of the section with that time, in the order of
the rows. -/
theorem initialize_lines_multimap (files : CppString → Option InputFile)
    (proj : Simulation → List (Int × Event)) (s0 : ParameterSection)
    (hpar : ∀ (sim : Simulation) (ps : List CppString),
      proj { sim with p_parameters := ps } = proj sim)
    (hrec : ∀ s sim line, proj (record_row s sim line) = proj sim)
    (hother : ∀ s sim sim' sub sub' line, s ≠ s0 →
      initialize_row files s sim sub line = .ok (sim', sub') → proj sim' = proj sim)
    (hrow : ∀ sim sim' sub sub' line, token_at 1 line ≠ [] →
      initialize_row files s0 sim sub line = .ok (sim', sub') →
      ∃ e, event_of_row line = some e ∧ proj sim' = multimap_insert (proj sim) e.1 e.2)
    {current : Option ParameterSection} {sub sub' : CppString} {sim sim' : Simulation}
    {lines : List CppString}
    (htok : ∀ r ∈ file_rows current lines, r.1 = s0 → token_at 1 r.2 ≠ [])
    (hsorted : (proj sim).Pairwise (fun a b => a.1 ≤ b.1))
    (h : initialize_lines files current sub sim lines = .ok (sim', sub')) :
    (proj sim').Pairwise (fun a b => a.1 ≤ b.1) ∧
      (∀ r ∈ file_rows current lines, r.1 = s0 → (event_of_row r.2).isSome = true) ∧
      ∀ t, (proj sim').filter (fun e => e.1 = t) =
        (proj sim).filter (fun e => e.1 = t) ++
          (((file_rows current lines).filter (fun r => r.1 = s0)).filterMap
            (fun r => event_of_row r.2)).filter (fun e => e.1 = t) := by
  induction lines generalizing current sub sim with
  | nil =>
    cases current <;>
      (rw [initialize_lines] at h
       simp only [Outcome.ok.injEq, Prod.mk.injEq] at h
       rw [← h.1]
       simp [file_rows, hsorted])
  | cons raw lines ih =>
    cases hhash : (sanitize raw).contains '#' with
    | true =>
      cases hsec : find_section (sanitize raw) with
      | none =>
        cases current <;>
          (rw [initialize_lines] at h; simp only [hhash, if_true, hsec] at h; cases h)
      | some s =>
        have hrows : file_rows current (raw :: lines) = file_rows (some s) lines := by
          cases current <;> (rw [file_rows]; simp only [hhash, if_true, hsec])
        rw [hrows] at htok ⊢
        have h' : initialize_lines files (some s) sub
            { sim with p_parameters := sim.p_parameters ++ s.header } lines = .ok (sim', sub') := by
          cases current <;>
            (rw [initialize_lines] at h; simp only [hhash, if_true, hsec] at h; exact h)
        have e : proj { sim with p_parameters := sim.p_parameters ++ s.header } = proj sim :=
          hpar sim _
        have := ih htok (by rw [e]; exact hsorted) h'
        rw [e] at this
        exact this
    | false =>
      cases current with
      | none =>
        rw [initialize_lines] at h
        simp only [hhash, Bool.false_eq_true, if_false] at h
        rw [file_rows] at htok ⊢
        simp only [hhash, Bool.false_eq_true, if_false] at htok ⊢
        exact ih htok hsorted h
      | some s =>
        rw [initialize_lines] at h
        simp only [hhash, Bool.false_eq_true, if_false] at h
        rw [file_rows] at htok ⊢
        simp only [hhash, Bool.false_eq_true, if_false] at htok ⊢
        by_cases hempty : sanitize raw = []
        · simp only [hempty, List.length_nil, if_true] at h
          simp only [hempty, if_true] at htok ⊢
          exact ih htok hsorted h
        · have hlen : (sanitize raw).length ≠ 0 := fun h0 => hempty (List.length_eq_zero.1 h0)
          simp only [hlen, if_false] at h
          simp only [hempty, if_false] at htok ⊢
          obtain ⟨a, hrow1, hrest⟩ := bind_eq_ok h
          obtain ⟨sim1, sub1⟩ := a
          have htok' : ∀ r ∈ file_rows (some s) lines, r.1 = s0 →
              token_at 1 r.2 ≠ [] := fun r hr => htok r (List.mem_cons_of_mem _ hr)
          by_cases hs : s = s0
          · subst hs
            have h1 := htok (s, sanitize raw) (List.mem_cons_self _ _) rfl
            obtain ⟨⟨k, ev⟩, he, hp⟩ := hrow _ _ _ _ _ h1 hrow1
            rw [hrec] at hp
            have hsorted1 : (proj sim1).Pairwise (fun a b => a.1 ≤ b.1) := by
              rw [hp]
              exact multimap_insert_sorted _ _ _ hsorted
            have hih := ih htok' hsorted1 hrest
            refine ⟨hih.1, ?_, ?_⟩
            · intro r hr hrs
              rcases List.mem_cons.1 hr with rfl | hr
              · show (event_of_row (sanitize raw)).isSome = true
                rw [he]
                rfl
              · exact hih.2.1 r hr hrs
            · intro t
              rw [hih.2.2 t, hp, multimap_insert_filter _ _ _ _ hsorted]
              simp only [List.filter_cons, decide_True, if_true, List.filterMap_cons, he,
                List.append_assoc]
              by_cases hk : k = t <;> simp [hk]
          · have hp := hother _ _ _ _ _ _ hs hrow1
            rw [hrec] at hp
            have hih := ih htok' (by rw [hp]; exact hsorted) hrest
            rw [hp] at hih
            refine ⟨hih.1, ?_, ?_⟩
            · intro r hr hrs
              rcases List.mem_cons.1 hr with rfl | hr
              · exact absurd hrs hs
              · exact hih.2.1 r hr hrs
            · intro t
              rw [hih.2.2 t]
              simp [List.filter_cons, hs]

/-- In an accepted file the rows of `#DEMOGRAPHY AND STRUCTURE` and of `#OUTPUT`
have two tokens. -/
theorem accepted_event_rows {current : Option ParameterSection} {good : Bool}
    {sub : CppString} {n n' : Counters} {lines : List CppString}
    (h : check_lines current good sub n lines = .accepted n') :
    ∀ r ∈ file_rows current lines, r.1 = .DEMOGRAPHY_AND_STRUCTURE ∨ r.1 = .OUTPUT →
      token_at 1 r.2 ≠ [] := by
  intro r hr hs
  obtain ⟨good0, sub0, n0, st, n2, hbody, hg⟩ := check_lines_rows_good h r hr
  obtain ⟨s, row⟩ := r
  rcases hs with hs | hs
  · have hs' : s = .DEMOGRAPHY_AND_STRUCTURE := hs
    subst hs'
    exact demography_row_second_token hbody hg
  · have hs' : s = .OUTPUT := hs
    subst hs'
    exact output_row_second_token hbody hg

theorem c_str_no_nul (t : CppString) (h : '\x00' ∉ t) : c_str t = t := by
  unfold c_str
  apply takeWhile_all
  intro c hc
  simp only [ne_eq, decide_not, Bool.not_eq_true', decide_eq_false_iff_not]
  intro h0
  rw [h0] at hc
  exact h hc

/-- C22. Events keep file order within a generation.  Let `Initialize` complete on
a file that `CheckInputFile` accepts, the events and outputs it is given being
in the order of their times.  Then every row of `#DEMOGRAPHY AND STRUCTURE`
stands for an event: its time is read from the first token, its kind is the
first letter of the second token, its parameters are the remaining tokens.  For
every time `t` the events stored under `t` are those stored before followed by
the events of the rows with time `t`, in the order of the rows in the file.  The
same holds for `#OUTPUT` and the outputs. -/
theorem events_keep_file_order (files : CppString → Option InputFile) (sim : Simulation)
    (p_input_file : CppString) (p_override_seed : Option Int) (f : InputFile) (n : Counters)
    (r : Initialized)
    (hfile : files p_input_file = some f)
    (hcheck : CheckInputFile p_input_file (some f) = .accepted n)
    (hevents : sim.p_events.Pairwise (fun a b => a.1 ≤ b.1))
    (houtputs : sim.p_outputs.Pairwise (fun a b => a.1 ≤ b.1))
    (h : Initialize files sim p_input_file p_override_seed = .ok r) :
    ((∀ row ∈ f.rows .DEMOGRAPHY_AND_STRUCTURE, (event_of_row row).isSome = true) ∧
      ∀ t, r.sim.p_events.filter (fun e => e.1 = t) =
        sim.p_events.filter (fun e => e.1 = t) ++
          ((f.rows .DEMOGRAPHY_AND_STRUCTURE).filterMap event_of_row).filter
            (fun e => e.1 = t)) ∧
    ((∀ row ∈ f.rows .OUTPUT, (event_of_row row).isSome = true) ∧
      ∀ t, r.sim.p_outputs.filter (fun e => e.1 = t) =
        sim.p_outputs.filter (fun e => e.1 = t) ++
          ((f.rows .OUTPUT).filterMap event_of_row).filter (fun e => e.1 = t)) ∧
    (∀ row kind rest, token_at 1 row = kind :: rest →
      ∀ e, event_of_row row = some e →
        e.2.event_type_ = kind ∧ e.2.parameters_ = (row_parameters row).map c_str) ∧
    (∀ t : CppString, '\x00' ∉ t → c_str t = t) := by
  have hcheck' : check_lines none true [] ⟨0, 0, 0, 0, 0, 0, 0⟩ f.lines = .accepted n := hcheck
  have htok := accepted_event_rows hcheck'
  unfold Initialize at h
  rw [hfile] at h
  obtain ⟨a, hlines, h⟩ := bind_eq_ok h
  obtain ⟨sim1, sub1⟩ := a
  simp only [Outcome.ok.injEq] at h
  have hE := initialize_lines_multimap files (fun s => s.p_events)
    .DEMOGRAPHY_AND_STRUCTURE (fun _ _ => rfl) (fun s sim line => (record_row_events s sim line).1)
    (fun s sim sim' sub sub' line hs hrow => (initialize_row_frame hrow).2.2.1 hs)
    (fun sim sim' sub sub' line h1 hrow => initialize_row_event h1 hrow)
    (fun r hr hs => htok r hr (Or.inl hs)) hevents hlines
  have hO := initialize_lines_multimap files (fun s => s.p_outputs)
    .OUTPUT (fun _ _ => rfl) (fun s sim line => (record_row_events s sim line).2)
    (fun s sim sim' sub sub' line hs hrow => (initialize_row_frame hrow).2.2.2.1 hs)
    (fun sim sim' sub sub' line h1 hrow => initialize_row_output h1 hrow)
    (fun r hr hs => htok r hr (Or.inr hs)) houtputs hlines
  have hmap : ∀ s, (f.rows s).filterMap event_of_row =
      ((file_rows none f.lines).filter (fun r => r.1 = s)).filterMap
        (fun r => event_of_row r.2) := by
    intro s
    unfold InputFile.rows
    rw [List.filterMap_map]
    rfl
  have hmem : ∀ s, ∀ row ∈ f.rows s, ∃ r ∈ file_rows none f.lines, r.1 = s ∧ r.2 = row := by
    intro s row hrow
    unfold InputFile.rows at hrow
    obtain ⟨r, hr, hr2⟩ := List.mem_map.1 hrow
    have := List.mem_filter.1 hr
    exact ⟨r, this.1, by simpa using this.2, hr2⟩
  rw [← h]
  refine ⟨⟨?_, ?_⟩, ⟨?_, ?_⟩, ?_, c_str_no_nul⟩
  · intro row hrow
    obtain ⟨r, hr, hs, hr2⟩ := hmem _ row hrow
    rw [← hr2]
    exact hE.2.1 r hr hs
  · intro t
    rw [hmap]
    exact hE.2.2 t
  · intro row hrow
    obtain ⟨r, hr, hs, hr2⟩ := hmem _ row hrow
    rw [← hr2]
    exact hO.2.1 r hr hs
  · intro t
    rw [hmap]
    exact hO.2.2 t
  · intro row kind rest hk e he
    unfold event_of_row at he
    rw [hk] at he
    cases hst : static_cast_int (atof (token_at 0 row)) with
    | none => rw [hst] at he; cases he
    | some t =>
      rw [hst] at he
      simp only [Option.some.injEq] at he
      rw [← he]
      exact ⟨rfl, rfl⟩

theorem events_keep_file_order_witness :
    ((Initialize (one_file "f".toList events_file) (Simulation.empty 7) "f".toList
        none).get.sim.p_events.filter (fun e => e.1 = 1)).map (fun e => e.2) =
      [⟨'P', ["p1".toList, "100".toList]⟩, ⟨'S', ["p1".toList, "0.1".toList]⟩,
        ⟨'P', ["p2".toList, "10".toList, "p1".toList]⟩] := by
  have hrun : Initialize (one_file "f".toList events_file) (Simulation.empty 7) "f".toList
      none = .ok (Initialize (one_file "f".toList events_file) (Simulation.empty 7)
        "f".toList none).get := by decide
  have h := (events_keep_file_order (one_file "f".toList events_file) (Simulation.empty 7)
    "f".toList none events_file ⟨1, 1, 1, 1, 1, 1, 2⟩ _ (by decide) (by decide)
    List.Pairwise.nil List.Pairwise.nil hrun).1.2 1
  rw [h]
  decide

/-! ## Genomes loaded from a dump -/

theorem map_find_replace {α : Type} (pop : List (Int × α)) (p q : Int) (s' : α) :
    map_find (pop.map (fun e => if e.1 = p then (e.1, s') else e)) q =
      if q = p then (map_find pop p).map (fun _ => s') else map_find pop q := by
  induction pop with
  | nil => simp [map_find]
  | cons e rest ih =>
    unfold map_find at ih ⊢
    rw [List.map_cons, List.find?_cons, List.find?_cons]
    by_cases he : e.1 = p <;> by_cases hq : q = p <;> by_cases heq : e.1 = q <;>
      simp_all

/-- One pass of the loop of a genome row appends the mutation to genome `i - 1`
of subpopulation `p` and changes no other genome. -/
theorem genome_at_push {pop : Population} {p i idx : Int} {subpop subpop' : Subpopulation}
    {m : Mutation} (hfind : map_find pop p = some subpop) (hidx : int_pred i = some idx)
    (hpush : push_mutation subpop idx m = some subpop') (q : Int) (j : Nat) :
    0 ≤ i - 1 ∧
    genome_at (pop.map (fun e => if e.1 = p then (e.1, subpop') else e)) q j =
      if q = p ∧ (j : Int) = i - 1 then (genome_at pop q j).map (fun g => g ++ [m])
      else genome_at pop q j := by
  unfold int_pred at hidx
  split at hidx
  · simp only [Option.some.injEq] at hidx
    unfold push_mutation at hpush
    split at hpush
    · rename_i hrange
      simp only [Option.some.injEq] at hpush
      rw [← hidx] at hrange hpush
      refine ⟨hrange.1, ?_⟩
      unfold genome_at
      rw [map_find_replace]
      by_cases hq : q = p
      · subst hq
        simp only [if_true, true_and, hfind, Option.map_some', Option.some_bind]
        rw [← hpush]
        simp only [ List.getElem?_modify]
        have h1 := hrange.1
        by_cases hj : (j : Int) = i - 1
        · have : i.toNat - 1 = j := by omega
          simp [hj, this]
        · have : ¬ i.toNat - 1 = j := by omega
          simp [hj, this]
      · simp [hq]
    · cases hpush
  · cases hidx

/-- The loop `while (iss >> sub)` of a genome row appends the mutations that the
tokens name, in the order of the tokens. -/
theorem genome_loop_appends (M : List (Int × Mutation)) (p i : Int) (row : CppString)
    (fuel k : Nat) (pop pop' : Population) (sub sub' : CppString)
    (h : genome_loop M p i fuel pop (stream_at row k) sub = .ok (pop', sub')) :
    ∃ muts, lookup_all M (tokens_from fuel k row) = some muts ∧
      ∀ q j, genome_at pop' q j =
        if q = p ∧ (j : Int) = i - 1 then (genome_at pop q j).map (fun g => g ++ muts)
        else genome_at pop q j := by
  induction fuel generalizing k pop sub with
  | zero => cases h
  | succ fuel ih =>
    rw [genome_loop] at h
    rw [tokens_from]
    by_cases hk : token_at k row = []
    · have hx := extract_stream_at_end hk sub
      simp only [hx.1, if_true, Outcome.ok.injEq, Prod.mk.injEq] at h
      refine ⟨[], by rw [if_pos hk]; rfl, fun q j => ?_⟩
      rw [← h.1]
      split
      · simp
      · rfl
    · have hx := extract_stream_at hk sub
      simp only [hx, stream_at_failbit, Bool.false_eq_true, if_false] at h
      rw [if_neg hk]
      cases hid : atoi (token_at k row) with
      | none => rw [hid] at h; cases h
      | some id =>
        rw [hid] at h
        simp only at h
        cases hfind : map_find pop p with
        | none => rw [hfind] at h; cases h
        | some subpop =>
          rw [hfind] at h
          simp only at h
          cases hm : map_find M id with
          | none => rw [hm] at h; cases h
          | some m =>
            rw [hm] at h
            simp only at h
            cases hidx : int_pred i with
            | none => rw [hidx] at h; cases h
            | some idx =>
              rw [hidx] at h
              simp only [Option.some_bind] at h
              cases hpush : push_mutation subpop idx m with
              | none => rw [hpush] at h; cases h
              | some subpop' =>
                rw [hpush] at h
                simp only at h
                obtain ⟨muts, hmuts, hgen⟩ := ih (k + 1) _ _ h
                refine ⟨m :: muts, ?_, fun q j => ?_⟩
                · rw [lookup_all, hid, hmuts]
                  simp [hm]
                · rw [hgen q j, (genome_at_push hfind hidx hpush q j).2]
                  split
                  · simp [Option.map_map, Function.comp_def]
                  · rfl

/-- C23, as amended.  A genome row `p<p>:<i> id ...` of a dump that is read
without error appends to genome `i` of subpopulation `p` the mutations that
its tokens name, in the order of the tokens, and changes no other genome: the
loader neither sorts nor checks the order.  (The genome is therefore in order
of position afterwards only when the dump names its mutations in such an
order, as the first genome of `unsorted_dump` does not.) -/
theorem genome_row_keeps_dump_order (pop pop' : Population) (M : List (Int × Mutation))
    (sub sub' row : CppString) (h0 : token_at 0 row ≠ [])
    (h : genome_row pop M sub row = .ok (pop', sub')) :
    ∃ p i muts, genome_of_row row = some (p, i) ∧
      lookup_all M (tokens_from (row.length + 1) 1 row) = some muts ∧
      ∀ q j, genome_at pop' q j =
        if q = p ∧ (j : Int) = i - 1 then (genome_at pop q j).map (fun g => g ++ muts)
        else genome_at pop q j := by
  simp only [genome_row, bind, pure, open_extract h0] at h
  obtain ⟨c, hc, h⟩ := bind_eq_ok h
  obtain ⟨p, hp, h⟩ := bind_eq_ok h
  obtain ⟨i, hi, h⟩ := bind_eq_ok h
  obtain ⟨muts, hmuts, hgen⟩ := genome_loop_appends M p i row _ 1 _ _ _ _ h
  refine ⟨p, i, muts, ?_, hmuts, hgen⟩
  unfold genome_of_row
  simp only [ofInt_eq_ok hc, ofInt_eq_ok hp, ofInt_eq_ok hi]

theorem genome_row_keeps_dump_order_witness :
    ∃ pop', genome_row [(1, ⟨[[], []]⟩)]
        [(1, ⟨default, 499, default, 1, 1⟩), (2, ⟨default, 99, default, 1, 1⟩)] []
        "p1:1 1 2".toList = .ok (pop', "2".toList) ∧
      (genome_at pop' 1 0).map (fun g => g.map (fun m => m.position_)) = some [499, 99] := by
  have hrun : genome_row [(1, ⟨[[], []]⟩)]
      [(1, ⟨default, 499, default, 1, 1⟩), (2, ⟨default, 99, default, 1, 1⟩)] []
      "p1:1 1 2".toList = .ok ((genome_row [(1, ⟨[[], []]⟩)]
      [(1, ⟨default, 499, default, 1, 1⟩), (2, ⟨default, 99, default, 1, 1⟩)] []
      "p1:1 1 2".toList).get.1, "2".toList) := by decide
  refine ⟨_, hrun, ?_⟩
  obtain ⟨p, i, muts, hrow, hmuts, hgen⟩ := genome_row_keeps_dump_order _ _ _ _ _ _
    (by decide) hrun
  have hp : genome_of_row "p1:1 1 2".toList = some (1, 1) := by decide
  rw [hp] at hrow
  simp only [Option.some.injEq, Prod.mk.injEq] at hrow
  have hm : lookup_all [(1, ⟨default, 499, default, 1, 1⟩), (2, ⟨default, 99, default, 1, 1⟩)]
      (tokens_from ("p1:1 1 2".toList.length + 1) 1 "p1:1 1 2".toList) =
      some [⟨default, 499, default, 1, 1⟩, ⟨default, 99, default, 1, 1⟩] := by decide
  rw [hm] at hmuts
  simp only [Option.some.injEq] at hmuts
  rw [hgen 1 0, ← hrow.1, ← hrow.2, ← hmuts]
  decide

/-- C23, counterexample.  The dump `unsorted_dump` is loaded without error into
an empty population, and afterwards the first parent genome of subpopulation
`p1` holds its two mutations at positions 499 and 99, in this order. -/
theorem unsorted_dump_loaded :
    ∃ pop, InitializePopulationFromFile (one_file "dump".toList unsorted_dump) []
        "dump".toList example_simulation.p_chromosome = .ok pop ∧
      genome_positions pop = [[[499, 99], [99]]] ∧
      ∃ g, genome_at pop 1 0 = some g ∧ ¬ genome_sorted g := by
  refine ⟨(InitializePopulationFromFile (one_file "dump".toList unsorted_dump) []
        "dump".toList example_simulation.p_chromosome).get, by decide, by decide, ?_⟩
  refine ⟨((InitializePopulationFromFile (one_file "dump".toList unsorted_dump) []
        "dump".toList example_simulation.p_chromosome).get.head!.2.parent_genomes_.head!),
        by decide, by decide⟩

/-! ## Referential integrity -/

theorem bind_ends_well {α β : Type} {P : String → Prop} {r : Outcome α} {f : α → Outcome β}
    (hr : r.ends_well P) (hf : ∀ a, (f a).ends_well P) : (Outcome.bind r f).ends_well P := by
  cases r with
  | ok a => exact hf a
  | exits m => exact hr
  | throws => exact hr
  | undefined => exact hr
  | hangs => exact hr
  | out_of_fuel => exact hr

theorem ofInt_ends_well (P : String → Prop) (v : Option Int) :
    (Outcome.ofInt v).ends_well P := by
  cases v <;> exact True.intro

theorem element_type_loop_ends_well (c : Chromosome) (fuel : Nat) (iss : IStringStream)
    (sub : CppString) (types : List MutationType) (fractions : List Double)
    (hs : iss.settled) (hfuel : iss.potential < fuel) :
    (element_type_loop c fuel iss sub types fractions).ends_well definition_error := by
  induction fuel generalizing iss sub types fractions with
  | zero => omega
  | succ fuel ih =>
    rw [element_type_loop]
    cases hf : (iss.extract sub).1.failbit with
    | true => exact True.intro
    | false =>
      have heof := extract_ok_not_eof hf
      have hs1 := extract_settled iss sub hs
      have hp1 := extract_potential iss sub hs heof
      simp only [Bool.false_eq_true, if_false]
      split
      · exact True.intro
      · split
        · exact ⟨_, Or.inr (Or.inr (Or.inl rfl))⟩
        · have hs2 := extract_settled (iss.extract sub).1 ((iss.extract sub).2.drop 1) hs1
          have hp2 := extract_potential_le (iss.extract sub).1 ((iss.extract sub).2.drop 1) hs1
          exact ih _ _ _ _ hs2 (by omega)

theorem sweep_match_ends_well {β : Type} (ptr : MutationType) (pos : Int) (line : CppString)
    (iss : IStringStream) (sub : CppString) (f : List PartialSweep × CppString → Outcome β)
    (h : iss.settled ∧ iss.potential ≤ line.length)
    (hf : ∀ t, (f t).ends_well definition_error) :
    (match partial_sweep_loop ptr pos (line.length + 1) iss sub [] with
      | none => Outcome.out_of_fuel
      | some t => f t).ends_well definition_error := by
  obtain ⟨added, sub', hloop, _⟩ := partial_sweep_loop_some ptr pos (line.length + 1) iss sub []
    h.1 (Nat.lt_succ_of_le h.2)
  rw [hloop]
  exact hf _

/-- An accepted `#MUTATION TYPES` row has three tokens. -/
theorem mutation_type_row_third_token {good : Bool} {sub line : CppString} {n n2 : Counters}
    {st : RowState} (hbody : row_body .MUTATION_TYPES good sub line n = (.done st, n2))
    (hg : st.good = true) : token_at 2 line ≠ [] := by
  have h0 := accepted_row_first_token (Or.inl rfl) hbody hg
  unfold row_body at hbody
  simp only at hbody
  have key : ((((RowState.start good sub line).eat_prefixed "m" "1234567890"
      .kEOFNotExpected).eat "1234567890.-" .kEOFNotExpected).eat "fge"
      .kEOFNotExpected).good = true := by
    split at hbody
    · simp only [Prod.mk.injEq, RowEnd.done.injEq] at hbody
      rw [← hbody.1] at hg
      exact eat_good_imp hg
    · split at hbody
      · simp only [Prod.mk.injEq, RowEnd.done.injEq] at hbody
        rw [← hbody.1] at hg
        exact eat_good_imp (eat_good_imp hg)
      · simp only [Prod.mk.injEq, RowEnd.done.injEq] at hbody
        rw [← hbody.1] at hg
        exact hg
  have key1 := eat_good_imp key
  have key0 := eat_prefixed_good_imp key1
  have g0 : (RowState.start good sub line).good = true := eat_prefixed_good_imp key0
  have a0 := start_at_token good sub h0
  have h1 := eat_prefixed_twice_token a0 "m" "" key1
  have a1 := eat_prefixed_advance a0 g0 h1 "m" "1234567890"
  exact eat_prefixed_twice_token a1 "" "" key

/-- The row of an accepted file, outside `#INITIALIZATION`, ends well in
`Initialize`. -/
theorem initialize_row_ends_well (files : CppString → Option InputFile) {s : ParameterSection}
    (sim : Simulation) (sub : CppString) {good : Bool} {sub0 line : CppString}
    {n n2 : Counters} {st : RowState} (hs : s ≠ .INITIALIZATION)
    (hbody : row_body s good sub0 line n = (.done st, n2)) (hg : st.good = true) :
    (initialize_row files s sim sub line).ends_well definition_error := by
  obtain ⟨hs0, hp0⟩ := first_extract_settled sub line
  cases s with
  | INITIALIZATION => exact absurd rfl hs
  | MUTATION_RATE => exact True.intro
  | GENE_CONVERSION => exact True.intro
  | MUTATION_TYPES =>
    have h2 := mutation_type_row_third_token hbody hg
    have h1 := token_pred_ne_nil h2
    have h0 := token_pred_ne_nil h1
    simp only [initialize_row, bind, pure, open_extract h0, extract_stream_at h1,
      extract_stream_at h2]
    refine bind_ends_well (ofInt_ends_well _ _) (fun id => ?_)
    split
    · exact ⟨id, Or.inl rfl⟩
    · split
      · rename_i heq
        exact absurd heq h2
      · obtain ⟨t, ht⟩ := read_tokens_some (line.length + 1) (stream_at line (2 + 1))
          (token_at 2 line) (stream_at_settled line 3)
          (Nat.lt_succ_of_le (stream_at_potential h0 2))
        rw [ht]
        exact True.intro
  | GENOMIC_ELEMENT_TYPES =>
    simp only [initialize_row, bind, pure]
    refine bind_ends_well (ofInt_ends_well _ _) (fun id => ?_)
    refine bind_ends_well
      (element_type_loop_ends_well _ _ _ _ _ _ hs0 (Nat.lt_succ_of_le hp0)) (fun _ => ?_)
    split
    · exact ⟨id, Or.inr (Or.inl rfl)⟩
    · exact True.intro
  | CHROMOSOME_ORGANIZATION =>
    simp only [initialize_row, bind, pure]
    refine bind_ends_well (ofInt_ends_well _ _) (fun id => ?_)
    refine bind_ends_well (ofInt_ends_well _ _) (fun _ => ?_)
    refine bind_ends_well (ofInt_ends_well _ _) (fun _ => ?_)
    split
    · exact ⟨id, Or.inr (Or.inr (Or.inr rfl))⟩
    · exact True.intro
  | RECOMBINATION_RATE =>
    simp only [initialize_row, bind, pure]
    refine bind_ends_well (ofInt_ends_well _ _) (fun _ => ?_)
    exact True.intro
  | GENERATIONS =>
    simp only [initialize_row, bind, pure]
    refine bind_ends_well (ofInt_ends_well _ _) (fun _ => ?_)
    split
    · refine bind_ends_well (ofInt_ends_well _ _) (fun _ => ?_)
      exact True.intro
    · exact True.intro
  | DEMOGRAPHY_AND_STRUCTURE =>
    have h1 := demography_row_second_token hbody hg
    have h0 := token_pred_ne_nil h1
    simp only [initialize_row, bind, pure, open_extract h0, extract_stream_at h1]
    refine bind_ends_well (ofInt_ends_well _ _) (fun _ => ?_)
    split
    · rename_i heq
      exact absurd heq h1
    · obtain ⟨t, ht⟩ := read_tokens_some (line.length + 1) (stream_at line (1 + 1))
        (token_at 1 line) (stream_at_settled line 2)
        (Nat.lt_succ_of_le (stream_at_potential h0 1))
      rw [ht]
      exact True.intro
  | OUTPUT =>
    have h1 := output_row_second_token hbody hg
    have h0 := token_pred_ne_nil h1
    simp only [initialize_row, bind, pure, open_extract h0, extract_stream_at h1]
    refine bind_ends_well (ofInt_ends_well _ _) (fun _ => ?_)
    split
    · rename_i heq
      exact absurd heq h1
    · obtain ⟨t, ht⟩ := read_tokens_some (line.length + 1) (stream_at line (1 + 1))
        (token_at 1 line) (stream_at_settled line 2)
        (Nat.lt_succ_of_le (stream_at_potential h0 1))
      rw [ht]
      exact True.intro
  | PREDETERMINED_MUTATIONS =>
    simp only [initialize_row, bind, pure]
    refine bind_ends_well (ofInt_ends_well _ _) (fun _ => ?_)
    refine bind_ends_well (ofInt_ends_well _ _) (fun id => ?_)
    refine bind_ends_well (ofInt_ends_well _ _) (fun _ => ?_)
    refine bind_ends_well (ofInt_ends_well _ _) (fun _ => ?_)
    refine bind_ends_well (ofInt_ends_well _ _) (fun _ => ?_)
    refine bind_ends_well (ofInt_ends_well _ _) (fun _ => ?_)
    split
    · exact ⟨id, Or.inr (Or.inr (Or.inl rfl))⟩
    · refine sweep_match_ends_well _ _ line _ _ _ ?_ (fun t => True.intro)
      iterate 5 apply extract_reach
      exact first_extract_settled sub line
  | SEED =>
    simp only [initialize_row, bind, pure]
    refine bind_ends_well (ofInt_ends_well _ _) (fun _ => ?_)
    exact True.intro

/-- On the lines of an accepted file without `#INITIALIZATION` rows the main loop
of `Initialize` ends well. -/
theorem initialize_lines_ends_well (files : CppString → Option InputFile)
    {current : Option ParameterSection} {good : Bool} {sub0 : CppString} {n n' : Counters}
    (sub : CppString) (sim : Simulation) {lines : List CppString}
    (hcheck : check_lines current good sub0 n lines = .accepted n')
    (hinit : ∀ r ∈ file_rows current lines, r.1 ≠ .INITIALIZATION) :
    (initialize_lines files current sub sim lines).ends_well definition_error := by
  induction lines generalizing current good sub0 n sub sim with
  | nil => cases current <;> exact True.intro
  | cons raw lines ih =>
    cases hhash : (sanitize raw).contains '#' with
    | true =>
      cases hsec : find_section (sanitize raw) with
      | none =>
        cases current <;>
          (rw [check_lines] at hcheck; simp only [hhash, if_true, hsec] at hcheck; cases hcheck)
      | some s =>
        have hrows : file_rows current (raw :: lines) = file_rows (some s) lines := by
          cases current <;> (rw [file_rows]; simp only [hhash, if_true, hsec])
        rw [hrows] at hinit
        have h' : check_lines (some s) true sub0 n lines = .accepted n' := by
          cases current <;>
            (rw [check_lines] at hcheck; simp only [hhash, if_true, hsec] at hcheck;
             exact hcheck)
        have := ih sub { sim with p_parameters := sim.p_parameters ++ s.header } h' hinit
        cases current <;> (rw [initialize_lines]; simp only [hhash, if_true, hsec]; exact this)
    | false =>
      cases current with
      | none =>
        rw [check_lines] at hcheck
        simp only [hhash, Bool.false_eq_true, if_false] at hcheck
        rw [file_rows] at hinit
        simp only [hhash, Bool.false_eq_true, if_false] at hinit
        rw [initialize_lines]
        simp only [hhash, Bool.false_eq_true, if_false]
        exact ih sub sim hcheck hinit
      | some s =>
        rw [check_lines] at hcheck
        simp only [hhash, Bool.false_eq_true, if_false] at hcheck
        rw [file_rows] at hinit
        simp only [hhash, Bool.false_eq_true, if_false] at hinit
        rw [initialize_lines]
        simp only [hhash, Bool.false_eq_true, if_false]
        by_cases hempty : sanitize raw = []
        · simp only [hempty, List.length_nil, if_true] at hcheck ⊢
          simp only [hempty, if_true] at hinit
          exact ih sub sim hcheck hinit
        · have hlen : (sanitize raw).length ≠ 0 := fun h0 => hempty (List.length_eq_zero.1 h0)
          simp only [hlen, if_false] at hcheck ⊢
          simp only [hempty, if_false] at hinit
          cases hbody : row_body s good sub0 (sanitize raw) n with
          | mk r n2 =>
            rw [hbody] at hcheck
            cases r with
            | hangs => cases hcheck
            | out_of_fuel => cases hcheck
            | done st =>
              simp only at hcheck
              cases hgood : st.good with
              | false => simp [hgood] at hcheck
              | true =>
                simp only [hgood, Bool.not_true, Bool.false_eq_true, if_false] at hcheck
                have hs : s ≠ .INITIALIZATION :=
                  hinit (s, sanitize raw) (List.mem_cons_self _ _)
                refine bind_ends_well
                  (initialize_row_ends_well files _ sub hs hbody hgood) (fun a => ?_)
                exact ih a.2 a.1 hcheck (fun r hr => hinit r (List.mem_cons_of_mem _ hr))

/-! ## The script language -/

/-- The model agrees with the assertions of `RunSLiMScriptTests` on the
comparisons. -/
theorem comparison_tests_pass :
    ∀ t ∈ comparison_tests, Expr.eval (Prod.fst t) = Prod.snd t := by decide

/-- The model agrees with the assertions of `RunSLiMScriptTests` on `+`. -/
theorem plus_tests_pass : ∀ t ∈ plus_tests, Expr.eval (Prod.fst t) = Prod.snd t := by decide

/-- The model agrees with the assertions of `RunSLiMScriptTests` on `-`. -/
theorem minus_tests_pass : ∀ t ∈ minus_tests, Expr.eval (Prod.fst t) = Prod.snd t := by decide

/-- The model agrees with the assertions of `RunSLiMScriptTests` on `seq`. -/
theorem seq_tests_pass : ∀ t ∈ seq_tests, Expr.eval (Prod.fst t) = Prod.snd t := by decide

/-- The model agrees with the assertions of `RunSLiMScriptTests` on `rev`. -/
theorem rev_tests_pass : ∀ t ∈ rev_tests, Expr.eval (Prod.fst t) = Prod.snd t := by decide

theorem broadcast_singleton_right {α β γ : Type} (f : α → β → γ) (a : List α) (y : β) :
    broadcast f a [y] = some (a.map (fun x => f x y)) := by
  unfold broadcast
  by_cases h : a.length = [y].length
  · rw [if_pos h]
    cases a with
    | nil => cases h
    | cons x r =>
      cases r with
      | nil => rfl
      | cons _ _ => simp at h
  · rw [if_neg h]
    cases a with
    | nil => rfl
    | cons x r =>
      cases r with
      | nil => exact absurd rfl h
      | cons _ _ => rfl

theorem broadcast_singleton_left {α β γ : Type} (f : α → β → γ) (x : α) (b : List β) :
    broadcast f [x] b = some (b.map (f x)) := by
  unfold broadcast
  by_cases h : [x].length = b.length
  · rw [if_pos h]
    cases b with
    | nil => cases h
    | cons y r =>
      cases r with
      | nil => rfl
      | cons _ _ => simp at h
  · rw [if_neg h]
    cases b with
    | nil => rfl
    | cons y r => cases r <;> rfl

theorem broadcast_equal_length {α β γ : Type} (f : α → β → γ) (a : List α) (b : List β)
    (h : a.length = b.length) : broadcast f a b = some (List.zipWith f a b) := by
  unfold broadcast
  rw [if_pos h]

theorem broadcast_none {α β γ : Type} (f : α → β → γ) (a : List α) (b : List β)
    (h : ¬ compatible a.length b.length) : broadcast f a b = none := by
  unfold compatible at h
  unfold broadcast
  have h1 : ¬ a.length = b.length := fun e => h (Or.inl e)
  rw [if_neg h1]
  cases a with
  | nil =>
    cases b with
    | nil => exact absurd rfl h1
    | cons y r =>
      cases r with
      | nil => exact absurd (Or.inr (Or.inr rfl)) h
      | cons _ _ => rfl
  | cons x r =>
    cases r with
    | nil => exact absurd (Or.inr (Or.inl rfl)) h
    | cons x2 r2 =>
      cases b with
      | nil => rfl
      | cons y r =>
        cases r with
        | nil => exact absurd (Or.inr (Or.inr rfl)) h
        | cons _ _ => rfl

theorem broadcast_length {α β γ : Type} (f : α → β → γ) (a : List α) (b : List β)
    (l : List γ) (h : broadcast f a b = some l) :
    compatible a.length b.length ∧ (a.length = b.length → l.length = a.length) ∧
      (a.length = 1 → l.length = b.length) ∧ (b.length = 1 → l.length = a.length) := by
  by_cases hc : compatible a.length b.length
  · refine ⟨hc, fun he => ?_, fun he => ?_, fun he => ?_⟩
    · rw [broadcast_equal_length f a b he] at h
      simp only [Option.some.injEq] at h
      rw [← h, List.length_zipWith, he]
      simp
    · obtain ⟨x, hx⟩ := List.length_eq_one.1 he
      rw [hx, broadcast_singleton_left] at h
      simp only [Option.some.injEq] at h
      rw [← h, List.length_map]
    · obtain ⟨y, hy⟩ := List.length_eq_one.1 he
      rw [hy, broadcast_singleton_right] at h
      simp only [Option.some.injEq] at h
      rw [← h, List.length_map]
  · rw [broadcast_none f a b hc] at h
    cases h

/-- C26. Vector-to-singleton comparison broadcasts.  For every integer vector `v`,
integer `s` and operator among `==`, `!=`, `<`, `<=`, `>`, `>=`, the value of
`v op s` is the logical vector of the length of `v` whose `i`-th element is
`v[i] op s`, and the value of `s op v` is the one whose `i`-th element is `s op
v[i]`; so `rep(1:3, 2) == 2` is F T F F T F and `2 > rep(1:3, 2)` is
T F F T F F. -/
theorem comparison_broadcasts (op : Comparison) (v : List Int) (s : Int) :
    compare_values op (.int v) (.int [s]) = some (.logical (v.map (fun x => op.test x s))) ∧
    compare_values op (.int [s]) (.int v) = some (.logical (v.map (fun x => op.test s x))) ∧
    (ScriptValue.logical (v.map (fun x => op.test x s))).Count = v.length ∧
    (ScriptValue.logical (v.map (fun x => op.test s x))).Count = v.length ∧
    (∀ (i : Nat) (x : Int), v[i]? = some x →
      (v.map (fun x => op.test x s))[i]? = some (op.test x s) ∧
      (v.map (fun x => op.test s x))[i]? = some (op.test s x)) ∧
    (∀ a b : Int,
      (Comparison.eq.test a b = true ↔ a = b) ∧ (Comparison.ne.test a b = true ↔ a ≠ b) ∧
      (Comparison.lt.test a b = true ↔ a < b) ∧ (Comparison.le.test a b = true ↔ a ≤ b) ∧
      (Comparison.gt.test a b = true ↔ a > b) ∧ (Comparison.ge.test a b = true ↔ a ≥ b)) ∧
    Expr.eval (.cmp .eq rep_1_3_2 (.i 2)) =
      some (.logical [false, true, false, false, true, false]) ∧
    Expr.eval (.cmp .gt (.i 2) rep_1_3_2) =
      some (.logical [true, false, false, true, false, false]) := by
  refine ⟨?_, ?_, ?_, ?_, ?_, ?_, by decide, by decide⟩
  · simp [compare_values, ScriptValue.rank, ScriptValue.ints, broadcast_singleton_right]
  · simp [compare_values, ScriptValue.rank, ScriptValue.ints, broadcast_singleton_left]
  · simp [ScriptValue.Count]
  · simp [ScriptValue.Count]
  · intro i x hx
    simp [List.getElem?_map, hx]
  · intro a b
    simp [Comparison.test]

/-- C30. The function `rev` reverses and is an involution.  For every logical,
integer, float or string vector, `rev` gives a vector of the same type and
length whose `i`-th element is the element `size - 1 - i` of the argument, and
`rev(rev(v))` is `v`; so `rev(6:10)` is 10 9 8 7 6 and `rev(c("a", "b", "c"))`
is c b a. -/
theorem rev_is_involution (x : ScriptValue) :
    rev (rev x) = x ∧ (rev x).rank = x.rank ∧ (rev x).Count = x.Count ∧
    (∀ v : List Bool, rev (.logical v) = .logical v.reverse) ∧
    (∀ v : List Int, rev (.int v) = .int v.reverse) ∧
    (∀ v : List Decimal, rev (.float v) = .float v.reverse) ∧
    (∀ v : List CppString, rev (.string v) = .string v.reverse) ∧
    (∀ (α : Type) (v : List α) (i : Nat), i < v.length →
      v.reverse[i]? = v[v.length - 1 - i]?) ∧
    Expr.eval (.call_rev (.range (.i 6) (.i 10))) = some (.int [10, 9, 8, 7, 6]) ∧
    Expr.eval (.call_rev (.call_c (.call_c (.s "a") (.s "b")) (.s "c"))) =
      some (.string ["c".toList, "b".toList, "a".toList]) := by
  refine ⟨?_, ?_, ?_, fun _ => rfl, fun _ => rfl, fun _ => rfl, fun _ => rfl, ?_,
    by decide, by decide⟩
  · cases x <;> simp [rev]
  · cases x <;> rfl
  · cases x <;> simp [rev, ScriptValue.Count]
  · intro α v i hi
    exact List.getElem?_reverse hi

theorem texts_length (x : ScriptValue) : x.texts.length = x.Count := by
  cases x <;> simp [ScriptValue.texts, ScriptValue.Count]

theorem floats_length (x : ScriptValue) (h0 : x.rank ≠ 0) (h4 : x.rank ≠ 4) :
    x.floats.length = x.Count := by
  cases x <;>
    simp [ScriptValue.floats, ScriptValue.ints, ScriptValue.Count, ScriptValue.rank] at h0 h4 ⊢

theorem ints_length (x : ScriptValue) (h : x.rank = 1 ∨ x.rank = 2) :
    x.ints.length = x.Count := by
  cases x <;> simp [ScriptValue.ints, ScriptValue.Count, ScriptValue.rank] at h ⊢

/-- Operands of unequal lengths, both greater than 1, make `+` raise. -/
theorem plus_raises (x y : ScriptValue) (hx : 1 < x.Count) (hy : 1 < y.Count)
    (hne : x.Count ≠ y.Count) : plus x y = none := by
  have hc : ¬ compatible x.Count y.Count := by
    unfold compatible
    omega
  unfold plus
  split
  · rw [broadcast_none _ _ _ (by rw [texts_length, texts_length]; exact hc)]
    rfl
  · rename_i h4
    have hx4 : x.rank ≠ 4 := fun h => h4 (Or.inl h)
    have hy4 : y.rank ≠ 4 := fun h => h4 (Or.inr h)
    have hx0 : x.rank ≠ 0 := by
      cases x <;> simp [ScriptValue.rank, ScriptValue.Count] at hx ⊢
    have hy0 : y.rank ≠ 0 := by
      cases y <;> simp [ScriptValue.rank, ScriptValue.Count] at hy ⊢
    unfold arithmetic
    rw [if_neg h4, if_neg (by simp [hx0, hy0])]
    split
    · rfl
    · split
      · rw [broadcast_none _ _ _ (by
          rw [floats_length x hx0 hx4, floats_length y hy0 hy4]; exact hc)]
        rfl
      · rename_i h3
        have hxr : x.rank = 1 ∨ x.rank = 2 := by
          cases x <;> simp [ScriptValue.rank] at hx0 hx4 h3 ⊢
        have hyr : y.rank = 1 ∨ y.rank = 2 := by
          cases y <;> simp [ScriptValue.rank] at hy0 hy4 h3 ⊢
        rw [broadcast_none _ _ _ (by rw [ints_length x hxr, ints_length y hyr]; exact hc)]
        rfl

/-- C27. Type promotion of binary `+`.  Integer + integer is the integer vector of
the sums; integer + float, in either order, is the float vector of the sums;
any operand + string, in either order, is the string vector of the
concatenations of the printed forms, in the order of the operands.  The
operation goes element by element on operands of equal length, and on each
element of one operand and the single element of the other; operands of
unequal lengths, both greater than 1, raise. -/
theorem plus_type_promotion :
    (∀ a b : List Int,
      plus (.int a) (.int b) = (broadcast (fun x y => x + y) a b).map .int) ∧
    (∀ (a : List Int) (b : List Decimal),
      plus (.int a) (.float b) = (broadcast Decimal.add (a.map Decimal.ofInt) b).map .float ∧
      plus (.float b) (.int a) = (broadcast Decimal.add b (a.map Decimal.ofInt)).map .float) ∧
    (∀ (x : ScriptValue) (s : List CppString),
      plus x (.string s) = (broadcast (fun u v => u ++ v) x.texts s).map .string ∧
      plus (.string s) x = (broadcast (fun u v => u ++ v) s x.texts).map .string) ∧
    (∀ (α β γ : Type) (f : α → β → γ) (a : List α) (b : List β),
      (a.length = b.length → broadcast f a b = some (List.zipWith f a b)) ∧
      (∀ x, a = [x] → broadcast f a b = some (b.map (f x))) ∧
      (∀ y, b = [y] → broadcast f a b = some (a.map (fun x => f x y))) ∧
      (¬ compatible a.length b.length → broadcast f a b = none)) ∧
    (∀ x y : ScriptValue, 1 < x.Count → 1 < y.Count → x.Count ≠ y.Count → plus x y = none) ∧
    ((∀ i : Int, float_text (Decimal.ofInt i) = int_text i) ∧
      float_text ⟨51, 1⟩ = "5.1".toList ∧ int_text 5 = "5".toList ∧
      logical_text true = "T".toList) ∧
    Expr.eval (.add (.s "foo") (.range (.i 1) (.i 3))) =
      some (.string ["foo1".toList, "foo2".toList, "foo3".toList]) ∧
    Expr.eval (.add (.f 5 0) (.s "foo")) = some (.string ["5foo".toList]) := by
  refine ⟨fun a b => ?_, fun a b => ⟨?_, ?_⟩, fun x s => ⟨?_, ?_⟩, ?_, plus_raises,
    ⟨fun i => rfl, by decide, by decide, by decide⟩, by decide, by decide⟩
  · simp [plus, arithmetic, ScriptValue.rank, ScriptValue.ints]
  · simp [plus, arithmetic, ScriptValue.rank, ScriptValue.ints, ScriptValue.floats]
  · simp [plus, arithmetic, ScriptValue.rank, ScriptValue.ints, ScriptValue.floats]
  · simp [plus, ScriptValue.rank, ScriptValue.texts]
  · simp [plus, ScriptValue.rank, ScriptValue.texts]
  · intro α β γ f a b
    refine ⟨broadcast_equal_length f a b, ?_, ?_, broadcast_none f a b⟩
    · intro x hx
      rw [hx, broadcast_singleton_left]
    · intro y hy
      rw [hy, broadcast_singleton_right]

theorem broadcast_comm {α γ : Type} (f : α → α → γ) (hf : ∀ x y, f x y = f y x)
    (a b : List α) : broadcast f a b = broadcast f b a := by
  by_cases hc : compatible a.length b.length
  · rcases hc with he | he | he
    · rw [broadcast_equal_length f a b he, broadcast_equal_length f b a he.symm,
        List.zipWith_comm_of_comm f hf]
    · obtain ⟨x, hx⟩ := List.length_eq_one.1 he
      rw [hx, broadcast_singleton_left, broadcast_singleton_right]
      simp only [hf]
    · obtain ⟨y, hy⟩ := List.length_eq_one.1 he
      rw [hy, broadcast_singleton_left, broadcast_singleton_right]
      simp only [hf]
  · have hc' : ¬ compatible b.length a.length := by
      unfold compatible at hc ⊢
      omega
    rw [broadcast_none f a b hc, broadcast_none f b a hc']

theorem Decimal.add_comm (a b : Decimal) : Decimal.add a b = Decimal.add b a := by
  unfold Decimal.add
  rw [max_comm a.places b.places, Int.add_comm]

theorem arithmetic_comm (fi : Int → Int → Int) (ff : Decimal → Decimal → Decimal)
    (hfi : ∀ x y, fi x y = fi y x) (hff : ∀ x y, ff x y = ff y x) (a b : ScriptValue) :
    arithmetic fi ff a b = arithmetic fi ff b a := by
  have hcomp : compatible a.Count b.Count ↔ compatible b.Count a.Count := by
    unfold compatible
    omega
  unfold arithmetic
  rw [broadcast_comm ff hff a.floats b.floats, broadcast_comm fi hfi a.ints b.ints]
  simp only [or_comm (a := a.rank = 4), or_comm (a := a.rank = 0), or_comm (a := a.rank = 1),
    or_comm (a := a.rank = 3), and_comm (a := a.rank = 1), hcomp]

/-- C28, as amended.  Broadcast addition commutes on operands that are not
strings: for all values `v` and `s` of type logical, integer or float (or
`NULL`), `v + s` and `s + v` are equal: both raise or both give the same
value.  On strings `+` concatenates in the order of the operands. -/
theorem numeric_addition_commutes (v s : ScriptValue) (hv : v.rank ≠ 4) (hs : s.rank ≠ 4) :
    plus v s = plus s v := by
  unfold plus
  rw [if_neg (by simp [hv, hs]), if_neg (by simp [hv, hs])]
  exact arithmetic_comm _ _ Int.add_comm Decimal.add_comm v s

theorem numeric_addition_commutes_witness :
    plus (.int [0, 1, 2]) (.float [⟨105, 1⟩]) = plus (.float [⟨105, 1⟩]) (.int [0, 1, 2]) ∧
      plus (.int [0, 1, 2]) (.float [⟨105, 1⟩]) =
        some (.float [⟨105, 1⟩, ⟨115, 1⟩, ⟨125, 1⟩]) :=
  ⟨numeric_addition_commutes (.int [0, 1, 2]) (.float [⟨105, 1⟩]) (by decide) (by decide),
    by decide⟩

/-- C28, counterexample.  For the non-empty vector `c("bar", "baz")` and the scalar
`"foo"`, `v + s` is `barfoo`, `bazfoo` and `s + v` is `foobar`, `foobaz`, as
the tests of lines 196 and 197 expect. -/
theorem string_addition_not_commutative :
    plus (.string ["bar".toList, "baz".toList]) (.string ["foo".toList]) =
      some (.string ["barfoo".toList, "bazfoo".toList]) ∧
    plus (.string ["foo".toList]) (.string ["bar".toList, "baz".toList]) =
      some (.string ["foobar".toList, "foobaz".toList]) ∧
    plus (.string ["bar".toList, "baz".toList]) (.string ["foo".toList]) ≠
      plus (.string ["foo".toList]) (.string ["bar".toList, "baz".toList]) ∧
    Expr.eval bar_baz = some (.string ["bar".toList, "baz".toList]) ∧
    (Expr.add bar_baz (.s "foo"), expect_string ["barfoo", "bazfoo"]) ∈ plus_tests ∧
    (Expr.add (.s "foo") bar_baz, expect_string ["foobar", "foobaz"]) ∈ plus_tests := by
  refine ⟨by decide, by decide, by decide, by decide, ?_, ?_⟩
  · simp [plus_tests]
  · simp [plus_tests]

/-! ### The function `seq` -/

theorem progression_length (f t b : Int) :
    (progression f t b).length = (t - f).natAbs / b.natAbs + 1 := by
  unfold progression
  rw [List.length_map, List.length_range]

theorem progression_getElem (f t b : Int) (k : Nat) (hk : k ≤ (t - f).natAbs / b.natAbs) :
    (progression f t b)[k]? = some (f + (k : Int) * b) := by
  unfold progression
  rw [List.getElem?_map, List.getElem?_range (by omega)]
  rfl

/-- The last term of a progression is not beyond `t`, and the next one would
be. -/
theorem progression_bounds (f t b : Int)
    (hsign : (0 < t - f ∧ 0 < b) ∨ (t - f < 0 ∧ b < 0)) :
    (0 < b → f + ((t - f).natAbs / b.natAbs : Nat) * b ≤ t ∧
      t < f + (((t - f).natAbs / b.natAbs : Nat) + 1) * b) ∧
    (b < 0 → t ≤ f + ((t - f).natAbs / b.natAbs : Nat) * b ∧
      f + (((t - f).natAbs / b.natAbs : Nat) + 1) * b < t) := by
  have hB : 0 < b.natAbs := by
    rcases hsign with h | h <;> omega
  have h1 : (t - f).natAbs / b.natAbs * b.natAbs ≤ (t - f).natAbs := Nat.div_mul_le_self _ _
  have h2 : (t - f).natAbs < b.natAbs * ((t - f).natAbs / b.natAbs + 1) :=
    Nat.lt_mul_div_succ _ hB
  have h1' : (((t - f).natAbs / b.natAbs : Nat) : Int) * (b.natAbs : Int) ≤
      ((t - f).natAbs : Int) := by exact_mod_cast h1
  have h2' : ((t - f).natAbs : Int) <
      (b.natAbs : Int) * ((((t - f).natAbs / b.natAbs : Nat) : Int) + 1) := by
    exact_mod_cast h2
  generalize (((t - f).natAbs / b.natAbs : Nat) : Int) = n at h1' h2'
  constructor
  · intro hb
    have hd : 0 < t - f := by rcases hsign with h | h <;> omega
    have e1 : (b.natAbs : Int) = b := Int.natAbs_of_nonneg (le_of_lt hb)
    have e2 : ((t - f).natAbs : Int) = t - f := Int.natAbs_of_nonneg (le_of_lt hd)
    rw [e1, e2] at h1' h2'
    constructor
    · linarith
    · have : b * (n + 1) = (n + 1) * b := Int.mul_comm _ _
      linarith
  · intro hb
    have hd : t - f < 0 := by rcases hsign with h | h <;> omega
    have e1 : (b.natAbs : Int) = -b := by omega
    have e2 : ((t - f).natAbs : Int) = -(t - f) := by omega
    rw [e1, e2] at h1' h2'
    constructor
    · have : n * -b = -(n * b) := by ring
      linarith
    · have : -b * (n + 1) = -((n + 1) * b) := by ring
      linarith

theorem seq_terms_none_iff (f t b : Int) :
    seq_terms f t b = none ↔ f ≠ t ∧ (b = 0 ∨ (0 < t - f ∧ b < 0) ∨ (t - f < 0 ∧ 0 < b)) := by
  unfold seq_terms
  by_cases h1 : f = t
  · rw [if_pos h1]
    exact ⟨fun h => (by cases h), fun h => absurd h1 h.1⟩
  · rw [if_neg h1]
    by_cases h2 : b = 0
    · rw [if_pos h2]
      exact ⟨fun _ => ⟨h1, Or.inl h2⟩, fun _ => rfl⟩
    · rw [if_neg h2]
      by_cases h3 : (0 < t - f ∧ b < 0) ∨ (t - f < 0 ∧ 0 < b)
      · rw [if_pos h3]
        exact ⟨fun _ => ⟨h1, Or.inr h3⟩, fun _ => rfl⟩
      · rw [if_neg h3]
        refine ⟨fun h => (by cases h), fun h => ?_⟩
        rcases h.2 with h | h
        · exact absurd h h2
        · exact absurd h h3

theorem seq_terms_some (f t b : Int) (h1 : f ≠ t) (h2 : b ≠ 0)
    (h3 : ¬ ((0 < t - f ∧ b < 0) ∨ (t - f < 0 ∧ 0 < b))) :
    seq_terms f t b = some (progression f t b) := by
  unfold seq_terms
  rw [if_neg h1, if_neg h2, if_neg h3]

theorem seq_terms_same (f b : Int) : seq_terms f f b = some [f] := by
  unfold seq_terms
  rw [if_pos rfl]

theorem strip_value (p : Nat) (u : Int) :
    (Decimal.strip p u).value = (u : ℚ) / (10 : ℚ) ^ p := by
  induction p generalizing u with
  | zero => simp [Decimal.strip, Decimal.value]
  | succ p ih =>
    rw [Decimal.strip]
    split
    · rename_i h
      rw [ih]
      have hu : u = 10 * (u / 10) := by omega
      have : (u : ℚ) = 10 * ((u / 10 : Int) : ℚ) := by exact_mod_cast hu
      rw [this, pow_succ]
      field_simp
      ring
    · rfl

theorem scaled_value (d : Decimal) (p : Nat) (h : d.places ≤ p) :
    ((d.scaled p : Int) : ℚ) / (10 : ℚ) ^ p = d.value := by
  unfold Decimal.scaled Decimal.value
  have hp : p = (p - d.places) + d.places := by omega
  push_cast
  conv_lhs => rw [hp, pow_add]
  have h10 : (10 : ℚ) ^ (p - d.places + d.places - d.places) = (10 : ℚ) ^ (p - d.places) := by
    congr 1
    omega
  rw [h10]
  field_simp
  ring

theorem strip_zero (u : Int) : Decimal.strip 0 u = Decimal.ofInt u := rfl

theorem ofInt_value (i : Int) : (Decimal.ofInt i).value = (i : ℚ) := by
  simp [Decimal.ofInt, Decimal.value]

theorem ofInt_scaled_zero (i : Int) : (Decimal.ofInt i).scaled 0 = i := by
  simp [Decimal.ofInt, Decimal.scaled]

/-- The call `seq(a, b, c)` on three numbers, in terms of their numerators over a
common power of ten: the type of the result is integer when the three
arguments are integers and float otherwise. -/
theorem seq3_numbers (a b c : ScriptValue) (f t s : Decimal)
    (ha : a.number = some f) (hb : b.number = some t) (hc : c.number = some s) :
    ∃ (p : Nat) (wrap : List Int → ScriptValue),
      f.places ≤ p ∧ t.places ≤ p ∧ s.places ≤ p ∧
      seq3 a b c = (seq_terms (f.scaled p) (t.scaled p) (s.scaled p)).map wrap ∧
      (∀ l, (wrap l).floats = l.map (Decimal.strip p)) ∧
      (∀ l, (wrap l).Count = l.length) ∧
      (∀ l, ((wrap l).rank = 2 ↔ a.rank = 2 ∧ b.rank = 2 ∧ c.rank = 2) ∧
        ((wrap l).rank = 3 ↔ ¬ (a.rank = 2 ∧ b.rank = 2 ∧ c.rank = 2))) := by
  have hnum : ∀ (x : ScriptValue) (d : Decimal), x.number = some d →
      (∃ i, x = .int [i] ∧ d = Decimal.ofInt i) ∨ x = .float [d] := by
    intro x d hx
    cases x with
    | null => cases hx
    | logical v => cases hx
    | string v => cases hx
    | int v =>
      cases v with
      | nil => cases hx
      | cons i r =>
        cases r with
        | nil =>
          simp only [ScriptValue.number, Option.some.injEq] at hx
          exact Or.inl ⟨i, rfl, hx.symm⟩
        | cons _ _ => cases hx
    | float v =>
      cases v with
      | nil => cases hx
      | cons i r =>
        cases r with
        | nil =>
          simp only [ScriptValue.number, Option.some.injEq] at hx
          rw [hx]
          exact Or.inr rfl
        | cons _ _ => cases hx
  have hfloat : ∀ p : Nat, f.places ≤ p → t.places ≤ p → s.places ≤ p →
      p = max (max f.places t.places) s.places →
      seq3 a b c = (seq_terms (f.scaled p) (t.scaled p) (s.scaled p)).map
        (fun l => .float (l.map (Decimal.strip p))) →
      ¬ (a.rank = 2 ∧ b.rank = 2 ∧ c.rank = 2) →
      ∃ (p : Nat) (wrap : List Int → ScriptValue),
        f.places ≤ p ∧ t.places ≤ p ∧ s.places ≤ p ∧
        seq3 a b c = (seq_terms (f.scaled p) (t.scaled p) (s.scaled p)).map wrap ∧
        (∀ l, (wrap l).floats = l.map (Decimal.strip p)) ∧
        (∀ l, (wrap l).Count = l.length) ∧
        (∀ l, ((wrap l).rank = 2 ↔ a.rank = 2 ∧ b.rank = 2 ∧ c.rank = 2) ∧
          ((wrap l).rank = 3 ↔ ¬ (a.rank = 2 ∧ b.rank = 2 ∧ c.rank = 2))) := by
    intro p h1 h2 h3 _ heq hr
    refine ⟨p, _, h1, h2, h3, heq, fun l => rfl, fun l => ?_, fun l => ⟨?_, ?_⟩⟩
    · simp [ScriptValue.Count]
    · exact ⟨fun h => (by cases h), fun h => absurd h hr⟩
    · exact ⟨fun _ => hr, fun _ => rfl⟩
  have hp1 : f.places ≤ max (max f.places t.places) s.places := by omega
  have hp2 : t.places ≤ max (max f.places t.places) s.places := by omega
  have hp3 : s.places ≤ max (max f.places t.places) s.places := by omega
  rcases hnum a f ha with ⟨i, rfl, rfl⟩ | rfl
  · rcases hnum b t hb with ⟨j, rfl, rfl⟩ | rfl
    · rcases hnum c s hc with ⟨k, rfl, rfl⟩ | rfl
      · refine ⟨0, .int, le_refl _, le_refl _, le_refl _, ?_, fun l => ?_, fun l => ?_,
          fun l => ⟨?_, ?_⟩⟩
        · simp only [seq3, ofInt_scaled_zero]
        · simp [ScriptValue.floats, ScriptValue.ints, Decimal.strip, Decimal.ofInt]
        · simp [ScriptValue.Count]
        · simp [ScriptValue.rank]
        · simp [ScriptValue.rank]
      · exact hfloat _ hp1 hp2 hp3 rfl (by simp [seq3, ScriptValue.number])
          (by simp [ScriptValue.rank])
    · rcases hnum c s hc with ⟨k, rfl, rfl⟩ | rfl
      · exact hfloat _ hp1 hp2 hp3 rfl (by simp [seq3, ScriptValue.number])
          (by simp [ScriptValue.rank])
      · exact hfloat _ hp1 hp2 hp3 rfl (by simp [seq3, ScriptValue.number])
          (by simp [ScriptValue.rank])
  · rcases hnum b t hb with ⟨j, rfl, rfl⟩ | rfl
    · rcases hnum c s hc with ⟨k, rfl, rfl⟩ | rfl
      · exact hfloat _ hp1 hp2 hp3 rfl (by simp [seq3, ScriptValue.number])
          (by simp [ScriptValue.rank])
      · exact hfloat _ hp1 hp2 hp3 rfl (by simp [seq3, ScriptValue.number])
          (by simp [ScriptValue.rank])
    · rcases hnum c s hc with ⟨k, rfl, rfl⟩ | rfl
      · exact hfloat _ hp1 hp2 hp3 rfl (by simp [seq3, ScriptValue.number])
          (by simp [ScriptValue.rank])
      · exact hfloat _ hp1 hp2 hp3 rfl (by simp [seq3, ScriptValue.number])
          (by simp [ScriptValue.rank])

/-- The call `seq(a, b, c)` on three numbers `f`, `t`, `s`, in terms of the values
of the numbers. -/
theorem seq3_values (a b c : ScriptValue) (f t s : Decimal)
    (ha : a.number = some f) (hb : b.number = some t) (hc : c.number = some s) :
    (seq3 a b c = none ↔ f.value ≠ t.value ∧
      (s.value = 0 ∨ (0 < t.value - f.value ∧ s.value < 0) ∨
        (t.value - f.value < 0 ∧ 0 < s.value))) ∧
    ∀ r, seq3 a b c = some r →
      ((r.rank = 2 ↔ a.rank = 2 ∧ b.rank = 2 ∧ c.rank = 2) ∧
        (r.rank = 3 ↔ ¬ (a.rank = 2 ∧ b.rank = 2 ∧ c.rank = 2))) ∧
      ∃ n : Nat, r.Count = n + 1 ∧
        (∀ k : Nat, k ≤ n → ∃ d, r.floats[k]? = some d ∧ d.value = f.value + k * s.value) ∧
        (f.value = t.value → n = 0) ∧
        (f.value ≠ t.value →
          (0 < s.value → f.value + n * s.value ≤ t.value ∧
            t.value < f.value + (n + 1) * s.value) ∧
          (s.value < 0 → t.value ≤ f.value + n * s.value ∧
            f.value + (n + 1) * s.value < t.value)) := by
  obtain ⟨p, wrap, h1, h2, h3, heq, hfl, hcount, hrank⟩ := seq3_numbers a b c f t s ha hb hc
  have hpos : (0 : ℚ) < (10 : ℚ) ^ p := by positivity
  have vf := scaled_value f p h1
  have vt := scaled_value t p h2
  have vs := scaled_value s p h3
  generalize f.scaled p = F at heq vf
  generalize t.scaled p = T at heq vt
  generalize s.scaled p = S at heq vs
  have hlt : ∀ x y : Int, x < y ↔ (x : ℚ) / (10 : ℚ) ^ p < (y : ℚ) / (10 : ℚ) ^ p := by
    intro x y
    rw [div_lt_div_iff_of_pos_right hpos]
    exact Int.cast_lt.symm
  have heqv : ∀ x y : Int, x = y ↔ (x : ℚ) / (10 : ℚ) ^ p = (y : ℚ) / (10 : ℚ) ^ p := by
    intro x y
    rw [div_left_inj' (ne_of_gt hpos)]
    exact Int.cast_inj.symm
  have hFT : F = T ↔ f.value = t.value := by rw [heqv, vf, vt]
  have hS0 : S = 0 ↔ s.value = 0 := by
    rw [heqv S 0, vs]
    simp
  have hSpos : 0 < S ↔ 0 < s.value := by
    rw [hlt 0 S, vs]
    simp
  have hSneg : S < 0 ↔ s.value < 0 := by
    rw [hlt S 0, vs]
    simp
  have hdiff : ((T - F : Int) : ℚ) / (10 : ℚ) ^ p = t.value - f.value := by
    rw [← vt, ← vf]
    push_cast
    ring
  have hDpos : 0 < T - F ↔ 0 < t.value - f.value := by
    rw [hlt 0 (T - F), hdiff]
    simp
  have hDneg : T - F < 0 ↔ t.value - f.value < 0 := by
    rw [hlt (T - F) 0, hdiff]
    simp
  have hterm : ∀ k : Nat, (Decimal.strip p (F + (k : Int) * S)).value =
      f.value + k * s.value := by
    intro k
    rw [strip_value, ← vf, ← vs]
    push_cast
    ring
  constructor
  · rw [heq, Option.map_eq_none', seq_terms_none_iff, hS0, hDpos, hDneg, hSpos, hSneg,
      Ne, hFT]
  · intro r hr
    rw [heq] at hr
    cases hl : seq_terms F T S with
    | none => rw [hl] at hr; cases hr
    | some l =>
      rw [hl] at hr
      simp only [Option.map_some', Option.some.injEq] at hr
      rw [← hr]
      refine ⟨hrank l, ?_⟩
      by_cases hsame : F = T
      · rw [hsame, seq_terms_same] at hl
        simp only [Option.some.injEq] at hl
        refine ⟨0, by rw [hcount, ← hl]; rfl, ?_, fun _ => rfl,
          fun hne => absurd (hFT.1 hsame) hne⟩
        intro k hk
        have hk0 : k = 0 := by omega
        subst hk0
        refine ⟨Decimal.strip p T, by rw [hfl, ← hl]; rfl, ?_⟩
        have := hterm 0
        simp only [Nat.cast_zero, Int.Nat.cast_ofNat_Int, zero_mul, add_zero] at this
        rw [← hsame]
        simpa using this
      · have hnn : seq_terms F T S ≠ none := by rw [hl]; exact fun h => (by cases h)
        have hcond := (not_congr (seq_terms_none_iff F T S)).1 hnn
        have hS : S ≠ 0 := fun h => hcond ⟨hsame, Or.inl h⟩
        have hsg : ¬ ((0 < T - F ∧ S < 0) ∨ (T - F < 0 ∧ 0 < S)) :=
          fun h => hcond ⟨hsame, Or.inr h⟩
        rw [seq_terms_some F T S hsame hS hsg] at hl
        simp only [Option.some.injEq] at hl
        have hsign : (0 < T - F ∧ 0 < S) ∨ (T - F < 0 ∧ S < 0) := by
          have : T - F ≠ 0 := fun h => hsame (by omega)
          omega
        have hb := progression_bounds F T S hsign
        refine ⟨(T - F).natAbs / S.natAbs, by rw [hcount, ← hl, progression_length], ?_,
          fun he => absurd (hFT.2 he) hsame, fun _ => ⟨fun hs => ?_, fun hs => ?_⟩⟩
        · intro k hk
          refine ⟨Decimal.strip p (F + (k : Int) * S), ?_, hterm k⟩
          rw [hfl, ← hl, List.getElem?_map, progression_getElem F T S k hk]
          rfl
        · have hb1 := hb.1 (hSpos.2 hs)
          generalize (T - F).natAbs / S.natAbs = n at hb1
          have e1 : ((F + (n : Int) * S : Int) : ℚ) / (10 : ℚ) ^ p ≤ (T : ℚ) / (10 : ℚ) ^ p := by
            rw [div_le_div_iff_of_pos_right hpos]
            exact_mod_cast hb1.1
          have e2 : (T : ℚ) / (10 : ℚ) ^ p <
              ((F + ((n : Int) + 1) * S : Int) : ℚ) / (10 : ℚ) ^ p := by
            rw [div_lt_div_iff_of_pos_right hpos]
            exact_mod_cast hb1.2
          rw [vt] at e1 e2
          constructor
          · have : ((F + (n : Int) * S : Int) : ℚ) / (10 : ℚ) ^ p = f.value + n * s.value := by
              rw [← vf, ← vs]
              push_cast
              ring
            rw [← this]
            exact e1
          · have : ((F + ((n : Int) + 1) * S : Int) : ℚ) / (10 : ℚ) ^ p =
                f.value + (n + 1) * s.value := by
              rw [← vf, ← vs]
              push_cast
              ring
            rw [← this]
            exact e2
        · have hb1 := hb.2 (hSneg.2 hs)
          generalize (T - F).natAbs / S.natAbs = n at hb1
          have e1 : (T : ℚ) / (10 : ℚ) ^ p ≤ ((F + (n : Int) * S : Int) : ℚ) / (10 : ℚ) ^ p := by
            rw [div_le_div_iff_of_pos_right hpos]
            exact_mod_cast hb1.1
          have e2 : ((F + ((n : Int) + 1) * S : Int) : ℚ) / (10 : ℚ) ^ p <
              (T : ℚ) / (10 : ℚ) ^ p := by
            rw [div_lt_div_iff_of_pos_right hpos]
            exact_mod_cast hb1.2
          rw [vt] at e1 e2
          constructor
          · have : ((F + (n : Int) * S : Int) : ℚ) / (10 : ℚ) ^ p = f.value + n * s.value := by
              rw [← vf, ← vs]
              push_cast
              ring
            rw [← this]
            exact e1
          · have : ((F + ((n : Int) + 1) * S : Int) : ℚ) / (10 : ℚ) ^ p =
                f.value + (n + 1) * s.value := by
              rw [← vf, ← vs]
              push_cast
              ring
            rw [← this]
            exact e2

theorem strip_scaled_int (p : Nat) (a : Int) :
    Decimal.strip p (a * 10 ^ p) = Decimal.ofInt a := by
  induction p with
  | zero => simp [Decimal.strip, Decimal.ofInt]
  | succ p ih =>
    rw [Decimal.strip]
    have h1 : a * 10 ^ (p + 1) = (a * 10 ^ p) * 10 := by
      rw [pow_succ, Int.mul_assoc]
    rw [h1, if_pos (Int.mul_emod_left _ _), Int.mul_ediv_cancel _ (by decide), ih]

theorem number_none_of_rank (x : ScriptValue) (h : x.rank = 1 ∨ x.rank = 4 ∨ x.rank = 0) :
    x.number = none := by
  cases x <;> simp [ScriptValue.rank] at h <;> rfl

theorem seq3_none_of_number (a b c : ScriptValue)
    (h : a.number = none ∨ b.number = none ∨ c.number = none) : seq3 a b c = none := by
  have key : (match a.number, b.number, c.number with
      | some f, some t, some s =>
        (seq_terms (f.scaled (max (max f.places t.places) s.places))
          (t.scaled (max (max f.places t.places) s.places))
          (s.scaled (max (max f.places t.places) s.places))).map
          (fun l => ScriptValue.float (l.map
            (Decimal.strip (max (max f.places t.places) s.places))))
      | _, _, _ => none) = none := by
    rcases h with h | h | h
    · rw [h]
    · rw [h]
      cases a.number <;> rfl
    · rw [h]
      cases a.number <;> cases b.number <;> rfl
  unfold seq3
  split
  · rename_i f t s
    rcases h with h | h | h <;> cases h
  · exact key

/-- C29. The function `seq(from, to, by)`.  On numbers with `from` different from
`to` the call raises exactly when `by` is zero or its sign is opposite to that
of `to - from`; otherwise it gives `from`, `from + by`, `from + 2 by`, ... up to
the last term that is not beyond `to`, as an integer vector when the three
arguments are integers and as a float vector otherwise.  With `by` left out
the step is 1 or -1, towards `to`.  A string or logical argument raises.
`seq(a, a, by)` is the single element `a` for every number `by`. -/
theorem seq_semantics :
    (∀ f t b : Int, f ≠ t →
      (seq3 (.int [f]) (.int [t]) (.int [b]) = none ↔
        b = 0 ∨ (0 < t - f ∧ b < 0) ∨ (t - f < 0 ∧ 0 < b))) ∧
    (∀ f t b : Int, f ≠ t → b ≠ 0 → ¬ ((0 < t - f ∧ b < 0) ∨ (t - f < 0 ∧ 0 < b)) →
      seq3 (.int [f]) (.int [t]) (.int [b]) = some (.int (progression f t b)) ∧
      (progression f t b).length = (t - f).natAbs / b.natAbs + 1 ∧
      (∀ k : Nat, k ≤ (t - f).natAbs / b.natAbs →
        (progression f t b)[k]? = some (f + (k : Int) * b)) ∧
      (0 < b → f + ((t - f).natAbs / b.natAbs : Nat) * b ≤ t ∧
        t < f + (((t - f).natAbs / b.natAbs : Nat) + 1) * b) ∧
      (b < 0 → t ≤ f + ((t - f).natAbs / b.natAbs : Nat) * b ∧
        f + (((t - f).natAbs / b.natAbs : Nat) + 1) * b < t)) ∧
    (∀ (a b c : ScriptValue) (f t s : Decimal),
      a.number = some f → b.number = some t → c.number = some s →
      (seq3 a b c = none ↔ f.value ≠ t.value ∧
        (s.value = 0 ∨ (0 < t.value - f.value ∧ s.value < 0) ∨
          (t.value - f.value < 0 ∧ 0 < s.value))) ∧
      ∀ r, seq3 a b c = some r →
        ((r.rank = 2 ↔ a.rank = 2 ∧ b.rank = 2 ∧ c.rank = 2) ∧
          (r.rank = 3 ↔ ¬ (a.rank = 2 ∧ b.rank = 2 ∧ c.rank = 2))) ∧
        ∃ n : Nat, r.Count = n + 1 ∧
          (∀ k : Nat, k ≤ n →
            ∃ d, r.floats[k]? = some d ∧ d.value = f.value + k * s.value) ∧
          (f.value = t.value → n = 0) ∧
          (f.value ≠ t.value →
            (0 < s.value → f.value + n * s.value ≤ t.value ∧
              t.value < f.value + (n + 1) * s.value) ∧
            (s.value < 0 → t.value ≤ f.value + n * s.value ∧
              f.value + (n + 1) * s.value < t.value))) ∧
    (∀ (a b : ScriptValue) (f t : Decimal), a.number = some f → b.number = some t →
      seq2 a b = seq3 a b (.int [if t < f then -1 else 1])) ∧
    (∀ f t : Int,
      seq2 (.int [f]) (.int [t]) = seq3 (.int [f]) (.int [t]) (.int [if t < f then -1 else 1])) ∧
    (∀ a b c : ScriptValue,
      a.rank = 1 ∨ a.rank = 4 ∨ b.rank = 1 ∨ b.rank = 4 ∨ c.rank = 1 ∨ c.rank = 4 →
      seq3 a b c = none) ∧
    (∀ a b : ScriptValue, a.rank = 1 ∨ a.rank = 4 ∨ b.rank = 1 ∨ b.rank = 4 →
      seq2 a b = none) ∧
    (∀ a b : Int, seq3 (.int [a]) (.int [a]) (.int [b]) = some (.int [a])) ∧
    (∀ (a : Int) (s : Decimal),
      seq3 (.int [a]) (.int [a]) (.float [s]) = some (.float [Decimal.ofInt a])) ∧
    (∀ (a c : ScriptValue) (f s : Decimal), a.number = some f → c.number = some s →
      ∃ r d, seq3 a a c = some r ∧ r.Count = 1 ∧ r.floats = [d] ∧ d.value = f.value) ∧
    Expr.eval (.call_seq_by (.i 1) (.i 10) (.i 2)) = some (.int [1, 3, 5, 7, 9]) ∧
    Expr.eval (.call_seq_by (.i 1) (.i 10) (.i (-2))) = none := by
  refine ⟨?_, ?_, seq3_values, ?_, ?_, ?_, ?_, ?_, ?_, ?_, by decide, by decide⟩
  · intro f t b hne
    have : seq3 (.int [f]) (.int [t]) (.int [b]) = (seq_terms f t b).map .int := rfl
    rw [this, Option.map_eq_none', seq_terms_none_iff]
    exact ⟨fun h => h.2, fun h => ⟨hne, h⟩⟩
  · intro f t b h1 h2 h3
    have : seq3 (.int [f]) (.int [t]) (.int [b]) = (seq_terms f t b).map .int := rfl
    have hsign : (0 < t - f ∧ 0 < b) ∨ (t - f < 0 ∧ b < 0) := by
      have : t - f ≠ 0 := fun h => h1 (by omega)
      omega
    refine ⟨by rw [this, seq_terms_some f t b h1 h2 h3]; rfl, progression_length f t b,
      progression_getElem f t b, (progression_bounds f t b hsign).1,
      (progression_bounds f t b hsign).2⟩
  · intro a b f t ha hb
    unfold seq2
    rw [ha, hb]
  · intro f t
    have hlt : (Decimal.ofInt t < Decimal.ofInt f) ↔ t < f := by
      show Decimal.lt _ _ ↔ _
      simp [Decimal.lt, Decimal.scaled, Decimal.ofInt]
    unfold seq2
    simp only [ScriptValue.number]
    by_cases h : t < f
    · rw [if_pos h, if_pos (hlt.2 h)]
    · rw [if_neg h, if_neg (fun h' => h (hlt.1 h'))]
  · intro a b c h
    apply seq3_none_of_number
    rcases h with h | h | h | h | h | h
    · exact Or.inl (number_none_of_rank a (Or.inl h))
    · exact Or.inl (number_none_of_rank a (Or.inr (Or.inl h)))
    · exact Or.inr (Or.inl (number_none_of_rank b (Or.inl h)))
    · exact Or.inr (Or.inl (number_none_of_rank b (Or.inr (Or.inl h))))
    · exact Or.inr (Or.inr (number_none_of_rank c (Or.inl h)))
    · exact Or.inr (Or.inr (number_none_of_rank c (Or.inr (Or.inl h))))
  · intro a b h
    unfold seq2
    rcases h with h | h | h | h
    · rw [number_none_of_rank a (Or.inl h)]
    · rw [number_none_of_rank a (Or.inr (Or.inl h))]
    · rw [number_none_of_rank b (Or.inl h)]
      cases a.number <;> rfl
    · rw [number_none_of_rank b (Or.inr (Or.inl h))]
      cases a.number <;> rfl
  · intro a b
    have : seq3 (.int [a]) (.int [a]) (.int [b]) = (seq_terms a a b).map .int := rfl
    rw [this, seq_terms_same]
    rfl
  · intro a s
    have hs : seq3 (.int [a]) (.int [a]) (.float [s]) =
        (seq_terms ((Decimal.ofInt a).scaled (max (max 0 0) s.places))
          ((Decimal.ofInt a).scaled (max (max 0 0) s.places))
          (s.scaled (max (max 0 0) s.places))).map
          (fun l => .float (l.map (Decimal.strip (max (max 0 0) s.places)))) := rfl
    rw [hs, seq_terms_same]
    simp only [Option.map_some', List.map_cons, List.map_nil, Option.some.injEq,
      ScriptValue.float.injEq, List.cons.injEq, and_true]
    have : (Decimal.ofInt a).scaled (max (max 0 0) s.places) =
        a * 10 ^ (max (max 0 0) s.places) := by
      simp [Decimal.scaled, Decimal.ofInt]
    rw [this]
    exact strip_scaled_int _ a
  · intro a c f s ha hc
    obtain ⟨hnone, hsome⟩ := seq3_values a a c f f s ha ha hc
    cases hr : seq3 a a c with
    | none => exact absurd rfl (hnone.1 hr).1
    | some r =>
      obtain ⟨_, n, hcount, hterms, hzero, _⟩ := hsome r hr
      have hn := hzero rfl
      subst hn
      obtain ⟨d, hd, hv⟩ := hterms 0 (le_refl _)
      refine ⟨r, d, rfl, hcount, ?_, by simpa using hv⟩
      have hlen : r.floats.length = 1 := by
        cases r with
        | null => simp [ScriptValue.Count] at hcount
        | string v => simp [ScriptValue.floats, ScriptValue.ints] at hd
        | logical v =>
          simp only [ScriptValue.Count] at hcount
          simp [ScriptValue.floats, ScriptValue.ints, hcount]
        | int v =>
          simp only [ScriptValue.Count] at hcount
          simp [ScriptValue.floats, ScriptValue.ints, hcount]
        | float v =>
          simp only [ScriptValue.Count] at hcount
          simp [ScriptValue.floats, hcount]
      obtain ⟨e, he⟩ := List.length_eq_one.1 hlen
      rw [he] at hd ⊢
      simp only [List.getElem?_cons_zero, Option.some.injEq] at hd
      rw [hd]

/-! ## The bound on the dense array -/

theorem switched_dense_bound (b : EidosBuild) {t : EidosSymbolTable} (h : t.DenseBound b) :
    t._SwitchToHash.DenseBound b ∧ t._SwitchToHash.using_internal_symbols_ = false := by
  unfold EidosSymbolTable._SwitchToHash
  cases hd : t.using_internal_symbols_ with
  | true => exact ⟨⟨Nat.zero_le _, fun _ => rfl⟩, rfl⟩
  | false => exact ⟨h, hd⟩

theorem setValue_hash_dense_bound (b : EidosBuild) {t : EidosSymbolTable} (n : CppString)
    (v : EidosValue) (h : t.DenseBound b) :
    (table_after (t.SetValueForSymbol_hash n v)).DenseBound b ∧
      (table_after (t.SetValueForSymbol_hash n v)).using_internal_symbols_ =
        t.using_internal_symbols_ := by
  unfold EidosSymbolTable.SetValueForSymbol_hash
  split
  · exact ⟨h, rfl⟩
  · split
    · exact ⟨h, rfl⟩
    · exact ⟨h, rfl⟩

theorem setConstant_hash_dense_bound (b : EidosBuild) {t : EidosSymbolTable} (n : CppString)
    (v : EidosValue) (h : t.DenseBound b) :
    (table_after (t.SetConstantForSymbol_hash n v)).DenseBound b ∧
      (table_after (t.SetConstantForSymbol_hash n v)).using_internal_symbols_ =
        t.using_internal_symbols_ := by
  unfold EidosSymbolTable.SetConstantForSymbol_hash
  split
  · exact ⟨h, rfl⟩
  · exact ⟨h, rfl⟩

/-- A table in dense mode whose array is within the bound. -/
theorem dense_bound_dense (b : EidosBuild) (l : List EidosSymbolTable_InternalSlot)
    (m : List (CppString × EidosSymbolTable_ExternalSlot))
    (h : l.length ≤ b.EIDOS_SYMBOL_TABLE_BASE_SIZE) :
    (⟨true, l, m⟩ : EidosSymbolTable).DenseBound b :=
  ⟨h, fun hf => by cases hf⟩

/-- Appending a slot to a dense array that has room keeps the bound. -/
theorem append_dense_bound (b : EidosBuild) {t : EidosSymbolTable}
    (s : EidosSymbolTable_InternalSlot) (m : List (CppString × EidosSymbolTable_ExternalSlot))
    (hlt : t.internal_symbol_count_ < b.EIDOS_SYMBOL_TABLE_BASE_SIZE) :
    (⟨true, t.internal_symbols_ ++ [s], m⟩ : EidosSymbolTable).DenseBound b := by
  refine dense_bound_dense b _ _ ?_
  simp only [EidosSymbolTable.internal_symbol_count_, List.length_append, List.length_singleton]
    at hlt ⊢
  omega

theorem backfill_length_le (l : List EidosSymbolTable_InternalSlot) (i : Nat) :
    (backfill l i).length ≤ l.length := by
  unfold backfill
  split
  · exact Nat.le_refl _
  · split <;> simp

theorem setValue_dense_bound (b : EidosBuild) {t : EidosSymbolTable} (n : CppString)
    (v : EidosValue) (fresh : Nat) (h : t.DenseBound b) :
    (table_after (t.SetValueForSymbol b n v fresh)).DenseBound b ∧
      (t.using_internal_symbols_ = false →
        (table_after (t.SetValueForSymbol b n v fresh)).using_internal_symbols_ = false) := by
  unfold EidosSymbolTable.SetValueForSymbol
  simp only
  cases hd : t.using_internal_symbols_ with
  | false =>
    simp only [Bool.false_eq_true, if_false]
    have := setValue_hash_dense_bound b n (if v.Invisible = true then v.CopyValues fresh else v) h
    exact ⟨this.1, fun _ => this.2.trans hd⟩
  | true =>
    simp only [if_true]
    refine ⟨?_, fun hf => by cases hf⟩
    split
    · split
      · exact append_dense_bound b _ _ (by assumption)
      · exact (setValue_hash_dense_bound b n _ (switched_dense_bound b h).1).1
    · split
      · exact h
      · split
        · exact h
        · refine dense_bound_dense b _ _ ?_
          rw [List.length_set]
          exact h.1

theorem setConstant_dense_bound (b : EidosBuild) {t : EidosSymbolTable} (n : CppString)
    (v : EidosValue) (fresh : Nat) (h : t.DenseBound b) :
    (table_after (t.SetConstantForSymbol b n v fresh)).DenseBound b ∧
      (t.using_internal_symbols_ = false →
        (table_after (t.SetConstantForSymbol b n v fresh)).using_internal_symbols_ = false) := by
  unfold EidosSymbolTable.SetConstantForSymbol
  simp only
  cases hd : t.using_internal_symbols_ with
  | false =>
    simp only [Bool.false_eq_true, if_false]
    have := setConstant_hash_dense_bound b n
      (if v.Invisible = true then v.CopyValues fresh else v) h
    exact ⟨this.1, fun _ => this.2.trans hd⟩
  | true =>
    simp only [if_true]
    refine ⟨?_, fun hf => by cases hf⟩
    split
    · exact h
    · split
      · exact append_dense_bound b _ _ (by assumption)
      · exact (setConstant_hash_dense_bound b n _ (switched_dense_bound b h).1).1

theorem remove_dense_bound (b : EidosBuild) {t : EidosSymbolTable} (n : CppString)
    (c : Bool) (h : t.DenseBound b) :
    (table_after (t.RemoveValueForSymbol n c)).DenseBound b ∧
      (t.using_internal_symbols_ = false →
        (table_after (t.RemoveValueForSymbol n c)).using_internal_symbols_ = false) := by
  unfold EidosSymbolTable.RemoveValueForSymbol
  simp only
  cases hd : t.using_internal_symbols_ with
  | false =>
    simp only [Bool.false_eq_true, if_false]
    exact ⟨⟨h.1, fun _ => h.2 hd⟩, fun _ => rfl⟩
  | true =>
    simp only [if_true]
    refine ⟨?_, fun hf => by cases hf⟩
    split
    · split
      · exact h
      · split
        · exact h
        · exact dense_bound_dense b _ _ (Nat.le_trans (backfill_length_le _ _) h.1)
    · exact h

theorem initialize_name_dense_bound (b : EidosBuild) {t : EidosSymbolTable} (n : CppString)
    (v : EidosValue) (h : t.DenseBound b) :
    (table_after (t.InitializeConstantSymbolEntry_name b n v)).DenseBound b ∧
      (t.using_internal_symbols_ = false →
        (table_after (t.InitializeConstantSymbolEntry_name b n v)).using_internal_symbols_
          = false) := by
  unfold EidosSymbolTable.InitializeConstantSymbolEntry_name
  split
  · exact ⟨h, id⟩
  · cases hd : t.using_internal_symbols_ with
    | false =>
      simp only [Bool.false_eq_true, if_false]
      exact ⟨h, fun _ => hd⟩
    | true =>
      simp only [if_true]
      refine ⟨?_, fun hf => by cases hf⟩
      by_cases hlt : t.internal_symbol_count_ < b.EIDOS_SYMBOL_TABLE_BASE_SIZE
      · simp only [hlt, if_true]
        exact append_dense_bound b _ _ hlt
      · simp only [hlt, if_false]
        exact (switched_dense_bound b h).1

theorem reinitialize_define_dense_bound (b : EidosBuild) {t : EidosSymbolTable} (n : CppString)
    (v : EidosValue) (h : t.DenseBound b) :
    (table_after (t.Reinitialize_define b n v)).DenseBound b ∧
      (t.using_internal_symbols_ = false →
        (table_after (t.Reinitialize_define b n v)).using_internal_symbols_ = false) := by
  unfold EidosSymbolTable.Reinitialize_define
  cases hd : t.using_internal_symbols_ with
  | false =>
    simp only [Bool.false_eq_true, if_false]
    refine ⟨?_, fun _ => ?_⟩ <;> (split <;> [skip; split]) <;> first | exact h | exact hd
  | true =>
    simp only [if_true]
    refine ⟨?_, fun hf => by cases hf⟩
    by_cases hlt : t.internal_symbol_count_ < b.EIDOS_SYMBOL_TABLE_BASE_SIZE
    · simp only [hlt, if_true]
      exact append_dense_bound b _ _ hlt
    · simp only [hlt, if_false]
      (split <;> [skip; split]) <;> exact (switched_dense_bound b h).1

theorem reinitialize_dense_bound (b : EidosBuild) {t : EidosSymbolTable}
    (e : EidosSymbolTableEntry) (h : t.DenseBound b) :
    (table_after (t.ReinitializeConstantSymbolEntry b e)).DenseBound b ∧
      (t.using_internal_symbols_ = false →
        (table_after (t.ReinitializeConstantSymbolEntry b e)).using_internal_symbols_
          = false) := by
  unfold EidosSymbolTable.ReinitializeConstantSymbolEntry
  split
  · exact ⟨h, id⟩
  · simp only
    split
    · split
      · exact ⟨h, id⟩
      · exact ⟨h, id⟩
    · exact reinitialize_define_dense_bound b _ _ h

theorem reinitialize_name_dense_bound (b : EidosBuild) {t : EidosSymbolTable} (n : CppString)
    (v : EidosValue) (h : t.DenseBound b) :
    (table_after (t.ReinitializeConstantSymbolEntry_name b n v)).DenseBound b ∧
      (t.using_internal_symbols_ = false →
        (table_after (t.ReinitializeConstantSymbolEntry_name b n v)).using_internal_symbols_
          = false) := by
  unfold EidosSymbolTable.ReinitializeConstantSymbolEntry_name
  split
  · exact ⟨h, id⟩
  · simp only
    split
    · split
      · exact ⟨h, id⟩
      · exact ⟨h, id⟩
    · exact reinitialize_define_dense_bound b _ _ h

/-- Every call keeps the bound on the dense array and leaves a table in hash
mode in hash mode. -/
theorem call_dense_bound (b : EidosBuild) {t : EidosSymbolTable} (c : TableCall)
    (h : t.DenseBound b) :
    (table_after (c.run b t)).DenseBound b ∧
      (t.using_internal_symbols_ = false →
        (table_after (c.run b t)).using_internal_symbols_ = false) := by
  cases c with
  | SetValueForSymbol n v fresh => exact setValue_dense_bound b n v fresh h
  | SetConstantForSymbol n v fresh => exact setConstant_dense_bound b n v fresh h
  | InitializeConstantSymbolEntry e => exact initialize_name_dense_bound b e.1 e.2 h
  | InitializeConstantSymbolEntry_name n v => exact initialize_name_dense_bound b n v h
  | ReinitializeConstantSymbolEntry e => exact reinitialize_dense_bound b e h
  | ReinitializeConstantSymbolEntry_name n v => exact reinitialize_name_dense_bound b n v h
  | RemoveValueForSymbol n c => exact remove_dense_bound b n c h

theorem run_calls_dense_bound (b : EidosBuild) (calls : List TableCall) {t : EidosSymbolTable}
    (h : t.DenseBound b) :
    (run_calls b t calls).DenseBound b ∧
      (t.using_internal_symbols_ = false →
        (run_calls b t calls).using_internal_symbols_ = false) := by
  induction calls generalizing t with
  | nil => exact ⟨h, id⟩
  | cons c rest ih =>
    have hc := call_dense_bound b c h
    have hr := ih hc.1
    exact ⟨hr.1, fun hf => hr.2 (hc.2 hf)⟩

theorem initialize_chain_dense_bound (b : EidosBuild)
    (entries : List (Bool × EidosSymbolTableEntry)) {t : EidosSymbolTable}
    (h : t.DenseBound b) : (table_after (initialize_chain b entries t)).DenseBound b := by
  induction entries generalizing t with
  | nil => exact h
  | cons fe rest ih =>
    obtain ⟨flag, entry⟩ := fe
    rw [initialize_chain]
    cases flag with
    | false => exact ih h
    | true =>
      have hc := (initialize_name_dense_bound b entry.1 entry.2 h).1
      simp only [initialize_if, if_true, EidosSymbolTable.InitializeConstantSymbolEntry]
      cases hr : t.InitializeConstantSymbolEntry_name b entry.1 entry.2 with
      | error e => rw [hr] at hc; exact hc
      | ok t1 => rw [hr] at hc; exact ih hc

/-- The table that the constructor leaves keeps the bound on the dense array. -/
theorem new_dense_bound (b : EidosBuild) (g : EidosStaticObjects)
    (p_symbol_usage : Option EidosSymbolUsageParamBlock) (p_start_with_hash : Bool) :
    (table_after (EidosSymbolTable.new b g p_symbol_usage p_start_with_hash)).DenseBound b := by
  rw [new_eq_chain]
  refine initialize_chain_dense_bound b _ ⟨Nat.zero_le _, fun _ => rfl⟩

/-! ## Well-formed tables: what the slots say and what the getters find -/

/-- Replacing the element at a position of a list whose images under `f` are
pairwise distinct: the other elements are those with another image. -/
theorem mem_set_of_nodup {α β : Type} (f : α → β) {l : List α} {i : Nat} {s : α} (s2 : α)
    (hget : l.get? i = some s) (hnd : (l.map f).Nodup) (x : α) :
    x ∈ l.set i s2 ↔ (x ∈ l ∧ f x ≠ f s) ∨ x = s2 := by
  induction l generalizing i with
  | nil => simp at hget
  | cons a l ih =>
    rw [List.map_cons, List.nodup_cons] at hnd
    cases i with
    | zero =>
      simp only [List.get?_cons_zero, Option.some.injEq] at hget
      subst hget
      simp only [List.set_cons_zero, List.mem_cons]
      constructor
      · rintro (h | h)
        · exact Or.inr h
        · refine Or.inl ⟨Or.inr h, fun heq => hnd.1 ?_⟩
          rw [← heq]
          exact List.mem_map_of_mem f h
      · rintro (⟨h | h, hne⟩ | h)
        · exact absurd (by rw [h]) hne
        · exact Or.inr h
        · exact Or.inl h
    | succ i =>
      simp only [List.get?_cons_succ] at hget
      have hs : s ∈ l := List.get?_mem hget
      have hne : f a ≠ f s := fun heq => hnd.1 (by rw [heq]; exact List.mem_map_of_mem f hs)
      simp only [List.set_cons_succ, List.mem_cons]
      rw [ih hget hnd.2]
      constructor
      · rintro (h | ⟨h, h2⟩ | h)
        · exact Or.inl ⟨Or.inl h, by rw [h]; exact hne⟩
        · exact Or.inl ⟨Or.inr h, h2⟩
        · exact Or.inr h
      · rintro (⟨h | h, h2⟩ | h)
        · exact Or.inl h
        · exact Or.inr (Or.inl ⟨h, h2⟩)
        · exact Or.inr (Or.inr h)

/-- Replacing an element by one with the same image, or with an image that
does not occur, keeps the images pairwise distinct. -/
theorem nodup_map_set {α β : Type} (f : α → β) {l : List α} {i : Nat} {s : α} (s2 : α)
    (hget : l.get? i = some s) (hnd : (l.map f).Nodup)
    (h2 : f s2 = f s ∨ f s2 ∉ l.map f) : ((l.set i s2).map f).Nodup := by
  induction l generalizing i with
  | nil => simp at hget
  | cons a l ih =>
    rw [List.map_cons, List.nodup_cons] at hnd
    cases i with
    | zero =>
      simp only [List.get?_cons_zero, Option.some.injEq] at hget
      subst hget
      simp only [List.set_cons_zero, List.map_cons, List.nodup_cons]
      refine ⟨?_, hnd.2⟩
      rcases h2 with h | h
      · rw [h]; exact hnd.1
      · exact fun hmem => h (List.mem_cons_of_mem _ hmem)
    | succ i =>
      simp only [List.get?_cons_succ] at hget
      have hs : s ∈ l := List.get?_mem hget
      simp only [List.set_cons_succ, List.map_cons, List.nodup_cons]
      refine ⟨?_, ih hget hnd.2 ?_⟩
      · intro hmem
        obtain ⟨x, hx, hfx⟩ := List.mem_map.1 hmem
        rcases (mem_set_of_nodup f s2 hget hnd.2 x).1 hx with ⟨hxl, _⟩ | hx2
        · exact hnd.1 (by rw [← hfx]; exact List.mem_map_of_mem f hxl)
        · subst hx2
          rcases h2 with h | h
          · exact hnd.1 (by rw [← hfx, h]; exact List.mem_map_of_mem f hs)
          · exact h (by rw [hfx]; exact List.mem_cons_self _ _)
      · rcases h2 with h | h
        · exact Or.inl h
        · exact Or.inr (fun hmem => h (List.mem_cons_of_mem _ hmem))

/-- The removal of a slot from a dense array whose names are pairwise distinct
leaves the slots that carry another name, and their names are pairwise
distinct. -/
theorem backfill_spec {l : List EidosSymbolTable_InternalSlot} {i : Nat}
    {s : EidosSymbolTable_InternalSlot} (hget : l.get? i = some s)
    (hnd : (l.map (fun s => s.symbol_name_)).Nodup) :
    (∀ x, x ∈ backfill l i ↔ x ∈ l ∧ x.symbol_name_ ≠ s.symbol_name_) ∧
      ((backfill l i).map (fun s => s.symbol_name_)).Nodup := by
  rcases List.eq_nil_or_concat l with rfl | ⟨a, y, rfl⟩
  · simp at hget
  · rw [List.concat_eq_append] at hget hnd ⊢
    have hlast : (a ++ [y]).getLast? = some y := by simp
    have hlen : (a ++ [y]).length - 1 = a.length := by simp
    rw [List.map_append, List.nodup_append] at hnd
    obtain ⟨hnda, -, hdisj⟩ := hnd
    have hy : ∀ x ∈ a, x.symbol_name_ ≠ y.symbol_name_ := fun x hx heq =>
      hdisj (List.mem_map_of_mem (fun s => s.symbol_name_) hx) (by simp [heq])
    unfold backfill
    rw [hlast]
    simp only [hlen]
    by_cases hi : i = a.length
    · subst hi
      have hsy : s = y := by simpa using hget.symm
      subst hsy
      simp only [if_true, List.dropLast_concat]
      refine ⟨fun x => ?_, hnda⟩
      simp only [List.mem_append, List.mem_singleton]
      constructor
      · exact fun hx => ⟨Or.inl hx, hy x hx⟩
      · rintro ⟨hx | hx, hne⟩
        · exact hx
        · exact absurd (by rw [hx]) hne
    · have hlt : i < a.length := by
        have := (List.get?_eq_some.1 hget).1
        simp only [List.length_append, List.length_singleton] at this
        omega
      have hget2 : a.get? i = some s := by
        rw [← hget]
        simp only [List.get?_eq_getElem?]
        rw [List.getElem?_append_left hlt]
      have hsa : s ∈ a := List.get?_mem hget2
      simp only [hi, if_false, List.set_append_left _ _ hlt, List.dropLast_concat]
      refine ⟨fun x => ?_, nodup_map_set _ y hget2 hnda (Or.inr ?_)⟩
      · rw [mem_set_of_nodup (fun s => s.symbol_name_) y hget2 hnda]
        simp only [List.mem_append, List.mem_singleton]
        constructor
        · rintro (⟨hx, hne⟩ | hx)
          · exact ⟨Or.inl hx, hne⟩
          · subst hx
            exact ⟨Or.inr rfl, fun heq => hy s hsa heq.symm⟩
        · rintro ⟨hx | hx, hne⟩
          · exact Or.inl ⟨hx, hne⟩
          · exact Or.inr hx
      · intro hmem
        obtain ⟨x, hx, hfx⟩ := List.mem_map.1 hmem
        exact hy x hx hfx

theorem hash_find_of_mem {m : List (CppString × EidosSymbolTable_ExternalSlot)} {k : CppString}
    {s : EidosSymbolTable_ExternalSlot} (hnd : (m.map Prod.fst).Nodup) (h : (k, s) ∈ m) :
    hash_find m k = some s := by
  induction m with
  | nil => cases h
  | cons a m ih =>
    obtain ⟨k2, s2⟩ := a
    rw [List.map_cons, List.nodup_cons] at hnd
    rw [hash_find]
    rcases List.mem_cons.1 h with h | h
    · cases h
      simp
    · have hne : k2 ≠ k := fun heq => hnd.1 (by
        rw [heq]; exact List.mem_map.2 ⟨(k, s), h, rfl⟩)
      simp only [hne, if_false]
      exact ih hnd.2 h

/-- Assignment to the entry found for a key: the entry is replaced, the other
entries and the keys stay. -/
theorem hash_assign_spec {m : List (CppString × EidosSymbolTable_ExternalSlot)} {k : CppString}
    {s : EidosSymbolTable_ExternalSlot} (v : EidosValue) (hf : hash_find m k = some s)
    (hnd : (m.map Prod.fst).Nodup) :
    (∀ e, e ∈ hash_assign m k v ↔
        (e ∈ m ∧ e.1 ≠ k) ∨ e = (k, { s with symbol_value_SP_ := v })) ∧
      (hash_assign m k v).map Prod.fst = m.map Prod.fst := by
  induction m with
  | nil => simp [hash_find] at hf
  | cons a m ih =>
    obtain ⟨k2, s2⟩ := a
    rw [List.map_cons, List.nodup_cons] at hnd
    rw [hash_find] at hf
    rw [hash_assign]
    by_cases hk : k2 = k
    · subst hk
      simp only [if_true, Option.some.injEq] at hf
      subst hf
      simp only [if_true, List.map_cons, and_true]
      intro e
      simp only [List.mem_cons]
      constructor
      · rintro (h | h)
        · exact Or.inr h
        · refine Or.inl ⟨Or.inr h, fun heq => hnd.1 ?_⟩
          simp only at heq
          rw [← heq]
          exact List.mem_map.2 ⟨e, h, rfl⟩
      · rintro (⟨h | h, hne⟩ | h)
        · exact absurd (by rw [h]) hne
        · exact Or.inr h
        · exact Or.inl h
    · simp only [hk, if_false] at hf ⊢
      obtain ⟨ih1, ih2⟩ := ih hf hnd.2
      refine ⟨fun e => ?_, by simp only [List.map_cons, ih2]⟩
      simp only [List.mem_cons]
      rw [ih1]
      constructor
      · rintro (h | ⟨h, h2⟩ | h)
        · exact Or.inl ⟨Or.inl h, by rw [h]; exact hk⟩
        · exact Or.inl ⟨Or.inr h, h2⟩
        · exact Or.inr h
      · rintro (⟨h | h, h2⟩ | h)
        · exact Or.inl h
        · exact Or.inr (Or.inl ⟨h, h2⟩)
        · exact Or.inr (Or.inr h)

/-- The call `erase` leaves the entries with another key. -/
theorem hash_erase_spec (m : List (CppString × EidosSymbolTable_ExternalSlot)) (k : CppString)
    (hnd : (m.map Prod.fst).Nodup) :
    (∀ e, e ∈ hash_erase m k ↔ e ∈ m ∧ e.1 ≠ k) ∧ ((hash_erase m k).map Prod.fst).Nodup := by
  refine ⟨fun e => ?_, ?_⟩
  · simp [hash_erase, List.mem_filter]
  · exact hnd.sublist (List.Sublist.map _ (List.filter_sublist _))

/-- A slot of a dense array with exact lengths and pairwise distinct names is
the one that the scan for its name arrives at. -/
theorem scan_slots_of_mem {l : List EidosSymbolTable_InternalSlot}
    {s : EidosSymbolTable_InternalSlot}
    (hl : ∀ s ∈ l, s.symbol_name_length_ = s.symbol_name_.length)
    (hnd : (l.map (fun s => s.symbol_name_)).Nodup) (hs : s ∈ l)
    (hn : s.symbol_name_.length < 2147483648) :
    ∃ i, scan_slots l (toInt32 s.symbol_name_.length) s.symbol_name_ = some (i, s) := by
  cases hscan : scan_slots l (toInt32 s.symbol_name_.length) s.symbol_name_ with
  | none =>
    exfalso
    rw [scan_none_iff_not_mem hl hn] at hscan
    exact hscan (List.mem_map_of_mem (fun s => s.symbol_name_) hs)
  | some p =>
    obtain ⟨i, s2⟩ := p
    have hmem := scan_slots_mem hscan
    have hname := (slot_matches_iff_name (hl s2 hmem) hn).1 (scan_slots_some hscan).2
    have : s2 = s := List.inj_on_of_nodup_map hnd hmem hs hname
    subst this
    exact ⟨i, rfl⟩

/-- In a well-formed table the getters find for a name what the slot that
carries the name holds. -/
theorem binding_eq_some_iff {t : EidosSymbolTable} (h : t.WellFormed) {n : CppString}
    (hn : n.length < 2147483648) (v : EidosValue) (c : Bool) :
    t.binding n = some (v, c) ↔ (n, v, c) ∈ t.bindings := by
  obtain ⟨-, hl, hnd⟩ := h
  unfold EidosSymbolTable.binding EidosSymbolTable.bindings
  cases hd : t.using_internal_symbols_ with
  | true =>
    rw [names_dense hd] at hnd
    simp only [if_true]
    constructor
    · intro hb
      cases hscan : scan_slots t.internal_symbols_ (toInt32 n.length) n with
      | none => rw [hscan] at hb; cases hb
      | some p =>
        obtain ⟨i, s⟩ := p
        rw [hscan] at hb
        simp only [Option.map_some', Option.some.injEq, Prod.mk.injEq] at hb
        have hmem := scan_slots_mem hscan
        have hname := (slot_matches_iff_name (hl s hmem) hn).1 (scan_slots_some hscan).2
        exact List.mem_map.2 ⟨s, hmem, by rw [hname, hb.1, hb.2]⟩
    · intro hmem
      obtain ⟨s, hs, heq⟩ := List.mem_map.1 hmem
      simp only [Prod.mk.injEq] at heq
      obtain ⟨i, hi⟩ := scan_slots_of_mem hl hnd hs (by rw [heq.1]; exact hn)
      rw [heq.1] at hi
      rw [hi]
      simp only [Option.map_some', heq.2.1, heq.2.2]
  | false =>
    rw [names_hash hd] at hnd
    simp only [Bool.false_eq_true, if_false]
    constructor
    · intro hb
      cases hf : hash_find t.hash_symbols_ n with
      | none => rw [hf] at hb; cases hb
      | some s =>
        rw [hf] at hb
        simp only [Option.map_some', Option.some.injEq, Prod.mk.injEq] at hb
        exact List.mem_map.2 ⟨(n, s), hash_find_mem hf, by simp only [hb.1, hb.2]⟩
    · intro hmem
      obtain ⟨e, he, heq⟩ := List.mem_map.1 hmem
      obtain ⟨k, s⟩ := e
      simp only [Prod.mk.injEq] at heq
      obtain ⟨rfl, hv, hc⟩ := heq
      rw [hash_find_of_mem hnd he]
      simp only [Option.map_some', hv, hc]

/-- In a table with exact lengths the getters find nothing for a name exactly
when no slot carries it. -/
theorem binding_eq_none_iff {t : EidosSymbolTable} (hl : t.LengthsExact) {n : CppString}
    (hn : n.length < 2147483648) : t.binding n = none ↔ n ∉ t.names := by
  unfold EidosSymbolTable.binding
  cases hd : t.using_internal_symbols_ with
  | true =>
    rw [names_dense hd, ← scan_none_iff_not_mem hl hn]
    simp only [if_true, Option.map_eq_none']
  | false =>
    rw [names_hash hd, ← hash_find_eq_none_iff]
    simp only [Bool.false_eq_true, if_false, Option.map_eq_none']

theorem mem_names_iff (t : EidosSymbolTable) (n : CppString) :
    n ∈ t.names ↔ ∃ v c, (n, v, c) ∈ t.bindings := by
  unfold EidosSymbolTable.names
  constructor
  · intro h
    obtain ⟨e, he, rfl⟩ := List.mem_map.1 h
    exact ⟨e.2.1, e.2.2, he⟩
  · rintro ⟨v, c, h⟩
    exact List.mem_map.2 ⟨_, h, rfl⟩

/-- Two well-formed tables whose slots hold the same bindings answer the getters
alike. -/
theorem binding_congr {t t2 : EidosSymbolTable} (h : t.WellFormed) (h2 : t2.WellFormed)
    (heq : ∀ e, e ∈ t2.bindings ↔ e ∈ t.bindings) {n : CppString}
    (hn : n.length < 2147483648) : t2.binding n = t.binding n := by
  cases hb : t.binding n with
  | none =>
    rw [binding_eq_none_iff h2.2.1 hn, mem_names_iff]
    rw [binding_eq_none_iff h.2.1 hn, mem_names_iff] at hb
    rintro ⟨v, c, hm⟩
    exact hb ⟨v, c, (heq _).1 hm⟩
  | some p =>
    obtain ⟨v, c⟩ := p
    rw [binding_eq_some_iff h2 hn]
    rw [binding_eq_some_iff h hn] at hb
    exact (heq _).2 hb

/-- After a call that binds `n`, the getters find the new binding for `n` and
what they found before for every other name. -/
theorem binds_binding {t t2 : EidosSymbolTable} {n : CppString} {v : EidosValue} {c : Bool}
    (h : t.WellFormed) (h2 : t2.WellFormed) (hb : binds t t2 n v c)
    (hn : n.length < 2147483648) :
    t2.binding n = some (v, c) ∧
      ∀ m, m ≠ n → m.length < 2147483648 → t2.binding m = t.binding m := by
  refine ⟨(binding_eq_some_iff h2 hn v c).2 ((hb _).2 (Or.inr rfl)), fun m hne hm => ?_⟩
  cases hbm : t.binding m with
  | none =>
    rw [binding_eq_none_iff h2.2.1 hm, mem_names_iff]
    rw [binding_eq_none_iff h.2.1 hm, mem_names_iff] at hbm
    rintro ⟨v2, c2, hmem⟩
    rcases (hb _).1 hmem with ⟨h3, _⟩ | h3
    · exact hbm ⟨v2, c2, h3⟩
    · simp only [Prod.mk.injEq] at h3
      exact hne h3.1
  | some p =>
    obtain ⟨v2, c2⟩ := p
    rw [binding_eq_some_iff h2 hm]
    rw [binding_eq_some_iff h hm] at hbm
    exact (hb _).2 (Or.inl ⟨hbm, hne⟩)

/-- After a call that removes `n`, the getters find nothing for `n` and what
they found before for every other name. -/
theorem unbinds_binding {t t2 : EidosSymbolTable} {n : CppString}
    (h : t.WellFormed) (h2 : t2.WellFormed) (hb : unbinds t t2 n)
    (hn : n.length < 2147483648) :
    t2.binding n = none ∧
      ∀ m, m ≠ n → m.length < 2147483648 → t2.binding m = t.binding m := by
  refine ⟨?_, fun m hne hm => ?_⟩
  · rw [binding_eq_none_iff h2.2.1 hn, mem_names_iff]
    rintro ⟨v, c, hmem⟩
    exact ((hb _).1 hmem).2 rfl
  · cases hbm : t.binding m with
    | none =>
      rw [binding_eq_none_iff h2.2.1 hm, mem_names_iff]
      rw [binding_eq_none_iff h.2.1 hm, mem_names_iff] at hbm
      rintro ⟨v2, c2, hmem⟩
      exact hbm ⟨v2, c2, ((hb _).1 hmem).1⟩
    | some p =>
      obtain ⟨v2, c2⟩ := p
      rw [binding_eq_some_iff h2 hm]
      rw [binding_eq_some_iff h hm] at hbm
      exact (hb _).2 ⟨hbm, hne⟩

/-- The getters in terms of `binding`. -/
theorem getOrNull_eq_binding (t : EidosSymbolTable) (n : CppString) :
    t.GetValueOrNullForSymbol n = (t.binding n).map Prod.fst := by
  unfold EidosSymbolTable.GetValueOrNullForSymbol EidosSymbolTable.binding
  cases t.using_internal_symbols_ with
  | true =>
    simp only [if_true]
    cases scan_slots t.internal_symbols_ (toInt32 n.length) n <;> rfl
  | false =>
    simp only [Bool.false_eq_true, if_false]
    cases hash_find t.hash_symbols_ n <;> rfl

theorem getOrRaise_eq_binding (t : EidosSymbolTable) (n : CppString) :
    t.GetValueOrRaiseForSymbol n =
      match t.binding n with
      | some p => .ok p.1
      | none => .error (.undefined_identifier n) := by
  unfold EidosSymbolTable.GetValueOrRaiseForSymbol EidosSymbolTable.binding
  cases t.using_internal_symbols_ with
  | true =>
    simp only [if_true]
    cases scan_slots t.internal_symbols_ (toInt32 n.length) n <;> rfl
  | false =>
    simp only [Bool.false_eq_true, if_false]
    cases hash_find t.hash_symbols_ n <;> rfl

theorem getNonConstant_eq_binding (t : EidosSymbolTable) (n : CppString) :
    t.GetNonConstantValueOrRaiseForToken ⟨n⟩ =
      match t.binding n with
      | some (v, c) => if c then .error (.is_a_constant n) else .ok v
      | none => .error (.undefined_identifier n) := by
  unfold EidosSymbolTable.GetNonConstantValueOrRaiseForToken EidosSymbolTable.binding
  cases t.using_internal_symbols_ with
  | true =>
    simp only [if_true]
    cases scan_slots t.internal_symbols_ (toInt32 n.length) n <;> rfl
  | false =>
    simp only [Bool.false_eq_true, if_false]
    cases hash_find t.hash_symbols_ n <;> rfl

/-! ### The table that each branch of the mutating methods leaves -/

theorem wf_dense_form {t : EidosSymbolTable} (h : t.WellFormed)
    (hd : t.using_internal_symbols_ = true) : t = ⟨true, t.internal_symbols_, []⟩ := by
  obtain ⟨u, l, m⟩ := t
  simp only at hd
  have := h.1.1 hd
  simp only at this
  rw [hd, this]

theorem wf_hash_form {t : EidosSymbolTable} (h : t.WellFormed)
    (hd : t.using_internal_symbols_ = false) : t = ⟨false, [], t.hash_symbols_⟩ := by
  obtain ⟨u, l, m⟩ := t
  simp only at hd
  have := h.1.2 hd
  simp only at this
  rw [hd, this]

theorem wf_dense_iff (l : List EidosSymbolTable_InternalSlot) :
    (⟨true, l, []⟩ : EidosSymbolTable).WellFormed ↔
      (∀ s ∈ l, s.symbol_name_length_ = s.symbol_name_.length) ∧
        (l.map (fun s => s.symbol_name_)).Nodup := by
  unfold EidosSymbolTable.WellFormed EidosSymbolTable.OneTier EidosSymbolTable.LengthsExact
  rw [names_dense rfl]
  simp

theorem wf_hash_iff (m : List (CppString × EidosSymbolTable_ExternalSlot)) :
    (⟨false, [], m⟩ : EidosSymbolTable).WellFormed ↔ (m.map Prod.fst).Nodup := by
  unfold EidosSymbolTable.WellFormed EidosSymbolTable.OneTier EidosSymbolTable.LengthsExact
  rw [names_hash rfl]
  simp

theorem bindings_dense (l : List EidosSymbolTable_InternalSlot)
    (m : List (CppString × EidosSymbolTable_ExternalSlot)) :
    (⟨true, l, m⟩ : EidosSymbolTable).bindings =
      l.map (fun s => (s.symbol_name_, s.symbol_value_SP_, s.symbol_is_const_)) := rfl

theorem bindings_hash (l : List EidosSymbolTable_InternalSlot)
    (m : List (CppString × EidosSymbolTable_ExternalSlot)) :
    (⟨false, l, m⟩ : EidosSymbolTable).bindings =
      m.map (fun e => (e.1, e.2.symbol_value_SP_, e.2.symbol_is_const_)) := rfl

/-- A slot appended to the dense array for a name that no slot carries. -/
theorem dense_append_spec {l : List EidosSymbolTable_InternalSlot}
    (s : EidosSymbolTable_InternalSlot) (h : (⟨true, l, []⟩ : EidosSymbolTable).WellFormed)
    (hlen : s.symbol_name_length_ = s.symbol_name_.length)
    (hnew : s.symbol_name_ ∉ l.map (fun s => s.symbol_name_)) :
    (⟨true, l ++ [s], []⟩ : EidosSymbolTable).WellFormed ∧
      binds ⟨true, l, []⟩ ⟨true, l ++ [s], []⟩ s.symbol_name_ s.symbol_value_SP_
        s.symbol_is_const_ := by
  rw [wf_dense_iff] at h ⊢
  refine ⟨⟨fun x hx => ?_, ?_⟩, fun e => ?_⟩
  · rcases List.mem_append.1 hx with hx | hx
    · exact h.1 x hx
    · rw [List.mem_singleton.1 hx]; exact hlen
  · rw [List.map_append, List.nodup_append]
    refine ⟨h.2, by simp, ?_⟩
    intro a ha hb
    simp only [List.map_cons, List.map_nil, List.mem_singleton] at hb
    exact hnew (hb ▸ ha)
  · rw [bindings_dense, bindings_dense, List.map_append, List.mem_append]
    simp only [List.map_cons, List.map_nil, List.mem_singleton]
    constructor
    · rintro (he | he)
      · refine Or.inl ⟨he, fun heq => hnew ?_⟩
        obtain ⟨x, hx, rfl⟩ := List.mem_map.1 he
        simp only at heq
        rw [← heq]
        exact List.mem_map_of_mem (fun s => s.symbol_name_) hx
      · exact Or.inr he
    · rintro (⟨he, _⟩ | he)
      · exact Or.inl he
      · exact Or.inr he

/-- The value of a dense slot replaced. -/
theorem dense_set_spec {l : List EidosSymbolTable_InternalSlot} {i : Nat}
    {s : EidosSymbolTable_InternalSlot} (v : EidosValue)
    (h : (⟨true, l, []⟩ : EidosSymbolTable).WellFormed) (hget : l.get? i = some s) :
    (⟨true, l.set i { s with symbol_value_SP_ := v }, []⟩ : EidosSymbolTable).WellFormed ∧
      binds ⟨true, l, []⟩ ⟨true, l.set i { s with symbol_value_SP_ := v }, []⟩ s.symbol_name_ v
        s.symbol_is_const_ := by
  rw [wf_dense_iff] at h ⊢
  have hs : s ∈ l := List.get?_mem hget
  have hmem := mem_set_of_nodup (fun s => s.symbol_name_) { s with symbol_value_SP_ := v } hget h.2
  refine ⟨⟨fun x hx => ?_, nodup_map_set _ _ hget h.2 (Or.inl rfl)⟩, fun e => ?_⟩
  · rcases (hmem x).1 hx with ⟨hx, _⟩ | hx
    · exact h.1 x hx
    · rw [hx]; exact h.1 s hs
  · rw [bindings_dense, bindings_dense]
    constructor
    · intro he
      obtain ⟨x, hx, rfl⟩ := List.mem_map.1 he
      rcases (hmem x).1 hx with ⟨hx, hne⟩ | hx
      · exact Or.inl ⟨List.mem_map.2 ⟨x, hx, rfl⟩, hne⟩
      · rw [hx]; exact Or.inr rfl
    · rintro (⟨he, hne⟩ | he)
      · obtain ⟨x, hx, rfl⟩ := List.mem_map.1 he
        exact List.mem_map.2 ⟨x, (hmem x).2 (Or.inl ⟨hx, hne⟩), rfl⟩
      · exact List.mem_map.2 ⟨_, (hmem _).2 (Or.inr rfl), he.symm⟩

/-- A slot removed from the dense array. -/
theorem dense_backfill_spec {l : List EidosSymbolTable_InternalSlot} {i : Nat}
    {s : EidosSymbolTable_InternalSlot}
    (h : (⟨true, l, []⟩ : EidosSymbolTable).WellFormed) (hget : l.get? i = some s) :
    (⟨true, backfill l i, []⟩ : EidosSymbolTable).WellFormed ∧
      unbinds ⟨true, l, []⟩ ⟨true, backfill l i, []⟩ s.symbol_name_ := by
  rw [wf_dense_iff] at h ⊢
  obtain ⟨hmem, hnd⟩ := backfill_spec hget h.2
  refine ⟨⟨fun x hx => h.1 x ((hmem x).1 hx).1, hnd⟩, fun e => ?_⟩
  rw [bindings_dense, bindings_dense]
  constructor
  · intro he
    obtain ⟨x, hx, rfl⟩ := List.mem_map.1 he
    exact ⟨List.mem_map.2 ⟨x, ((hmem x).1 hx).1, rfl⟩, ((hmem x).1 hx).2⟩
  · rintro ⟨he, hne⟩
    obtain ⟨x, hx, rfl⟩ := List.mem_map.1 he
    exact List.mem_map.2 ⟨x, (hmem x).2 ⟨hx, hne⟩, rfl⟩

/-- The switch of a well-formed dense table: the table in hash mode, with the
same bindings. -/
theorem switch_spec {l : List EidosSymbolTable_InternalSlot}
    (h : (⟨true, l, []⟩ : EidosSymbolTable).WellFormed) :
    (⟨true, l, []⟩ : EidosSymbolTable)._SwitchToHash =
        ⟨false, [], l.map
          (fun s => (s.symbol_name_, ⟨s.symbol_value_SP_, s.symbol_is_const_⟩))⟩ ∧
      (⟨false, [], l.map (fun s => (s.symbol_name_,
        (⟨s.symbol_value_SP_, s.symbol_is_const_⟩ : EidosSymbolTable_ExternalSlot)))⟩ :
          EidosSymbolTable).WellFormed ∧
      (⟨false, [], l.map (fun s => (s.symbol_name_,
        (⟨s.symbol_value_SP_, s.symbol_is_const_⟩ : EidosSymbolTable_ExternalSlot)))⟩ :
          EidosSymbolTable).bindings = (⟨true, l, []⟩ : EidosSymbolTable).bindings := by
  have hsw := hash_symbols_switch ⟨true, l, []⟩ rfl rfl h.2.2
  refine ⟨?_, ?_, ?_⟩
  · simp only at hsw
    simp only [EidosSymbolTable._SwitchToHash, if_true] at hsw ⊢
    rw [hsw]
  · rw [wf_hash_iff, List.map_map]
    have := (wf_dense_iff l).1 h
    exact this.2
  · rw [bindings_hash, bindings_dense, List.map_map]
    rfl

/-- An entry inserted into the map for a key that is not present. -/
theorem hash_insert_spec {m : List (CppString × EidosSymbolTable_ExternalSlot)} {n : CppString}
    (v : EidosValue) (c : Bool) (h : (⟨false, [], m⟩ : EidosSymbolTable).WellFormed)
    (hf : hash_find m n = none) :
    (⟨false, [], hash_insert m n ⟨v, c⟩⟩ : EidosSymbolTable).WellFormed ∧
      binds ⟨false, [], m⟩ ⟨false, [], hash_insert m n ⟨v, c⟩⟩ n v c := by
  rw [wf_hash_iff] at h ⊢
  rw [hash_insert_of_none _ hf]
  rw [hash_find_eq_none_iff] at hf
  refine ⟨?_, fun e => ?_⟩
  · rw [List.map_append, List.nodup_append]
    refine ⟨h, by simp, ?_⟩
    intro a ha hb
    simp only [List.map_cons, List.map_nil, List.mem_singleton] at hb
    exact hf (hb ▸ ha)
  · rw [bindings_hash, bindings_hash, List.map_append, List.mem_append]
    simp only [List.map_cons, List.map_nil, List.mem_singleton]
    constructor
    · rintro (he | he)
      · refine Or.inl ⟨he, fun heq => hf ?_⟩
        obtain ⟨x, hx, rfl⟩ := List.mem_map.1 he
        simp only at heq
        rw [← heq]
        exact List.mem_map.2 ⟨x, hx, rfl⟩
      · exact Or.inr he
    · rintro (⟨he, _⟩ | he)
      · exact Or.inl he
      · exact Or.inr he

/-- The value of a map entry replaced. -/
theorem hash_assign_table_spec {m : List (CppString × EidosSymbolTable_ExternalSlot)}
    {n : CppString} {s : EidosSymbolTable_ExternalSlot} (v : EidosValue)
    (h : (⟨false, [], m⟩ : EidosSymbolTable).WellFormed) (hf : hash_find m n = some s) :
    (⟨false, [], hash_assign m n v⟩ : EidosSymbolTable).WellFormed ∧
      binds ⟨false, [], m⟩ ⟨false, [], hash_assign m n v⟩ n v s.symbol_is_const_ := by
  rw [wf_hash_iff] at h ⊢
  obtain ⟨hmem, hkeys⟩ := hash_assign_spec v hf h
  refine ⟨by rw [hkeys]; exact h, fun e => ?_⟩
  rw [bindings_hash, bindings_hash]
  constructor
  · intro he
    obtain ⟨x, hx, rfl⟩ := List.mem_map.1 he
    rcases (hmem x).1 hx with ⟨hx, hne⟩ | hx
    · exact Or.inl ⟨List.mem_map.2 ⟨x, hx, rfl⟩, hne⟩
    · rw [hx]; exact Or.inr rfl
  · rintro (⟨he, hne⟩ | he)
    · obtain ⟨x, hx, rfl⟩ := List.mem_map.1 he
      exact List.mem_map.2 ⟨x, (hmem x).2 (Or.inl ⟨hx, hne⟩), rfl⟩
    · exact List.mem_map.2 ⟨_, (hmem _).2 (Or.inr rfl), he.symm⟩

/-- An entry erased from the map. -/
theorem hash_erase_table_spec {m : List (CppString × EidosSymbolTable_ExternalSlot)}
    (n : CppString) (h : (⟨false, [], m⟩ : EidosSymbolTable).WellFormed) :
    (⟨false, [], hash_erase m n⟩ : EidosSymbolTable).WellFormed ∧
      unbinds ⟨false, [], m⟩ ⟨false, [], hash_erase m n⟩ n := by
  rw [wf_hash_iff] at h ⊢
  obtain ⟨hmem, hnd⟩ := hash_erase_spec m n h
  refine ⟨hnd, fun e => ?_⟩
  rw [bindings_hash, bindings_hash]
  constructor
  · intro he
    obtain ⟨x, hx, rfl⟩ := List.mem_map.1 he
    exact ⟨List.mem_map.2 ⟨x, ((hmem x).1 hx).1, rfl⟩, ((hmem x).1 hx).2⟩
  · rintro ⟨he, hne⟩
    obtain ⟨x, hx, rfl⟩ := List.mem_map.1 he
    exact List.mem_map.2 ⟨x, (hmem x).2 ⟨hx, hne⟩, rfl⟩

theorem binds_of_bindings_eq {t0 t t2 : EidosSymbolTable} {n : CppString} {v : EidosValue}
    {c : Bool} (heq : t.bindings = t0.bindings) (h : binds t t2 n v c) : binds t0 t2 n v c := by
  intro e
  rw [h e, heq]

/-! ### What each mutating method does to a well-formed table -/

theorem recorded_length_exact {n : CppString} (hn : n.length < 65536) :
    toUInt16 (toInt32 n.length) = n.length := by
  rw [toInt32_of_lt (by omega), toUInt16_of_lt hn]

theorem binding_dense_eq (l : List EidosSymbolTable_InternalSlot)
    (m : List (CppString × EidosSymbolTable_ExternalSlot)) (n : CppString) :
    (⟨true, l, m⟩ : EidosSymbolTable).binding n =
      (scan_slots l (toInt32 n.length) n).map
        (fun p => (p.2.symbol_value_SP_, p.2.symbol_is_const_)) := rfl

theorem binding_hash_eq (l : List EidosSymbolTable_InternalSlot)
    (m : List (CppString × EidosSymbolTable_ExternalSlot)) (n : CppString) :
    (⟨false, l, m⟩ : EidosSymbolTable).binding n =
      (hash_find m n).map (fun s => (s.symbol_value_SP_, s.symbol_is_const_)) := rfl

/-- The hash-table case of `SetValueForSymbol` on a well-formed table in hash
mode. -/
theorem setValue_hash_spec {m : List (CppString × EidosSymbolTable_ExternalSlot)}
    (h : (⟨false, [], m⟩ : EidosSymbolTable).WellFormed) (n : CppString) (v : EidosValue) :
    (∀ v0, (⟨false, [], m⟩ : EidosSymbolTable).binding n = some (v0, true) →
      (⟨false, [], m⟩ : EidosSymbolTable).SetValueForSymbol_hash n v =
        .error (.cannot_be_redefined n, ⟨false, [], m⟩)) ∧
    ((∀ v0, (⟨false, [], m⟩ : EidosSymbolTable).binding n ≠ some (v0, true)) →
      ∃ t2, (⟨false, [], m⟩ : EidosSymbolTable).SetValueForSymbol_hash n v = .ok t2 ∧
        t2.WellFormed ∧ binds ⟨false, [], m⟩ t2 n v false) := by
  rw [binding_hash_eq]
  unfold EidosSymbolTable.SetValueForSymbol_hash
  cases hf : hash_find m n with
  | none =>
    refine ⟨fun v0 hb => (by cases hb), fun _ => ⟨_, rfl, ?_⟩⟩
    exact hash_insert_spec v false h hf
  | some s =>
    simp only [Option.map_some', Option.some.injEq, Prod.mk.injEq]
    cases hc : s.symbol_is_const_ with
    | true =>
      refine ⟨fun v0 _ => (by simp), fun hne => absurd rfl (hne s.symbol_value_SP_)⟩
    | false =>
      refine ⟨fun v0 hb => (by cases hb.2), fun _ => ⟨_, (by rw [if_neg (by simp)]), ?_⟩⟩
      have := hash_assign_table_spec v h hf
      rw [hc] at this
      exact this

/-- What `SetValueForSymbol` does in a well-formed table, for a name shorter
than 65536 characters: it raises and changes nothing when the getters find a
constant for the name; otherwise it returns and binds the name to the stored
value as a variable, leaving the other slots as they are. -/
theorem setValue_spec (b : EidosBuild) {t : EidosSymbolTable} (h : t.WellFormed)
    {n : CppString} (hn : n.length < 65536) (v : EidosValue) (fresh : Nat) :
    (∀ v0, t.binding n = some (v0, true) →
      t.SetValueForSymbol b n v fresh = .error (.cannot_be_redefined n, t)) ∧
    ((∀ v0, t.binding n ≠ some (v0, true)) →
      ∃ t2, t.SetValueForSymbol b n v fresh = .ok t2 ∧ t2.WellFormed ∧
        binds t t2 n (stored_value v fresh) false) := by
  cases hd : t.using_internal_symbols_ with
  | false =>
    have hform := wf_hash_form h hd
    generalize t.hash_symbols_ = m at hform
    subst hform
    have := setValue_hash_spec h n (stored_value v fresh)
    simpa only [EidosSymbolTable.SetValueForSymbol, Bool.false_eq_true, if_false, stored_value]
      using this
  | true =>
    have hform := wf_dense_form h hd
    generalize t.internal_symbols_ = l at hform
    subst hform
    rw [binding_dense_eq]
    have hwf := (wf_dense_iff l).1 h
    unfold EidosSymbolTable.SetValueForSymbol EidosSymbolTable._SlotIndexForSymbol
    simp only [if_true]
    cases hscan : scan_slots l (toInt32 n.length) n with
    | none =>
      have hnew : n ∉ l.map (fun s => s.symbol_name_) :=
        (scan_none_iff_not_mem hwf.1 (by omega)).1 hscan
      refine ⟨fun v0 hb => (by cases hb), fun _ => ?_⟩
      simp only [Option.map_none']
      by_cases hlt : (⟨true, l, []⟩ : EidosSymbolTable).internal_symbol_count_ <
          b.EIDOS_SYMBOL_TABLE_BASE_SIZE
      · simp only [hlt, if_true]
        exact ⟨_, rfl, dense_append_spec
          ⟨stored_value v fresh, n, toUInt16 (toInt32 n.length), false, false⟩ h
          (recorded_length_exact hn) hnew⟩
      · simp only [hlt, if_false]
        obtain ⟨hsw, hwf2, hbind⟩ := switch_spec h
        rw [hsw]
        have hnone : ∀ v0, (⟨false, [], l.map (fun s => (s.symbol_name_,
            (⟨s.symbol_value_SP_, s.symbol_is_const_⟩ : EidosSymbolTable_ExternalSlot)))⟩ :
              EidosSymbolTable).binding n ≠ some (v0, true) := by
          intro v0 hb
          rw [binding_eq_some_iff hwf2 (by omega), hbind, bindings_dense] at hb
          obtain ⟨x, hx, hxe⟩ := List.mem_map.1 hb
          simp only [Prod.mk.injEq] at hxe
          exact hnew (List.mem_map.2 ⟨x, hx, hxe.1⟩)
        obtain ⟨t2, h1, h2, h3⟩ := (setValue_hash_spec hwf2 n (stored_value v fresh)).2 hnone
        exact ⟨t2, h1, h2, binds_of_bindings_eq hbind h3⟩
    | some p =>
      obtain ⟨i, s⟩ := p
      have hget := (scan_slots_some hscan).1
      have hname : s.symbol_name_ = n :=
        (slot_matches_iff_name (hwf.1 s (scan_slots_mem hscan)) (by omega)).1
          (scan_slots_some hscan).2
      simp only [Option.map_some', hget, Option.some.injEq, Prod.mk.injEq]
      cases hc : s.symbol_is_const_ with
      | true =>
        exact ⟨fun v0 _ => (by simp), fun hne => absurd rfl (hne s.symbol_value_SP_)⟩
      | false =>
        refine ⟨fun v0 hb => (by cases hb.2), fun _ => ⟨_, (by rw [if_neg (by simp)]), ?_⟩⟩
        have := dense_set_spec (stored_value v fresh) h hget
        rw [hc] at this
        subst hname
        exact this

/-- The hash-table case of `SetConstantForSymbol` on a well-formed table in hash
mode. -/
theorem setConstant_hash_spec {m : List (CppString × EidosSymbolTable_ExternalSlot)}
    (h : (⟨false, [], m⟩ : EidosSymbolTable).WellFormed) (n : CppString) (v : EidosValue) :
    ((⟨false, [], m⟩ : EidosSymbolTable).binding n ≠ none →
      (⟨false, [], m⟩ : EidosSymbolTable).SetConstantForSymbol_hash n v =
        .error (.already_defined n, ⟨false, [], m⟩)) ∧
    ((⟨false, [], m⟩ : EidosSymbolTable).binding n = none →
      ∃ t2, (⟨false, [], m⟩ : EidosSymbolTable).SetConstantForSymbol_hash n v = .ok t2 ∧
        t2.WellFormed ∧ binds ⟨false, [], m⟩ t2 n v true) := by
  rw [binding_hash_eq]
  unfold EidosSymbolTable.SetConstantForSymbol_hash
  cases hf : hash_find m n with
  | none =>
    refine ⟨fun hb => absurd rfl hb, fun _ => ⟨_, rfl, ?_⟩⟩
    exact hash_insert_spec v true h hf
  | some s =>
    exact ⟨fun _ => rfl, fun hb => by cases hb⟩

/-- What `SetConstantForSymbol` does in a well-formed table, for a name shorter
than 65536 characters: it raises and changes nothing when the getters find a
binding for the name; otherwise it returns and binds the name to the stored
value as a constant, leaving the other slots as they are. -/
theorem setConstant_spec (b : EidosBuild) {t : EidosSymbolTable} (h : t.WellFormed)
    {n : CppString} (hn : n.length < 65536) (v : EidosValue) (fresh : Nat) :
    (t.binding n ≠ none →
      t.SetConstantForSymbol b n v fresh = .error (.already_defined n, t)) ∧
    (t.binding n = none →
      ∃ t2, t.SetConstantForSymbol b n v fresh = .ok t2 ∧ t2.WellFormed ∧
        binds t t2 n (stored_value v fresh) true) := by
  cases hd : t.using_internal_symbols_ with
  | false =>
    have hform := wf_hash_form h hd
    generalize t.hash_symbols_ = m at hform
    subst hform
    have := setConstant_hash_spec h n (stored_value v fresh)
    simpa only [EidosSymbolTable.SetConstantForSymbol, Bool.false_eq_true, if_false, stored_value]
      using this
  | true =>
    have hform := wf_dense_form h hd
    generalize t.internal_symbols_ = l at hform
    subst hform
    rw [binding_dense_eq]
    have hwf := (wf_dense_iff l).1 h
    unfold EidosSymbolTable.SetConstantForSymbol EidosSymbolTable._SlotIndexForSymbol
    simp only [if_true]
    cases hscan : scan_slots l (toInt32 n.length) n with
    | none =>
      have hnew : n ∉ l.map (fun s => s.symbol_name_) :=
        (scan_none_iff_not_mem hwf.1 (by omega)).1 hscan
      refine ⟨fun hb => absurd rfl hb, fun _ => ?_⟩
      simp only [Option.map_none']
      by_cases hlt : (⟨true, l, []⟩ : EidosSymbolTable).internal_symbol_count_ <
          b.EIDOS_SYMBOL_TABLE_BASE_SIZE
      · simp only [hlt, if_true]
        exact ⟨_, rfl, dense_append_spec
          ⟨stored_value v fresh, n, toUInt16 (toInt32 n.length), false, true⟩ h
          (recorded_length_exact hn) hnew⟩
      · simp only [hlt, if_false]
        obtain ⟨hsw, hwf2, hbind⟩ := switch_spec h
        rw [hsw]
        have hnone : (⟨false, [], l.map (fun s => (s.symbol_name_,
            (⟨s.symbol_value_SP_, s.symbol_is_const_⟩ : EidosSymbolTable_ExternalSlot)))⟩ :
              EidosSymbolTable).binding n = none := by
          rw [binding_eq_none_iff hwf2.2.1 (by omega), mem_names_iff, hbind, bindings_dense]
          rintro ⟨v0, c0, hb⟩
          obtain ⟨x, hx, hxe⟩ := List.mem_map.1 hb
          simp only [Prod.mk.injEq] at hxe
          exact hnew (List.mem_map.2 ⟨x, hx, hxe.1⟩)
        obtain ⟨t2, h1, h2, h3⟩ := (setConstant_hash_spec hwf2 n (stored_value v fresh)).2 hnone
        exact ⟨t2, h1, h2, binds_of_bindings_eq hbind h3⟩
    | some p =>
      exact ⟨fun _ => rfl, fun hb => by cases hb⟩

theorem debug_guard_false {b : EidosBuild} {v : EidosValue}
    (hv : ¬ (b.DEBUG = true ∧ v.invisible = true)) : (b.DEBUG && v.Invisible) = false := by
  cases hD : b.DEBUG <;> cases hI : v.invisible <;> simp_all [EidosValue.Invisible]

theorem unbinds_self {t : EidosSymbolTable} {n : CppString} (h : n ∉ t.names) :
    unbinds t t n := by
  intro e
  constructor
  · intro he
    exact ⟨he, fun heq => h (List.mem_map.2 ⟨e, he, heq⟩)⟩
  · exact fun he => he.1

/-- What `RemoveValueForSymbol` does in a well-formed table, for a name shorter
than 65536 characters: in dense mode it raises and changes nothing when the
getters find a constant for the name and `p_remove_constant` is false; in every
other case it returns and leaves the slots that carry another name. -/
theorem remove_spec {t : EidosSymbolTable} (h : t.WellFormed) {n : CppString}
    (hn : n.length < 65536) (c : Bool) :
    (t.using_internal_symbols_ = true → ∀ v0, t.binding n = some (v0, true) → c = false →
      t.RemoveValueForSymbol n c = .error (.cannot_be_removed n, t)) ∧
    ((t.using_internal_symbols_ = false ∨ c = true ∨ ∀ v0, t.binding n ≠ some (v0, true)) →
      ∃ t2, t.RemoveValueForSymbol n c = .ok t2 ∧ t2.WellFormed ∧ unbinds t t2 n) := by
  cases hd : t.using_internal_symbols_ with
  | false =>
    have hform := wf_hash_form h hd
    generalize t.hash_symbols_ = m at hform
    subst hform
    refine ⟨fun hf => (by cases hf), fun _ => ⟨_, rfl, ?_⟩⟩
    exact hash_erase_table_spec n h
  | true =>
    have hform := wf_dense_form h hd
    generalize t.internal_symbols_ = l at hform
    subst hform
    rw [binding_dense_eq]
    have hwf := (wf_dense_iff l).1 h
    unfold EidosSymbolTable.RemoveValueForSymbol EidosSymbolTable._SlotIndexForSymbol
    simp only [if_true]
    cases hscan : scan_slots l (toInt32 n.length) n with
    | none =>
      have hnew : n ∉ (⟨true, l, []⟩ : EidosSymbolTable).names := by
        rw [names_dense rfl]
        exact (scan_none_iff_not_mem hwf.1 (by omega)).1 hscan
      exact ⟨fun _ v0 hb => (by cases hb), fun _ => ⟨_, rfl, h, unbinds_self hnew⟩⟩
    | some p =>
      obtain ⟨i, s⟩ := p
      have hget := (scan_slots_some hscan).1
      have hname : s.symbol_name_ = n :=
        (slot_matches_iff_name (hwf.1 s (scan_slots_mem hscan)) (by omega)).1
          (scan_slots_some hscan).2
      subst hname
      simp only [Option.map_some', hget, Option.some.injEq, Prod.mk.injEq]
      have hback := dense_backfill_spec h hget
      constructor
      · rintro - v0 ⟨-, hc⟩ rfl
        simp [hc]
      · rintro (hf | rfl | hne)
        · cases hf
        · exact ⟨_, (by simp), hback⟩
        · have hc : s.symbol_is_const_ = false := by
            cases hc : s.symbol_is_const_ with
            | false => rfl
            | true => exact absurd (by rw [hc]) (hne s.symbol_value_SP_)
          exact ⟨_, (by simp [hc]), hback⟩

/-- What `InitializeConstantSymbolEntry` does in a well-formed table for a name
shorter than 65536 characters for which the getters find nothing: it binds the
name to the value it is given, as a constant. -/
theorem initialize_spec (b : EidosBuild) {t : EidosSymbolTable} (h : t.WellFormed)
    {n : CppString} (hn : n.length < 65536) (v : EidosValue)
    (hv : ¬ (b.DEBUG = true ∧ v.invisible = true)) (hnew : t.binding n = none) :
    ∃ t2, t.InitializeConstantSymbolEntry_name b n v = .ok t2 ∧ t2.WellFormed ∧
      binds t t2 n v true ∧ t2.owns_name n = false := by
  have hdebug := debug_guard_false hv
  cases hd : t.using_internal_symbols_ with
  | false =>
    have hform := wf_hash_form h hd
    generalize t.hash_symbols_ = m at hform
    subst hform
    rw [binding_hash_eq, Option.map_eq_none'] at hnew
    refine ⟨_, ?_, hash_insert_spec v true h hnew |>.1, hash_insert_spec v true h hnew |>.2, rfl⟩
    simp [EidosSymbolTable.InitializeConstantSymbolEntry_name, hdebug]
  | true =>
    have hform := wf_dense_form h hd
    generalize t.internal_symbols_ = l at hform
    subst hform
    rw [binding_dense_eq, Option.map_eq_none'] at hnew
    have hwf := (wf_dense_iff l).1 h
    have hnew2 : n ∉ l.map (fun s => s.symbol_name_) :=
      (scan_none_iff_not_mem hwf.1 (by omega)).1 hnew
    by_cases hlt : (⟨true, l, []⟩ : EidosSymbolTable).internal_symbol_count_ <
        b.EIDOS_SYMBOL_TABLE_BASE_SIZE
    · have hspec := dense_append_spec ⟨v, n, toUInt16 (n.length : Int), true, true⟩ h
        (toUInt16_of_lt hn) hnew2
      refine ⟨_, ?_, hspec.1, hspec.2, ?_⟩
      · simp [EidosSymbolTable.InitializeConstantSymbolEntry_name, hdebug, hlt]
      · have hm := slot_matches_self v true true hn
        rw [toInt32_of_lt (by omega)] at hm
        simp only [EidosSymbolTable.owns_name, Bool.true_and]
        rw [toInt32_of_lt (by omega), scan_slots_append, hm]
        rfl
    · obtain ⟨hsw, hwf2, hbind⟩ := switch_spec h
      have hnone : hash_find (l.map (fun s => (s.symbol_name_,
          (⟨s.symbol_value_SP_, s.symbol_is_const_⟩ : EidosSymbolTable_ExternalSlot)))) n
            = none := by
        rw [hash_find_eq_none_iff, List.map_map]
        exact hnew2
      have hspec := hash_insert_spec v true hwf2 hnone
      refine ⟨_, ?_, hspec.1, binds_of_bindings_eq hbind hspec.2, rfl⟩
      simp only [EidosSymbolTable.InitializeConstantSymbolEntry_name, hdebug,
        Bool.false_eq_true, if_false, if_true, hlt, hsw]

/-- The part of `ReinitializeConstantSymbolEntry` that runs when no dense slot
is found, on a well-formed table for a name shorter than 65536 characters. -/
theorem reinitialize_define_spec (b : EidosBuild) {t : EidosSymbolTable} (h : t.WellFormed)
    {n : CppString} (hn : n.length < 65536) (v : EidosValue) :
    (t.using_internal_symbols_ = false → ∀ v0 c0, t.binding n = some (v0, c0) →
      (c0 = false ∨ v0.addr ≠ v.addr) →
        t.Reinitialize_define b n v = .error (.does_not_match n, t)) ∧
    (t.using_internal_symbols_ = false → ∀ v0, t.binding n = some (v0, true) →
      v0.addr = v.addr → t.Reinitialize_define b n v = .ok t) ∧
    (t.binding n = none →
      ∃ t2, t.Reinitialize_define b n v = .ok t2 ∧ t2.WellFormed ∧ binds t t2 n v true ∧
        t2.owns_name n = false) := by
  cases hd : t.using_internal_symbols_ with
  | false =>
    have hform := wf_hash_form h hd
    generalize t.hash_symbols_ = m at hform
    subst hform
    rw [binding_hash_eq]
    unfold EidosSymbolTable.Reinitialize_define
    simp only [Bool.false_eq_true, if_false]
    cases hf : hash_find m n with
    | none =>
      refine ⟨fun _ v0 c0 hb => (by cases hb), fun _ v0 hb => (by cases hb), fun _ => ?_⟩
      exact ⟨_, rfl, (hash_insert_spec v true h hf).1, (hash_insert_spec v true h hf).2, rfl⟩
    | some s =>
      simp only [Option.map_some', Option.some.injEq, Prod.mk.injEq]
      refine ⟨?_, ?_, fun hb => (by cases hb)⟩
      · rintro - v0 c0 ⟨rfl, rfl⟩ hor
        rcases hor with hc | ha
        · simp [hc]
        · simp [ha]
      · rintro - v0 ⟨rfl, hc⟩ ha
        simp [hc, ha]
  | true =>
    have hform := wf_dense_form h hd
    generalize t.internal_symbols_ = l at hform
    subst hform
    refine ⟨fun hf => (by cases hf), fun hf => (by cases hf), fun hnew => ?_⟩
    rw [binding_dense_eq, Option.map_eq_none'] at hnew
    have hwf := (wf_dense_iff l).1 h
    have hnew2 : n ∉ l.map (fun s => s.symbol_name_) :=
      (scan_none_iff_not_mem hwf.1 (by omega)).1 hnew
    by_cases hlt : (⟨true, l, []⟩ : EidosSymbolTable).internal_symbol_count_ <
        b.EIDOS_SYMBOL_TABLE_BASE_SIZE
    · have hspec := dense_append_spec ⟨v, n, toUInt16 (n.length : Int), true, true⟩ h
        (toUInt16_of_lt hn) hnew2
      refine ⟨_, ?_, hspec.1, hspec.2, ?_⟩
      · simp [EidosSymbolTable.Reinitialize_define, hlt]
      · have hm := slot_matches_self v true true hn
        rw [toInt32_of_lt (by omega)] at hm
        simp only [EidosSymbolTable.owns_name, Bool.true_and]
        rw [toInt32_of_lt (by omega), scan_slots_append, hm]
        rfl
    · obtain ⟨hsw, hwf2, hbind⟩ := switch_spec h
      have hnone : hash_find (l.map (fun s => (s.symbol_name_,
          (⟨s.symbol_value_SP_, s.symbol_is_const_⟩ : EidosSymbolTable_ExternalSlot)))) n
            = none := by
        rw [hash_find_eq_none_iff, List.map_map]
        exact hnew2
      have hspec := hash_insert_spec v true hwf2 hnone
      refine ⟨_, ?_, hspec.1, binds_of_bindings_eq hbind hspec.2, rfl⟩
      simp only [EidosSymbolTable.Reinitialize_define, if_true, hlt, if_false, hsw, hnone]

theorem owns_name_hash (l : List EidosSymbolTable_InternalSlot)
    (m : List (CppString × EidosSymbolTable_ExternalSlot)) (n : CppString) :
    (⟨false, l, m⟩ : EidosSymbolTable).owns_name n = false := rfl

/-- What `ReinitializeConstantSymbolEntry(const std::string &, EidosValue_SP)`
does in a well-formed table, for a name shorter than 65536 characters and a
value that passes the `DEBUG` test. -/
theorem reinitialize_name_spec (b : EidosBuild) {t : EidosSymbolTable} (h : t.WellFormed)
    {n : CppString} (hn : n.length < 65536) (v : EidosValue)
    (hv : ¬ (b.DEBUG = true ∧ v.invisible = true)) :
    (∀ v0 c0, t.binding n = some (v0, c0) →
      (c0 = false ∨ t.owns_name n = true ∨ v0.addr ≠ v.addr) →
        t.ReinitializeConstantSymbolEntry_name b n v = .error (.does_not_match n, t)) ∧
    (∀ v0, t.binding n = some (v0, true) → t.owns_name n = false → v0.addr = v.addr →
      t.ReinitializeConstantSymbolEntry_name b n v = .ok t) ∧
    (t.binding n = none →
      ∃ t2, t.ReinitializeConstantSymbolEntry_name b n v = .ok t2 ∧ t2.WellFormed ∧
        binds t t2 n v true ∧ t2.owns_name n = false) := by
  have hdebug := debug_guard_false hv
  have hdef := reinitialize_define_spec b h hn v
  cases hd : t.using_internal_symbols_ with
  | false =>
    have hred : t.ReinitializeConstantSymbolEntry_name b n v = t.Reinitialize_define b n v := by
      simp [EidosSymbolTable.ReinitializeConstantSymbolEntry_name, hdebug, hd]
    rw [hred]
    have hown : t.owns_name n = false := by simp [EidosSymbolTable.owns_name, hd]
    refine ⟨fun v0 c0 hb hor => hdef.1 hd v0 c0 hb ?_, fun v0 hb _ ha => hdef.2.1 hd v0 hb ha,
      hdef.2.2⟩
    rcases hor with hc | ho | ha
    · exact Or.inl hc
    · rw [hown] at ho; cases ho
    · exact Or.inr ha
  | true =>
    have hbd : t.binding n = (scan_slots t.internal_symbols_ (toInt32 n.length) n).map
        (fun p => (p.2.symbol_value_SP_, p.2.symbol_is_const_)) := by
      simp [EidosSymbolTable.binding, hd]
    have hown : t.owns_name n =
        match scan_slots t.internal_symbols_ (toInt32 n.length) n with
        | some (_, symbol_slot) => !symbol_slot.symbol_name_externally_owned_
        | none => false := by
      simp [EidosSymbolTable.owns_name, hd]
    cases hscan : scan_slots t.internal_symbols_ (toInt32 n.length) n with
    | none =>
      have hred : t.ReinitializeConstantSymbolEntry_name b n v =
          t.Reinitialize_define b n v := by
        simp [EidosSymbolTable.ReinitializeConstantSymbolEntry_name, hdebug, hd,
          EidosSymbolTable._SlotIndexForSymbol, hscan]
      rw [hred]
      rw [hscan] at hbd
      refine ⟨fun v0 c0 hb => ?_, fun v0 hb => ?_, hdef.2.2⟩
      · rw [hbd] at hb; cases hb
      · rw [hbd] at hb; cases hb
    | some p =>
      obtain ⟨i, s⟩ := p
      have hget := (scan_slots_some hscan).1
      rw [hscan] at hbd hown
      simp only [Option.map_some'] at hbd
      simp only at hown
      rw [hbd, hown]
      have hred : t.ReinitializeConstantSymbolEntry_name b n v =
          if (!s.symbol_is_const_) || (!s.symbol_name_externally_owned_) ||
              decide (s.symbol_value_SP_.addr ≠ v.addr) then
            .error (.does_not_match n, t)
          else .ok t := by
        simp only [EidosSymbolTable.ReinitializeConstantSymbolEntry_name, hdebug, hd,
          EidosSymbolTable._SlotIndexForSymbol, hscan, Option.map_some', Option.some_bind,
          hget, Bool.false_eq_true, if_false, if_true]
      rw [hred]
      refine ⟨?_, ?_, fun hb => (by cases hb)⟩
      · intro v0 c0 hb hor
        simp only [Option.some.injEq, Prod.mk.injEq] at hb
        obtain ⟨rfl, rfl⟩ := hb
        rcases hor with hc | ho | ha
        · simp [hc]
        · simp only [Bool.not_eq_true'] at ho
          simp [ho]
        · simp [ha]
      · intro v0 hb ho ha
        simp only [Option.some.injEq, Prod.mk.injEq] at hb
        obtain ⟨rfl, hc⟩ := hb
        simp only [Bool.not_eq_false'] at ho
        simp [hc, ho, ha]

/-- What `ReinitializeConstantSymbolEntry(EidosSymbolTableEntry *)` does in a
well-formed table, for a name shorter than 65536 characters and a value that
passes the `DEBUG` test. -/
theorem reinitialize_spec (b : EidosBuild) {t : EidosSymbolTable} (h : t.WellFormed)
    {e : EidosSymbolTableEntry} (hn : e.1.length < 65536)
    (hv : ¬ (b.DEBUG = true ∧ e.2.invisible = true)) :
    (∀ v0 c0, t.binding e.1 = some (v0, c0) → (c0 = false ∨ v0.addr ≠ e.2.addr) →
        t.ReinitializeConstantSymbolEntry b e = .error (.does_not_match e.1, t)) ∧
    (∀ v0, t.binding e.1 = some (v0, true) → v0.addr = e.2.addr →
      t.ReinitializeConstantSymbolEntry b e = .ok t) ∧
    (t.binding e.1 = none →
      ∃ t2, t.ReinitializeConstantSymbolEntry b e = .ok t2 ∧ t2.WellFormed ∧
        binds t t2 e.1 e.2 true ∧ t2.owns_name e.1 = false) := by
  obtain ⟨n, v⟩ := e
  simp only at hn hv ⊢
  have hdebug := debug_guard_false hv
  have hdef := reinitialize_define_spec b h hn v
  cases hd : t.using_internal_symbols_ with
  | false =>
    have hred : t.ReinitializeConstantSymbolEntry b (n, v) = t.Reinitialize_define b n v := by
      simp [EidosSymbolTable.ReinitializeConstantSymbolEntry, hdebug, hd]
    rw [hred]
    exact ⟨hdef.1 hd, hdef.2.1 hd, hdef.2.2⟩
  | true =>
    have hbd : t.binding n = (scan_slots t.internal_symbols_ (toInt32 n.length) n).map
        (fun p => (p.2.symbol_value_SP_, p.2.symbol_is_const_)) := by
      simp [EidosSymbolTable.binding, hd]
    cases hscan : scan_slots t.internal_symbols_ (toInt32 n.length) n with
    | none =>
      have hred : t.ReinitializeConstantSymbolEntry b (n, v) =
          t.Reinitialize_define b n v := by
        simp [EidosSymbolTable.ReinitializeConstantSymbolEntry, hdebug, hd,
          EidosSymbolTable._SlotIndexForSymbol, hscan]
      rw [hred]
      rw [hscan] at hbd
      refine ⟨fun v0 c0 hb => ?_, fun v0 hb => ?_, hdef.2.2⟩
      · rw [hbd] at hb; cases hb
      · rw [hbd] at hb; cases hb
    | some p =>
      obtain ⟨i, s⟩ := p
      have hget := (scan_slots_some hscan).1
      rw [hscan] at hbd
      simp only [Option.map_some'] at hbd
      rw [hbd]
      have hred : t.ReinitializeConstantSymbolEntry b (n, v) =
          if (!s.symbol_is_const_) || decide (s.symbol_value_SP_.addr ≠ v.addr) then
            .error (.does_not_match n, t)
          else .ok t := by
        simp only [EidosSymbolTable.ReinitializeConstantSymbolEntry, hdebug, hd,
          EidosSymbolTable._SlotIndexForSymbol, hscan, Option.map_some', Option.some_bind,
          hget, Bool.false_eq_true, if_false, if_true]
      rw [hred]
      refine ⟨?_, ?_, fun hb => (by cases hb)⟩
      · intro v0 c0 hb hor
        simp only [Option.some.injEq, Prod.mk.injEq] at hb
        obtain ⟨rfl, rfl⟩ := hb
        rcases hor with hc | ha
        · simp [hc]
        · simp [ha]
      · intro v0 hb ha
        simp only [Option.some.injEq, Prod.mk.injEq] at hb
        obtain ⟨rfl, hc⟩ := hb
        simp [hc, ha]

/-- In a `DEBUG` build the two families that store their argument as given
raise on an invisible value and change nothing. -/
theorem debug_guard_raises (b : EidosBuild) (t : EidosSymbolTable) (n : CppString)
    {v : EidosValue} (hD : b.DEBUG = true) (hI : v.invisible = true) :
    t.InitializeConstantSymbolEntry_name b n v = .error (.only_for_non_invisible, t) ∧
    t.ReinitializeConstantSymbolEntry_name b n v = .error (.only_for_non_invisible, t) ∧
    t.ReinitializeConstantSymbolEntry b (n, v) = .error (.only_for_non_invisible, t) := by
  simp [EidosSymbolTable.InitializeConstantSymbolEntry_name,
    EidosSymbolTable.ReinitializeConstantSymbolEntry_name,
    EidosSymbolTable.ReinitializeConstantSymbolEntry, hD, hI, EidosValue.Invisible]

/-! ## Claim C31: the storage tier and what a client sees -/

/-- Two well-formed tables for which the getters find the same for every name
shorter than `2^31` characters. -/
theorem step_agrees (b : EidosBuild) {t u : EidosSymbolTable} (ht : t.WellFormed)
    (hu : u.WellFormed)
    (h : ∀ m : CppString, m.length < 2147483648 → t.binding m = u.binding m)
    (c : ClientCall) (hc : c.name.length < 65536) :
    (c.step b t).1 = (c.step b u).1 ∧ (c.step b t).2.WellFormed ∧ (c.step b u).2.WellFormed ∧
      ∀ m : CppString, m.length < 2147483648 →
        (c.step b t).2.binding m = (c.step b u).2.binding m := by
  have hn : c.name.length < 2147483648 := by omega
  cases c with
  | GetValueOrRaiseForSymbol n =>
    refine ⟨?_, ht, hu, h⟩
    simp only [ClientCall.step, getOrRaise_eq_binding, h n hn]
  | SetValueForSymbol n v fresh =>
    simp only [ClientCall.name] at hc hn
    simp only [ClientCall.step]
    by_cases hconst : ∃ v0, t.binding n = some (v0, true)
    · obtain ⟨v0, hv0⟩ := hconst
      rw [(setValue_spec b ht hc v fresh).1 v0 hv0,
        (setValue_spec b hu hc v fresh).1 v0 (by rw [← h n hn]; exact hv0)]
      exact ⟨rfl, ht, hu, h⟩
    · have hne : ∀ v0, t.binding n ≠ some (v0, true) := fun v0 hv0 => hconst ⟨v0, hv0⟩
      obtain ⟨t2, e1, w1, b1⟩ := (setValue_spec b ht hc v fresh).2 hne
      obtain ⟨u2, e2, w2, b2⟩ := (setValue_spec b hu hc v fresh).2
        (by intro v0; rw [← h n hn]; exact hne v0)
      rw [e1, e2]
      refine ⟨rfl, w1, w2, fun m hm => ?_⟩
      have k1 := binds_binding ht w1 b1 hn
      have k2 := binds_binding hu w2 b2 hn
      by_cases hmn : m = n
      · subst hmn
        exact k1.1.trans k2.1.symm
      · exact (k1.2 m hmn hm).trans ((h m hm).trans (k2.2 m hmn hm).symm)
  | SetConstantForSymbol n v fresh =>
    simp only [ClientCall.name] at hc hn
    simp only [ClientCall.step]
    by_cases hbound : t.binding n = none
    · obtain ⟨t2, e1, w1, b1⟩ := (setConstant_spec b ht hc v fresh).2 hbound
      obtain ⟨u2, e2, w2, b2⟩ := (setConstant_spec b hu hc v fresh).2
        (by rw [← h n hn]; exact hbound)
      rw [e1, e2]
      refine ⟨rfl, w1, w2, fun m hm => ?_⟩
      have k1 := binds_binding ht w1 b1 hn
      have k2 := binds_binding hu w2 b2 hn
      by_cases hmn : m = n
      · subst hmn
        exact k1.1.trans k2.1.symm
      · exact (k1.2 m hmn hm).trans ((h m hm).trans (k2.2 m hmn hm).symm)
    · rw [(setConstant_spec b ht hc v fresh).1 hbound,
        (setConstant_spec b hu hc v fresh).1 (by rw [← h n hn]; exact hbound)]
      exact ⟨rfl, ht, hu, h⟩

theorem observations_agree (b : EidosBuild) (calls : List ClientCall) {t u : EidosSymbolTable}
    (ht : t.WellFormed) (hu : u.WellFormed)
    (h : ∀ m : CppString, m.length < 2147483648 → t.binding m = u.binding m)
    (hc : ∀ c ∈ calls, c.name.length < 65536) :
    observations b t calls = observations b u calls := by
  induction calls generalizing t u with
  | nil => rfl
  | cons c rest ih =>
    obtain ⟨h1, h2, h3, h4⟩ := step_agrees b ht hu h c (hc c (List.mem_cons_self _ _))
    rw [observations, observations, h1,
      ih h2 h3 h4 (fun c2 hc2 => hc c2 (List.mem_cons_of_mem _ hc2))]

/-- The table that the constructor leaves is well-formed, and its bindings do
not depend on the tier in which it starts. -/
theorem new_well_formed (b : EidosBuild) (g : EidosStaticObjects)
    (p_symbol_usage : Option EidosSymbolUsageParamBlock) (p_start_with_hash : Bool) :
    (table_after (EidosSymbolTable.new b g p_symbol_usage p_start_with_hash)).WellFormed ∧
      (table_after (EidosSymbolTable.new b g p_symbol_usage p_start_with_hash)).bindings =
        ((base_entries g p_symbol_usage).filter (fun fe => fe.1)).map
          (fun fe => (fe.2.1, fe.2.2, true)) := by
  obtain ⟨t, h1, h2, -, hnd, hone, hl, -, -⟩ := new_spec b g p_symbol_usage p_start_with_hash
  rw [h1]
  exact ⟨⟨hone, hl, hnd⟩, h2⟩

/-- For names shorter than 65536 characters the storage tier cannot be
observed: a table constructed in dense mode and one constructed in hash mode,
with the same usage block, raise on the same calls of a sequence of
`SetValueForSymbol`, `SetConstantForSymbol` and `GetValueOrRaiseForSymbol`
calls, with the same errors, and return the same values from the lookups. -/
theorem tiers_agree_on_short_names (b : EidosBuild) (g : EidosStaticObjects)
    (p_symbol_usage : Option EidosSymbolUsageParamBlock) (calls : List ClientCall)
    (hc : ∀ c ∈ calls, c.name.length < 65536) :
    observations b (table_after (EidosSymbolTable.new b g p_symbol_usage false)) calls =
      observations b (table_after (EidosSymbolTable.new b g p_symbol_usage true)) calls := by
  obtain ⟨w1, b1⟩ := new_well_formed b g p_symbol_usage false
  obtain ⟨w2, b2⟩ := new_well_formed b g p_symbol_usage true
  refine observations_agree b calls w1 w2 (fun m hm => ?_) hc
  exact binding_congr w2 w1 (fun e => by rw [b1, b2]) hm

theorem tiers_agree_on_short_names_example :
    observations build2 (table_after (EidosSymbolTable.new build2 statics0 none false))
        short_name_client =
      observations build2 (table_after (EidosSymbolTable.new build2 statics0 none true))
        short_name_client ∧
    observations build2 (table_after (EidosSymbolTable.new build2 statics0 none false))
        short_name_client =
      [.returned, .returned, .raised (.cannot_be_redefined ['y']), .returned,
        .value ⟨400, false, .integer [1]⟩, .raised (.undefined_identifier ['w']),
        .raised (.already_defined ['x'])] :=
  ⟨tiers_agree_on_short_names build2 statics0 none short_name_client (by decide), by decide⟩

theorem set_hash_long_name (n : CppString) :
    observations build16 empty_hash
        [.SetValueForSymbol n value_one 0, .GetValueOrRaiseForSymbol n] =
      [.returned, .value value_one] := by
  simp [observations, ClientCall.step, EidosSymbolTable.SetValueForSymbol, empty_hash,
    EidosSymbolTable.SetValueForSymbol_hash, hash_find, hash_insert, observe_result, table_after,
    EidosSymbolTable.GetValueOrRaiseForSymbol, observe_lookup, value_one, EidosValue.Invisible]

theorem set_dense_long_name {n : CppString} (h : n.length = 65536) :
    observations build16 empty_dense
        [.SetValueForSymbol n value_one 0, .GetValueOrRaiseForSymbol n] =
      [.returned, .raised (.undefined_identifier n)] := by
  simp only [observations, ClientCall.step, set_truncated h, observe_result, table_after,
    get_truncated h, observe_lookup]

/-- C31 (the code at the failing input).  The storage tier can be observed.
For the usage block that
asks for no reserved constant, the table constructed in dense mode and the
table constructed in hash mode are given the same two calls,
`SetValueForSymbol(n, 1)` and `GetValueOrRaiseForSymbol(n)` with `n` a name of
65536 characters: both return from the first call; the lookup raises
"undefined identifier" in dense mode and returns the value in hash mode. -/
theorem tiers_disagree_on_long_name :
    observations build16 (table_after (EidosSymbolTable.new build16 statics0 (some no_usage) false))
        long_name_client = [.returned, .raised (.undefined_identifier long_name)] ∧
    observations build16 (table_after (EidosSymbolTable.new build16 statics0 (some no_usage) true))
        long_name_client = [.returned, .value value_one] := by
  have h1 : table_after (EidosSymbolTable.new build16 statics0 (some no_usage) false)
      = empty_dense := rfl
  have h2 : table_after (EidosSymbolTable.new build16 statics0 (some no_usage) true)
      = empty_hash := rfl
  rw [h1, h2]
  exact ⟨set_dense_long_name long_name_length, set_hash_long_name long_name⟩

/-! ## Claim C32: the bound on the dense array -/

/-- C32. Dense-array bound.  In every table state reached from the
constructor (for every build, usage block and starting tier) by a sequence of
calls of `SetValueForSymbol`, `SetConstantForSymbol`, `RemoveValueForSymbol`,
`InitializeConstantSymbolEntry` and `ReinitializeConstantSymbolEntry` (calls
that raise included), `internal_symbol_count_` is at most
`EIDOS_SYMBOL_TABLE_BASE_SIZE`, it is 0 whenever the table is in hash mode, and
a table in hash mode is still in hash mode after any further calls. -/
theorem dense_array_bound (b : EidosBuild) (g : EidosStaticObjects)
    (p_symbol_usage : Option EidosSymbolUsageParamBlock) (p_start_with_hash : Bool)
    (calls : List TableCall) :
    (run_calls b (table_after (EidosSymbolTable.new b g p_symbol_usage p_start_with_hash))
        calls).internal_symbol_count_ ≤ b.EIDOS_SYMBOL_TABLE_BASE_SIZE ∧
    ((run_calls b (table_after (EidosSymbolTable.new b g p_symbol_usage p_start_with_hash))
        calls).using_internal_symbols_ = false →
      (run_calls b (table_after (EidosSymbolTable.new b g p_symbol_usage p_start_with_hash))
        calls).internal_symbol_count_ = 0) ∧
    ∀ more : List TableCall,
      (run_calls b (table_after (EidosSymbolTable.new b g p_symbol_usage p_start_with_hash))
        calls).using_internal_symbols_ = false →
      (run_calls b
        (run_calls b (table_after (EidosSymbolTable.new b g p_symbol_usage p_start_with_hash))
          calls) more).using_internal_symbols_ = false := by
  have h := (run_calls_dense_bound b calls (new_dense_bound b g p_symbol_usage
    p_start_with_hash)).1
  exact ⟨h.1, h.2, fun more => (run_calls_dense_bound b more h).2⟩

/-- A dense table with two slots in a build with two dense slots switches to
hash mode at the third symbol, and stays there when symbols are removed. -/
theorem dense_array_bound_example :
    (run_calls build2 two_slot_table [.SetValueForSymbol ['y'] value_two 0]).using_internal_symbols_
      = false ∧
    (run_calls build2 two_slot_table [.SetValueForSymbol ['y'] value_two 0,
      .RemoveValueForSymbol ['y'] false, .RemoveValueForSymbol ['x'] false]).using_internal_symbols_
      = false ∧
    (run_calls build2 two_slot_table [.SetValueForSymbol ['y'] value_two 0,
      .RemoveValueForSymbol ['y'] false,
      .RemoveValueForSymbol ['x'] false]).internal_symbol_count_ = 0 := by
  decide

/-! ## Claim C33: removal of constants -/

/-- In dense mode a constant is protected from removal: in a well-formed table
in dense mode, for a name shorter than 65536 characters that the getters find
bound as a constant, `RemoveValueForSymbol(n, false)` raises "is a constant and
thus cannot be removed" and leaves the table as it is, and
`RemoveValueForSymbol(n, true)` returns a table in which the name is unbound. -/
theorem dense_constant_protected (t : EidosSymbolTable) (n : CppString) (v0 : EidosValue)
    (h : t.WellFormed) (hd : t.using_internal_symbols_ = true) (hn : n.length < 65536)
    (hb : t.binding n = some (v0, true)) :
    t.RemoveValueForSymbol n false = .error (.cannot_be_removed n, t) ∧
    ∃ t2, t.RemoveValueForSymbol n true = .ok t2 ∧ t2.binding n = none := by
  refine ⟨(remove_spec h hn false).1 hd v0 hb rfl, ?_⟩
  obtain ⟨t2, e, w, u⟩ := (remove_spec h hn true).2 (Or.inr (Or.inl rfl))
  exact ⟨t2, e, (unbinds_binding h w u (by omega)).1⟩

theorem dense_constant_protected_example :
    dense_constants_table.RemoveValueForSymbol gEidosStr_T false =
      .error (.cannot_be_removed gEidosStr_T, dense_constants_table) :=
  (dense_constant_protected dense_constants_table gEidosStr_T ⟨1, false, .logical [true]⟩
    (by decide) rfl (by decide) (by decide)).1

/-- C33 (the code at the failing input).  Constants are not protected from
removal in hash mode.  In the
table that the constructor leaves in hash mode, `T` is bound as a constant;
`RemoveValueForSymbol("T", false)` returns without raising and `T` is unbound
afterwards.  On the table that the constructor leaves in dense mode the same
call raises "is a constant and thus cannot be removed". -/
theorem hash_remove_ignores_constant :
    hash_constants_table.binding gEidosStr_T = some (⟨1, false, .logical [true]⟩, true) ∧
    observe_result (hash_constants_table.RemoveValueForSymbol gEidosStr_T false) = .returned ∧
    (table_after (hash_constants_table.RemoveValueForSymbol gEidosStr_T false)).binding
      gEidosStr_T = none ∧
    (table_after (hash_constants_table.RemoveValueForSymbol gEidosStr_T
      false)).GetValueOrNullForSymbol gEidosStr_T = none ∧
    gEidosStr_T ∉ (table_after (hash_constants_table.RemoveValueForSymbol gEidosStr_T
      false)).ReadOnlySymbols ∧
    observe_result (dense_constants_table.RemoveValueForSymbol gEidosStr_T false) =
      .raised (.cannot_be_removed gEidosStr_T) := by
  decide

/-! ## Claim C34: the names that a call touches -/

/-- In a well-formed table and for names shorter than 65536 characters, a call
of `SetValueForSymbol`, `SetConstantForSymbol` or `RemoveValueForSymbol` for
`n` that returns leaves what the getters find for every other name `m` as it
was (the value and the constness, or nothing), also when the call switches the
table to hash mode or back-fills the removed dense slot; and after
`RemoveValueForSymbol` the getters find nothing for `n`. -/
theorem calls_touch_one_name (b : EidosBuild) (t : EidosSymbolTable) (n m : CppString)
    (h : t.WellFormed) (hn : n.length < 65536) (hm : m.length < 65536) (hne : m ≠ n) :
    (∀ v fresh t2, t.SetValueForSymbol b n v fresh = .ok t2 →
      t2.binding m = t.binding m ∧ t2.binding n = some (stored_value v fresh, false)) ∧
    (∀ v fresh t2, t.SetConstantForSymbol b n v fresh = .ok t2 →
      t2.binding m = t.binding m ∧ t2.binding n = some (stored_value v fresh, true)) ∧
    (∀ c t2, t.RemoveValueForSymbol n c = .ok t2 →
      t2.binding m = t.binding m ∧ t2.binding n = none) := by
  refine ⟨fun v fresh t2 he => ?_, fun v fresh t2 he => ?_, fun c t2 he => ?_⟩
  · by_cases hconst : ∃ v0, t.binding n = some (v0, true)
    · obtain ⟨v0, hv0⟩ := hconst
      rw [(setValue_spec b h hn v fresh).1 v0 hv0] at he
      cases he
    · obtain ⟨t3, e, w, bd⟩ := (setValue_spec b h hn v fresh).2
        (fun v0 hv0 => hconst ⟨v0, hv0⟩)
      rw [e] at he
      cases he
      have k := binds_binding h w bd (by omega)
      exact ⟨k.2 m hne (by omega), k.1⟩
  · by_cases hbound : t.binding n = none
    · obtain ⟨t3, e, w, bd⟩ := (setConstant_spec b h hn v fresh).2 hbound
      rw [e] at he
      cases he
      have k := binds_binding h w bd (by omega)
      exact ⟨k.2 m hne (by omega), k.1⟩
    · rw [(setConstant_spec b h hn v fresh).1 hbound] at he
      cases he
  · by_cases hprot : t.using_internal_symbols_ = true ∧ c = false ∧
        ∃ v0, t.binding n = some (v0, true)
    · obtain ⟨hd, hc, v0, hv0⟩ := hprot
      rw [(remove_spec h hn c).1 hd v0 hv0 hc] at he
      cases he
    · have hcase : t.using_internal_symbols_ = false ∨ c = true ∨
          ∀ v0, t.binding n ≠ some (v0, true) := by
        by_cases hd : t.using_internal_symbols_ = true
        · by_cases hc : c = true
          · exact Or.inr (Or.inl hc)
          · refine Or.inr (Or.inr (fun v0 hv0 => hprot ⟨hd, ?_, v0, hv0⟩))
            simpa using hc
        · exact Or.inl (by simpa using hd)
      obtain ⟨t3, e, w, ub⟩ := (remove_spec h hn c).2 hcase
      rw [e] at he
      cases he
      have k := unbinds_binding h w ub (by omega)
      exact ⟨k.2 m hne (by omega), k.1⟩

theorem calls_touch_one_name_example :
    (table_after (two_slot_table.SetValueForSymbol build2 ['y'] value_two 0)).binding ['x'] =
      two_slot_table.binding ['x'] ∧
    (table_after (two_slot_table.RemoveValueForSymbol ['T'] true)).binding ['x'] =
      two_slot_table.binding ['x'] ∧
    (table_after (two_slot_table.RemoveValueForSymbol ['T'] true)).binding ['T'] = none :=
  ⟨((calls_touch_one_name build2 two_slot_table ['y'] ['x'] (by decide) (by decide) (by decide)
      (by decide)).1 value_two 0 _ rfl).1,
    ((calls_touch_one_name build2 two_slot_table ['T'] ['x'] (by decide) (by decide) (by decide)
      (by decide)).2.2 true _ rfl).1,
    ((calls_touch_one_name build2 two_slot_table ['T'] ['x'] (by decide) (by decide) (by decide)
      (by decide)).2.2 true _ rfl).2⟩

theorem nil_ne_long_name : ([] : CppString) ≠ long_name := by
  intro h
  have := congrArg List.length h
  rw [long_name_length] at this
  simp at this

theorem remove_truncated {n : CppString} (h : n.length = 65536) (v : EidosValue) (c : Bool)
    (p_remove_constant : Bool) :
    (⟨true, [truncated_slot n v c], []⟩ : EidosSymbolTable).RemoveValueForSymbol n
        p_remove_constant = .ok ⟨true, [truncated_slot n v c], []⟩ := by
  simp [EidosSymbolTable.RemoveValueForSymbol, EidosSymbolTable._SlotIndexForSymbol, scan_slots,
    toInt32_65536 h, truncated_slot_no_match]

theorem readWrite_truncated (n : CppString) (v : EidosValue) :
    (⟨true, [truncated_slot n v false], []⟩ : EidosSymbolTable).ReadWriteSymbols = [n] := by
  simp [EidosSymbolTable.ReadWriteSymbols, truncated_slot]

/-- C34 (the code at the failing input).  A call for one name changes what is
found for another.  In the
dense-mode table that the constructor leaves for a script that uses no
reserved constant (no slots, so the slot names are pairwise distinct), nothing
is bound to the empty name.  `SetValueForSymbol(n, 1)` with `n` a name of
65536 characters returns, and afterwards `GetValueOrNullForSymbol("")` returns
the value 1: the empty name is bound.  In the table so reached
`RemoveValueForSymbol(n, true)` returns and leaves the slot of `n` in place:
`ReadWriteSymbols` still lists `n`. -/
theorem long_name_set_binds_empty_name :
    (table_after (EidosSymbolTable.new build16 statics0 (some no_usage)
      false)).GetValueOrNullForSymbol [] = none ∧
    (table_after (EidosSymbolTable.new build16 statics0 (some no_usage) false)).names.Nodup ∧
    ([] : CppString) ≠ long_name ∧
    (table_after (EidosSymbolTable.new build16 statics0 (some no_usage) false)).SetValueForSymbol
      build16 long_name value_one 0 = .ok (long_name_table false) ∧
    (long_name_table false).GetValueOrNullForSymbol [] = some value_one ∧
    (long_name_table false).RemoveValueForSymbol long_name true = .ok (long_name_table false) ∧
    (long_name_table false).ReadWriteSymbols = [long_name] :=
  ⟨rfl, List.nodup_nil, nil_ne_long_name, set_long_name,
    (get_empty_truncated long_name value_one false).2.2,
    remove_truncated long_name_length value_one false true,
    readWrite_truncated long_name value_one⟩

/-! ## Claim C35: pairwise distinct names in the dense array -/

/-- A call for a name shorter than 65536 characters keeps a table well-formed,
provided that `InitializeConstantSymbolEntry` is called only for a name that no
slot carries. -/
theorem call_well_formed (b : EidosBuild) {t : EidosSymbolTable} (h : t.WellFormed)
    (c : TableCall) (hn : c.name.length < 65536)
    (hnew : c.assumes_undefined = true → c.name ∉ t.names) :
    (table_after (c.run b t)).WellFormed := by
  have key : ∀ r : EidosResult, (r = .error (.only_for_non_invisible, t) ∨
      (∃ e, r = .error (e, t)) ∨ ∃ t2, r = .ok t2 ∧ t2.WellFormed) →
      (table_after r).WellFormed := by
    rintro r (rfl | ⟨e, rfl⟩ | ⟨t2, rfl, w⟩)
    · exact h
    · exact h
    · exact w
  have hinit : ∀ (n : CppString) (v : EidosValue), n.length < 65536 → n ∉ t.names →
      (table_after (t.InitializeConstantSymbolEntry_name b n v)).WellFormed := by
    intro n v hn hnew
    by_cases hv : b.DEBUG = true ∧ v.invisible = true
    · rw [(debug_guard_raises b t n hv.1 hv.2).1]
      exact h
    · obtain ⟨t2, e, w, -⟩ := initialize_spec b h hn v hv
        ((binding_eq_none_iff h.2.1 (by omega)).2 hnew)
      rw [e]
      exact w
  cases c with
  | SetValueForSymbol n v fresh =>
    simp only [TableCall.name] at hn
    apply key
    by_cases hconst : ∃ v0, t.binding n = some (v0, true)
    · obtain ⟨v0, hv0⟩ := hconst
      exact Or.inr (Or.inl ⟨_, (setValue_spec b h hn v fresh).1 v0 hv0⟩)
    · obtain ⟨t3, e, w, -⟩ := (setValue_spec b h hn v fresh).2
        (fun v0 hv0 => hconst ⟨v0, hv0⟩)
      exact Or.inr (Or.inr ⟨t3, e, w⟩)
  | SetConstantForSymbol n v fresh =>
    simp only [TableCall.name] at hn
    apply key
    by_cases hbound : t.binding n = none
    · obtain ⟨t3, e, w, -⟩ := (setConstant_spec b h hn v fresh).2 hbound
      exact Or.inr (Or.inr ⟨t3, e, w⟩)
    · exact Or.inr (Or.inl ⟨_, (setConstant_spec b h hn v fresh).1 hbound⟩)
  | InitializeConstantSymbolEntry e => exact hinit e.1 e.2 hn (hnew rfl)
  | InitializeConstantSymbolEntry_name n v => exact hinit n v hn (hnew rfl)
  | ReinitializeConstantSymbolEntry e =>
    obtain ⟨n, v⟩ := e
    simp only [TableCall.name] at hn
    apply key
    by_cases hv : b.DEBUG = true ∧ v.invisible = true
    · exact Or.inl (debug_guard_raises b t n hv.1 hv.2).2.2
    · have hspec := reinitialize_spec b h (e := (n, v)) hn hv
      cases hb : t.binding n with
      | none =>
        obtain ⟨t3, e, w, -⟩ := hspec.2.2 hb
        exact Or.inr (Or.inr ⟨t3, e, w⟩)
      | some p =>
        obtain ⟨v0, c0⟩ := p
        by_cases hmatch : c0 = false ∨ v0.addr ≠ v.addr
        · exact Or.inr (Or.inl ⟨_, hspec.1 v0 c0 hb hmatch⟩)
        · have hc : c0 = true := by
            cases c0
            · exact absurd (Or.inl rfl) hmatch
            · rfl
          subst hc
          have ha : v0.addr = v.addr := by
            by_contra hx
            exact hmatch (Or.inr hx)
          exact Or.inr (Or.inr ⟨t, hspec.2.1 v0 hb ha, h⟩)
  | ReinitializeConstantSymbolEntry_name n v =>
    simp only [TableCall.name] at hn
    apply key
    by_cases hv : b.DEBUG = true ∧ v.invisible = true
    · exact Or.inl (debug_guard_raises b t n hv.1 hv.2).2.1
    · have hspec := reinitialize_name_spec b h hn v hv
      cases hb : t.binding n with
      | none =>
        obtain ⟨t3, e, w, -⟩ := hspec.2.2 hb
        exact Or.inr (Or.inr ⟨t3, e, w⟩)
      | some p =>
        obtain ⟨v0, c0⟩ := p
        by_cases hmatch : c0 = false ∨ t.owns_name n = true ∨ v0.addr ≠ v.addr
        · exact Or.inr (Or.inl ⟨_, hspec.1 v0 c0 hb hmatch⟩)
        · have hc : c0 = true := by
            cases c0
            · exact absurd (Or.inl rfl) hmatch
            · rfl
          subst hc
          have ho : t.owns_name n = false := by
            cases ho : t.owns_name n
            · rfl
            · exact absurd (Or.inr (Or.inl ho)) hmatch
          have ha : v0.addr = v.addr := by
            by_contra hx
            exact hmatch (Or.inr (Or.inr hx))
          exact Or.inr (Or.inr ⟨t, hspec.2.1 v0 hb ho ha, h⟩)
  | RemoveValueForSymbol n c =>
    simp only [TableCall.name] at hn
    apply key
    by_cases hprot : t.using_internal_symbols_ = true ∧ c = false ∧
        ∃ v0, t.binding n = some (v0, true)
    · obtain ⟨hd, hc, v0, hv0⟩ := hprot
      exact Or.inr (Or.inl ⟨_, (remove_spec h hn c).1 hd v0 hv0 hc⟩)
    · have hcase : t.using_internal_symbols_ = false ∨ c = true ∨
          ∀ v0, t.binding n ≠ some (v0, true) := by
        by_cases hd : t.using_internal_symbols_ = true
        · by_cases hc : c = true
          · exact Or.inr (Or.inl hc)
          · refine Or.inr (Or.inr (fun v0 hv0 => hprot ⟨hd, ?_, v0, hv0⟩))
            simpa using hc
        · exact Or.inl (by simpa using hd)
      obtain ⟨t3, e, w, -⟩ := (remove_spec h hn c).2 hcase
      exact Or.inr (Or.inr ⟨t3, e, w⟩)

theorem run_calls_well_formed (b : EidosBuild) (calls : List TableCall) {t : EidosSymbolTable}
    (h : t.WellFormed) (hc : calls_in_order b 65536 t calls = true) :
    (run_calls b t calls).WellFormed := by
  induction calls generalizing t with
  | nil => exact h
  | cons c rest ih =>
    rw [calls_in_order] at hc
    simp only [Bool.and_eq_true, decide_eq_true_eq, Bool.or_eq_true, Bool.not_eq_true'] at hc
    obtain ⟨⟨hlen, hnew⟩, hrest⟩ := hc
    have hw := call_well_formed b h c hlen (fun ha => by
      rcases hnew with hf | hf
      · rw [ha] at hf; cases hf
      · exact hf)
    exact ih hw hrest

/-- For names shorter than 65536 characters no name is bound twice: in every
table state reached from the constructor by calls of `SetValueForSymbol`,
`SetConstantForSymbol`, `RemoveValueForSymbol`,
`ReinitializeConstantSymbolEntry`, and `InitializeConstantSymbolEntry` on names
that no slot carries, the names of the slots of the tier in use are pairwise
distinct and every dense slot records the length of its name. -/
theorem short_names_bound_once (b : EidosBuild) (g : EidosStaticObjects)
    (p_symbol_usage : Option EidosSymbolUsageParamBlock) (p_start_with_hash : Bool)
    (calls : List TableCall)
    (hc : calls_in_order b 65536
      (table_after (EidosSymbolTable.new b g p_symbol_usage p_start_with_hash)) calls = true) :
    (run_calls b (table_after (EidosSymbolTable.new b g p_symbol_usage p_start_with_hash))
      calls).names.Nodup ∧
    ∀ s ∈ (run_calls b (table_after (EidosSymbolTable.new b g p_symbol_usage p_start_with_hash))
      calls).internal_symbols_, s.symbol_name_length_ = s.symbol_name_.length := by
  have h := run_calls_well_formed b calls
    (new_well_formed b g p_symbol_usage p_start_with_hash).1 hc
  exact ⟨h.2.2, h.2.1⟩

theorem short_names_bound_once_example :
    (run_calls build16 (table_after (EidosSymbolTable.new build16 statics0 none false))
      example_calls).names.Nodup :=
  (short_names_bound_once build16 statics0 none false example_calls (by decide)).1

theorem set_after_truncated {n : CppString} (h : n.length = 65536) (v w : EidosValue)
    (c : Bool) (hw : w.invisible = false) :
    (⟨true, [truncated_slot n v c], []⟩ : EidosSymbolTable).SetValueForSymbol build16 n w 0
      = .ok ⟨true, [truncated_slot n v c, truncated_slot n w false], []⟩ := by
  have hm : scan_slots [truncated_slot n v c] 65536 n = none := by
    simp [scan_slots, truncated_slot_no_match]
  simp [EidosSymbolTable.SetValueForSymbol, EidosSymbolTable._SlotIndexForSymbol, hm,
    toInt32_65536 h, EidosSymbolTable.internal_symbol_count_, build16, hw,
    EidosValue.Invisible, toUInt16_65536]
  rfl

theorem run_calls_cons (b : EidosBuild) (t : EidosSymbolTable) (c : TableCall)
    (rest : List TableCall) :
    run_calls b t (c :: rest) = run_calls b (table_after (c.run b t)) rest := rfl

theorem table_after_ok (t : EidosSymbolTable) : table_after (.ok t) = t := rfl

theorem run_calls_nil (b : EidosBuild) (t : EidosSymbolTable) : run_calls b t [] = t := rfl

theorem set_twice_truncated {n : CppString} (h : n.length = 65536) :
    run_calls build16 (table_after (EidosSymbolTable.new build16 statics0 (some no_usage) false))
        [.SetValueForSymbol n value_one 0, .SetValueForSymbol n value_two 0] =
      ⟨true, [truncated_slot n value_one false, truncated_slot n value_two false], []⟩ := by
  have h1 : table_after (EidosSymbolTable.new build16 statics0 (some no_usage) false)
      = empty_dense := rfl
  rw [h1, run_calls_cons, TableCall.run, set_truncated h, table_after_ok, run_calls_cons,
    TableCall.run, set_after_truncated h value_one value_two false rfl, table_after_ok,
    run_calls_nil]

theorem truncated_slots_not_nodup (n : CppString) (v w : EidosValue) (c d : Bool) :
    ¬ (([truncated_slot n v c, truncated_slot n w d].map (fun s => s.symbol_name_)).Nodup) := by
  simp [truncated_slot]

theorem truncated_slots_lengths {n : CppString} (h : n.length = 65536) (v w : EidosValue)
    (c d : Bool) :
    ∀ s ∈ [truncated_slot n v c, truncated_slot n w d],
      s.symbol_name_length_ = 0 ∧ s.symbol_name_.length = 65536 := by
  intro s hs
  simp only [List.mem_cons, List.mem_singleton, List.not_mem_nil, or_false] at hs
  rcases hs with rfl | rfl <;> exact ⟨rfl, h⟩

/-- C35 (the code at the failing input).  A name is bound twice.  From the
dense-mode table that the
constructor leaves for a script that uses no reserved constant, two calls
`SetValueForSymbol(n, 1)` and `SetValueForSymbol(n, 2)` with `n` a name of 65536
characters both return and leave a dense table with two slots that carry the
name `n`; each slot records the length 0, not the length 65536 of its name. -/
theorem long_name_bound_twice :
    run_calls build16 (table_after (EidosSymbolTable.new build16 statics0 (some no_usage) false))
        [.SetValueForSymbol long_name value_one 0, .SetValueForSymbol long_name value_two 0] =
      ⟨true, [truncated_slot long_name value_one false, truncated_slot long_name value_two false],
        []⟩ ∧
    ¬ (([truncated_slot long_name value_one false, truncated_slot long_name value_two false].map
        (fun s => s.symbol_name_)).Nodup) ∧
    (∀ s ∈ [truncated_slot long_name value_one false, truncated_slot long_name value_two false],
      s.symbol_name_length_ = 0 ∧ s.symbol_name_.length = 65536) :=
  ⟨set_twice_truncated long_name_length,
    truncated_slots_not_nodup long_name value_one value_two false false,
    truncated_slots_lengths long_name_length value_one value_two false false⟩

/-! ## Claim C36: constants and variables -/

/-- In a well-formed table, for a name shorter than `2^31` characters:
`ReadOnlySymbols` lists the name exactly when the getters find it bound as a
constant, `ReadWriteSymbols` exactly when they find it bound as a variable, no
name is listed by both, and the two together list exactly the names for which
`GetValueOrNullForSymbol` does not return the null pointer. -/
theorem constants_and_variables_partition (t : EidosSymbolTable) (n : CppString)
    (h : t.WellFormed) (hn : n.length < 2147483648) :
    (n ∈ t.ReadOnlySymbols ↔ ∃ v, t.binding n = some (v, true)) ∧
    (n ∈ t.ReadWriteSymbols ↔ ∃ v, t.binding n = some (v, false)) ∧
    ¬ (n ∈ t.ReadOnlySymbols ∧ n ∈ t.ReadWriteSymbols) ∧
    ((n ∈ t.ReadOnlySymbols ∨ n ∈ t.ReadWriteSymbols) ↔ t.GetValueOrNullForSymbol n ≠ none) := by
  have hro : n ∈ t.ReadOnlySymbols ↔ ∃ v, t.binding n = some (v, true) := by
    rw [readOnlySymbols_eq]
    constructor
    · intro hmem
      obtain ⟨e, he, rfl⟩ := List.mem_map.1 hmem
      obtain ⟨he1, he2⟩ := List.mem_filter.1 he
      obtain ⟨k, v, c⟩ := e
      simp only at he2 hn ⊢
      subst he2
      exact ⟨v, (binding_eq_some_iff h hn v true).2 he1⟩
    · rintro ⟨v, hv⟩
      exact List.mem_map.2 ⟨(n, v, true),
        List.mem_filter.2 ⟨(binding_eq_some_iff h hn v true).1 hv, rfl⟩, rfl⟩
  have hrw : n ∈ t.ReadWriteSymbols ↔ ∃ v, t.binding n = some (v, false) := by
    rw [readWriteSymbols_eq]
    constructor
    · intro hmem
      obtain ⟨e, he, rfl⟩ := List.mem_map.1 hmem
      obtain ⟨he1, he2⟩ := List.mem_filter.1 he
      obtain ⟨k, v, c⟩ := e
      simp only [Bool.not_eq_true'] at he2 hn ⊢
      subst he2
      exact ⟨v, (binding_eq_some_iff h hn v false).2 he1⟩
    · rintro ⟨v, hv⟩
      exact List.mem_map.2 ⟨(n, v, false),
        List.mem_filter.2 ⟨(binding_eq_some_iff h hn v false).1 hv, rfl⟩, rfl⟩
  refine ⟨hro, hrw, ?_, ?_⟩
  · rw [hro, hrw]
    rintro ⟨⟨v, hv⟩, ⟨w, hw⟩⟩
    rw [hv] at hw
    cases hw
  · rw [hro, hrw, getOrNull_eq_binding]
    cases hb : t.binding n with
    | none => simp
    | some p =>
      obtain ⟨v, c⟩ := p
      cases c <;> simp

theorem constants_and_variables_partition_example :
    (['x'] ∈ two_slot_table.ReadWriteSymbols ↔ ∃ v, two_slot_table.binding ['x'] = some (v, false)) ∧
    ¬ (['x'] ∈ two_slot_table.ReadOnlySymbols ∧ ['x'] ∈ two_slot_table.ReadWriteSymbols) :=
  ⟨(constants_and_variables_partition two_slot_table ['x'] (by decide) (by decide)).2.1,
    (constants_and_variables_partition two_slot_table ['x'] (by decide) (by decide)).2.2.1⟩

theorem define_then_set_truncated {n : CppString} (h : n.length = 65536) :
    run_calls build16 (table_after (EidosSymbolTable.new build16 statics0 (some no_usage) false))
        [.SetConstantForSymbol n value_one 0, .SetValueForSymbol n value_two 0] =
      ⟨true, [truncated_slot n value_one true, truncated_slot n value_two false], []⟩ := by
  have h1 : table_after (EidosSymbolTable.new build16 statics0 (some no_usage) false)
      = empty_dense := rfl
  rw [h1, run_calls_cons, TableCall.run, setConstant_truncated h, table_after_ok, run_calls_cons,
    TableCall.run, set_after_truncated h value_one value_two true rfl, table_after_ok,
    run_calls_nil]

theorem truncated_slots_listed (n : CppString) (v w : EidosValue) :
    (⟨true, [truncated_slot n v true, truncated_slot n w false], []⟩ :
      EidosSymbolTable).ReadOnlySymbols = [n] ∧
    (⟨true, [truncated_slot n v true, truncated_slot n w false], []⟩ :
      EidosSymbolTable).ReadWriteSymbols = [n] := by
  simp [EidosSymbolTable.ReadOnlySymbols, EidosSymbolTable.ReadWriteSymbols, truncated_slot]

theorem truncated_slots_miss {n : CppString} (h : n.length = 65536) (v w : EidosValue)
    (c d : Bool) :
    (⟨true, [truncated_slot n v c, truncated_slot n w d], []⟩ :
      EidosSymbolTable).GetValueOrNullForSymbol n = none := by
  simp [EidosSymbolTable.GetValueOrNullForSymbol, scan_slots, toInt32_65536 h,
    truncated_slot_no_match]

theorem truncated_slots_empty_name (n : CppString) (v w : EidosValue) (c d : Bool) :
    (⟨true, [truncated_slot n v c, truncated_slot n w d], []⟩ :
      EidosSymbolTable).GetValueOrNullForSymbol [] = some w := by
  have h0 : toInt32 0 = 0 := by decide
  have hm : ∀ v c, slot_matches (truncated_slot n v c) 0 [] = true := by
    intro v c
    simp [slot_matches, truncated_slot]
  have hv : (truncated_slot n w d).symbol_value_SP_ = w := rfl
  simp [EidosSymbolTable.GetValueOrNullForSymbol, scan_slots, h0, hm, hv]

/-- C36 (the code at the failing input).  The listings and the getters
disagree.  In the dense table reached
from the constructor (no reserved constant in use) by
`SetConstantForSymbol(n, 1)` and `SetValueForSymbol(n, 2)`, with `n` a name of
65536 characters, both calls return; `ReadOnlySymbols` lists `n` and so does
`ReadWriteSymbols`; `GetValueOrNullForSymbol(n)` returns the null pointer
although `n` is listed; and `GetValueOrNullForSymbol("")` returns a value
although the empty name is listed by neither. -/
theorem long_name_listed_twice_not_found :
    run_calls build16 (table_after (EidosSymbolTable.new build16 statics0 (some no_usage) false))
        [.SetConstantForSymbol long_name value_one 0, .SetValueForSymbol long_name value_two 0] =
      ⟨true, [truncated_slot long_name value_one true, truncated_slot long_name value_two false],
        []⟩ ∧
    (⟨true, [truncated_slot long_name value_one true, truncated_slot long_name value_two false],
        []⟩ : EidosSymbolTable).ReadOnlySymbols = [long_name] ∧
    (⟨true, [truncated_slot long_name value_one true, truncated_slot long_name value_two false],
        []⟩ : EidosSymbolTable).ReadWriteSymbols = [long_name] ∧
    (⟨true, [truncated_slot long_name value_one true, truncated_slot long_name value_two false],
        []⟩ : EidosSymbolTable).GetValueOrNullForSymbol long_name = none ∧
    (⟨true, [truncated_slot long_name value_one true, truncated_slot long_name value_two false],
        []⟩ : EidosSymbolTable).GetValueOrNullForSymbol [] = some value_two ∧
    ([] : CppString) ≠ long_name :=
  ⟨define_then_set_truncated long_name_length,
    (truncated_slots_listed long_name value_one value_two).1,
    (truncated_slots_listed long_name value_one value_two).2,
    truncated_slots_miss long_name_length value_one value_two true false,
    truncated_slots_empty_name long_name value_one value_two true false, nil_ne_long_name⟩

/-! ## Claim C37: `ReinitializeConstantSymbolEntry` -/

theorem reinitialize_outcomes (b : EidosBuild) {t : EidosSymbolTable} (h : t.WellFormed)
    {n : CppString} (hn : n.length < 65536) (v : EidosValue)
    (hv : ¬ (b.DEBUG = true ∧ v.invisible = true)) :
    ((∃ v0 c0, t.binding n = some (v0, c0) ∧ (c0 = false ∨ v0.addr ≠ v.addr)) ∧
        t.ReinitializeConstantSymbolEntry b (n, v) = .error (.does_not_match n, t)) ∨
    ((∃ v0, t.binding n = some (v0, true) ∧ v0.addr = v.addr) ∧
        t.ReinitializeConstantSymbolEntry b (n, v) = .ok t) ∨
    (t.binding n = none ∧ ∃ t2, t.ReinitializeConstantSymbolEntry b (n, v) = .ok t2 ∧
      t2.WellFormed ∧ binds t t2 n v true ∧ t2.owns_name n = false) := by
  have hspec := reinitialize_spec b h (e := (n, v)) hn hv
  cases hb : t.binding n with
  | none => exact Or.inr (Or.inr ⟨rfl, hspec.2.2 hb⟩)
  | some p =>
    obtain ⟨v0, c0⟩ := p
    by_cases hmatch : c0 = false ∨ v0.addr ≠ v.addr
    · exact Or.inl ⟨⟨v0, c0, rfl, hmatch⟩, hspec.1 v0 c0 hb hmatch⟩
    · have hc : c0 = true := by
        cases c0
        · exact absurd (Or.inl rfl) hmatch
        · rfl
      subst hc
      have ha : v0.addr = v.addr := by
        by_contra hx
        exact hmatch (Or.inr hx)
      exact Or.inr (Or.inl ⟨⟨v0, rfl, ha⟩, hspec.2.1 v0 hb ha⟩)

theorem reinitialize_name_outcomes (b : EidosBuild) {t : EidosSymbolTable} (h : t.WellFormed)
    {n : CppString} (hn : n.length < 65536) (v : EidosValue)
    (hv : ¬ (b.DEBUG = true ∧ v.invisible = true)) :
    ((∃ v0 c0, t.binding n = some (v0, c0) ∧
          (c0 = false ∨ t.owns_name n = true ∨ v0.addr ≠ v.addr)) ∧
        t.ReinitializeConstantSymbolEntry_name b n v = .error (.does_not_match n, t)) ∨
    ((∃ v0, t.binding n = some (v0, true) ∧ t.owns_name n = false ∧ v0.addr = v.addr) ∧
        t.ReinitializeConstantSymbolEntry_name b n v = .ok t) ∨
    (t.binding n = none ∧ ∃ t2, t.ReinitializeConstantSymbolEntry_name b n v = .ok t2 ∧
      t2.WellFormed ∧ binds t t2 n v true ∧ t2.owns_name n = false) := by
  have hspec := reinitialize_name_spec b h hn v hv
  cases hb : t.binding n with
  | none => exact Or.inr (Or.inr ⟨rfl, hspec.2.2 hb⟩)
  | some p =>
    obtain ⟨v0, c0⟩ := p
    by_cases hmatch : c0 = false ∨ t.owns_name n = true ∨ v0.addr ≠ v.addr
    · exact Or.inl ⟨⟨v0, c0, rfl, hmatch⟩, hspec.1 v0 c0 hb hmatch⟩
    · have hc : c0 = true := by
        cases c0
        · exact absurd (Or.inl rfl) hmatch
        · rfl
      subst hc
      have ho : t.owns_name n = false := by
        cases ho : t.owns_name n
        · rfl
        · exact absurd (Or.inr (Or.inl ho)) hmatch
      have ha : v0.addr = v.addr := by
        by_contra hx
        exact hmatch (Or.inr (Or.inr hx))
      exact Or.inr (Or.inl ⟨⟨v0, rfl, ho, ha⟩, hspec.2.1 v0 hb ho ha⟩)

/-- C37, as amended.  `ReinitializeConstantSymbolEntry(n, v)` in a well-formed
table, for a name shorter than 65536 characters and a value that is not
invisible (or in a build without `DEBUG`).  The overload that takes an entry
raises exactly when the getters find `n` bound and the binding is not a
constant or holds another value object than `v`; the overload that takes a
string raises exactly then and also when the dense slot found for `n` owns the
string of its name.  A call that raises leaves the table as it is.  When `n` is
bound as a constant to the same value object (and, for the string overload, the
dense slot does not own its name) the call returns and changes nothing.  When
nothing is found for `n` the call returns and binds `n` to `v` as a constant,
leaving what is found for every other name of fewer than 65536 characters.  A
second call with the same arguments on the table that the first call leaves
ends as the first call ended and leaves the same table. -/
theorem reinitialize_constant_entry (b : EidosBuild) (t : EidosSymbolTable) (n : CppString)
    (v : EidosValue) (h : t.WellFormed) (hn : n.length < 65536)
    (hv : ¬ (b.DEBUG = true ∧ v.invisible = true)) :
    ((∃ e t2, t.ReinitializeConstantSymbolEntry b (n, v) = .error (e, t2)) ↔
      ∃ v0 c0, t.binding n = some (v0, c0) ∧ (c0 = false ∨ v0.addr ≠ v.addr)) ∧
    ((∃ e t2, t.ReinitializeConstantSymbolEntry_name b n v = .error (e, t2)) ↔
      ∃ v0 c0, t.binding n = some (v0, c0) ∧
        (c0 = false ∨ t.owns_name n = true ∨ v0.addr ≠ v.addr)) ∧
    (∀ e t2, t.ReinitializeConstantSymbolEntry b (n, v) = .error (e, t2) →
      e = .does_not_match n ∧ t2 = t) ∧
    (∀ e t2, t.ReinitializeConstantSymbolEntry_name b n v = .error (e, t2) →
      e = .does_not_match n ∧ t2 = t) ∧
    (∀ v0, t.binding n = some (v0, true) → v0.addr = v.addr →
      t.ReinitializeConstantSymbolEntry b (n, v) = .ok t ∧
      (t.owns_name n = false → t.ReinitializeConstantSymbolEntry_name b n v = .ok t)) ∧
    (t.binding n = none →
      (∃ t2, t.ReinitializeConstantSymbolEntry b (n, v) = .ok t2 ∧
        t2.binding n = some (v, true) ∧
        ∀ m : CppString, m ≠ n → m.length < 65536 → t2.binding m = t.binding m) ∧
      (∃ t2, t.ReinitializeConstantSymbolEntry_name b n v = .ok t2 ∧
        t2.binding n = some (v, true) ∧
        ∀ m : CppString, m ≠ n → m.length < 65536 → t2.binding m = t.binding m)) ∧
    (table_after (t.ReinitializeConstantSymbolEntry b (n, v))).ReinitializeConstantSymbolEntry b
        (n, v) = t.ReinitializeConstantSymbolEntry b (n, v) ∧
    (table_after (t.ReinitializeConstantSymbolEntry_name b n
        v)).ReinitializeConstantSymbolEntry_name b n v =
      t.ReinitializeConstantSymbolEntry_name b n v := by
  have hn2 : n.length < 2147483648 := by omega
  have ho := reinitialize_outcomes b h hn v hv
  have hon := reinitialize_name_outcomes b h hn v hv
  refine ⟨?_, ?_, ?_, ?_, ?_, ?_, ?_, ?_⟩
  · constructor
    · rintro ⟨e, t2, he⟩
      rcases ho with ⟨hc, _⟩ | ⟨_, hr⟩ | ⟨_, t3, hr, _⟩
      · exact hc
      · rw [hr] at he; cases he
      · rw [hr] at he; cases he
    · rintro ⟨v0, c0, hb, hor⟩
      exact ⟨_, _, (reinitialize_spec b h (e := (n, v)) hn hv).1 v0 c0 hb hor⟩
  · constructor
    · rintro ⟨e, t2, he⟩
      rcases hon with ⟨hc, _⟩ | ⟨_, hr⟩ | ⟨_, t3, hr, _⟩
      · exact hc
      · rw [hr] at he; cases he
      · rw [hr] at he; cases he
    · rintro ⟨v0, c0, hb, hor⟩
      exact ⟨_, _, (reinitialize_name_spec b h hn v hv).1 v0 c0 hb hor⟩
  · intro e t2 he
    rcases ho with ⟨_, hr⟩ | ⟨_, hr⟩ | ⟨_, t3, hr, _⟩
    · rw [hr] at he; cases he; exact ⟨rfl, rfl⟩
    · rw [hr] at he; cases he
    · rw [hr] at he; cases he
  · intro e t2 he
    rcases hon with ⟨_, hr⟩ | ⟨_, hr⟩ | ⟨_, t3, hr, _⟩
    · rw [hr] at he; cases he; exact ⟨rfl, rfl⟩
    · rw [hr] at he; cases he
    · rw [hr] at he; cases he
  · intro v0 hb ha
    exact ⟨(reinitialize_spec b h (e := (n, v)) hn hv).2.1 v0 hb ha,
      fun hown => (reinitialize_name_spec b h hn v hv).2.1 v0 hb hown ha⟩
  · intro hb
    obtain ⟨t2, e2, w2, b2, -⟩ := (reinitialize_spec b h (e := (n, v)) hn hv).2.2 hb
    obtain ⟨t3, e3, w3, b3, -⟩ := (reinitialize_name_spec b h hn v hv).2.2 hb
    have k2 := binds_binding h w2 b2 hn2
    have k3 := binds_binding h w3 b3 hn2
    exact ⟨⟨t2, e2, k2.1, fun m hm hl => k2.2 m hm (by omega)⟩,
      ⟨t3, e3, k3.1, fun m hm hl => k3.2 m hm (by omega)⟩⟩
  · rcases ho with ⟨_, hr⟩ | ⟨_, hr⟩ | ⟨_, t3, hr, w3, b3, o3⟩
    · rw [hr]; exact hr
    · rw [hr]; exact hr
    · rw [hr]
      have k3 := binds_binding h w3 b3 hn2
      exact (reinitialize_spec b w3 (e := (n, v)) hn hv).2.1 v k3.1 rfl
  · rcases hon with ⟨_, hr⟩ | ⟨_, hr⟩ | ⟨_, t3, hr, w3, b3, o3⟩
    · rw [hr]; exact hr
    · rw [hr]; exact hr
    · rw [hr]
      have k3 := binds_binding h w3 b3 hn2
      exact (reinitialize_name_spec b w3 hn v hv).2.1 v k3.1 o3 rfl

theorem reinitialize_constant_entry_witness :
    dense_constants_table.WellFormed ∧ ['x'].length < 65536 ∧
    ¬ (build16.DEBUG = true ∧ value_one.invisible = true) ∧
    (table_after (dense_constants_table.ReinitializeConstantSymbolEntry_name build16 ['x']
        value_one)).ReinitializeConstantSymbolEntry_name build16 ['x'] value_one =
      dense_constants_table.ReinitializeConstantSymbolEntry_name build16 ['x'] value_one ∧
    (table_after (dense_constants_table.ReinitializeConstantSymbolEntry_name build16 ['x']
        value_one)).binding ['x'] = some (value_one, true) :=
  ⟨by decide, by decide, by decide,
    (reinitialize_constant_entry build16 dense_constants_table ['x'] value_one (by decide)
      (by decide) (by decide)).2.2.2.2.2.2.2,
    by decide⟩

/-- C37, counterexample.  The overload of `ReinitializeConstantSymbolEntry`
that takes a string
raises for a constant that `SetConstantForSymbol` has defined with the same
value object.  In the dense table in which `SetConstantForSymbol("x", 1)` has
defined `x`, the getters find `x` bound as a constant to the value object given;
`ReinitializeConstantSymbolEntry("x", v)` with the same value object raises
"is already defined, but the existing entry does not match", while the
overload that takes an entry returns and changes nothing, as does the string
overload once the table is in hash mode. -/
theorem reinitialize_rejects_owned_constant :
    observe_result (empty_dense.SetConstantForSymbol build16 ['x'] value_one 0) = .returned ∧
    owned_constant_table.binding ['x'] = some (value_one, true) ∧
    observe_result (owned_constant_table.ReinitializeConstantSymbolEntry_name build16 ['x']
      value_one) = .raised (.does_not_match ['x']) ∧
    observe_result (owned_constant_table.ReinitializeConstantSymbolEntry build16
      (['x'], value_one)) = .returned ∧
    table_after (owned_constant_table.ReinitializeConstantSymbolEntry build16
      (['x'], value_one)) = owned_constant_table ∧
    observe_result (owned_constant_table._SwitchToHash.ReinitializeConstantSymbolEntry_name build16
      ['x'] value_one) = .returned := by
  decide

/-! ## Claim C38: the dispatch on section headers -/

/-- C38. Section headers dispatch unambiguously.  For each of the twelve
sections, the documented header line (`#` followed by the keyword of the
section) is left as it is by `GetInputLine`, contains `#`, and contains the
keyword of no other section; so the first test of the chain of keyword tests
that matches the line is the test of that section, both in `CheckInputFile`
and in `Initialize`, which run the same chain: `CheckInputFile` goes on to
check the following lines as rows of that section, and `Initialize` records the
header and goes on to materialise the following lines as rows of that
section. -/
theorem headers_dispatch_unambiguously (s : ParameterSection) :
    sanitize ('#' :: s.keyword) = '#' :: s.keyword ∧
    ('#' :: s.keyword).contains '#' = true ∧
    (∀ s2 : ParameterSection, has_substr s2.keyword ('#' :: s.keyword) = true ↔ s2 = s) ∧
    find_section ('#' :: s.keyword) = some s ∧
    (∀ (current : Option ParameterSection) (good : Bool) (sub : CppString) (n : Counters)
        (lines : List CppString),
      check_lines current good sub n (('#' :: s.keyword) :: lines) =
        check_lines (some s) true sub n lines) ∧
    (∀ (files : CppString → Option InputFile) (current : Option ParameterSection)
        (sub : CppString) (sim : Simulation) (lines : List CppString),
      initialize_lines files current sub sim (('#' :: s.keyword) :: lines) =
        initialize_lines files (some s) sub
          { sim with p_parameters := sim.p_parameters ++ s.header } lines) := by
  have h1 : sanitize ('#' :: s.keyword) = '#' :: s.keyword := by cases s <;> decide
  have h2 : ('#' :: s.keyword).contains '#' = true := by cases s <;> decide
  have h4 : find_section ('#' :: s.keyword) = some s := by cases s <;> decide
  refine ⟨h1, h2, ?_, h4, ?_, ?_⟩
  · intro s2
    cases s <;> cases s2 <;> decide
  · intro current good sub n lines
    cases current <;> (rw [check_lines]; simp only [h1, h2, if_true, h4])
  · intro files current sub sim lines
    cases current <;> (rw [initialize_lines]; simp only [h1, h2, if_true, h4])

/-! ## Claim C39: validation and materialisation -/

theorem bind_no_fault {α β : Type} {r : Outcome α} {f : α → Outcome β}
    (hr : r ≠ .throws ∧ r ≠ .hangs) (hf : ∀ a, f a ≠ .throws ∧ f a ≠ .hangs) :
    Outcome.bind r f ≠ .throws ∧ Outcome.bind r f ≠ .hangs := by
  cases r with
  | ok a => exact hf a
  | exits m => simp [Outcome.bind]
  | throws => exact absurd rfl hr.1
  | undefined => simp [Outcome.bind]
  | hangs => exact absurd rfl hr.2
  | out_of_fuel => simp [Outcome.bind]

theorem ofInt_no_fault (v : Option Int) :
    Outcome.ofInt v ≠ .throws ∧ Outcome.ofInt v ≠ .hangs := by
  cases v <;> simp [Outcome.ofInt]

theorem ends_well_no_fault {α : Type} {P : String → Prop} {r : Outcome α}
    (h : r.ends_well P) : r ≠ .throws ∧ r ≠ .hangs := by
  cases r with
  | ok a => exact ⟨by simp, by simp⟩
  | exits m => exact ⟨by simp, by simp⟩
  | undefined => exact ⟨by simp, by simp⟩
  | throws => exact False.elim h
  | hangs => exact False.elim h
  | out_of_fuel => exact False.elim h

theorem genome_loop_no_fault (M : List (Int × Mutation)) (p i : Int) (fuel : Nat)
    (pop : Population) (iss : IStringStream) (sub : CppString) :
    genome_loop M p i fuel pop iss sub ≠ .throws ∧
      genome_loop M p i fuel pop iss sub ≠ .hangs := by
  induction fuel generalizing pop iss sub with
  | zero => simp [genome_loop]
  | succ fuel ih =>
    rw [genome_loop]
    split
    · simp
    · split
      · simp
      · split
        · simp
        · split
          · simp
          · split
            · simp
            · exact ih _ _ _

theorem genome_row_no_fault (pop : Population) (M : List (Int × Mutation))
    (sub line : CppString) :
    genome_row pop M sub line ≠ .throws ∧ genome_row pop M sub line ≠ .hangs := by
  unfold genome_row
  simp only [bind, pure]
  refine bind_no_fault (ofInt_no_fault _) (fun count => ?_)
  refine bind_no_fault (ofInt_no_fault _) (fun p => ?_)
  refine bind_no_fault (ofInt_no_fault _) (fun i => ?_)
  exact genome_loop_no_fault M p i _ pop _ _

theorem mutation_row_no_fault (c : Chromosome) (M : List (Int × Mutation))
    (sub line : CppString) :
    mutation_row c M sub line ≠ .throws ∧ mutation_row c M sub line ≠ .hangs := by
  unfold mutation_row
  simp only [bind, pure]
  refine bind_no_fault (ofInt_no_fault _) (fun _ => ?_)
  refine bind_no_fault (ofInt_no_fault _) (fun _ => ?_)
  refine bind_no_fault (ofInt_no_fault _) (fun _ => ?_)
  refine bind_no_fault (ofInt_no_fault _) (fun _ => ?_)
  refine bind_no_fault (ofInt_no_fault _) (fun _ => ?_)
  refine bind_no_fault (ofInt_no_fault _) (fun _ => ?_)
  split <;> simp

theorem subpopulation_row_no_fault (pop : Population) (sub line : CppString) :
    subpopulation_row pop sub line ≠ .throws ∧ subpopulation_row pop sub line ≠ .hangs := by
  unfold subpopulation_row
  simp only [bind, pure]
  refine bind_no_fault (ofInt_no_fault _) (fun _ => ?_)
  refine bind_no_fault (ofInt_no_fault _) (fun _ => ?_)
  simp

theorem load_genomes_no_fault (M : List (Int × Mutation)) (pop : Population) (sub : CppString)
    (lines : List CppString) :
    load_genomes M pop sub lines ≠ .throws ∧ load_genomes M pop sub lines ≠ .hangs := by
  induction lines generalizing pop sub with
  | nil => simp [load_genomes]
  | cons raw lines ih =>
    rw [load_genomes]
    exact bind_no_fault (genome_row_no_fault _ _ _ _) (fun r => ih _ _)

theorem load_mutations_no_fault (c : Chromosome) (pop : Population) (M : List (Int × Mutation))
    (sub : CppString) (lines : List CppString) :
    load_mutations c pop M sub lines ≠ .throws ∧ load_mutations c pop M sub lines ≠ .hangs := by
  induction lines generalizing M sub with
  | nil => simp [load_mutations]
  | cons raw lines ih =>
    rw [load_mutations]
    split
    · exact load_genomes_no_fault _ _ _ _
    · exact bind_no_fault (mutation_row_no_fault _ _ _ _) (fun r => ih _ _)

theorem load_subpopulations_no_fault (c : Chromosome) (pop : Population) (sub : CppString)
    (lines : List CppString) :
    load_subpopulations c pop sub lines ≠ .throws ∧
      load_subpopulations c pop sub lines ≠ .hangs := by
  induction lines generalizing pop sub with
  | nil => simp [load_subpopulations]
  | cons raw lines ih =>
    rw [load_subpopulations]
    split
    · exact load_mutations_no_fault _ _ _ _ _
    · exact bind_no_fault (subpopulation_row_no_fault _ _ _) (fun r => ih _ _)

theorem seek_populations_no_fault (c : Chromosome) (pop : Population)
    (lines : List CppString) :
    seek_populations c pop lines ≠ .throws ∧ seek_populations c pop lines ≠ .hangs := by
  induction lines with
  | nil => simp [seek_populations]
  | cons raw lines ih =>
    rw [seek_populations]
    split
    · exact load_subpopulations_no_fault _ _ _ _
    · exact ih

/-- Loading a population from a dump never reaches an `at()` out of range and
never loops without end. -/
theorem InitializePopulationFromFile_no_fault (files : CppString → Option InputFile)
    (p_population : Population) (p_file : CppString) (p_chromosome : Chromosome) :
    InitializePopulationFromFile files p_population p_file p_chromosome ≠ .throws ∧
      InitializePopulationFromFile files p_population p_file p_chromosome ≠ .hangs := by
  unfold InitializePopulationFromFile
  split
  · simp
  · exact bind_no_fault (seek_populations_no_fault _ _ _) (fun r => by simp)

/-- The row of an accepted file never reaches the out-of-range branch of
`at(0)` in `Initialize`. -/
theorem initialize_row_no_fault (files : CppString → Option InputFile) {s : ParameterSection}
    (sim : Simulation) (sub : CppString) {good : Bool} {sub0 line : CppString}
    {n n2 : Counters} {st : RowState}
    (hbody : row_body s good sub0 line n = (.done st, n2)) (hg : st.good = true) :
    initialize_row files s sim sub line ≠ .throws ∧
      initialize_row files s sim sub line ≠ .hangs := by
  by_cases hs : s = .INITIALIZATION
  · subst hs
    simp only [initialize_row, bind, pure]
    exact bind_no_fault (InitializePopulationFromFile_no_fault _ _ _ _) (fun a => by simp)
  · exact ends_well_no_fault (initialize_row_ends_well files sim sub hs hbody hg)

/-- On the lines of an accepted file the main loop of `Initialize` never reaches
the out-of-range branch of `at(0)` and comes to an end. -/
theorem initialize_lines_no_fault (files : CppString → Option InputFile)
    {current : Option ParameterSection} {good : Bool} {sub0 : CppString} {n n2 : Counters}
    (sub : CppString) (sim : Simulation) {lines : List CppString}
    (hcheck : check_lines current good sub0 n lines = .accepted n2) :
    initialize_lines files current sub sim lines ≠ .throws ∧
      initialize_lines files current sub sim lines ≠ .hangs := by
  induction lines generalizing current good sub0 n sub sim with
  | nil => cases current <;> simp [initialize_lines]
  | cons raw lines ih =>
    cases hhash : (sanitize raw).contains '#' with
    | true =>
      cases hsec : find_section (sanitize raw) with
      | none =>
        cases current <;>
          (rw [check_lines] at hcheck; simp only [hhash, if_true, hsec] at hcheck; cases hcheck)
      | some s =>
        have h2 : check_lines (some s) true sub0 n lines = .accepted n2 := by
          cases current <;>
            (rw [check_lines] at hcheck; simp only [hhash, if_true, hsec] at hcheck;
             exact hcheck)
        have := ih sub { sim with p_parameters := sim.p_parameters ++ s.header } h2
        cases current <;> (rw [initialize_lines]; simp only [hhash, if_true, hsec]; exact this)
    | false =>
      cases current with
      | none =>
        rw [check_lines] at hcheck
        simp only [hhash, Bool.false_eq_true, if_false] at hcheck
        rw [initialize_lines]
        simp only [hhash, Bool.false_eq_true, if_false]
        exact ih sub sim hcheck
      | some s =>
        rw [check_lines] at hcheck
        simp only [hhash, Bool.false_eq_true, if_false] at hcheck
        rw [initialize_lines]
        simp only [hhash, Bool.false_eq_true, if_false]
        by_cases hempty : sanitize raw = []
        · simp only [hempty, List.length_nil, if_true] at hcheck ⊢
          exact ih sub sim hcheck
        · have hlen : (sanitize raw).length ≠ 0 := fun h0 => hempty (List.length_eq_zero.1 h0)
          simp only [hlen, if_false] at hcheck ⊢
          cases hbody : row_body s good sub0 (sanitize raw) n with
          | mk r n3 =>
            rw [hbody] at hcheck
            cases r with
            | hangs => cases hcheck
            | out_of_fuel => cases hcheck
            | done st =>
              simp only at hcheck
              cases hgood : st.good with
              | false => simp [hgood] at hcheck
              | true =>
                simp only [hgood, Bool.not_true, Bool.false_eq_true, if_false] at hcheck
                refine bind_no_fault
                  (initialize_row_no_fault files _ sub hbody hgood) (fun a => ?_)
                exact ih a.2 a.1 hcheck

/-- C39. Validation makes materialisation safe.  For every parameter file
that `CheckInputFile` accepts: every row of `#MUTATION TYPES` has a third token
(the DFE type) that is not empty, and every row of `#DEMOGRAPHY AND STRUCTURE`
and of `#OUTPUT` has a second token (the kind) that is not empty, these being
the tokens that `Initialize` indexes with `at(0)`; and `Initialize`, entered in
any state of the objects it fills, does not reach the out-of-range branch of
`at(0)`, does not loop without end, and stays within the bounds that the
embedding puts on its loops over the tokens of a line: it returns, or it exits
with an error message, or an integer read from a file is out of range. -/
theorem validation_makes_materialisation_safe (files : CppString → Option InputFile)
    (sim : Simulation) (p_input_file : CppString) (p_override_seed : Option Int)
    (f : InputFile) (n : Counters) (hfile : files p_input_file = some f)
    (hcheck : CheckInputFile p_input_file (some f) = .accepted n) :
    (∀ r ∈ file_rows none f.lines,
      (r.1 = .MUTATION_TYPES → token_at 2 r.2 ≠ []) ∧
      (r.1 = .DEMOGRAPHY_AND_STRUCTURE → token_at 1 r.2 ≠ []) ∧
      (r.1 = .OUTPUT → token_at 1 r.2 ≠ [])) ∧
    Initialize files sim p_input_file p_override_seed ≠ .throws ∧
    Initialize files sim p_input_file p_override_seed ≠ .hangs ∧
    Initialize files sim p_input_file p_override_seed ≠ .out_of_fuel ∧
    (Initialize files sim p_input_file p_override_seed).ends_well (fun _ => True) := by
  have hlines : check_lines none true [] ⟨0, 0, 0, 0, 0, 0, 0⟩ f.lines = .accepted n := hcheck
  have hfault : Initialize files sim p_input_file p_override_seed ≠ .throws ∧
      Initialize files sim p_input_file p_override_seed ≠ .hangs := by
    unfold Initialize
    rw [hfile]
    exact bind_no_fault (initialize_lines_no_fault files [] sim hlines) (fun r => by simp)
  have hfuel := Initialize_fuel files sim p_input_file p_override_seed
  refine ⟨fun r hr => ?_, hfault.1, hfault.2, hfuel, ?_⟩
  · obtain ⟨good0, sub0, n0, st, n2, hbody, hg⟩ := check_lines_rows_good hlines r hr
    obtain ⟨s, row⟩ := r
    refine ⟨fun hs => ?_, fun hs => ?_, fun hs => ?_⟩
    · simp only at hs
      subst hs
      exact mutation_type_row_third_token hbody hg
    · simp only at hs
      subst hs
      exact demography_row_second_token hbody hg
    · simp only at hs
      subst hs
      exact output_row_second_token hbody hg
  · cases hres : Initialize files sim p_input_file p_override_seed with
    | ok a => exact True.intro
    | exits m => exact True.intro
    | undefined => exact True.intro
    | throws => exact absurd hres hfault.1
    | hangs => exact absurd hres hfault.2
    | out_of_fuel => exact absurd hres hfuel

theorem validation_makes_materialisation_safe_witness :
    CheckInputFile "f".toList (some events_file) = .accepted ⟨1, 1, 1, 1, 1, 1, 2⟩ ∧
    Initialize (one_file "f".toList events_file) (Simulation.empty 7) "f".toList none ≠ .throws ∧
    Initialize (one_file "f".toList events_file) (Simulation.empty 7) "f".toList none ≠ .hangs ∧
    ∀ r ∈ file_rows none events_file.lines,
      r.1 = .DEMOGRAPHY_AND_STRUCTURE → token_at 1 r.2 ≠ [] :=
  ⟨by decide,
    (validation_makes_materialisation_safe (one_file "f".toList events_file) (Simulation.empty 7)
      "f".toList none events_file ⟨1, 1, 1, 1, 1, 1, 2⟩ (by decide) (by decide)).2.1,
    (validation_makes_materialisation_safe (one_file "f".toList events_file) (Simulation.empty 7)
      "f".toList none events_file ⟨1, 1, 1, 1, 1, 1, 2⟩ (by decide) (by decide)).2.2.1,
    fun r hr => ((validation_makes_materialisation_safe (one_file "f".toList events_file)
      (Simulation.empty 7) "f".toList none events_file ⟨1, 1, 1, 1, 1, 1, 2⟩ (by decide)
      (by decide)).1 r hr).2.1⟩

/-! ## Claim C40: `writeFile` and `readFile` -/

theorem takeWhile_line (s rest : CppString) (hs : '\n' ∉ s) :
    (s ++ '\n' :: rest).takeWhile (fun c => c ≠ '\n') = s ∧
      (s ++ '\n' :: rest).dropWhile (fun c => c ≠ '\n') = '\n' :: rest := by
  induction s with
  | nil => simp
  | cons c s ih =>
    have hc : c ≠ '\n' := fun h => hs (by rw [h]; exact List.mem_cons_self _ _)
    have hp : decide (c ≠ '\n') = true := decide_eq_true hc
    have := ih (fun h => hs (List.mem_cons_of_mem _ h))
    rw [List.cons_append, List.takeWhile_cons, List.dropWhile_cons]
    simp only [hp, if_true]
    rw [this.1, this.2]
    exact ⟨rfl, rfl⟩

theorem takeWhile_last (s : CppString) (hs : '\n' ∉ s) :
    s.takeWhile (fun c => c ≠ '\n') = s ∧ s.dropWhile (fun c => c ≠ '\n') = [] := by
  induction s with
  | nil => simp
  | cons c s ih =>
    have hc : c ≠ '\n' := fun h => hs (by rw [h]; exact List.mem_cons_self _ _)
    have hp : decide (c ≠ '\n') = true := decide_eq_true hc
    have := ih (fun h => hs (List.mem_cons_of_mem _ h))
    rw [List.takeWhile_cons, List.dropWhile_cons]
    simp only [hp, if_true]
    rw [this.1, this.2]
    exact ⟨rfl, rfl⟩

/-- A line that ends in a newline: `getline` hands it out and stays good. -/
theorem getline_line (s rest line : CppString) (hs : '\n' ∉ s) :
    getline ⟨s ++ '\n' :: rest, false, false⟩ line = (⟨rest, false, false⟩, s) := by
  obtain ⟨h1, h2⟩ := takeWhile_line s rest hs
  simp only [getline, Bool.or_self, Bool.false_eq_true, if_false, h1, h2]

/-- The characters after the last newline: `getline` hands them out and sets
`eofbit`, and `failbit` too when there are none. -/
theorem getline_last (s line : CppString) (hs : '\n' ∉ s) :
    getline ⟨s, false, false⟩ line = (⟨[], true, s.isEmpty⟩, s) := by
  obtain ⟨h1, h2⟩ := takeWhile_last s hs
  simp only [getline, Bool.or_self, Bool.false_eq_true, if_false, h1, h2]

theorem getline_at_eof (buf line : CppString) (f : Bool) :
    getline ⟨buf, true, f⟩ line = (⟨buf, true, true⟩, line) := by
  simp [getline]

theorem read_back_cons (s t : CppString) (rest : List CppString) :
    read_back (s :: t :: rest) = s :: read_back (t :: rest) := by
  unfold read_back
  rw [List.getLast?_cons_cons]
  split <;> simp

/-- What the loop of `readFile` makes of the text that joins the elements of a
string vector by newlines. -/
theorem read_lines_joined (rest : List CppString) (s : CppString) (fuel : Nat)
    (line : CppString) (acc : List CppString) (hs : '\n' ∉ s) (hrest : ∀ t ∈ rest, '\n' ∉ t)
    (hfuel : rest.length + 2 ≤ fuel) :
    read_lines fuel ⟨joined_by_newlines (s :: rest), false, false⟩ line acc =
      some (acc ++ read_back (s :: rest)) := by
  induction rest generalizing s fuel line acc with
  | nil =>
    obtain ⟨f, rfl⟩ : ∃ f, fuel = f + 1 := ⟨fuel - 1, by simp at hfuel; omega⟩
    rw [joined_by_newlines, read_lines, getline_last s line hs]
    simp only
    cases s with
    | nil => simp [read_back]
    | cons c s =>
      obtain ⟨f2, rfl⟩ : ∃ f2, f = f2 + 1 := ⟨f - 1, by simp at hfuel; omega⟩
      simp only [List.isEmpty_cons, Bool.false_eq_true, if_false]
      rw [read_lines, getline_at_eof]
      simp [read_back]
  | cons t rest ih =>
    obtain ⟨f, rfl⟩ : ∃ f, fuel = f + 1 := ⟨fuel - 1, by simp at hfuel; omega⟩
    have hj : joined_by_newlines (s :: t :: rest) = s ++ '\n' :: joined_by_newlines (t :: rest) :=
      rfl
    rw [hj, read_lines, getline_line s _ line hs]
    simp only [Bool.false_eq_true, if_false]
    rw [ih t f s (acc ++ [s]) (hrest t (List.mem_cons_self _ _))
      (fun u hu => hrest u (List.mem_cons_of_mem _ hu))
      (by simp only [List.length_cons] at hfuel ⊢; omega), read_back_cons]
    simp

theorem read_lines_text (v : List CppString) (hv : ∀ s ∈ v, '\n' ∉ s) :
    read_lines ((joined_by_newlines v).length + 2) ⟨joined_by_newlines v, false, false⟩ [] [] =
      some (read_back v) := by
  cases v with
  | nil => simp [joined_by_newlines, read_lines, getline, read_back]
  | cons s rest =>
    have key : ∀ (l : List CppString) (x : CppString),
        l.length ≤ (joined_by_newlines (x :: l)).length := by
      intro l
      induction l with
      | nil => intro x; simp
      | cons y l ih =>
        intro x
        have hj : joined_by_newlines (x :: y :: l) = x ++ '\n' :: joined_by_newlines (y :: l) :=
          rfl
        have := ih y
        rw [hj]
        simp only [List.length_append, List.length_cons]
        omega
    have := read_lines_joined rest s ((joined_by_newlines (s :: rest)).length + 2) [] []
      (hv s (List.mem_cons_self _ _)) (fun t ht => hv t (List.mem_cons_of_mem _ ht))
      (by have := key rest s; omega)
    simpa using this

theorem stringAtIndex_string (v : List CppString) (i : Nat) :
    StringAtIndex (.string v) i = v.getD i [] := rfl

theorem write_values_later (v : List CppString) (rounds value_index : Nat) (out : CppString)
    (hpos : 0 < value_index) (hlen : value_index + rounds = v.length) :
    write_values (.string v) rounds value_index out =
      out ++ ((v.drop value_index).map (fun s => '\n' :: s)).flatten := by
  induction rounds generalizing value_index out with
  | zero =>
    have : value_index = v.length := by omega
    subst this
    simp [write_values]
  | succ k ih =>
    have hlt : value_index < v.length := by omega
    rw [write_values, ih (value_index + 1) _ (by omega) (by omega)]
    have hd : v.drop value_index = v[value_index] :: v.drop (value_index + 1) :=
      List.drop_eq_getElem_cons hlt
    have hget : StringAtIndex (.string v) value_index = v[value_index] := by
      rw [stringAtIndex_string, List.getD_eq_getElem?_getD, List.getElem?_eq_getElem hlt]
      rfl
    rw [hd, hget]
    simp only [gt_iff_lt, hpos, if_true, List.map_cons, List.flatten_cons, List.append_assoc,
      List.singleton_append, List.cons_append, List.nil_append]

theorem joined_eq_flatten (s : CppString) (rest : List CppString) :
    joined_by_newlines (s :: rest) = s ++ (rest.map (fun s => '\n' :: s)).flatten := by
  induction rest generalizing s with
  | nil => simp [joined_by_newlines]
  | cons t rest ih =>
    have hj : joined_by_newlines (s :: t :: rest) = s ++ '\n' :: joined_by_newlines (t :: rest) :=
      rfl
    rw [hj, ih t]
    simp

/-- The loop of `writeFile` writes the elements of a string vector joined by
newlines, with no newline at the end. -/
theorem write_values_string (v : List CppString) :
    write_values (.string v) (ScriptValue.string v).Count 0 [] = joined_by_newlines v := by
  cases v with
  | nil => rfl
  | cons s rest =>
    have hc : (ScriptValue.string (s :: rest)).Count = rest.length + 1 := rfl
    rw [hc, write_values, write_values_later (s :: rest) rest.length 1 _ (by omega)
      (by simp; omega), joined_eq_flatten]
    simp [stringAtIndex_string]

/-- C40, as amended.  The call `writeFile(name, v)` followed by `readFile(name)`,
for a file that can be written and a string vector `v` whose elements contain
no newline: the file holds the elements joined by newlines with no newline at
the end, and `readFile` returns `v` when the last element of `v` is not empty
(the empty vector included), and `v` without its last element when the last
element is empty (the one-element vector that holds the empty string is read
back as the empty vector). -/
theorem write_then_read (base_path_ homedir : CppString) (d : Disk) (name : CppString)
    (v : List CppString) (hv : ∀ s ∈ v, '\n' ∉ s)
    (hw : d.writable (c_str (ResolvedBasePath base_path_ homedir ++ ['/'] ++ name)) = true) :
    (∃ written, ExecuteMethod_writeFile base_path_ homedir d (.string [name]) (.string v) =
        .ok written ∧ written.warnings = [] ∧
      written.disk.contents (c_str (ResolvedBasePath base_path_ homedir ++ ['/'] ++ name)) =
        some (joined_by_newlines v)) ∧
    file_round_trip base_path_ homedir d (.string [name]) (.string v) =
      some (.string (read_back v)) ∧
    (v.getLast? ≠ some [] →
      file_round_trip base_path_ homedir d (.string [name]) (.string v) = some (.string v)) ∧
    (v.getLast? = some [] →
      file_round_trip base_path_ homedir d (.string [name]) (.string v) =
        some (.string v.dropLast)) := by
  have hname : StringAtIndex (.string [name]) 0 = name := rfl
  have hcount : (ScriptValue.string [name]).Count = 1 := rfl
  have hwrite : ExecuteMethod_writeFile base_path_ homedir d (.string [name]) (.string v) =
      .ok ⟨.null, [], d.store (c_str (ResolvedBasePath base_path_ homedir ++ ['/'] ++ name))
        (joined_by_newlines v)⟩ := by
    simp only [ExecuteMethod_writeFile, hcount, ne_eq, not_true_eq_false, if_false, hname, hw,
      Bool.not_true, Bool.false_eq_true, write_values_string]
  have hread : ExecuteMethod_readFile base_path_ homedir
      (d.store (c_str (ResolvedBasePath base_path_ homedir ++ ['/'] ++ name))
        (joined_by_newlines v)) (.string [name]) =
      .ok ⟨.string (read_back v), [],
        d.store (c_str (ResolvedBasePath base_path_ homedir ++ ['/'] ++ name))
          (joined_by_newlines v)⟩ := by
    simp only [ExecuteMethod_readFile, hcount, ne_eq, not_true_eq_false, if_false, hname,
      Disk.store, if_true, read_lines_text v hv]
  have htrip : file_round_trip base_path_ homedir d (.string [name]) (.string v) =
      some (.string (read_back v)) := by
    simp only [file_round_trip, hwrite, hread]
  refine ⟨⟨_, hwrite, rfl, by simp [Disk.store]⟩, htrip, fun h => ?_, fun h => ?_⟩
  · rw [htrip, read_back, if_neg h]
  · rw [htrip, read_back, if_pos h]

theorem write_then_read_witness :
    (∀ s ∈ ["a".toList, [], "b".toList], '\n' ∉ s) ∧
    file_round_trip "~/out".toList "/home/u".toList empty_disk (.string ["f".toList])
        (.string ["a".toList, [], "b".toList]) =
      some (.string ["a".toList, [], "b".toList]) :=
  ⟨by decide,
    (write_then_read "~/out".toList "/home/u".toList empty_disk "f".toList
      ["a".toList, [], "b".toList] (by decide) rfl).2.2.1 (by decide)⟩

/-- C40, counterexample.  A string vector that is not read back.  On a disk on
which
every path can be written, `writeFile("f", "")` with the one-element vector that
holds the empty string is followed by `readFile("f")`: the value read back is
the empty string vector; and the vector `("a", "")` is read back as `("a")`.
The empty vector is read back as it is. -/
theorem empty_last_element_not_read_back :
    file_round_trip "/tmp".toList [] empty_disk (.string ["f".toList]) (.string [[]]) =
      some (.string []) ∧
    file_round_trip "/tmp".toList [] empty_disk (.string ["f".toList])
        (.string ["a".toList, []]) = some (.string ["a".toList]) ∧
    file_round_trip "/tmp".toList [] empty_disk (.string ["f".toList]) (.string []) =
      some (.string []) ∧
    (ScriptValue.string [] ≠ ScriptValue.string [[]]) ∧
    (∀ s ∈ [([] : CppString)], '\n' ∉ s) := by
  decide

/-- The loop of `readFile` comes to an end within the bound that the embedding
puts on it. -/
theorem read_lines_fuel (fuel : Nat) (s : IFStream) (line : CppString) (acc : List CppString)
    (h : (if s.eofbit || s.failbit then 0 else s.buf.length + 1) < fuel) :
    read_lines fuel s line acc ≠ none := by
  induction fuel generalizing s line acc with
  | zero => omega
  | succ fuel ih =>
    rw [read_lines]
    by_cases hf : (getline s line).1.failbit = true
    · simp [hf]
    · simp only [hf, if_false]
      apply ih
      unfold getline at hf ⊢
      by_cases hgood : (s.eofbit || s.failbit) = true
      · simp [hgood] at hf
      · simp only [hgood, if_false, Bool.false_eq_true] at hf h ⊢
        have hlen := (List.dropWhile_suffix (fun c => decide (c ≠ '\n')) (l := s.buf)).length_le
        cases hd : s.buf.dropWhile (fun c => decide (c ≠ '\n')) with
        | nil =>
          rw [hd] at hf
          simp only at hf
          cases hb : s.buf with
          | nil => rw [hb] at hf; simp at hf
          | cons c rest =>
            rw [hb] at h
            simp only [Bool.or_self, Bool.true_or, if_true, List.length_cons] at h ⊢
            omega
        | cons c rest =>
          rw [hd] at hlen
          simp only [Bool.or_self, Bool.false_eq_true, if_false, List.length_cons] at hlen ⊢
          omega

/-- The method `readFile` never stops at the bound of the embedding. -/
theorem readFile_fuel (base_path_ homedir : CppString) (d : Disk) (arg0_value : ScriptValue) :
    ExecuteMethod_readFile base_path_ homedir d arg0_value ≠ .error "out of fuel" := by
  unfold ExecuteMethod_readFile
  split
  · intro h
    have := congrArg (fun r => match r with
      | Except.error e => e.length
      | Except.ok _ => 0) h
    revert this
    decide
  · simp only
    split
    · simp
    · rename_i text htext
      split
      · rename_i hnone
        exact absurd hnone (read_lines_fuel _ _ _ _ (by simp))
      · simp

/-! ## Claim C5: the constructor and the names of the static entries -/

/-- The strings that a call of `InitializeConstantSymbolEntry` deletes, and the
strings that the table it leaves does not own, are strings that the table did
not own before, or the name of the entry. -/
theorem initialize_entry_deletes {b : EidosBuild} {t t2 : EidosSymbolTable}
    {entry : EidosSymbolTableEntry}
    (h : t.InitializeConstantSymbolEntry b entry = .ok t2) (x : CppString)
    (hx : x ∈ t.InitializeConstantSymbolEntry_deletes b entry ∨ x ∈ t2._SwitchToHash_deletes) :
    x ∈ t._SwitchToHash_deletes ∨ x = entry.1 := by
  unfold EidosSymbolTable.InitializeConstantSymbolEntry
    EidosSymbolTable.InitializeConstantSymbolEntry_name at h
  unfold EidosSymbolTable.InitializeConstantSymbolEntry_deletes at hx
  by_cases hdbg : (b.DEBUG && entry.2.Invisible) = true
  · simp [hdbg] at h
  · simp only [hdbg, if_false, Bool.false_eq_true] at h hx
    cases hd : t.using_internal_symbols_ with
    | false =>
      simp only [hd, Bool.false_eq_true, if_false, Except.ok.injEq] at h hx
      subst h
      simp [EidosSymbolTable._SwitchToHash_deletes, hd] at hx
    | true =>
      by_cases hc : t.internal_symbol_count_ < b.EIDOS_SYMBOL_TABLE_BASE_SIZE
      · simp only [hd, hc, if_true, Except.ok.injEq] at h hx
        subst h
        simp only [EidosSymbolTable._SwitchToHash_deletes, hd, if_true, List.not_mem_nil,
          false_or, List.filter_append, List.map_append, List.mem_append] at hx ⊢
        rcases hx with hx | hx
        · exact Or.inl hx
        · right
          simpa using hx
      · simp only [hd, hc, if_true, if_false, Except.ok.injEq] at h hx
        subst h
        rcases hx with hx | hx
        · exact Or.inl hx
        · simp [EidosSymbolTable._SwitchToHash_deletes, EidosSymbolTable._SwitchToHash, hd] at hx

/-- Where the names of the entries to define are pairwise distinct and none of
them has been deleted, the statements of the constructor read no deleted string
and leave what `initialize_chain` gives. -/
theorem construct_chain_intact (b : EidosBuild) (entries : List (Bool × EidosSymbolTableEntry))
    (t : EidosSymbolTable) (deleted : List CppString)
    (hnd : ((entries.filter (fun fe => fe.1)).map (fun fe => fe.2.1)).Nodup)
    (hin : ∀ fe ∈ entries, fe.1 = true →
      fe.2.1 ∉ deleted ∧ fe.2.1 ∉ t._SwitchToHash_deletes) :
    ∃ d, construct_chain b entries t deleted = some (initialize_chain b entries t, d) := by
  induction entries generalizing t deleted with
  | nil => exact ⟨deleted, rfl⟩
  | cons fe rest ih =>
    obtain ⟨flag, entry⟩ := fe
    cases flag with
    | false =>
      have hnd2 : ((rest.filter (fun fe => fe.1)).map (fun fe => fe.2.1)).Nodup := by
        simpa [List.filter_cons] using hnd
      obtain ⟨d, hd⟩ := ih t deleted hnd2 (fun fe hfe => hin fe (List.mem_cons_of_mem _ hfe))
      refine ⟨d, ?_⟩
      rw [construct_chain, initialize_chain]
      simp only [Bool.false_eq_true, if_false, initialize_if]
      exact hd
    | true =>
      have hhead := hin (true, entry) (List.mem_cons_self _ _) rfl
      have hnd2 : entry.1 ∉ (rest.filter (fun fe => fe.1)).map (fun fe => fe.2.1) ∧
          ((rest.filter (fun fe => fe.1)).map (fun fe => fe.2.1)).Nodup := by
        simpa [List.filter_cons] using hnd
      rw [construct_chain, initialize_chain]
      simp only [if_true, initialize_if, hhead.1, if_false]
      cases hres : t.InitializeConstantSymbolEntry b entry with
      | error e => exact ⟨deleted, rfl⟩
      | ok t2 =>
        have hin2 : ∀ fe ∈ rest, fe.1 = true →
            fe.2.1 ∉ deleted ++ t.InitializeConstantSymbolEntry_deletes b entry ∧
              fe.2.1 ∉ t2._SwitchToHash_deletes := by
          intro fe hfe hflag
          have hold := hin fe (List.mem_cons_of_mem _ hfe) hflag
          have hne : fe.2.1 ≠ entry.1 := by
            intro heq
            apply hnd2.1
            rw [← heq]
            exact List.mem_map.2 ⟨fe, List.mem_filter.2 ⟨hfe, hflag⟩, rfl⟩
          constructor
          · intro hmem
            rcases List.mem_append.1 hmem with h1 | h1
            · exact hold.1 h1
            · rcases initialize_entry_deletes hres _ (Or.inl h1) with h2 | h2
              · exact hold.2 h2
              · exact hne h2
          · intro hmem
            rcases initialize_entry_deletes hres _ (Or.inr hmem) with h2 | h2
            · exact hold.2 h2
            · exact hne h2
        obtain ⟨d, hd⟩ := ih t2 _ hnd2.2 hin2
        exact ⟨d, hd⟩

/-- What C5 says, in a process in which the names of the static entries that
the constructor reads are intact (no call of `_SwitchToHash` has deleted
them).  For every build, both starting tiers and every usage block, the
constructor returns a table whose bound names are exactly the names among NAN,
INF, PI, E, NULL, F, T whose `contains_` flag is set (all seven when no usage
block is given), each bound once; every binding is a constant, so the names
that `ReadOnlySymbols` lists are exactly these names and `ReadWriteSymbols`
lists none; and each of these names can be looked up and yields the value of
its static entry. -/
theorem constructor_with_entries_intact (b : EidosBuild) (g : EidosStaticObjects)
    (deleted : List CppString) (p_symbol_usage : Option EidosSymbolUsageParamBlock)
    (p_start_with_hash : Bool)
    (h : ∀ n ∈ requested_constants p_symbol_usage, n ∉ deleted) :
    ∃ t d, EidosSymbolTable.new_in b g deleted p_symbol_usage p_start_with_hash
        = some (.ok t, d) ∧
      (∀ n, n ∈ t.names ↔ n ∈ requested_constants p_symbol_usage) ∧ t.names.Nodup ∧
      (∀ e, e ∈ t.bindings ↔
        ∃ fe ∈ base_entries g p_symbol_usage, fe.1 = true ∧ e = (fe.2.1, fe.2.2, true)) ∧
      (∀ n, n ∈ t.ReadOnlySymbols ↔ n ∈ requested_constants p_symbol_usage) ∧
      t.ReadWriteSymbols = [] ∧
      (∀ e ∈ t.bindings, t.GetValueOrRaiseForSymbol e.1 = .ok e.2.1 ∧
        t.GetValueOrNullForSymbol e.1 = some e.2.1) := by
  obtain ⟨t, h1, h2, hn, hnd, _, hl, _, hall⟩ := new_spec b g p_symbol_usage p_start_with_hash
  have hconst : ∀ e ∈ t.bindings, e.2.2 = true := fun e he => (hall e he).2.2
  have hreq := base_entries_requested g p_symbol_usage
  obtain ⟨d, hd⟩ := construct_chain_intact b (base_entries g p_symbol_usage)
    ⟨!p_start_with_hash, [], []⟩ deleted (by rw [hreq, ← hn]; exact hnd)
    (by
      intro fe hfe hflag
      have hmem : fe.2.1 ∈ requested_constants p_symbol_usage := by
        rw [← hreq]
        exact List.mem_map.2 ⟨fe, List.mem_filter.2 ⟨hfe, hflag⟩, rfl⟩
      refine ⟨h _ hmem, ?_⟩
      cases p_start_with_hash <;> simp [EidosSymbolTable._SwitchToHash_deletes])
  rw [← new_eq_chain, h1] at hd
  refine ⟨t, d, hd, fun n => by rw [hn], hnd, ?_, ?_, ?_, ?_⟩
  · intro e
    rw [h2]
    simp only [List.mem_map, List.mem_filter]
    constructor
    · rintro ⟨fe, ⟨hfe, hflag⟩, rfl⟩
      exact ⟨fe, hfe, hflag, rfl⟩
    · rintro ⟨fe, hfe, hflag, rfl⟩
      exact ⟨fe, ⟨hfe, hflag⟩, rfl⟩
  · intro n
    rw [readOnlySymbols_eq, List.filter_eq_self.2 hconst, ← hn]
    rfl
  · rw [readWriteSymbols_eq, List.filter_eq_nil_iff.2 (fun e he => by simp [hconst e he])]
    rfl
  · intro e he
    have hshort : e.1.length < 2147483648 := by
      have := (hall e he).1
      omega
    have := get_of_mem_bindings hl hnd (n := e.1) (v := e.2.1) (c := e.2.2) he hshort
    exact ⟨this.1, this.2.2⟩

theorem constructor_with_entries_intact_example :
    (∀ n ∈ requested_constants (some usage_T), n ∉ [gEidosStr_NAN, gEidosStr_INF]) ∧
    ∃ t d, EidosSymbolTable.new_in build2 statics0 [gEidosStr_NAN, gEidosStr_INF]
        (some usage_T) false = some (.ok t, d) ∧
      (∀ n, n ∈ t.names ↔ n ∈ requested_constants (some usage_T)) ∧
      t.GetValueOrNullForSymbol gEidosStr_T = some (trueConstant statics0).2 := by
  have hintact : ∀ n ∈ requested_constants (some usage_T),
      n ∉ [gEidosStr_NAN, gEidosStr_INF] := by decide
  obtain ⟨t, d, h1, h2, _, h3, _, _, h4⟩ :=
    constructor_with_entries_intact build2 statics0 [gEidosStr_NAN, gEidosStr_INF]
      (some usage_T) false hintact
  refine ⟨hintact, t, d, h1, h2, ?_⟩
  exact (h4 (gEidosStr_T, (trueConstant statics0).2, true)
    ((h3 _).2 ⟨(true, trueConstant statics0), by simp [base_entries, usage_T], rfl, rfl⟩)).2

/-- C5.  The constructor after a switch.  In a build with sixteen dense slots
a first table is constructed in dense mode with all seven reserved constants,
and ten variables are set in it.  The tenth call finds the dense array full
and runs `_SwitchToHash`, which deletes the names of the seven static entries:
the strings of the slots for which `symbol_name_externally_owned_` is set, the
very strings that the destructor leaves alone.  A constructor call made
afterwards, with no usage block or with a usage block that asks for `T` only,
in either starting tier, reads the name of a deleted entry. -/
theorem constructor_reads_deleted_names :
    EidosSymbolTable.new_in build16 statics0 [] none false
      = some (.ok dense_constants_table, []) ∧
    dense_constants_table.names = requested_constants none ∧
    (set_values_in build16 (ten_variables.take 9)
      (dense_constants_table, [])).1.using_internal_symbols_ = true ∧
    (set_values_in build16 (ten_variables.take 9) (dense_constants_table, [])).2 = [] ∧
    (set_values_in build16 ten_variables
      (dense_constants_table, [])).1.using_internal_symbols_ = false ∧
    (set_values_in build16 ten_variables (dense_constants_table, [])).2
      = [gEidosStr_NAN, gEidosStr_INF, gEidosStr_PI, gEidosStr_E, gEidosStr_NULL, gEidosStr_F,
          gEidosStr_T] ∧
    dense_constants_table._SwitchToHash_deletes = requested_constants none ∧
    dense_constants_table.destructor_deletes = [] ∧
    EidosSymbolTable.new_in build16 statics0
      (set_values_in build16 ten_variables (dense_constants_table, [])).2 none false = none ∧
    EidosSymbolTable.new_in build16 statics0
      (set_values_in build16 ten_variables (dense_constants_table, [])).2
      (some usage_T) true = none := by
  refine ⟨rfl, by decide, by decide, by decide, by decide, by decide, by decide, by decide,
    rfl, rfl⟩

/-! ## Claim C6: the switch to the hash map, as callers see it -/

/-- The lookups in the dense table that holds one slot for a name of 65536
characters, before and after `_SwitchToHash`. -/
theorem truncated_table_switch {n : CppString} (h : n.length = 65536) (v : EidosValue) :
    ((truncated_table n v).GetValueOrNullForSymbol n = none ∧
      (truncated_table n v).GetValueOrNullForSymbol [] = some v) ∧
    (truncated_table n v)._SwitchToHash = ⟨false, [], [(n, ⟨v, false⟩)]⟩ ∧
    ((truncated_table n v)._SwitchToHash.GetValueOrNullForSymbol n = some v ∧
      (truncated_table n v)._SwitchToHash.GetValueOrNullForSymbol [] = none) := by
  have hne : n ≠ [] := by
    intro h0
    rw [h0] at h
    cases h
  have hsw : (truncated_table n v)._SwitchToHash = ⟨false, [], [(n, ⟨v, false⟩)]⟩ := by
    simp [truncated_table, EidosSymbolTable._SwitchToHash, switch_insert, hash_insert, hash_find,
      truncated_slot]
  refine ⟨⟨get_null_truncated h v false, (get_empty_truncated n v false).2.2⟩, hsw, ?_⟩
  rw [hsw]
  simp [EidosSymbolTable.GetValueOrNullForSymbol, hash_find, hne]

/-- The call of `SetValueForSymbol` that finds the dense array full, made on
the table that holds one slot for a name of 65536 characters, in a build with
one dense slot. -/
theorem truncated_table_threshold {n : CppString} (h : n.length = 65536) (v : EidosValue) :
    (truncated_table n v).SetValueForSymbol build1 ['x'] value_two 0
      = .ok ⟨false, [], [(n, ⟨v, false⟩), (['x'], ⟨value_two, false⟩)]⟩ ∧
    (⟨false, [], [(n, ⟨v, false⟩), (['x'], ⟨value_two, false⟩)]⟩ :
      EidosSymbolTable).GetValueOrNullForSymbol n = some v ∧
    (⟨false, [], [(n, ⟨v, false⟩), (['x'], ⟨value_two, false⟩)]⟩ :
      EidosSymbolTable).GetValueOrNullForSymbol [] = none := by
  have hne : n ≠ [] := by
    intro h0
    rw [h0] at h
    cases h
  have hx : n ≠ ['x'] := by
    intro h0
    rw [h0] at h
    cases h
  have h1 : toInt32 1 = 1 := by decide
  have hscan : scan_slots [truncated_slot n v false] 1 ['x'] = none := by
    simp [scan_slots, slot_matches, truncated_slot]
  refine ⟨?_, ?_, ?_⟩
  · simp only [truncated_table, EidosSymbolTable.SetValueForSymbol,
      EidosSymbolTable._SlotIndexForSymbol, List.length_singleton, h1, hscan, Option.map_none',
      EidosSymbolTable.internal_symbol_count_, build1]
    simp [value_two, EidosValue.Invisible, EidosSymbolTable._SwitchToHash, switch_insert,
      hash_insert, hash_find, truncated_slot, EidosSymbolTable.SetValueForSymbol_hash, hx]
  · simp [EidosSymbolTable.GetValueOrNullForSymbol, hash_find]
  · simp [EidosSymbolTable.GetValueOrNullForSymbol, hash_find, hne]

/-- C6.  The switch to the hash map as callers see it.  The dense table that
`SetValueForSymbol` leaves for a name of 65536 characters has one slot, so its
slot names are pairwise distinct.  Before `_SwitchToHash` a lookup of the name
finds nothing and a lookup of the empty name returns the value; after it the
lookup of the name returns the value and the lookup of the empty name finds
nothing.  The same happens when the switch is made by the call of
`SetValueForSymbol` that finds the dense array full (in a build with one dense
slot): the binding of the empty name is lost.  And `_SwitchToHash`, run on the
dense table that holds the seven reserved constants, deletes the names of the
seven static entries, which the table does not own and which every other table
of the process points to. -/
theorem switch_to_hash_changes_lookups :
    empty_dense.SetValueForSymbol build16 long_name value_one 0
      = .ok (truncated_table long_name value_one) ∧
    (truncated_table long_name value_one).using_internal_symbols_ = true ∧
    (truncated_table long_name value_one).names.Nodup ∧
    ((truncated_table long_name value_one).GetValueOrNullForSymbol long_name = none ∧
      (truncated_table long_name value_one).GetValueOrNullForSymbol [] = some value_one) ∧
    ((truncated_table long_name value_one)._SwitchToHash.GetValueOrNullForSymbol long_name
        = some value_one ∧
      (truncated_table long_name value_one)._SwitchToHash.GetValueOrNullForSymbol [] = none) ∧
    (∃ t, (truncated_table long_name value_one).SetValueForSymbol build1 ['x'] value_two 0
        = .ok t ∧ t.using_internal_symbols_ = false ∧
      t.GetValueOrNullForSymbol long_name = some value_one ∧
      t.GetValueOrNullForSymbol [] = none) ∧
    dense_constants_table._SwitchToHash_deletes
      = [gEidosStr_NAN, gEidosStr_INF, gEidosStr_PI, gEidosStr_E, gEidosStr_NULL, gEidosStr_F,
          gEidosStr_T] ∧
    dense_constants_table.destructor_deletes = [] :=
  ⟨set_truncated long_name_length, rfl, List.nodup_singleton long_name,
    (truncated_table_switch long_name_length value_one).1,
    (truncated_table_switch long_name_length value_one).2.2,
    ⟨_, (truncated_table_threshold long_name_length value_one).1, rfl,
      (truncated_table_threshold long_name_length value_one).2.1,
      (truncated_table_threshold long_name_length value_one).2.2⟩,
    by decide, by decide⟩

/-- A call of `SetValueForSymbol` that switches leaves a table in hash mode. -/
theorem setValue_full_hash_mode {b : EidosBuild} {t t2 : EidosSymbolTable} {n : CppString}
    {v : EidosValue} {fresh : Nat} (hd : t.using_internal_symbols_ = true)
    (hfull : b.EIDOS_SYMBOL_TABLE_BASE_SIZE ≤ t.internal_symbol_count_)
    (hnone : t.binding n = none)
    (h : t.SetValueForSymbol b n v fresh = .ok t2) : t2.using_internal_symbols_ = false := by
  have hscan : scan_slots t.internal_symbols_ (toInt32 n.length) n = none := by
    unfold EidosSymbolTable.binding at hnone
    simpa [hd] using hnone
  have hlt : ¬ t.internal_symbol_count_ < b.EIDOS_SYMBOL_TABLE_BASE_SIZE := by omega
  simp only [EidosSymbolTable.SetValueForSymbol, EidosSymbolTable._SlotIndexForSymbol, hd, hscan,
    hlt, if_true, if_false, Option.map_none'] at h
  have hu : t._SwitchToHash.using_internal_symbols_ = false := by
    simp [EidosSymbolTable._SwitchToHash, hd]
  unfold EidosSymbolTable.SetValueForSymbol_hash at h
  split at h
  · simp only [Except.ok.injEq] at h
    rw [← h]
    exact hu
  · split at h
    · cases h
    · simp only [Except.ok.injEq] at h
      rw [← h]
      exact hu

/-- What C6 says, for the tables in which every dense slot records the exact
length of its name (as it does for every name shorter than 65536 characters).
Take a table in dense mode whose map is empty and whose slot names are pairwise
distinct.  After `_SwitchToHash` the table is in hash mode and every lookup
returns what it returned before: for every name, the getters find the same
value and the same constness, or nothing in both tables, and
`ReadOnlySymbols` and `ReadWriteSymbols` list the same names.  When the dense
array is full and `SetValueForSymbol` is called for a name that is not bound,
the call returns, the table is in hash mode, the name is bound to the value,
and every other name is bound as it was. -/
theorem switch_keeps_lookups_of_exact_slots (b : EidosBuild) (t : EidosSymbolTable)
    (h : t.WellFormed) (hd : t.using_internal_symbols_ = true) :
    t._SwitchToHash.using_internal_symbols_ = false ∧
    (∀ n : CppString, n.length < 2147483648 →
      t._SwitchToHash.binding n = t.binding n ∧
      t._SwitchToHash.GetValueOrNullForSymbol n = t.GetValueOrNullForSymbol n ∧
      t._SwitchToHash.GetValueOrRaiseForSymbol n = t.GetValueOrRaiseForSymbol n ∧
      t._SwitchToHash.GetNonConstantValueOrRaiseForToken ⟨n⟩
        = t.GetNonConstantValueOrRaiseForToken ⟨n⟩) ∧
    (∀ n, n ∈ t._SwitchToHash.ReadOnlySymbols ↔ n ∈ t.ReadOnlySymbols) ∧
    (∀ n, n ∈ t._SwitchToHash.ReadWriteSymbols ↔ n ∈ t.ReadWriteSymbols) ∧
    (∀ (n : CppString) (v : EidosValue) (fresh : Nat), n.length < 65536 →
      b.EIDOS_SYMBOL_TABLE_BASE_SIZE ≤ t.internal_symbol_count_ → t.binding n = none →
      ∃ t2, t.SetValueForSymbol b n v fresh = .ok t2 ∧ t2.using_internal_symbols_ = false ∧
        t2.binding n = some (stored_value v fresh, false) ∧
        ∀ m, m ≠ n → m.length < 2147483648 → t2.binding m = t.binding m) := by
  have hform := wf_dense_form h hd
  have hsw := switch_spec (l := t.internal_symbols_) (by rw [← hform]; exact h)
  rw [← hform] at hsw
  obtain ⟨heq, hwf, hb⟩ := hsw
  rw [← heq] at hwf hb
  have hu : t._SwitchToHash.using_internal_symbols_ = false := by rw [heq]
  have hbind : ∀ n : CppString, n.length < 2147483648 →
      t._SwitchToHash.binding n = t.binding n :=
    fun n hn => binding_congr h hwf (fun e => by rw [hb]) hn
  refine ⟨hu, fun n hn => ⟨hbind n hn, ?_, ?_, ?_⟩, fun n => ?_, fun n => ?_, ?_⟩
  · rw [getOrNull_eq_binding, getOrNull_eq_binding, hbind n hn]
  · rw [getOrRaise_eq_binding, getOrRaise_eq_binding, hbind n hn]
  · rw [getNonConstant_eq_binding, getNonConstant_eq_binding, hbind n hn]
  · rw [readOnlySymbols_eq, readOnlySymbols_eq, hb]
  · rw [readWriteSymbols_eq, readWriteSymbols_eq, hb]
  · intro n v fresh hn hfull hnone
    obtain ⟨t2, hset, hwf2, hbinds⟩ := (setValue_spec b h hn v fresh).2
      (fun v0 hv0 => by rw [hnone] at hv0; cases hv0)
    have hb2 := binds_binding h hwf2 hbinds (by omega)
    exact ⟨t2, hset, setValue_full_hash_mode hd hfull hnone hset, hb2.1, hb2.2⟩

theorem switch_keeps_lookups_of_exact_slots_example :
    two_slot_table.WellFormed ∧
    two_slot_table._SwitchToHash.GetValueOrNullForSymbol ['x']
      = two_slot_table.GetValueOrNullForSymbol ['x'] ∧
    ∃ t2, two_slot_table.SetValueForSymbol build2 ['y'] value_two 0 = .ok t2 ∧
      t2.using_internal_symbols_ = false ∧ t2.binding ['y'] = some (value_two, false) ∧
      t2.binding ['x'] = two_slot_table.binding ['x'] := by
  have h := switch_keeps_lookups_of_exact_slots build2 two_slot_table (by decide) rfl
  obtain ⟨t2, h1, h2, h3, h4⟩ := h.2.2.2.2 ['y'] value_two 0 (by decide) (by decide) (by decide)
  exact ⟨by decide, (h.2.1 ['x'] (by decide)).2.1, t2, h1, h2, h3,
    h4 ['x'] (by decide) (by decide)⟩

/-! ## Claim C25: the ways in which `Initialize` stops -/

end SLiM
